import Mathlib

/-!
CUPS scheduler core: job queue, dispatcher and the IPP attribute codec.

A shallow embedding of `scheduler/job.c` (with the child reaper of
`scheduler/main.c`) and theorems about it.

Conventions of the embedding

* C `int` fields are `Int`; bytes of a file or of a `char` buffer are `Nat`
  (a byte is below 256; every store through an `unsigned char *` is written
  `% 256`).
* C strings are lists of bytes without the terminating NUL; a `NULL` pointer
  is `none`.
* A linked list (`ipp->attrs`, `Jobs`) is a `List` in link order.
* Where C leaves the behaviour undefined (a store past the end of `buffer`,
  `strlen(NULL)`, reading a union member that was not the one stored) the
  codec functions return `none`; so does the end-of-file handling of
  `UpdateJob` where it assigns through a job record that `CancelJob` has
  freed.
-/

namespace Cups

/-! ## Part 1. The attribute catalog (`ipp_t`) -/

/-- Modelled from the spec: the tag numbers of `ipp_tag_t` (the header `ipp.h`
is not among the sources).  The spec fixes the end tag `0x03` and the lowest
value tag `0x10`; the other numbers are those of the IPP/1.1 encoding the spec
refers to. -/
def IPP_TAG_ZERO : Nat := 0x00

/-- Modelled from the spec: operation group tag (see `IPP_TAG_ZERO`). -/
def IPP_TAG_OPERATION : Nat := 0x01

/-- Modelled from the spec: job group tag (see `IPP_TAG_ZERO`). -/
def IPP_TAG_JOB : Nat := 0x02

/-- Modelled from the spec: end-of-attributes tag, `0x03`. -/
def IPP_TAG_END : Nat := 0x03

/-- Modelled from the spec: printer group tag (see `IPP_TAG_ZERO`). -/
def IPP_TAG_PRINTER : Nat := 0x04

/-- Modelled from the spec: the lowest value tag, `0x10`; every smaller tag is
a group tag. -/
def IPP_TAG_UNSUPPORTED_VALUE : Nat := 0x10

/-- Modelled from the spec: out-of-band no-value tag (see `IPP_TAG_ZERO`). -/
def IPP_TAG_NOVALUE : Nat := 0x13

/-- Modelled from the spec: integer value tag (see `IPP_TAG_ZERO`). -/
def IPP_TAG_INTEGER : Nat := 0x21

/-- Modelled from the spec: boolean value tag (see `IPP_TAG_ZERO`). -/
def IPP_TAG_BOOLEAN : Nat := 0x22

/-- Modelled from the spec: enum value tag (see `IPP_TAG_ZERO`). -/
def IPP_TAG_ENUM : Nat := 0x23

/-- Modelled from the spec: octet-string value tag (see `IPP_TAG_ZERO`). -/
def IPP_TAG_STRING : Nat := 0x30

/-- Modelled from the spec: date value tag (see `IPP_TAG_ZERO`). -/
def IPP_TAG_DATE : Nat := 0x31

/-- Modelled from the spec: resolution value tag (see `IPP_TAG_ZERO`). -/
def IPP_TAG_RESOLUTION : Nat := 0x32

/-- Modelled from the spec: range value tag (see `IPP_TAG_ZERO`). -/
def IPP_TAG_RANGE : Nat := 0x33

/-- Modelled from the spec: text-with-language value tag (see `IPP_TAG_ZERO`). -/
def IPP_TAG_TEXTLANG : Nat := 0x35

/-- Modelled from the spec: name-with-language value tag (see `IPP_TAG_ZERO`). -/
def IPP_TAG_NAMELANG : Nat := 0x36

/-- Modelled from the spec: text value tag (see `IPP_TAG_ZERO`). -/
def IPP_TAG_TEXT : Nat := 0x41

/-- Modelled from the spec: name value tag (see `IPP_TAG_ZERO`). -/
def IPP_TAG_NAME : Nat := 0x42

/-- Modelled from the spec: keyword value tag (see `IPP_TAG_ZERO`). -/
def IPP_TAG_KEYWORD : Nat := 0x44

/-- Modelled from the spec: URI value tag (see `IPP_TAG_ZERO`). -/
def IPP_TAG_URI : Nat := 0x45

/-- Modelled from the spec: URI-scheme value tag (see `IPP_TAG_ZERO`). -/
def IPP_TAG_URISCHEME : Nat := 0x46

/-- Modelled from the spec: charset value tag (see `IPP_TAG_ZERO`). -/
def IPP_TAG_CHARSET : Nat := 0x47

/-- Modelled from the spec: natural-language value tag (see `IPP_TAG_ZERO`). -/
def IPP_TAG_LANGUAGE : Nat := 0x48

/-- Modelled from the spec: MIME-type value tag (see `IPP_TAG_ZERO`). -/
def IPP_TAG_MIMETYPE : Nat := 0x49

/-- Modelled from the spec: resolution unit dots-per-inch of `ipp_res_t`. -/
def IPP_RES_PER_INCH : Int := 3

/-- Modelled from the spec: resolution unit dots-per-centimetre of `ipp_res_t`. -/
def IPP_RES_PER_CM : Int := 4

/-- The states of `ipp_state_t`, in the order of the enumeration
(`ipp->state ++` moves from `IPP_IDLE` to `IPP_HEADER`). -/
inductive ipp_state_t
  | IPP_ERROR
  | IPP_IDLE
  | IPP_HEADER
  | IPP_ATTRIBUTE
  | IPP_DATA
  deriving DecidableEq

/-- The union `ipp_value_t`: the constructor records which member was stored
last.  `string.charset` is `none` for a `NULL` pointer. -/
inductive ipp_value_t
  | integer (integer : Int)
  | boolean (boolean : Nat)
  | date (date : List Nat)
  | resolution (xres : Int) (yres : Int) (units : Int)
  | range (lower : Int) (upper : Int)
  | string (charset : Option (List Nat)) (text : List Nat)
  | unknown (length : Int) (data : List Nat)
  deriving DecidableEq

/-- One node of the catalog, `ipp_attribute_t`; `values` holds
`values[0 .. num_values)`. -/
structure ipp_attribute_t where
  group_tag : Nat
  value_tag : Nat
  name : Option (List Nat)
  values : List ipp_value_t
  deriving DecidableEq

/-- The catalog `ipp_t`: the header `request.any` and the list `attrs`.  The
cursor fields `state`, `current`, `last` and `curtag` are set anew by every
call of the codec functions and are local to them here. -/
structure ipp_t where
  version0 : Nat
  version1 : Nat
  op_status : Int
  request_id : Int
  attrs : List ipp_attribute_t
  deriving DecidableEq

/-- Modelled from the spec: `ippNew()` of `cups/ipp.c` (not among the
sources), an empty catalog with a zeroed header. -/
def ippNew : ipp_t :=
  { version0 := 0, version1 := 0, op_status := 0, request_id := 0, attrs := [] }

/-- Modelled from the spec: the node `ippAddSeparator` of `cups/ipp.c` (not
among the sources) appends: a separator has an empty name, group tag 0 and no
values. -/
def separator : ipp_attribute_t :=
  { group_tag := IPP_TAG_ZERO, value_tag := IPP_TAG_ZERO, name := none, values := [] }

/-- Size of the local array `buffer` of `ipp_read_file` and `ipp_write_file`. -/
def BUFFER_SIZE : Nat := 8192

/-- The C string a `char *` into a NUL-terminated byte area denotes: the bytes
before the first NUL (`strdup`, `strlen`). -/
def cstr (bytes : List Nat) : List Nat :=
  bytes.takeWhile (fun b => b != 0)

/-- The expression `(b0 << 8) | b1`. -/
def be16 (b0 b1 : Nat) : Nat :=
  (b0 <<< 8) ||| b1

/-- A 32-bit pattern read as a C `int`. -/
def toInt32 (u : Nat) : Int :=
  if u % 2 ^ 32 < 2 ^ 31 then ((u % 2 ^ 32 : Nat) : Int) else ((u % 2 ^ 32 : Nat) : Int) - 2 ^ 32

/-- The expression `(((((b0 << 8) | b1) << 8) | b2) << 8) | b3` stored in an
`int`. -/
def be32 (b0 b1 b2 b3 : Nat) : Int :=
  toInt32 ((((((b0 <<< 8) ||| b1) <<< 8) ||| b2) <<< 8) ||| b3)

/-- The byte stored by `*bufptr++ = x` for an `int` expression `x`. -/
def byteOf (x : Int) : Nat :=
  (x % 256).toNat

/-- The four stores `x >> 24`, `x >> 16`, `x >> 8`, `x` through `bufptr`. -/
def bytes32 (x : Int) : List Nat :=
  [byteOf (x >>> 24), byteOf (x >>> 16), byteOf (x >>> 8), byteOf x]

/-- The two stores `n >> 8`, `n` through `bufptr`. -/
def bytes16 (n : Int) : List Nat :=
  [byteOf (n >>> 8), byteOf n]


/-! ### `ipp_read_file` -/

/-- Outcome of reading one value in `ipp_read_file`: the value and the rest of
the file, a `return (IPP_ERROR)`, or behaviour that C leaves undefined. -/
inductive RVal
  | ok (value : ipp_value_t) (rest : List Nat)
  | error
  | undefined

/-- The cursor of `ipp_read_file`: `attrs` is the list `ipp->attrs` without
the node `ipp->current`, which (when not `NULL`) is always the last node. -/
structure RState where
  attrs : List ipp_attribute_t
  current : Option ipp_attribute_t
  curtag : Nat
  deriving DecidableEq

/-- The list `ipp->attrs` of a cursor. -/
def RState.catalog (st : RState) : List ipp_attribute_t :=
  st.attrs ++ st.current.toList

/-- The string cases of the value switch: `read(fd, buffer, n)`,
`buffer[n] = 0`, `strdup(buffer)`.  `read` delivers `min n (rest of file)`
bytes; more than the buffer holds, or `n` equal to its size, is a store outside
`buffer`. -/
def readString (n : Nat) (file : List Nat) : RVal :=
  if min n file.length > BUFFER_SIZE then RVal.undefined
  else if file.length < n then RVal.error
  else if n ≥ BUFFER_SIZE then RVal.undefined
  else RVal.ok (ipp_value_t.string none (cstr (file.take n))) (file.drop n)

/-- The cases `IPP_TAG_TEXTLANG` and `IPP_TAG_NAMELANG` of the value switch.
The composite value is parsed inside `buffer[0 .. n)`; a charset or text
length that reaches past the `n` bytes just read makes the code use bytes of
`buffer` this read did not fill. -/
def readLang (n : Nat) (file : List Nat) : RVal :=
  if n > BUFFER_SIZE then RVal.error
  else if file.length < n then RVal.error
  else
    match file.take n with
    | c0 :: c1 :: more =>
      let n1 := be16 c0 c1
      match more.drop n1 with
      | t0 :: t1 :: text =>
        let n2 := be16 t0 t1
        if n1 + n2 + 4 ≤ n then
          RVal.ok (ipp_value_t.string (some (cstr (more.take n1))) (cstr (text.take n2)))
            (file.drop n)
        else RVal.undefined
      | _ => RVal.undefined
    | _ => RVal.undefined

/-- The value switch of `ipp_read_file` for value tag `tag` and declared value
length `n`. -/
def readValue (tag n : Nat) (file : List Nat) : RVal :=
  if tag = IPP_TAG_INTEGER ∨ tag = IPP_TAG_ENUM then
    match file with
    | b0 :: b1 :: b2 :: b3 :: rest => RVal.ok (ipp_value_t.integer (be32 b0 b1 b2 b3)) rest
    | _ => RVal.error
  else if tag = IPP_TAG_BOOLEAN then
    match file with
    | b0 :: rest => RVal.ok (ipp_value_t.boolean b0) rest
    | _ => RVal.error
  else if tag = IPP_TAG_TEXT ∨ tag = IPP_TAG_NAME ∨ tag = IPP_TAG_KEYWORD ∨
      tag = IPP_TAG_STRING ∨ tag = IPP_TAG_URI ∨ tag = IPP_TAG_URISCHEME ∨
      tag = IPP_TAG_CHARSET ∨ tag = IPP_TAG_LANGUAGE ∨ tag = IPP_TAG_MIMETYPE then
    readString n file
  else if tag = IPP_TAG_DATE then
    if file.length < 11 then RVal.error
    else RVal.ok (ipp_value_t.date (file.take 11)) (file.drop 11)
  else if tag = IPP_TAG_RESOLUTION then
    match file with
    | b0 :: b1 :: b2 :: b3 :: b4 :: b5 :: b6 :: b7 :: b8 :: rest =>
      RVal.ok (ipp_value_t.resolution (be32 b0 b1 b2 b3) (be32 b4 b5 b6 b7) (b8 : Nat)) rest
    | _ => RVal.error
  else if tag = IPP_TAG_RANGE then
    match file with
    | b0 :: b1 :: b2 :: b3 :: b4 :: b5 :: b6 :: b7 :: rest =>
      RVal.ok (ipp_value_t.range (be32 b0 b1 b2 b3) (be32 b4 b5 b6 b7)) rest
    | _ => RVal.error
  else if tag = IPP_TAG_TEXTLANG ∨ tag = IPP_TAG_NAMELANG then
    readLang n file
  else if n > 0 then
    if file.length < n then RVal.error
    else RVal.ok (ipp_value_t.unknown (n : Nat) (file.take n)) (file.drop n)
  else RVal.ok (ipp_value_t.unknown 0 []) file

/-- The second half of one round of the attribute loop: the value length, the
value, `attr->num_values ++`.  `attr` is `ipp->current`.  The result is the
cursor after the round and the rest of the file, or the state the function
returns with. -/
def readOneValue (tag : Nat) (file : List Nat) (st : RState) (attr : ipp_attribute_t) :
    Option (Sum (ipp_state_t × RState) (List Nat × RState)) :=
  match file with
  | l0 :: l1 :: rest =>
    match readValue tag (be16 l0 l1) rest with
    | RVal.ok v rest2 =>
      some (Sum.inr (rest2, { st with current := some { attr with values := attr.values ++ [v] } }))
    | RVal.error => some (Sum.inl (ipp_state_t.IPP_ERROR, { st with current := some attr }))
    | RVal.undefined => none
  | _ => some (Sum.inl (ipp_state_t.IPP_ERROR, { st with current := some attr }))

/-- One round of `while (read(fd, buffer, 1) > 0)` for a value tag `tag`: the
name length, then either one more value for `ipp->current` or a new attribute
appended with `_ipp_add_attr`. -/
def readAttribute (tag : Nat) (file : List Nat) (st : RState) :
    Option (Sum (ipp_state_t × RState) (List Nat × RState)) :=
  match file with
  | n0 :: n1 :: rest =>
    let n := be16 n0 n1
    if n > BUFFER_SIZE - 1 then some (Sum.inl (ipp_state_t.IPP_ERROR, st))
    else if n = 0 then
      match st.current with
      | none => some (Sum.inl (ipp_state_t.IPP_ERROR, st))
      | some attr => readOneValue tag rest st attr
    else if rest.length < n then some (Sum.inl (ipp_state_t.IPP_ERROR, st))
    else
      let attr : ipp_attribute_t :=
        { group_tag := st.curtag, value_tag := tag, name := some (cstr (rest.take n)),
          values := [] }
      readOneValue tag (rest.drop n) { st with attrs := st.catalog, current := some attr } attr
  | _ => some (Sum.inl (ipp_state_t.IPP_ERROR, st))

/-- The loop `case IPP_ATTRIBUTE` of `ipp_read_file`.  Every round reads at
least one byte, so `fuel` above the length of the file is never used up; the
result is `none` when the behaviour is undefined. -/
def readAttributes : Nat → List Nat → RState → Option (ipp_state_t × RState)
  | 0, _, _ => none
  | _ + 1, [], st => some (ipp_state_t.IPP_ATTRIBUTE, st)
  | fuel + 1, tag :: file, st =>
    if tag = IPP_TAG_END then some (ipp_state_t.IPP_DATA, st)
    else if tag < IPP_TAG_UNSUPPORTED_VALUE then
      let attrs := if st.curtag = tag then st.catalog ++ [separator] else st.catalog
      readAttributes fuel file { attrs := attrs, current := none, curtag := tag }
    else
      match readAttribute tag file st with
      | none => none
      | some (Sum.inl result) => some result
      | some (Sum.inr (rest, st2)) => readAttributes fuel rest st2

/-- The function `ipp_read_file(filename, ipp)` on a file that can be opened
and holds the bytes `file`.  It returns the state and the catalog as the call
leaves it. -/
def ipp_read_file (file : List Nat) (ipp : ipp_t) : Option (ipp_state_t × ipp_t) :=
  match file with
  | b0 :: b1 :: b2 :: b3 :: b4 :: b5 :: b6 :: b7 :: rest =>
    if b0 ≠ 1 then some (ipp_state_t.IPP_ERROR, ipp)
    else
      let ipp1 : ipp_t :=
        { ipp with version0 := b0, version1 := b1, op_status := (be16 b2 b3 : Nat),
                   request_id := be32 b4 b5 b6 b7 }
      match readAttributes (rest.length + 1) rest
          { attrs := ipp1.attrs, current := none, curtag := IPP_TAG_ZERO } with
      | none => none
      | some (state, st) => some (state, { ipp1 with attrs := st.catalog })
  | [] => some (ipp_state_t.IPP_IDLE, ipp)
  | _ => some (ipp_state_t.IPP_ERROR, ipp)

/-! ### `ipp_write_file` -/

/-- The output side of `ipp_write_file`: `file` is what `write` has put into
the file, `buf` is `buffer[0 .. bufptr)`. -/
structure WBuf where
  file : List Nat
  buf : List Nat
  deriving DecidableEq

/-- A run of stores `*bufptr++ = b` (or a `memcpy` to `bufptr`); `none` when
it would store past the end of `buffer`. -/
def WBuf.put (w : WBuf) (bytes : List Nat) : Option WBuf :=
  if w.buf.length + bytes.length ≤ BUFFER_SIZE then some { w with buf := w.buf ++ bytes }
  else none

/-- The statements `write(fd, buffer, bufptr - buffer); bufptr = buffer;`. -/
def WBuf.flush (w : WBuf) : WBuf :=
  { file := w.file ++ w.buf, buf := [] }

/-- The guard `if ((sizeof(buffer) - (bufptr - buffer)) < k)` around a flush. -/
def WBuf.room (k : Nat) (w : WBuf) : WBuf :=
  if BUFFER_SIZE - w.buf.length < k then w.flush else w

/-- Outcome of the value loop of one attribute. -/
inductive WVal
  | ok (w : WBuf)
  | error (file : List Nat)
  | undefined

/-- The value loops of the fixed-size cases (integer and enum with `need = 9`,
boolean 6, date 16, resolution 14, range 13): the flush guard comes first, then
for `i > 0` the tag with a zero name length, then the length and the value
(`enc`, `none` when the union member read is not the one stored). -/
def writeFixed (value_tag need : Nat) (enc : ipp_value_t → Option (List Nat)) :
    Nat → List ipp_value_t → WBuf → WVal
  | _, [], w => WVal.ok w
  | i, v :: vs, w =>
    match (if i ≠ 0 then (w.room need).put [value_tag % 256, 0, 0] else some (w.room need)) with
    | none => WVal.undefined
    | some w2 =>
      match enc v with
      | none => WVal.undefined
      | some bytes =>
        match w2.put bytes with
        | none => WVal.undefined
        | some w3 => writeFixed value_tag need enc (i + 1) vs w3

/-- The value loops of the variable-size cases (strings, text and name with
language, and the default case): for `i > 0` a flush guard for 3 bytes and the
tag with a zero name length; then the length `n` of the value, the test
`n > sizeof(buffer)`, a flush guard for `n + 2` bytes and the value.  `enc`
gives `n` and the bytes stored. -/
def writeVar (value_tag : Nat) (enc : ipp_value_t → Option (Int × List Nat)) :
    Nat → List ipp_value_t → WBuf → WVal
  | _, [], w => WVal.ok w
  | i, v :: vs, w =>
    match (if i ≠ 0 then (w.room 3).put [value_tag % 256, 0, 0] else some w) with
    | none => WVal.undefined
    | some w1 =>
      match enc v with
      | none => WVal.undefined
      | some (n, bytes) =>
        if n < 0 ∨ n > (BUFFER_SIZE : Nat) then WVal.error w1.file
        else
          match (w1.room (n.toNat + 2)).put bytes with
          | none => WVal.undefined
          | some w3 => writeVar value_tag enc (i + 1) vs w3

/-- Bytes stored for `values[i].integer`: length 4 and the value. -/
def encInteger : ipp_value_t → Option (List Nat)
  | ipp_value_t.integer x => some ([0, 4] ++ bytes32 x)
  | _ => none

/-- Bytes stored for `values[i].boolean`: length 1 and the value. -/
def encBoolean : ipp_value_t → Option (List Nat)
  | ipp_value_t.boolean b => some [0, 1, b % 256]
  | _ => none

/-- Bytes stored for `values[i].date`: length 11 and the 11 bytes. -/
def encDate : ipp_value_t → Option (List Nat)
  | ipp_value_t.date d => if d.length = 11 then some ([0, 11] ++ d.map (fun b => b % 256)) else none
  | _ => none

/-- Bytes stored for `values[i].resolution`: length 9, `xres`, `yres`, `units`. -/
def encResolution : ipp_value_t → Option (List Nat)
  | ipp_value_t.resolution x y u => some ([0, 9] ++ bytes32 x ++ bytes32 y ++ [byteOf u])
  | _ => none

/-- Bytes stored for `values[i].range`: length 8, `lower`, `upper`. -/
def encRange : ipp_value_t → Option (List Nat)
  | ipp_value_t.range l u => some ([0, 8] ++ bytes32 l ++ bytes32 u)
  | _ => none

/-- Length and bytes stored for `values[i].string.text`. -/
def encString : ipp_value_t → Option (Int × List Nat)
  | ipp_value_t.string _ text =>
    some ((text.length : Int), bytes16 text.length ++ text.map (fun b => b % 256))
  | _ => none

/-- Length and bytes stored for a text or name with language; a `NULL` charset
is passed to `strlen`. -/
def encLang : ipp_value_t → Option (Int × List Nat)
  | ipp_value_t.string (some charset) text =>
    some ((charset.length + text.length + 4 : Nat),
      bytes16 ((charset.length + text.length + 4 : Nat) : Int) ++ bytes16 charset.length ++
        charset.map (fun b => b % 256) ++ bytes16 text.length ++ text.map (fun b => b % 256))
  | _ => none

/-- Length and bytes stored for `values[i].unknown`; `data` holds `length`
bytes, which are copied when `length` is positive (a length the loop rejects
copies nothing). -/
def encUnknown : ipp_value_t → Option (Int × List Nat)
  | ipp_value_t.unknown n data =>
    if 0 < n ∧ n ≤ (BUFFER_SIZE : Nat) then
      if data.length = n.toNat then some (n, bytes16 n ++ data.map (fun b => b % 256)) else none
    else some (n, bytes16 n)
  | _ => none

/-- The `switch (attr->value_tag)` of `ipp_write_file`. -/
def writeValues (value_tag : Nat) (values : List ipp_value_t) (w : WBuf) : WVal :=
  if value_tag = IPP_TAG_INTEGER ∨ value_tag = IPP_TAG_ENUM then
    writeFixed value_tag 9 encInteger 0 values w
  else if value_tag = IPP_TAG_BOOLEAN then
    writeFixed value_tag 6 encBoolean 0 values w
  else if value_tag = IPP_TAG_TEXT ∨ value_tag = IPP_TAG_NAME ∨ value_tag = IPP_TAG_KEYWORD ∨
      value_tag = IPP_TAG_STRING ∨ value_tag = IPP_TAG_URI ∨ value_tag = IPP_TAG_URISCHEME ∨
      value_tag = IPP_TAG_CHARSET ∨ value_tag = IPP_TAG_LANGUAGE ∨
      value_tag = IPP_TAG_MIMETYPE then
    writeVar value_tag encString 0 values w
  else if value_tag = IPP_TAG_DATE then
    writeFixed value_tag 16 encDate 0 values w
  else if value_tag = IPP_TAG_RESOLUTION then
    writeFixed value_tag 14 encResolution 0 values w
  else if value_tag = IPP_TAG_RANGE then
    writeFixed value_tag 13 encRange 0 values w
  else if value_tag = IPP_TAG_TEXTLANG ∨ value_tag = IPP_TAG_NAMELANG then
    writeVar value_tag encLang 0 values w
  else
    writeVar value_tag encUnknown 0 values w

/-- The loop `case IPP_ATTRIBUTE` of `ipp_write_file` from the node
`ipp->current` on.  Every round starts with `bufptr = buffer` and ends with a
`write` of the buffer; a separator met under another current group only resets
`ipp->curtag`.  The result is the state returned and the bytes in the file. -/
def writeAttributes : List ipp_attribute_t → Nat → List Nat → Option (ipp_state_t × List Nat)
  | [], _, file => some (ipp_state_t.IPP_DATA, file ++ [IPP_TAG_END])
  | attr :: rest, curtag, file =>
    if curtag ≠ attr.group_tag ∧ attr.group_tag = IPP_TAG_ZERO then
      writeAttributes rest attr.group_tag file
    else
      match attr.name with
      | none => none
      | some name =>
        match (if curtag ≠ attr.group_tag then
                 WBuf.put { file := file, buf := [] } [attr.group_tag % 256]
               else some { file := file, buf := [] }) with
        | none => none
        | some w0 =>
          if name.length > BUFFER_SIZE - 3 then some (ipp_state_t.IPP_ERROR, file)
          else
            match w0.put ([attr.value_tag % 256] ++ bytes16 name.length ++
                    name.map (fun b => b % 256)) with
            | none => none
            | some w1 =>
              match writeValues attr.value_tag attr.values w1 with
              | WVal.undefined => none
              | WVal.error f => some (ipp_state_t.IPP_ERROR, f)
              | WVal.ok w2 => writeAttributes rest attr.group_tag w2.flush.file

/-- The function `ipp_write_file(filename, ipp)` on a file that can be opened
and written: the state returned and the bytes the file holds afterwards. -/
def ipp_write_file (ipp : ipp_t) : Option (ipp_state_t × List Nat) :=
  writeAttributes ipp.attrs IPP_TAG_ZERO
    ([ipp.version0 % 256, ipp.version1 % 256] ++ bytes16 ipp.op_status ++ bytes32 ipp.request_id)


/-! ## Part 2. Jobs, printers and the dispatcher -/

/-- Modelled from the spec: job state `pending` of `ipp_jstate_t` (`ipp.h` is
not among the sources); the states are numbered in the order pending, held,
processing, stopped, cancelled, aborted, completed, from 3. -/
def IPP_JOB_PENDING : Int := 3

/-- Modelled from the spec: job state `held` (see `IPP_JOB_PENDING`). -/
def IPP_JOB_HELD : Int := 4

/-- Modelled from the spec: job state `processing` (see `IPP_JOB_PENDING`). -/
def IPP_JOB_PROCESSING : Int := 5

/-- Modelled from the spec: job state `stopped` (see `IPP_JOB_PENDING`). -/
def IPP_JOB_STOPPED : Int := 6

/-- Modelled from the spec: job state `cancelled` (see `IPP_JOB_PENDING`). -/
def IPP_JOB_CANCELLED : Int := 7

/-- Modelled from the spec: job state `aborted` (see `IPP_JOB_PENDING`). -/
def IPP_JOB_ABORTED : Int := 8

/-- Modelled from the spec: job state `completed` (see `IPP_JOB_PENDING`). -/
def IPP_JOB_COMPLETED : Int := 9

/-- Modelled from the spec: printer state `idle` of `ipp_pstate_t` (`ipp.h`
is not among the sources). -/
def IPP_PRINTER_IDLE : Int := 3

/-- Modelled from the spec: printer state `processing`. -/
def IPP_PRINTER_PROCESSING : Int := 4

/-- Modelled from the spec: printer state `stopped`. -/
def IPP_PRINTER_STOPPED : Int := 5

/-- Modelled from the spec: the `class` bit of the destination kind flags
(`cups.h` is not among the sources). -/
def CUPS_PRINTER_CLASS : Nat := 0x0001

/-- Modelled from the spec: the `remote` bit of the destination kind flags. -/
def CUPS_PRINTER_REMOTE : Nat := 0x0002

/-- Modelled from the spec: the `implicit` bit of the destination kind flags. -/
def CUPS_PRINTER_IMPLICIT : Nat := 0x10000

/-- Modelled from the spec: size of the name arrays of `job_t` (`job.h` and
`ipp.h` are not among the sources). -/
def IPP_MAX_NAME : Nat := 256

/-- Signal number of `SIGTERM`. -/
def SIGTERM : Int := 15

/-- Signal number of `SIGKILL`. -/
def SIGKILL : Int := 9

/-- A MIME type record `mime_type_t` (`mime.h` is not among the sources): the
super-type and type names. -/
structure mime_type_t where
  super : String
  type : String
  deriving DecidableEq

/-- A filter record `mime_filter_t`: the program and its cost. -/
structure mime_filter_t where
  filter : String
  cost : Int
  deriving DecidableEq

/-- The fields of `printer_t` the job routines use.  A printer or class is
referred to by its index in `Sched.Printers`; `job` is the id of the job the
printer points to. -/
structure printer_t where
  name : String
  type : Nat
  state : Int
  job : Option Int := none
  filetype : mime_type_t := { super := "application", type := "vnd.cups-raw" }
  device_uri : String := ""
  state_message : String := ""
  deriving DecidableEq

/-- The record `job_t` (`job.h` is not among the sources; the fields are those
`job.c` and `main.c` use).  `state` is the integer `state->values[0].integer`
of the job-state attribute the pointer `state` refers to, `none` while the
pointer is `NULL` (as `calloc` leaves it); `sheets` likewise.  `printer` is the
index of the assigned printer.  `buffer` is `none` for a `NULL` status buffer.
`procs` is the array of process ids. -/
structure job_t where
  id : Int
  priority : Int
  dest : String := ""
  state : Option Int := none
  sheets : Option Int := none
  hold_until : Int := 0
  username : String := ""
  title : String := ""
  dtype : Nat := 0
  num_files : Int := 0
  current_file : Int := 0
  filetypes : List mime_type_t := []
  attrs : ipp_t := ippNew
  pipe : Int := 0
  procs : List Int := []
  status : Int := 0
  printer : Option Nat := none
  buffer : Option (List Nat) := none
  bufused : Int := 0
  cost : Int := 0
  deriving DecidableEq

/-- What the job routines do to the world outside the scheduler state. -/
inductive Event
  | unlink (path : String)
  | save (path : String)
  | kill (pid : Int) (signal : Int)
  | close (fd : Int)
  deriving DecidableEq

/-- The globals the job routines use.  `log` collects the system calls made
(files removed, control files written by `ipp_write_file`, signals sent). -/
structure Sched where
  Jobs : List job_t := []
  NumJobs : Int := 0
  NextJobId : Int := 1
  FilterLevel : Int := 0
  FilterLimit : Int := 0
  JobHistory : Bool := true
  JobFiles : Bool := false
  MaxJobs : Int := 0
  RequestRoot : String := ""
  Printers : List printer_t := []
  InputSet : List Int := []
  log : List Event := []
  deriving DecidableEq

/-- Results of the system calls of one `StartJob` call: `malloc` of the status
buffer, `pipe(statusfds)` (the read end, `none` on failure) and the process id
each `start_process` call returns in turn (0 on failure). -/
structure StartSys where
  malloc_ok : Bool := true
  statusfd : Option Int := some 3
  pids : List Int := []
  deriving DecidableEq

/-- The collaborators of the job routines whose code is not among the
sources: the printer and class directory (`FindClass`, `FindPrinter`,
`FindAvailablePrinter`, which return a printer index), the MIME filter graph
(`mimeFilter`, the empty list for `num_filters = 0`), the clock, and the
outcome of the system calls of `StartJob` for each job id. -/
structure Env where
  FindClass : String → Option Nat
  FindPrinter : String → Option Nat
  FindAvailablePrinter : List printer_t → String → Option Nat
  mimeFilter : mime_type_t → mime_type_t → List mime_filter_t
  time : Int
  sys : Int → StartSys

/-- The function `strlcpy(dst, src, size)`: at most `size - 1` characters. -/
def strlcpy (src : String) (size : Nat) : String :=
  String.mk (src.data.take (size - 1))

/-- The conversion `%0<w>d` of `snprintf`. -/
def fmt0d (w : Nat) (n : Int) : String :=
  let digits := (Nat.toDigits 10 n.natAbs)
  let sign := if n < 0 then ['-'] else []
  String.mk (sign ++ List.replicate (w - sign.length - digits.length) '0' ++ digits)

/-- The control file name `"%s/c%05d"`. -/
def controlFile (root : String) (id : Int) : String :=
  root ++ "/c" ++ fmt0d 5 id

/-- The data file name `"%s/d%05d-%03d"`. -/
def dataFile (root : String) (id : Int) (fileno : Int) : String :=
  root ++ "/d" ++ fmt0d 5 id ++ "-" ++ fmt0d 3 fileno

/-- The loop `for (current = Jobs; ...) if (current->id == id) break;` of
`FindJob`: the first job with the id. -/
def FindJob (jobs : List job_t) (id : Int) : Option job_t :=
  jobs.find? (fun j => j.id = id)

/-- An assignment through the pointer `FindJob` returns: the first job with
the id is replaced by `f` of it. -/
def updateJob (id : Int) (f : job_t → job_t) : List job_t → List job_t
  | [] => []
  | j :: js => if j.id = id then f j :: js else j :: updateJob id f js

/-- Unlinking the first job with the id from the list. -/
def removeJob (id : Int) : List job_t → List job_t
  | [] => []
  | j :: js => if j.id = id then js else j :: removeJob id js

/-- An assignment through a printer pointer. -/
def updatePrinter (f : printer_t → printer_t) : Nat → List printer_t → List printer_t
  | _, [] => []
  | 0, p :: ps => f p :: ps
  | n + 1, p :: ps => p :: updatePrinter f n ps

/-- Modelled from the spec: `ippFindAttribute(ipp, name, IPP_TAG_ZERO)`
followed by the two assignments of `set_time`: the first attribute of that
name gets value tag integer and first value `time(NULL)`.  (`ippFindAttribute`
is in `cups/ipp.c`, not among the sources.) -/
def setTimeAttr (name : List Nat) (now : Int) : List ipp_attribute_t → List ipp_attribute_t
  | [] => []
  | a :: rest =>
    if a.name = some name then
      { a with value_tag := IPP_TAG_INTEGER,
               values := ipp_value_t.integer now :: a.values.drop 1 } :: rest
    else a :: setTimeAttr name now rest

/-- The function `set_time(job, name)`. -/
def set_time (job : job_t) (name : String) (now : Int) : job_t :=
  { job with attrs := { job.attrs with
      attrs := setTimeAttr (name.data.map Char.toNat) now job.attrs.attrs } }

/-- The insertion loop of `AddJob` (and of `SetJobPriority`): the job is
linked in before the first job of lower priority. -/
def insertJob (job : job_t) : List job_t → List job_t
  | [] => [job]
  | current :: rest =>
    if job.priority > current.priority then job :: current :: rest
    else current :: insertJob job rest

/-- The function `AddJob(priority, dest)`; the new record is returned with the
globals.  `NextJobId` is a C `int`; it is not wrapped here (every call leaves
one more record allocated, so the counter cannot reach `2^31` from 1 by
`AddJob` alone). -/
def AddJob (s : Sched) (priority : Int) (dest : String) : Sched × job_t :=
  let job : job_t :=
    { id := s.NextJobId, priority := priority, dest := strlcpy dest IPP_MAX_NAME }
  ({ s with NextJobId := s.NextJobId + 1, NumJobs := s.NumJobs + 1,
            Jobs := insertJob job s.Jobs }, job)

/-- The search loop at the head of `SetJobPriority`: the jobs before the first
job with the id, that job, and the jobs after it. -/
def splitJob (id : Int) : List job_t → Option (List job_t × job_t × List job_t)
  | [] => none
  | j :: js =>
    if j.id = id then some ([], j, js)
    else (splitJob id js).map (fun r => (j :: r.1, r.2.1, r.2.2))

/-- Modelled from the spec: `ippFindAttribute(attrs, "job-priority",
IPP_TAG_INTEGER)` with the assignment to `values[0].integer`, or else
`ippAddInteger` appending the attribute to the job group (both functions are in
`cups/ipp.c`, not among the sources). -/
def setPriorityAttr (name : List Nat) (priority : Int) (attrs : List ipp_attribute_t) :
    List ipp_attribute_t :=
  if attrs.any (fun a => a.name = some name ∧ a.value_tag = IPP_TAG_INTEGER) then
    (attrs.span (fun a => !(a.name = some name ∧ a.value_tag = IPP_TAG_INTEGER))).1 ++
      (match (attrs.span (fun a => !(a.name = some name ∧ a.value_tag = IPP_TAG_INTEGER))).2 with
       | [] => []
       | a :: rest => { a with values := ipp_value_t.integer priority :: a.values.drop 1 } :: rest)
  else
    attrs ++ [{ group_tag := IPP_TAG_JOB, value_tag := IPP_TAG_INTEGER, name := some name,
                values := [ipp_value_t.integer priority] }]

/-- An assignment to fields of the record `FindJob(id)` points to. -/
def Sched.modJob (s : Sched) (id : Int) (f : job_t → job_t) : Sched :=
  { s with Jobs := updateJob id f s.Jobs }

/-- An assignment to fields of the printer record with index `p`. -/
def Sched.modPrinter (s : Sched) (p : Nat) (f : printer_t → printer_t) : Sched :=
  { s with Printers := updatePrinter f p s.Printers }

/-- Modelled from the spec: `SetPrinterState` of `scheduler/printers.c` (not
among the sources) transitions the printer to the given state. -/
def Sched.SetPrinterState (s : Sched) (p : Nat) (state : Int) : Sched :=
  s.modPrinter p (fun r => { r with state := state })

/-- System calls added to the log. -/
def Sched.emit (s : Sched) (events : List Event) : Sched :=
  { s with log := s.log ++ events }

/-- The statement `FilterLevel += d`. -/
def Sched.addLevel (s : Sched) (d : Int) : Sched :=
  { s with FilterLevel := s.FilterLevel + d }

/-- The statement `FD_CLR(fd, &InputSet)` after `close(fd)`, for `fd` not 0. -/
def Sched.closePipe (s : Sched) (fd : Int) : Sched :=
  if fd ≠ 0 then { s with InputSet := s.InputSet.erase fd, log := s.log ++ [Event.close fd] }
  else s

/-- The statement `FD_SET(fd, &InputSet)`. -/
def Sched.fdSet (s : Sched) (fd : Int) : Sched :=
  { s with InputSet := fd :: s.InputSet }

/-- Unlinking the record with the id from the list, `NumJobs --`. -/
def Sched.dropJob (s : Sched) (id : Int) : Sched :=
  { s with Jobs := removeJob id s.Jobs, NumJobs := s.NumJobs - 1 }

/-- The state of the printer with index `p`, `none` for an invalid index. -/
def Sched.printerState (s : Sched) (p : Nat) : Option Int :=
  (s.Printers.get? p).map (fun r => r.state)

/-- The function `SaveJob(id)`: `ipp_write_file` on the control file of a job
that is in the list. -/
def SaveJob (s : Sched) (id : Int) : Sched :=
  match FindJob s.Jobs id with
  | none => s
  | some _ => s.emit [Event.save (controlFile s.RequestRoot id)]

/-- The function `SetJobPriority(id, priority)`. -/
def SetJobPriority (s : Sched) (id : Int) (priority : Int) : Sched :=
  match splitJob id s.Jobs with
  | none => s
  | some (before, current, after) =>
    let job : job_t :=
      { current with
          priority := priority,
          attrs := { current.attrs with
            attrs := setPriorityAttr ("job-priority".data.map Char.toNat) priority
              current.attrs.attrs } }
    let s1 := SaveJob { s with Jobs := before ++ job :: after } job.id
    if before.getLast?.all (fun prev => job.priority < prev.priority) &&
       after.head?.all (fun next => next.priority < job.priority) then s1
    else { s1 with Jobs := insertJob job (before ++ after) }

/-- The loop of `StopJob` over `procs`: every positive entry before the first
zero entry is set to zero. -/
def killProcs : List Int → List Int
  | [] => []
  | p :: ps => if p = 0 then p :: ps else if p > 0 then 0 :: killProcs ps else p :: killProcs ps

/-- The signals the loop of `StopJob` over `procs` sends. -/
def killEvents (signal : Int) : List Int → List Event
  | [] => []
  | p :: ps =>
    if p = 0 then []
    else if p > 0 then Event.kill p signal :: killEvents signal ps
    else killEvents signal ps

/-- The assignments of `StopJob` to the job record. -/
def stopFields (j : job_t) : job_t :=
  { j with state := some IPP_JOB_STOPPED, printer := none,
           current_file := j.current_file - 1, procs := killProcs j.procs,
           pipe := 0, buffer := none,
           bufused := if j.buffer.isSome then 0 else j.bufused }

/-- The function `StopJob(id, force)`.  (A processing job has a printer; with
a `NULL` pointer the C code would not get past `current->printer->state`, the
model then leaves the printers alone.) -/
def StopJob (s : Sched) (id : Int) (force : Bool) : Sched :=
  match FindJob s.Jobs id with
  | none => s
  | some current =>
    if current.state = some IPP_JOB_PROCESSING then
      let s1 := s.addLevel (-current.cost)
      let s2 :=
        match current.printer with
        | none => s1
        | some p =>
          (if current.status < 0 then s1.SetPrinterState p IPP_PRINTER_STOPPED
           else if s1.printerState p ≠ some IPP_PRINTER_STOPPED then
             s1.SetPrinterState p IPP_PRINTER_IDLE
           else s1).modPrinter p (fun r => { r with job := none })
      ((s2.modJob id stopFields).emit
        (killEvents (if force then SIGKILL else SIGTERM) current.procs)).closePipe current.pipe
    else s

/-- The assignments of `CancelJob` to the job record. -/
def cancelFields (now : Int) (j : job_t) : job_t :=
  { set_time { j with state := some IPP_JOB_CANCELLED } "time-at-completed" now with
    current_file := 0 }

/-- The function `CancelJob(id, purge)`. -/
def CancelJob (now : Int) (s : Sched) (id : Int) (purge : Bool) : Sched :=
  match FindJob s.Jobs id with
  | none => s
  | some found =>
    let s1 := if found.state = some IPP_JOB_PROCESSING then StopJob s id false else s
    let s2 := s1.modJob id (cancelFields now)
    let remote : Bool := found.dtype &&& CUPS_PRINTER_REMOTE ≠ 0
    let s3 :=
      if !s.JobHistory || !s.JobFiles || purge || remote then
        s2.emit ((List.range found.num_files.toNat).map (fun (i : Nat) =>
          Event.unlink (dataFile s.RequestRoot id ((i : Int) + 1))))
      else s2
    if s.JobHistory && !purge && !remote then SaveJob s3 id
    else (s3.emit [Event.unlink (controlFile s.RequestRoot id)]).dropJob id

/-- The loop of `StartJob` that removes the `"-"` filters: an entry whose
program is `"-"` is dropped by moving the entries after it down, any other
entry is kept and the index advances. -/
def removeNullFilters : List mime_filter_t → List mime_filter_t
  | [] => []
  | f :: rest => if f.filter = "-" then removeNullFilters rest else f :: removeNullFilters rest

/-- The loop `for (i = 0; i < num_filters; i ++) current->cost += filters[i].cost`
started from `cost`. -/
def addCosts (cost : Int) : List mime_filter_t → Int
  | [] => cost
  | f :: rest => addCosts (cost + f.cost) rest

/-- The type `current->filetypes[current->current_file]`. -/
def currentFiletype (job : job_t) : mime_type_t :=
  job.filetypes.getD job.current_file.toNat { super := "application", type := "vnd.cups-raw" }

/-- The test `strncmp(printer->device_uri, "file:", 5) == 0`. -/
def isFileDevice (s : Sched) (printer : Nat) : Bool :=
  (s.Printers.get? printer).map (fun r => "file:".data.isPrefixOf r.device_uri.data) = some true

/-- The process creation part of `StartJob`, from `current->current_file ++`
on, for a job already made processing on `printer`.  `nfilters` is the number
of filters left after the `"-"` entries are removed; one process is started
for each, and one more for the backend unless the device URI starts with
`file:`.  The round that fails stores 0 and returns.  (The options string, the
argument vector and the environment handed to the children are not part of
the scheduler state; `procs` lists the entries stored since the `memset`.) -/
def startProcesses (env : Env) (s : Sched) (id : Int) (printer : Nat) (nfilters : Nat) : Sched :=
  let s1 := s.modJob id (fun j => { j with current_file := j.current_file + 1 })
  match FindJob s1.Jobs id with
  | none => s1
  | some current =>
    if current.buffer = none ∧ (env.sys id).malloc_ok = false then CancelJob env.time s1 id false
    else
      let s2 :=
        if current.buffer = none then s1.modJob id (fun j => { j with buffer := some [], bufused := 0 })
        else s1
      match (env.sys id).statusfd with
      | none =>
        s2.modPrinter printer (fun r => { r with state_message := "Unable to create status pipes." })
      | some fd =>
        let wanted := if isFileDevice s2 printer then nfilters else nfilters + 1
        let started := ((env.sys id).pids.take wanted).takeWhile (fun pid => pid ≠ 0)
        let s3 := s2.modJob id (fun j => { j with pipe := fd, status := 0, procs := started })
        if started.length < wanted then
          s3.modPrinter printer (fun r =>
            { r with state_message := "Unable to start filter or backend." })
        else s3.fdSet fd

/-- The assignments of `StartJob` to the job record when the job is admitted. -/
def admitFields (now : Int) (cost : Int) (printer : Nat) (j : job_t) : job_t :=
  if j.current_file = 0 then
    set_time { j with cost := cost, state := some IPP_JOB_PROCESSING, status := 0,
                      printer := some printer } "time-at-processing" now
  else { j with cost := cost, state := some IPP_JOB_PROCESSING, status := 0,
                printer := some printer }

/-- The function `StartJob(id, printer)`, `printer` a valid printer index. -/
def StartJob (env : Env) (s : Sched) (id : Int) (printer : Nat) : Sched :=
  match FindJob s.Jobs id with
  | none => s
  | some current =>
    if current.num_files = 0 then CancelJob env.time s id false
    else
      match s.Printers.get? printer with
      | none => s
      | some p =>
        if p.type &&& CUPS_PRINTER_REMOTE = 0 ∧
            env.mimeFilter (currentFiletype current) p.filetype = [] then
          let s1 := s.modJob id (fun j => { j with cost := 0, current_file := j.current_file + 1 })
          if current.current_file + 1 = current.num_files then CancelJob env.time s1 id false
          else s1
        else
          let filters :=
            if p.type &&& CUPS_PRINTER_REMOTE = 0 then
              removeNullFilters (env.mimeFilter (currentFiletype current) p.filetype)
            else []
          let cost := addCosts 0 filters
          if s.FilterLevel + cost > s.FilterLimit ∧ s.FilterLevel > 0 ∧ s.FilterLimit > 0 then
            s.modJob id (fun j => { j with cost := cost })
          else
            startProcesses env
              ((((s.addLevel cost).modJob id (admitFields env.time cost printer)).modPrinter printer
                (fun r => { r with job := some id })).SetPrinterState printer
                IPP_PRINTER_PROCESSING)
              id printer filters.length

/-- The printer `CheckJobs` picks for a destination: the values of `printer`
and `pclass` before the test `printer == NULL && pclass == NULL`. -/
def resolveDest (env : Env) (s : Sched) (dest : String) : Option Nat × Option Nat :=
  let pclass0 := env.FindClass dest
  let printer0 : Option Nat :=
    match pclass0 with
    | some c =>
      match s.Printers.get? c with
      | some r =>
        if r.type &&& CUPS_PRINTER_REMOTE ≠ 0 then some c
        else if r.state ≠ IPP_PRINTER_STOPPED then env.FindAvailablePrinter s.Printers dest
        else none
      | none => none
    | none => env.FindPrinter dest
  match printer0.bind (fun i => s.Printers.get? i) with
  | some r =>
    if r.type &&& CUPS_PRINTER_IMPLICIT ≠ 0 then
      (if r.state ≠ IPP_PRINTER_STOPPED then env.FindAvailablePrinter s.Printers dest else none,
       printer0)
    else (printer0, pclass0)
  | none => (printer0, pclass0)

/-- The test of `CheckJobs` before `StartJob`: the printer is idle, or remote
and not printing a job. -/
def printerAvailable (r : printer_t) : Bool :=
  r.state = IPP_PRINTER_IDLE ∨ (r.type &&& CUPS_PRINTER_REMOTE ≠ 0 ∧ r.job.isNone)

/-- The second half of one round of the loop of `CheckJobs`, for a pending
job. -/
def dispatch (env : Env) (s : Sched) (id : Int) (dest : String) : Sched :=
  match resolveDest env s dest with
  | (none, none) => CancelJob env.time s id true
  | (none, some _) => s
  | (some i, _) =>
    match s.Printers.get? i with
    | none => s
    | some r => if printerAvailable r then StartJob env s id i else s

/-- One round of the loop of `CheckJobs`, for the job `current` (given by its
id; the ids in the list are distinct). -/
def CheckJob (env : Env) (s : Sched) (id : Int) : Sched :=
  match FindJob s.Jobs id with
  | none => s
  | some current =>
    if current.state = some IPP_JOB_HELD ∧ current.hold_until ≠ 0 ∧
        current.hold_until < env.time then
      dispatch env (s.modJob id (fun j => { j with state := some IPP_JOB_PENDING })) id current.dest
    else if current.state = some IPP_JOB_PENDING then dispatch env s id current.dest
    else s

/-- The function `CheckJobs()`: the rounds for the jobs in list order (`next`
is saved before each round, and a round removes at most its own job). -/
def CheckJobs (env : Env) (s : Sched) : Sched :=
  (s.Jobs.map (fun j => j.id)).foldl (CheckJob env) s

/-- The function `HoldJob(id)`. -/
def HoldJob (env : Env) (s : Sched) (id : Int) : Sched :=
  match FindJob s.Jobs id with
  | none => s
  | some job =>
    let s1 := if job.state = some IPP_JOB_PROCESSING then StopJob s id false else s
    CheckJobs env (SaveJob (s1.modJob id (fun j => { j with state := some IPP_JOB_HELD })) id)

/-- The function `ReleaseJob(id)`. -/
def ReleaseJob (env : Env) (s : Sched) (id : Int) : Sched :=
  match FindJob s.Jobs id with
  | none => s
  | some job =>
    if job.state = some IPP_JOB_HELD then
      CheckJobs env (SaveJob (s.modJob id (fun j => { j with state := some IPP_JOB_PENDING })) id)
    else s

/-- The function `RestartJob(id)`. -/
def RestartJob (env : Env) (s : Sched) (id : Int) : Sched :=
  match FindJob s.Jobs id with
  | none => s
  | some job =>
    if job.state = some IPP_JOB_STOPPED ∨ s.JobFiles = true then
      CheckJobs env (SaveJob (s.modJob id (fun j => { j with state := some IPP_JOB_PENDING })) id)
    else s

/-- One round of the loop of `StopAllJobs`. -/
def StopAllJobsStep (s : Sched) (id : Int) : Sched :=
  match FindJob s.Jobs id with
  | none => s
  | some current =>
    if current.state = some IPP_JOB_PROCESSING then
      (StopJob s id true).modJob id (fun j => { j with state := some IPP_JOB_PENDING })
    else s

/-- The function `StopAllJobs()`. -/
def StopAllJobs (s : Sched) : Sched :=
  (s.Jobs.map (fun j => j.id)).foldl StopAllJobsStep s

/-- The tail of the branches of `UpdateJob` that finish a job: `CancelJob`,
under `JobHistory` the final state and `SaveJob`, then `CheckJobs`.  When
`CancelJob` has unlinked and freed the record (it is not in the list
afterwards), the assignment to `job->state` under `JobHistory` goes through
the freed pointer `job`: the behaviour is undefined and there is no result. -/
def finishJob (env : Env) (s : Sched) (id : Int) (final : Int) : Option Sched :=
  let s2 := CancelJob env.time s id false
  if s.JobHistory then
    match FindJob s2.Jobs id with
    | none => none
    | some _ =>
      some (CheckJobs env (SaveJob (s2.modJob id (fun j => { j with state := some final })) id))
  else some (CheckJobs env s2)

/-- The part `if (bytes <= 0)` of `UpdateJob(job)`: end of file on the status
pipe of the job (given by its id).  `StartJob` is handed `job->printer`; the
model makes no call for a `NULL` pointer.  There is no result when the
behaviour is undefined (see `finishJob`). -/
def UpdateJobEnd (env : Env) (s : Sched) (id : Int) : Option Sched :=
  match FindJob s.Jobs id with
  | none => some s
  | some job =>
    let s1 := (s.modJob id (fun j => { j with pipe := 0 })).closePipe job.pipe
    if job.status < 0 then
      some (SaveJob
        ((StopJob s1 id false).modJob id (fun j => { j with state := some IPP_JOB_PENDING })) id)
    else if job.status > 0 then
      if job.current_file < job.num_files then
        match job.printer with
        | some p => some (StartJob env s1 id p)
        | none => some s1
      else finishJob env s1 id IPP_JOB_ABORTED
    else
      if job.current_file < job.num_files then
        match job.printer with
        | some p => some (StartJob env (s1.addLevel (-job.cost)) id p)
        | none => some (s1.addLevel (-job.cost))
      else finishJob env s1 id IPP_JOB_COMPLETED

/-- The entry `procs[i]` of the process array, zero past the entries stored. -/
def procAt (procs : List Int) (i : Nat) : Int :=
  procs.getD i 0

/-- The search `for (i = 0; job->procs[i]; i ++) if (job->procs[i] == pid) break;`
of the child reaper: the index it stops at. -/
def findProc (pid : Int) : List Int → Nat
  | [] => 0
  | p :: ps => if p = 0 then 0 else if p = pid then 0 else findProc pid ps + 1

/-- The body of the job loop of `sigchld_handler` for one reaped child
(`scheduler/main.c`): the first processing job whose process array holds the
pid takes the exit status. -/
def reapInJobs (pid status : Int) : List job_t → List job_t
  | [] => []
  | job :: rest =>
    if job.state = some IPP_JOB_PROCESSING ∧ procAt job.procs (findProc pid job.procs) ≠ 0 then
      let i := findProc pid job.procs
      let job1 : job_t := { job with procs := job.procs.set i (-pid) }
      (if status ≠ 0 ∧ job.status ≥ 0 then
        if procAt job.procs (i + 1) = 0 then { job1 with status := -status }
        else { job1 with status := status }
       else job1) :: rest
    else job :: reapInJobs pid status rest

/-- One round of the `waitpid` loop of `sigchld_handler`. -/
def sigchld_handler (s : Sched) (pid status : Int) : Sched :=
  { s with Jobs := reapInJobs pid (if status = SIGTERM then 0 else status) s.Jobs }

/-! ### Notions the statements use -/

/-- The priority order of the spec between a job and its successor in the
store: higher priority first, among equals the smaller id first. -/
def priorityOrder (a b : job_t) : Prop :=
  a.priority > b.priority ∨ (a.priority = b.priority ∧ a.id < b.id)

instance priorityOrder_decidable : DecidableRel priorityOrder :=
  fun a b =>
    inferInstanceAs (Decidable (a.priority > b.priority ∨ (a.priority = b.priority ∧ a.id < b.id)))

instance priorityOrder_trans : IsTrans job_t priorityOrder :=
  ⟨fun a b c h1 h2 => by unfold priorityOrder at *; omega⟩

/-- The priority-order invariant of the store: every two adjacent jobs are in
priority order. -/
def PriorityOrdered : List job_t → Prop
  | [] => True
  | [_] => True
  | a :: b :: rest => priorityOrder a b ∧ PriorityOrdered (b :: rest)

instance PriorityOrdered_decidable : DecidablePred PriorityOrdered
  | [] => isTrue trivial
  | [_] => isTrue trivial
  | a :: b :: rest =>
    have := PriorityOrdered_decidable (b :: rest)
    inferInstanceAs (Decidable (priorityOrder a b ∧ PriorityOrdered (b :: rest)))

/-- The empty store: no jobs, `NextJobId = 1`, `FilterLevel = 0`. -/
def emptyStore : Sched := {}

/-- The store after a sequence of `AddJob(priority, dest)` calls. -/
def addJobs (s : Sched) : List (Int × String) → Sched
  | [] => s
  | call :: calls => addJobs (AddJob s call.1 call.2).1 calls

/-- Invariant of the stores built by `AddJob`: the list is in priority order
and every id is below `NextJobId`. -/
def AddInv (s : Sched) : Prop :=
  List.Chain' priorityOrder s.Jobs ∧ ∀ j ∈ s.Jobs, j.id < s.NextJobId

/-- The cost `StartJob` computes for a job on a printer: the costs of the chain
without its `"-"` entries, nothing for a remote printer. -/
def jobCost (env : Env) (job : job_t) (p : printer_t) : Int :=
  if p.type &&& CUPS_PRINTER_REMOTE = 0 then
    ((removeNullFilters (env.mimeFilter (currentFiletype job) p.filetype)).map
      (fun f => f.cost)).sum
  else 0

/-- The admission test of `StartJob` fails: the job is deferred. -/
def Deferred (s : Sched) (cost : Int) : Prop :=
  s.FilterLevel > 0 ∧ s.FilterLimit > 0 ∧ s.FilterLevel + cost > s.FilterLimit

instance Deferred_decidable (s : Sched) (cost : Int) : Decidable (Deferred s cost) :=
  inferInstanceAs
    (Decidable (s.FilterLevel > 0 ∧ s.FilterLimit > 0 ∧ s.FilterLevel + cost > s.FilterLimit))

/-- The MIME type `text/plain`. -/
def textPlain : mime_type_t := { super := "text", type := "plain" }

/-- The MIME type `application/postscript`. -/
def postscript : mime_type_t := { super := "application", type := "postscript" }

/-- Collaborators of the scenarios: printers `lp` (index 0) and `lp2`
(index 1), no classes, and the filter chain texttops (cost 33), pstops
(cost 66) from `text/plain` to `application/postscript`. -/
def scenarioEnv : Env :=
  { FindClass := fun _ => none
    FindPrinter := fun name => if name = "lp" then some 0 else if name = "lp2" then some 1 else none
    FindAvailablePrinter := fun _ _ => none
    mimeFilter := fun src dst =>
      if src = textPlain ∧ dst = postscript then
        [{ filter := "texttops", cost := 33 }, { filter := "pstops", cost := 66 }]
      else []
    time := 1000
    sys := fun _ => { pids := [101, 102, 103] } }

/-- Scenario 4 of the spec: `FilterLimit = 200`, `FilterLevel = 150` (job 1 is
processing on `lp2` at cost 150), and job 2, one `text/plain` file, is pending
for the idle printer `lp`. -/
def scenario4 : Sched :=
  { Jobs := [{ id := 1, priority := 50, dest := "lp2", state := some IPP_JOB_PROCESSING,
               num_files := 1, current_file := 1, filetypes := [textPlain], cost := 150,
               printer := some 1, pipe := 5, buffer := some [], procs := [90, 91] },
             { id := 2, priority := 50, dest := "lp", state := some IPP_JOB_PENDING,
               num_files := 1, filetypes := [textPlain] }]
    NumJobs := 2
    NextJobId := 3
    FilterLevel := 150
    FilterLimit := 200
    Printers := [{ name := "lp", type := 0, state := IPP_PRINTER_IDLE, filetype := postscript },
                 { name := "lp2", type := 0, state := IPP_PRINTER_PROCESSING, job := some 1,
                   filetype := postscript }]
    InputSet := [5] }

/-- A store with `FilterLimit = 50` and nothing processing (`FilterLevel = 0`):
job 1, one `text/plain` file, is pending for the idle printer `lp`. -/
def scenarioIdle : Sched :=
  { Jobs := [{ id := 1, priority := 50, dest := "lp", state := some IPP_JOB_PENDING,
               num_files := 1, filetypes := [textPlain] }]
    NumJobs := 1
    NextJobId := 2
    FilterLevel := 0
    FilterLimit := 50
    Printers := [{ name := "lp", type := 0, state := IPP_PRINTER_IDLE, filetype := postscript }] }

/-- State exclusivity for one job: it has an assigned printer if and only if
its state is processing. -/
def StateExclusive (j : job_t) : Prop :=
  j.printer ≠ none ↔ j.state = some IPP_JOB_PROCESSING

/-- Invariant of the job list: state exclusivity for every job, distinct ids,
all below `NextJobId`. -/
def JobsInv (s : Sched) : Prop :=
  (∀ j ∈ s.Jobs, StateExclusive j) ∧ (s.Jobs.map (fun j => j.id)).Nodup ∧
    ∀ j ∈ s.Jobs, j.id < s.NextJobId

/-- The job operations.  `add` is `AddJob` followed by what its caller stores
in the new record before the dispatcher runs (`init`: the state attribute is
attached with state pending or held, the printer pointer and the id are not
assigned).  `restart` is `RestartJob` with the preserve-files policy off, or
applied to a job that is not processing.  `update` is the end-of-file handling
of `UpdateJob` where its behaviour is defined (`UpdateJobEnd` has a result). -/
inductive JobOp : Sched → Sched → Prop
  | add (s : Sched) (priority : Int) (dest : String) (init : job_t → job_t)
      (hid : ∀ j, (init j).id = j.id) (hprinter : ∀ j, (init j).printer = j.printer)
      (hstate : ∀ j, (init j).state = some IPP_JOB_PENDING ∨ (init j).state = some IPP_JOB_HELD) :
      JobOp s ((AddJob s priority dest).1.modJob (AddJob s priority dest).2.id init)
  | check (env : Env) (s : Sched) : JobOp s (CheckJobs env s)
  | start (env : Env) (s : Sched) (id : Int) (printer : Nat) : JobOp s (StartJob env s id printer)
  | stop (s : Sched) (id : Int) (force : Bool) : JobOp s (StopJob s id force)
  | cancel (now : Int) (s : Sched) (id : Int) (purge : Bool) : JobOp s (CancelJob now s id purge)
  | hold (env : Env) (s : Sched) (id : Int) : JobOp s (HoldJob env s id)
  | release (env : Env) (s : Sched) (id : Int) : JobOp s (ReleaseJob env s id)
  | restart (env : Env) (s : Sched) (id : Int)
      (hguard : s.JobFiles = false ∨
        ∀ j, FindJob s.Jobs id = some j → j.state ≠ some IPP_JOB_PROCESSING) :
      JobOp s (RestartJob env s id)
  | stopAll (s : Sched) : JobOp s (StopAllJobs s)
  | update (env : Env) (s t : Sched) (id : Int) (hupdate : UpdateJobEnd env s id = some t) :
      JobOp s t
  | reap (s : Sched) (pid status : Int) : JobOp s (sigchld_handler s pid status)

/-- The states the job operations reach from a store without jobs. -/
inductive Reachable : Sched → Prop
  | empty (s : Sched) (h : s.Jobs = []) : Reachable s
  | step (s t : Sched) (h : Reachable s) (op : JobOp s t) : Reachable t

/-- A store without jobs whose files are preserved (`JobFiles` on), with the
idle local printer `lp`. -/
def preserveStore : Sched :=
  { JobFiles := true
    Printers := [{ name := "lp", type := 0, state := IPP_PRINTER_IDLE, filetype := postscript }] }

/-- What the caller of `AddJob` stores in the new record in the scenarios: state
pending and one `text/plain` file. -/
def initPending (j : job_t) : job_t :=
  { j with state := some IPP_JOB_PENDING, num_files := 1, filetypes := [textPlain] }

/-! ### The filter budget -/

/-- What a job adds to the filter budget: its cost while it is processing. -/
def budgetShare (j : job_t) : Int :=
  if j.state = some IPP_JOB_PROCESSING then j.cost else 0

/-- The sum of `cost` over the jobs whose state is processing. -/
def processingCost : List job_t → Int
  | [] => 0
  | j :: js => budgetShare j + processingCost js

/-- The filter budget invariant: `FilterLevel` is the sum of the costs of the
processing jobs. -/
def Budget (s : Sched) : Prop :=
  s.FilterLevel = processingCost s.Jobs

/-- The job operations under which the filter budget is kept: those of `JobOp`,
with `StartJob` applied to a job that is not processing, and the end-of-file
handling of `UpdateJob` applied when the accumulated status is negative, when
no file remains, or when the status is zero and the next file of the job (which
has a printer) is not deferred by the admission test once the cost of the
finished file is taken from `FilterLevel`; as in `JobOp`, the end-of-file
handling is taken where its behaviour is defined. -/
inductive BudgetOp : Sched → Sched → Prop
  | add (s : Sched) (priority : Int) (dest : String) (init : job_t → job_t)
      (hid : ∀ j, (init j).id = j.id) (hprinter : ∀ j, (init j).printer = j.printer)
      (hstate : ∀ j, (init j).state = some IPP_JOB_PENDING ∨ (init j).state = some IPP_JOB_HELD) :
      BudgetOp s ((AddJob s priority dest).1.modJob (AddJob s priority dest).2.id init)
  | check (env : Env) (s : Sched) : BudgetOp s (CheckJobs env s)
  | start (env : Env) (s : Sched) (id : Int) (printer : Nat)
      (hidle : ∀ j, FindJob s.Jobs id = some j → j.state ≠ some IPP_JOB_PROCESSING) :
      BudgetOp s (StartJob env s id printer)
  | stop (s : Sched) (id : Int) (force : Bool) : BudgetOp s (StopJob s id force)
  | cancel (now : Int) (s : Sched) (id : Int) (purge : Bool) :
      BudgetOp s (CancelJob now s id purge)
  | hold (env : Env) (s : Sched) (id : Int) : BudgetOp s (HoldJob env s id)
  | release (env : Env) (s : Sched) (id : Int) : BudgetOp s (ReleaseJob env s id)
  | restart (env : Env) (s : Sched) (id : Int)
      (hguard : s.JobFiles = false ∨
        ∀ j, FindJob s.Jobs id = some j → j.state ≠ some IPP_JOB_PROCESSING) :
      BudgetOp s (RestartJob env s id)
  | stopAll (s : Sched) : BudgetOp s (StopAllJobs s)
  | update (env : Env) (s t : Sched) (id : Int) (hupdate : UpdateJobEnd env s id = some t)
      (hguard : ∀ j, FindJob s.Jobs id = some j →
        j.status < 0 ∨ ¬ (j.current_file < j.num_files) ∨
        (j.status = 0 ∧ j.num_files ≠ 0 ∧ ∃ p r, j.printer = some p ∧
          s.Printers.get? p = some r ∧
          ¬ Deferred (s.addLevel (-j.cost)) (jobCost env j r))) :
      BudgetOp s t
  | reap (s : Sched) (pid status : Int) : BudgetOp s (sigchld_handler s pid status)

/-- The states the operations of `BudgetOp` reach from a store without jobs
and with `FilterLevel = 0`. -/
inductive BudgetReachable : Sched → Prop
  | empty (s : Sched) (h : s.Jobs = []) (hlevel : s.FilterLevel = 0) : BudgetReachable s
  | step (s t : Sched) (h : BudgetReachable s) (op : BudgetOp s t) : BudgetReachable t

/-- A store without jobs, without a filter limit, with the idle local printer
`lp`. -/
def lpStore : Sched :=
  { Printers := [{ name := "lp", type := 0, state := IPP_PRINTER_IDLE, filetype := postscript }] }

/-- What the caller of `AddJob` stores in the new record in the scenario of two
files: state pending and two `text/plain` files. -/
def initTwoFiles (j : job_t) : job_t :=
  { j with state := some IPP_JOB_PENDING, num_files := 2, filetypes := [textPlain, textPlain] }

/-- The store after a job of two files is added to `lpStore` and dispatched. -/
def twoFilesPrinting : Sched :=
  CheckJobs scenarioEnv ((AddJob lpStore 50 "lp").1.modJob 1 initTwoFiles)

/-! ### Store order of the dispatcher -/

/-- What an operation on job `id` that stays away from the printer `q` leaves
alone: the records of the other jobs, the record of printer `q`, and
`FilterLimit`. -/
def Frame (id : Int) (q : Nat) (s t : Sched) : Prop :=
  (∀ k, k ≠ id → FindJob t.Jobs k = FindJob s.Jobs k) ∧
  t.Printers.get? q = s.Printers.get? q ∧ t.FilterLimit = s.FilterLimit

/-- The fields of a printer record the dispatcher reads. -/
def printerCore (r : printer_t) : Int × Int × Option Int :=
  (r.type, r.state, r.job)

/-- The MIME type `application/octet-stream`, for which the scenarios have no
filter chain. -/
def octetStream : mime_type_t := { super := "application", type := "octet-stream" }

/-- A pending job for the printer `lp` with the given files. -/
def pendingJob (id : Int) (files : List mime_type_t) : job_t :=
  { id := id, priority := 50, dest := "lp", state := some IPP_JOB_PENDING,
    num_files := files.length, filetypes := files }

/-- The store `lpStore` (idle local printer `lp`, no filter limit) holding the
given jobs. -/
def lpStoreWith (jobs : List job_t) : Sched :=
  { lpStore with Jobs := jobs, NumJobs := jobs.length, NextJobId := jobs.length + 1 }

/-! ### The data model of the attribute codec -/

/-- The value fits a C `int` of 32 bits. -/
def isInt32 (x : Int) : Prop :=
  -2 ^ 31 ≤ x ∧ x < 2 ^ 31

instance isInt32_decidable (x : Int) : Decidable (isInt32 x) :=
  inferInstanceAs (Decidable (-2 ^ 31 ≤ x ∧ x < 2 ^ 31))

/-- The bytes of a C string: none is NUL, each is below 256. -/
def isCString : List Nat → Prop
  | [] => True
  | b :: rest => (0 < b ∧ b < 256) ∧ isCString rest

instance isCString_decidable : (l : List Nat) → Decidable (isCString l)
  | [] => inferInstanceAs (Decidable True)
  | b :: rest =>
    have := isCString_decidable rest
    inferInstanceAs (Decidable ((0 < b ∧ b < 256) ∧ isCString rest))

/-- Every entry is a byte (below 256). -/
def isBytes : List Nat → Prop
  | [] => True
  | b :: rest => b < 256 ∧ isBytes rest

instance isBytes_decidable : (l : List Nat) → Decidable (isBytes l)
  | [] => inferInstanceAs (Decidable True)
  | b :: rest =>
    have := isBytes_decidable rest
    inferInstanceAs (Decidable (b < 256 ∧ isBytes rest))

/-- The value tags of the string cases of the codec switch. -/
def isStringTag (tag : Nat) : Prop :=
  tag = IPP_TAG_TEXT ∨ tag = IPP_TAG_NAME ∨ tag = IPP_TAG_KEYWORD ∨
    tag = IPP_TAG_STRING ∨ tag = IPP_TAG_URI ∨ tag = IPP_TAG_URISCHEME ∨
    tag = IPP_TAG_CHARSET ∨ tag = IPP_TAG_LANGUAGE ∨ tag = IPP_TAG_MIMETYPE

instance isStringTag_decidable (tag : Nat) : Decidable (isStringTag tag) :=
  inferInstanceAs (Decidable (tag = IPP_TAG_TEXT ∨ tag = IPP_TAG_NAME ∨ tag = IPP_TAG_KEYWORD ∨
    tag = IPP_TAG_STRING ∨ tag = IPP_TAG_URI ∨ tag = IPP_TAG_URISCHEME ∨
    tag = IPP_TAG_CHARSET ∨ tag = IPP_TAG_LANGUAGE ∨ tag = IPP_TAG_MIMETYPE))

/-- The value tags that fall to the default case of the codec switch. -/
def isOtherTag (tag : Nat) : Prop :=
  ¬ (tag = IPP_TAG_INTEGER ∨ tag = IPP_TAG_ENUM) ∧ tag ≠ IPP_TAG_BOOLEAN ∧ ¬ isStringTag tag ∧
    tag ≠ IPP_TAG_DATE ∧ tag ≠ IPP_TAG_RESOLUTION ∧ tag ≠ IPP_TAG_RANGE ∧
    ¬ (tag = IPP_TAG_TEXTLANG ∨ tag = IPP_TAG_NAMELANG)

instance isOtherTag_decidable (tag : Nat) : Decidable (isOtherTag tag) :=
  inferInstanceAs (Decidable (
    ¬ (tag = IPP_TAG_INTEGER ∨ tag = IPP_TAG_ENUM) ∧ tag ≠ IPP_TAG_BOOLEAN ∧ ¬ isStringTag tag ∧
    tag ≠ IPP_TAG_DATE ∧ tag ≠ IPP_TAG_RESOLUTION ∧ tag ≠ IPP_TAG_RANGE ∧
    ¬ (tag = IPP_TAG_TEXTLANG ∨ tag = IPP_TAG_NAMELANG)))

/-- The values `ipp_write_file` stores inside `buffer`, under value tag `tag`:
the union member is the one the tag selects; integers fit an `int`; a `char`
and the bytes of a date or of opaque data are bytes; strings are C strings; the
charset qualifier is present exactly under the with-language tags; the length
of opaque data is the number of its bytes.  The writer stores a string, the
composite of a with-language value, or opaque data of `n` bytes behind its two
length bytes at the start of `buffer` at the latest, so `n + 2` is at most
`sizeof(buffer)`.  (The test of the writer is `n > sizeof(buffer)`: a value of
`sizeof(buffer) - 1` or `sizeof(buffer)` bytes passes it and is stored past the
end of `buffer`; such a value does not meet `wfValue`.) -/
def wfValue (tag : Nat) : ipp_value_t → Prop
  | ipp_value_t.integer x => (tag = IPP_TAG_INTEGER ∨ tag = IPP_TAG_ENUM) ∧ isInt32 x
  | ipp_value_t.boolean b => tag = IPP_TAG_BOOLEAN ∧ b < 256
  | ipp_value_t.date d => tag = IPP_TAG_DATE ∧ d.length = 11 ∧ isBytes d
  | ipp_value_t.resolution x y u =>
    tag = IPP_TAG_RESOLUTION ∧ isInt32 x ∧ isInt32 y ∧ 0 ≤ u ∧ u < 256
  | ipp_value_t.range l u => tag = IPP_TAG_RANGE ∧ isInt32 l ∧ isInt32 u
  | ipp_value_t.string none text =>
    isStringTag tag ∧ text.length + 2 ≤ BUFFER_SIZE ∧ isCString text
  | ipp_value_t.string (some charset) text =>
    (tag = IPP_TAG_TEXTLANG ∨ tag = IPP_TAG_NAMELANG) ∧
      charset.length + text.length + 6 ≤ BUFFER_SIZE ∧ isCString charset ∧ isCString text
  | ipp_value_t.unknown n data =>
    isOtherTag tag ∧ 0 ≤ n ∧ data.length = n.toNat ∧ data.length + 2 ≤ BUFFER_SIZE ∧ isBytes data

instance wfValue_decidable (tag : Nat) : (v : ipp_value_t) → Decidable (wfValue tag v)
  | ipp_value_t.integer x =>
    inferInstanceAs (Decidable ((tag = IPP_TAG_INTEGER ∨ tag = IPP_TAG_ENUM) ∧ isInt32 x))
  | ipp_value_t.boolean b => inferInstanceAs (Decidable (tag = IPP_TAG_BOOLEAN ∧ b < 256))
  | ipp_value_t.date d =>
    inferInstanceAs (Decidable (tag = IPP_TAG_DATE ∧ d.length = 11 ∧ isBytes d))
  | ipp_value_t.resolution x y u =>
    inferInstanceAs (Decidable
      (tag = IPP_TAG_RESOLUTION ∧ isInt32 x ∧ isInt32 y ∧ 0 ≤ u ∧ u < 256))
  | ipp_value_t.range l u =>
    inferInstanceAs (Decidable (tag = IPP_TAG_RANGE ∧ isInt32 l ∧ isInt32 u))
  | ipp_value_t.string none text =>
    inferInstanceAs (Decidable
      (isStringTag tag ∧ text.length + 2 ≤ BUFFER_SIZE ∧ isCString text))
  | ipp_value_t.string (some charset) text =>
    inferInstanceAs (Decidable ((tag = IPP_TAG_TEXTLANG ∨ tag = IPP_TAG_NAMELANG) ∧
      charset.length + text.length + 6 ≤ BUFFER_SIZE ∧ isCString charset ∧ isCString text))
  | ipp_value_t.unknown n data =>
    inferInstanceAs (Decidable (isOtherTag tag ∧ 0 ≤ n ∧ data.length = n.toNat ∧
      data.length + 2 ≤ BUFFER_SIZE ∧ isBytes data))

/-- The data model for the values of one attribute. -/
def wfValues (tag : Nat) : List ipp_value_t → Prop
  | [] => True
  | v :: vs => wfValue tag v ∧ wfValues tag vs

instance wfValues_decidable (tag : Nat) : (vs : List ipp_value_t) → Decidable (wfValues tag vs)
  | [] => inferInstanceAs (Decidable True)
  | v :: vs =>
    have := wfValues_decidable tag vs
    inferInstanceAs (Decidable (wfValue tag v ∧ wfValues tag vs))

/-- An attribute that is not a separator and that `ipp_write_file` stores
inside `buffer` when its current group tag is `curtag`: a non-empty name (a C
string), a group tag that is `curtag` or one of the delimiter tags
`0x01 .. 0x0f` other than the end tag, a value tag from `0x10` on that is a
byte, and at least one value, each meeting `wfValue`.  The writer stores the
group tag (when it is not `curtag`), the value tag, the two bytes of the name
length and the name from the start of `buffer`, so a name has at most
`sizeof(buffer) - 3` bytes, and one less behind a group tag.  (The test of the
writer is `n > sizeof(buffer) - 3` in both cases: behind a group tag a name of
`sizeof(buffer) - 3` bytes passes it and is stored past the end of `buffer`;
such an attribute does not meet `properAttr`.) -/
def properAttr (curtag : Nat) (a : ipp_attribute_t) : Prop :=
  a.name ≠ none ∧ a.name.getD [] ≠ [] ∧
    (a.name.getD []).length + 3 + (if curtag ≠ a.group_tag then 1 else 0) ≤ BUFFER_SIZE ∧
    isCString (a.name.getD []) ∧
    (a.group_tag = curtag ∨
      (IPP_TAG_ZERO < a.group_tag ∧ a.group_tag < IPP_TAG_UNSUPPORTED_VALUE ∧
        a.group_tag ≠ IPP_TAG_END)) ∧
    IPP_TAG_UNSUPPORTED_VALUE ≤ a.value_tag ∧ a.value_tag < 256 ∧
    a.values ≠ [] ∧ wfValues a.value_tag a.values

instance properAttr_decidable (curtag : Nat) (a : ipp_attribute_t) :
    Decidable (properAttr curtag a) :=
  inferInstanceAs (Decidable (
    a.name ≠ none ∧ a.name.getD [] ≠ [] ∧
    (a.name.getD []).length + 3 + (if curtag ≠ a.group_tag then 1 else 0) ≤ BUFFER_SIZE ∧
    isCString (a.name.getD []) ∧
    (a.group_tag = curtag ∨
      (IPP_TAG_ZERO < a.group_tag ∧ a.group_tag < IPP_TAG_UNSUPPORTED_VALUE ∧
        a.group_tag ≠ IPP_TAG_END)) ∧
    IPP_TAG_UNSUPPORTED_VALUE ≤ a.value_tag ∧ a.value_tag < 256 ∧
    a.values ≠ [] ∧ wfValues a.value_tag a.values))

/-- The attribute lists `ipp_write_file` stores inside `buffer` and
`ipp_read_file` reads back, `curtag` being the current group tag of the writer
before the list (`IPP_TAG_ZERO` at the start, and after a separator): every
attribute is either proper or the separator node, and a separator stands
between two proper attributes of the same group. -/
def wfAttrs : Nat → List ipp_attribute_t → Prop
  | _, [] => True
  | curtag, a :: rest =>
    (properAttr curtag a ∧ wfAttrs a.group_tag rest) ∨
    (a = separator ∧ curtag ≠ IPP_TAG_ZERO ∧
      rest.head?.map (fun b => b.group_tag) = some curtag ∧ wfAttrs IPP_TAG_ZERO rest)

instance wfAttrs_decidable : (curtag : Nat) → (l : List ipp_attribute_t) →
    Decidable (wfAttrs curtag l)
  | _, [] => inferInstanceAs (Decidable True)
  | curtag, a :: rest =>
    have := wfAttrs_decidable a.group_tag rest
    have := wfAttrs_decidable IPP_TAG_ZERO rest
    inferInstanceAs (Decidable ((properAttr curtag a ∧ wfAttrs a.group_tag rest) ∨
      (a = separator ∧ curtag ≠ IPP_TAG_ZERO ∧
        rest.head?.map (fun b => b.group_tag) = some curtag ∧ wfAttrs IPP_TAG_ZERO rest)))

/-- The catalogs `ipp_write_file` stores inside `buffer` and `ipp_read_file`
reads back: header major version 1, the minor version a byte, `op_status` two
bytes, `request_id` an `int`, and the attribute list meeting `wfAttrs`. -/
def wfCatalog (C : ipp_t) : Prop :=
  C.version0 = 1 ∧ C.version1 < 256 ∧ 0 ≤ C.op_status ∧ C.op_status < 65536 ∧
    isInt32 C.request_id ∧ wfAttrs IPP_TAG_ZERO C.attrs

instance wfCatalog_decidable (C : ipp_t) : Decidable (wfCatalog C) :=
  inferInstanceAs (Decidable (
    C.version0 = 1 ∧ C.version1 < 256 ∧ 0 ≤ C.op_status ∧ C.op_status < 65536 ∧
    isInt32 C.request_id ∧ wfAttrs IPP_TAG_ZERO C.attrs))

/-- The bytes of a string literal. -/
def ascii (s : String) : List Nat :=
  s.data.map Char.toNat

/-- The catalog of the round-trip scenario of the spec: operation attribute
`attributes-charset` = `"utf-8"`, job attributes `copies` = 3, `job-sheets` =
(`"standard"`, `"none"`) and a resolution of 300x600 dpi. -/
def roundTripCatalog : ipp_t :=
  { version0 := 1, version1 := 0, op_status := 2, request_id := 1
    attrs :=
      [{ group_tag := IPP_TAG_OPERATION, value_tag := IPP_TAG_CHARSET,
         name := some (ascii "attributes-charset"),
         values := [ipp_value_t.string none (ascii "utf-8")] },
       { group_tag := IPP_TAG_JOB, value_tag := IPP_TAG_INTEGER,
         name := some (ascii "copies"), values := [ipp_value_t.integer 3] },
       { group_tag := IPP_TAG_JOB, value_tag := IPP_TAG_NAME,
         name := some (ascii "job-sheets"),
         values := [ipp_value_t.string none (ascii "standard"),
                    ipp_value_t.string none (ascii "none")] },
       { group_tag := IPP_TAG_JOB, value_tag := IPP_TAG_RESOLUTION,
         name := some (ascii "printer-resolution"),
         values := [ipp_value_t.resolution 300 600 IPP_RES_PER_INCH] }] }

/-- The bytes of one value in a stream: the declared length in two bytes and
the value (what `ipp_write_file` stores for a value that meets `wfValue`). -/
def valueBytes : ipp_value_t → List Nat
  | ipp_value_t.integer x => [0, 4] ++ bytes32 x
  | ipp_value_t.boolean b => [0, 1, b]
  | ipp_value_t.date d => [0, 11] ++ d
  | ipp_value_t.resolution x y u => [0, 9] ++ bytes32 x ++ bytes32 y ++ [byteOf u]
  | ipp_value_t.range l u => [0, 8] ++ bytes32 l ++ bytes32 u
  | ipp_value_t.string none text => bytes16 text.length ++ text
  | ipp_value_t.string (some charset) text =>
    bytes16 ((charset.length + text.length + 4 : Nat) : Int) ++ bytes16 charset.length ++
      charset ++ bytes16 text.length ++ text
  | ipp_value_t.unknown n data => bytes16 n ++ data

/-- The bytes stored for the values of one attribute from index `i` on: every
value but the first is preceded by the value tag and a zero name length. -/
def contBytes (tag : Nat) : Nat → List ipp_value_t → List Nat
  | _, [] => []
  | i, v :: vs =>
    (if i ≠ 0 then [tag % 256, 0, 0] else []) ++ valueBytes v ++ contBytes tag (i + 1) vs

/-- The bytes stored for one attribute after its group tag. -/
def attrBytes (a : ipp_attribute_t) : List Nat :=
  [a.value_tag % 256] ++ bytes16 (a.name.getD []).length ++ a.name.getD [] ++
    contBytes a.value_tag 0 a.values

/-- The bytes stored for an attribute list when the current group tag is
`curtag`, up to and including the end tag. -/
def encAttrs : Nat → List ipp_attribute_t → List Nat
  | _, [] => [IPP_TAG_END]
  | curtag, a :: rest =>
    if curtag ≠ a.group_tag ∧ a.group_tag = IPP_TAG_ZERO then encAttrs a.group_tag rest
    else
      (if curtag ≠ a.group_tag then [a.group_tag % 256] else []) ++ attrBytes a ++
        encAttrs a.group_tag rest

/-! ### Round trip of the attribute codec -/

/-- The attribute loop of `ipp_read_file` on `file` from the cursor `st` ends
with `IPP_DATA` and the attribute list `cat`, for every fuel above the length
of the file. -/
def ReadsTo (file : List Nat) (st : RState) (cat : List ipp_attribute_t) : Prop :=
  ∀ fuel, file.length < fuel →
    ∃ st2, readAttributes fuel file st = some (ipp_state_t.IPP_DATA, st2) ∧ st2.catalog = cat

/-- The eight header bytes `ipp_write_file` stores for a catalog. -/
def headerBytes (C : ipp_t) : List Nat :=
  [C.version0 % 256, C.version1 % 256] ++ bytes16 C.op_status ++ bytes32 C.request_id

/-- The bytes `ipp_write_file` produces for `roundTripCatalog`. -/
def roundTripBytes : List Nat :=
  [1, 0, 0, 2, 0, 0, 0, 1, 1, 71, 0, 18, 97, 116, 116, 114, 105, 98, 117, 116, 101, 115, 45, 99,
   104, 97, 114, 115, 101, 116, 0, 5, 117, 116, 102, 45, 56, 2, 33, 0, 6, 99, 111, 112, 105, 101,
   115, 0, 4, 0, 0, 0, 3, 66, 0, 10, 106, 111, 98, 45, 115, 104, 101, 101, 116, 115, 0, 8, 115,
   116, 97, 110, 100, 97, 114, 100, 66, 0, 0, 0, 4, 110, 111, 110, 101, 50, 0, 18, 112, 114, 105,
   110, 116, 101, 114, 45, 114, 101, 115, 111, 108, 117, 116, 105, 111, 110, 0, 9, 0, 0, 1, 44,
   0, 0, 2, 88, 3, 3]

/-! ### What `ipp_read_file` builds from bytes -/

/-- The attribute loop of `ipp_read_file` on `file` from the cursor `st` ends
with `IPP_DATA` at the cursor `stf`. -/
def Reads (file : List Nat) (st stf : RState) : Prop :=
  ∃ fuel, readAttributes fuel file st = some (ipp_state_t.IPP_DATA, stf)

/-- What holds of a value `ipp_read_file` has decoded from bytes, whatever the
value tag it was read under: integers fit an `int`, a `char` and the bytes of a
date or of opaque data are bytes, strings are C strings, the length of opaque
data is the number of its bytes. -/
def valueContent : ipp_value_t → Prop
  | ipp_value_t.integer x => isInt32 x
  | ipp_value_t.boolean b => b < 256
  | ipp_value_t.date d => d.length = 11 ∧ isBytes d
  | ipp_value_t.resolution x y u => isInt32 x ∧ isInt32 y ∧ 0 ≤ u ∧ u < 256
  | ipp_value_t.range l u => isInt32 l ∧ isInt32 u
  | ipp_value_t.string none text => isCString text
  | ipp_value_t.string (some charset) text => isCString charset ∧ isCString text
  | ipp_value_t.unknown n data => 0 ≤ n ∧ data.length = n.toNat ∧ isBytes data

/-- A named attribute as `ipp_read_file` builds it from bytes: the name is a C
string, the group tag is a delimiter tag other than the end tag, the value tag
is a byte from `0x10` on, and there is at least one value. -/
def namedAttr (a : ipp_attribute_t) : Prop :=
  (∃ name, a.name = some name ∧ isCString name) ∧
    a.group_tag < IPP_TAG_UNSUPPORTED_VALUE ∧ a.group_tag ≠ IPP_TAG_END ∧
    IPP_TAG_UNSUPPORTED_VALUE ≤ a.value_tag ∧ a.value_tag < 256 ∧
    a.values ≠ [] ∧ ∀ v ∈ a.values, valueContent v

/-- A node of a catalog `ipp_read_file` builds from bytes: the separator or a
named attribute. -/
def readNode (a : ipp_attribute_t) : Prop :=
  a = separator ∨ namedAttr a

/-- The cursor of a read of bytes: the complete nodes are separators or named
attributes, the current node is a named attribute, and the current group tag is
a delimiter tag other than the end tag. -/
def readCursor (st : RState) : Prop :=
  (∀ a ∈ st.attrs, readNode a) ∧ (∀ cur, st.current = some cur → namedAttr cur) ∧
    st.curtag < IPP_TAG_UNSUPPORTED_VALUE ∧ st.curtag ≠ IPP_TAG_END

/-! ### Byte streams of the attribute codec -/

/-- In the words of the spec, one attribute of a byte stream: the value tag,
the name, and the values, the first behind the name and every additional one
behind the value tag and a zero name length. -/
structure StreamAttr where
  value_tag : Nat
  name : List Nat
  values : List ipp_value_t
  deriving DecidableEq

/-- The bytes of one attribute of a stream: the value tag, the length of the
name in two bytes, the name, and the values, each with its declared length and
every one but the first behind the value tag and a zero name length. -/
def StreamAttr.bytes (a : StreamAttr) : List Nat :=
  [a.value_tag] ++ bytes16 a.name.length ++ a.name ++ contBytes a.value_tag 0 a.values

/-- A well-formed attribute of a stream: the value tag is a byte from `0x10`
on, the name is not empty and holds no NUL byte, there is at least one value,
and every value is of the kind the value tag says, with the declared length of
that kind, strings without a NUL byte (`wfValue`).  `behind` says that the
attribute stands directly behind a group tag: a name has at most
`sizeof(buffer) - 3` bytes, and one less behind a group tag. -/
def StreamAttr.wellFormed (behind : Bool) (a : StreamAttr) : Prop :=
  IPP_TAG_UNSUPPORTED_VALUE ≤ a.value_tag ∧ a.value_tag < 256 ∧
    a.name ≠ [] ∧ isCString a.name ∧
    a.name.length + 3 + (if behind then 1 else 0) ≤ BUFFER_SIZE ∧
    a.values ≠ [] ∧ wfValues a.value_tag a.values

instance StreamAttr.wellFormed_decidable (behind : Bool) (a : StreamAttr) :
    Decidable (a.wellFormed behind) :=
  inferInstanceAs (Decidable (
    IPP_TAG_UNSUPPORTED_VALUE ≤ a.value_tag ∧ a.value_tag < 256 ∧
    a.name ≠ [] ∧ isCString a.name ∧
    a.name.length + 3 + (if behind then 1 else 0) ≤ BUFFER_SIZE ∧
    a.values ≠ [] ∧ wfValues a.value_tag a.values))

/-- The bytes of a run of attributes of a stream. -/
def streamAttrsBytes : List StreamAttr → List Nat
  | [] => []
  | a :: rest => a.bytes ++ streamAttrsBytes rest

/-- A run of well-formed attributes; `behind` says that the first one stands
directly behind a group tag. -/
def streamAttrsWellFormed : Bool → List StreamAttr → Prop
  | _, [] => True
  | behind, a :: rest => a.wellFormed behind ∧ streamAttrsWellFormed false rest

instance streamAttrsWellFormed_decidable : (behind : Bool) → (l : List StreamAttr) →
    Decidable (streamAttrsWellFormed behind l)
  | _, [] => inferInstanceAs (Decidable True)
  | behind, a :: rest =>
    have := streamAttrsWellFormed_decidable false rest
    inferInstanceAs (Decidable (a.wellFormed behind ∧ streamAttrsWellFormed false rest))

/-- In the words of the spec, a group tag of a byte stream with the attributes
that follow it up to the next group tag or the end tag. -/
structure StreamGroup where
  tag : Nat
  attrs : List StreamAttr
  deriving DecidableEq

/-- The bytes of the groups of a stream: each group tag and its attributes. -/
def streamGroupsBytes : List StreamGroup → List Nat
  | [] => []
  | g :: rest => [g.tag] ++ streamAttrsBytes g.attrs ++ streamGroupsBytes rest

/-- Well-formed groups: every group tag is one of the delimiter tags
`0x01 .. 0x0f` other than the end tag and is directly followed by an
attribute, and the attributes are well-formed. -/
def streamGroupsWellFormed : List StreamGroup → Prop
  | [] => True
  | g :: rest =>
    (IPP_TAG_ZERO < g.tag ∧ g.tag < IPP_TAG_UNSUPPORTED_VALUE ∧ g.tag ≠ IPP_TAG_END) ∧
      g.attrs ≠ [] ∧ streamAttrsWellFormed true g.attrs ∧ streamGroupsWellFormed rest

instance streamGroupsWellFormed_decidable : (l : List StreamGroup) →
    Decidable (streamGroupsWellFormed l)
  | [] => inferInstanceAs (Decidable True)
  | g :: rest =>
    have := streamGroupsWellFormed_decidable rest
    inferInstanceAs (Decidable (
      (IPP_TAG_ZERO < g.tag ∧ g.tag < IPP_TAG_UNSUPPORTED_VALUE ∧ g.tag ≠ IPP_TAG_END) ∧
      g.attrs ≠ [] ∧ streamAttrsWellFormed true g.attrs ∧ streamGroupsWellFormed rest))

/-- In the words of the spec, a byte stream: the seven header bytes behind the
major version 1 (minor version, two bytes of operation or status code, four
bytes of request id), the attributes that precede the first group tag, and
the groups.  The end tag closes the stream. -/
structure IppStream where
  minor : Nat
  op0 : Nat
  op1 : Nat
  id0 : Nat
  id1 : Nat
  id2 : Nat
  id3 : Nat
  lead : List StreamAttr
  groups : List StreamGroup
  deriving DecidableEq

/-- The bytes of a stream: the header of eight bytes with major version 1, the
attributes and group tags, one end tag, and nothing after it. -/
def IppStream.bytes (S : IppStream) : List Nat :=
  1 :: S.minor :: S.op0 :: S.op1 :: S.id0 :: S.id1 :: S.id2 :: S.id3 ::
    (streamAttrsBytes S.lead ++ streamGroupsBytes S.groups ++ [IPP_TAG_END])

/-- A well-formed stream: the header bytes are bytes, and the attributes and
groups are well-formed. -/
def IppStream.wellFormed (S : IppStream) : Prop :=
  (S.minor < 256 ∧ S.op0 < 256 ∧ S.op1 < 256 ∧ S.id0 < 256 ∧ S.id1 < 256 ∧ S.id2 < 256 ∧
    S.id3 < 256) ∧ streamAttrsWellFormed false S.lead ∧ streamGroupsWellFormed S.groups

instance IppStream.wellFormed_decidable (S : IppStream) : Decidable S.wellFormed :=
  inferInstanceAs (Decidable (
    (S.minor < 256 ∧ S.op0 < 256 ∧ S.op1 < 256 ∧ S.id0 < 256 ∧ S.id1 < 256 ∧ S.id2 < 256 ∧
      S.id3 < 256) ∧ streamAttrsWellFormed false S.lead ∧ streamGroupsWellFormed S.groups))

/-- The catalog node for an attribute of a stream read under the group tag
`group`. -/
def StreamAttr.attr (group : Nat) (a : StreamAttr) : ipp_attribute_t :=
  { group_tag := group, value_tag := a.value_tag, name := some a.name, values := a.values }

/-- The catalog nodes for the groups of a stream, `curtag` being the group tag
before them: a group tag equal to the current one stands for a separator. -/
def streamGroupsCatalog : Nat → List StreamGroup → List ipp_attribute_t
  | _, [] => []
  | curtag, g :: rest =>
    (if curtag = g.tag then [separator] else []) ++ g.attrs.map (StreamAttr.attr g.tag) ++
      streamGroupsCatalog g.tag rest

/-- The catalog a well-formed stream stands for. -/
def IppStream.catalog (S : IppStream) : ipp_t :=
  { version0 := 1, version1 := S.minor, op_status := (be16 S.op0 S.op1 : Nat),
    request_id := be32 S.id0 S.id1 S.id2 S.id3,
    attrs := S.lead.map (StreamAttr.attr IPP_TAG_ZERO) ++
      streamGroupsCatalog IPP_TAG_ZERO S.groups }

/-- The stream of the round-trip scenario of the spec: the operation group
with `attributes-charset`, and the job group with `copies`, `job-sheets` and
the resolution. -/
def roundTripStream : IppStream :=
  { minor := 0, op0 := 0, op1 := 2, id0 := 0, id1 := 0, id2 := 0, id3 := 1
    lead := []
    groups :=
      [{ tag := IPP_TAG_OPERATION,
         attrs := [{ value_tag := IPP_TAG_CHARSET, name := ascii "attributes-charset",
                     values := [ipp_value_t.string none (ascii "utf-8")] }] },
       { tag := IPP_TAG_JOB,
         attrs := [{ value_tag := IPP_TAG_INTEGER, name := ascii "copies",
                     values := [ipp_value_t.integer 3] },
                   { value_tag := IPP_TAG_NAME, name := ascii "job-sheets",
                     values := [ipp_value_t.string none (ascii "standard"),
                                ipp_value_t.string none (ascii "none")] },
                   { value_tag := IPP_TAG_RESOLUTION, name := ascii "printer-resolution",
                     values := [ipp_value_t.resolution 300 600 IPP_RES_PER_INCH] }] }] }

/-- A stream whose attributes follow the header without a group tag, then the
job group given twice: the integer `a` = 5, the job group with the boolean
`b`, and the job group again with the keyword `c` = (`x`, `y`). -/
def leadStream : IppStream :=
  { minor := 1, op0 := 0, op1 := 2, id0 := 0, id1 := 0, id2 := 0, id3 := 1
    lead := [{ value_tag := IPP_TAG_INTEGER, name := [97], values := [ipp_value_t.integer 5] }]
    groups :=
      [{ tag := IPP_TAG_JOB,
         attrs := [{ value_tag := IPP_TAG_BOOLEAN, name := [98],
                     values := [ipp_value_t.boolean 1] }] },
       { tag := IPP_TAG_JOB,
         attrs := [{ value_tag := IPP_TAG_KEYWORD, name := [99],
                     values := [ipp_value_t.string none [120],
                                ipp_value_t.string none [121]] }] }] }

/-! ### `CancelJobs`, `CleanJobs` and `SetJobHoldUntil` -/

/-- The loop of `CancelJobs(dest)`: `cur` is the list from the node `current`
on.  A job of the destination is cancelled with `purge = 1` and the scan starts
again at the head of the list; any other job is stepped over.  The result is
`none` when `fuel` rounds do not reach the end of the list. -/
def CancelJobsLoop (now : Int) (dest : String) : Nat → Sched → List job_t → Option Sched
  | 0, _, _ => none
  | _ + 1, s, [] => some s
  | fuel + 1, s, current :: rest =>
    if current.dest = dest then
      CancelJobsLoop now dest fuel (CancelJob now s current.id true)
        (CancelJob now s current.id true).Jobs
    else CancelJobsLoop now dest fuel s rest

/-- A number of rounds that is enough for the loop of `CancelJobs` on a list
of `n` jobs: `n` rounds up to a removal or to the end, plus the rounds after
the restart on the `n - 1` jobs left. -/
def loopFuel : Nat → Nat
  | 0 => 1
  | n + 1 => loopFuel n + n + 1

/-- The function `CancelJobs(dest)`: the cancellation loop, then `CheckJobs`. -/
def CancelJobs (env : Env) (s : Sched) (dest : String) : Option Sched :=
  (CancelJobsLoop env.time dest (s.Jobs.length + loopFuel s.Jobs.length) s s.Jobs).map
    (CheckJobs env)

/-- The test `job->state->values[0].integer >= IPP_JOB_CANCELLED` of
`CleanJobs`. -/
def isTerminal (j : job_t) : Bool :=
  j.state.any (fun st => decide (st ≥ IPP_JOB_CANCELLED))

/-- The loop of `CleanJobs` over the jobs given by their ids in list order
(`next` is saved before each round, and a round removes at most its own job;
the ids in the list are distinct).  The loop ends when `NumJobs >= MaxJobs`
fails. -/
def CleanJobsLoop (now : Int) : List Int → Sched → Sched
  | [], s => s
  | id :: rest, s =>
    if s.NumJobs ≥ s.MaxJobs then
      CleanJobsLoop now rest
        (if (FindJob s.Jobs id).any isTerminal then CancelJob now s id true else s)
    else s

/-- The function `CleanJobs()`. -/
def CleanJobs (now : Int) (s : Sched) : Sched :=
  if s.MaxJobs = 0 then s else CleanJobsLoop now (s.Jobs.map (fun j => j.id)) s

/-- The fields of `struct tm` that `SetJobHoldUntil` reads. -/
structure tm where
  tm_sec : Int
  tm_min : Int
  tm_hour : Int
  tm_wday : Int
  deriving DecidableEq

/-- The C library calls of `SetJobHoldUntil`, whose code is not among the
sources: `time(NULL)`, `localtime`, `gmtime`, and
`sscanf(when, "%d:%d:%d", &hour, &minute, &second)`, given by the list of the
values it converts (its return value is the length of the list). -/
structure Clock where
  time : Int
  localtime : Int → tm
  gmtime : Int → tm
  sscanf : String → List Int

/-- The seconds `((hh - tm_hour) * 60 + mm - tm_min) * 60 + ss - tm_sec` that
`SetJobHoldUntil` adds to the current time (`time_t` and `int` are not wrapped
here). -/
def secondsUntil (hh mm ss : Int) (d : tm) : Int :=
  ((hh - d.tm_hour) * 60 + mm - d.tm_min) * 60 + ss - d.tm_sec

/-- The value `SetJobHoldUntil` stores in `job->hold_until`, `none` when no
branch assigns it. -/
def holdUntil (clock : Clock) (when : String) : Option Int :=
  let curtime := clock.time
  if when = "indefinite" then some 0
  else if when = "day-time" then
    let curdate := clock.localtime curtime
    if curdate.tm_hour < 18 then some curtime
    else some (curtime + secondsUntil 29 59 60 curdate)
  else if when = "evening" ∨ when = "night" then
    let curdate := clock.localtime curtime
    if curdate.tm_hour < 6 ∨ curdate.tm_hour ≥ 18 then some curtime
    else some (curtime + secondsUntil 17 59 60 curdate)
  else if when = "second-shift" then
    let curdate := clock.localtime curtime
    if curdate.tm_hour ≥ 16 then some curtime
    else some (curtime + secondsUntil 15 59 60 curdate)
  else if when = "third-shift" then
    let curdate := clock.localtime curtime
    if curdate.tm_hour < 8 then some curtime
    else some (curtime + secondsUntil 23 59 60 curdate)
  else if when = "weekend" then
    let curdate := clock.localtime curtime
    if curdate.tm_wday = 0 ∨ curdate.tm_wday = 6 then some curtime
    else
      some (curtime +
        ((((5 - curdate.tm_wday) * 24 + (17 - curdate.tm_hour)) * 60 + 59 - curdate.tm_min) * 60
          + 60 - curdate.tm_sec))
  else
    match clock.sscanf when with
    | hour :: minute :: more =>
      let second := more.headD 0
      let curdate := clock.gmtime curtime
      let hold := curtime + secondsUntil hour minute second curdate
      if hold < curtime then some (hold + 24 * 60 * 60 * 60) else some hold
    | _ => none

/-- The function `SetJobHoldUntil(id, when)`. -/
def SetJobHoldUntil (clock : Clock) (s : Sched) (id : Int) (when : String) : Sched :=
  match FindJob s.Jobs id with
  | none => s
  | some _ =>
    match holdUntil clock when with
    | some t => s.modJob id (fun j => { j with hold_until := t })
    | none => s

/-- Scenario 3 of the spec: job 7 with three files is pending between the jobs
5 and 9; job history is not retained and the spool directory is
`/var/spool/cups`. -/
def purgeStore : Sched :=
  { Jobs := [{ id := 5, priority := 60, dest := "lp", state := some IPP_JOB_PENDING,
               num_files := 1, filetypes := [textPlain] },
             { id := 7, priority := 50, dest := "lp", state := some IPP_JOB_PENDING,
               num_files := 3, filetypes := [textPlain, textPlain, textPlain] },
             { id := 9, priority := 50, dest := "lp2", state := some IPP_JOB_HELD,
               num_files := 1, filetypes := [textPlain] }]
    NumJobs := 3
    NextJobId := 10
    JobHistory := false
    RequestRoot := "/var/spool/cups" }

/-- The store `purgeStore` with job history retained. -/
def historyStore : Sched :=
  { purgeStore with JobHistory := true }

/-- A store at its cap: job 2 (priority 80) was queued after job 1
(priority 50) and stands before it; both are completed, and `MaxJobs` equals
the number of jobs. -/
def cleanStore : Sched :=
  { Jobs := [{ id := 2, priority := 80, dest := "lp", state := some IPP_JOB_COMPLETED,
               num_files := 1, filetypes := [textPlain] },
             { id := 1, priority := 50, dest := "lp", state := some IPP_JOB_COMPLETED,
               num_files := 1, filetypes := [textPlain] }]
    NumJobs := 2
    NextJobId := 3
    MaxJobs := 2
    RequestRoot := "/var/spool/cups" }

/-- The broken-down time of `t` seconds after 1970-01-01 00:00:00 (a
Thursday, `tm_wday = 4`) in a time zone without offset, for `t ≥ 0`. -/
def gmtimePosix (t : Int) : tm :=
  { tm_sec := t % 60
    tm_min := t / 60 % 60
    tm_hour := t / 3600 % 24
    tm_wday := (t / 86400 + 4) % 7 }

/-- The digits a `%d` conversion consumes, added to the value `acc`. -/
def scanDigits : List Char → Nat → Nat × List Char
  | [], acc => (acc, [])
  | c :: cs, acc =>
    if c.isDigit then scanDigits cs (acc * 10 + (c.toNat - 48)) else (acc, c :: cs)

/-- One `%d` conversion of `sscanf`: white space is skipped, then an optional
sign and at least one digit are read; the result is the value and the rest of
the input, `none` when the conversion fails. -/
def scanInt (input : List Char) : Option (Int × List Char) :=
  let cs := input.dropWhile Char.isWhitespace
  let signed : Bool × List Char :=
    match cs with
    | '-' :: r => (true, r)
    | '+' :: r => (false, r)
    | _ => (false, cs)
  match signed.2 with
  | [] => none
  | c :: _ =>
    if c.isDigit then
      let r := scanDigits signed.2 0
      some (if signed.1 then -(r.1 : Int) else (r.1 : Int), r.2)
    else none

/-- The values `sscanf(when, "%d:%d:%d", ...)` converts, in order. -/
def scanHMS (when : String) : List Int :=
  match scanInt when.data with
  | none => []
  | some (hour, ':' :: r1) =>
    match scanInt r1 with
    | none => [hour]
    | some (minute, ':' :: r2) =>
      match scanInt r2 with
      | none => [hour, minute]
      | some (second, _) => [hour, minute, second]
    | some (minute, _) => [hour, minute]
  | some (hour, _) => [hour]

/-- The clock of a host whose local time zone has no offset, at `now` seconds
after 1970-01-01 00:00:00. -/
def utcClock (now : Int) : Clock :=
  { time := now
    localtime := gmtimePosix
    gmtime := gmtimePosix
    sscanf := scanHMS }

/-- The value of `hold_until` of job `id` in the store, `none` when there is
no such job. -/
def holdOf (s : Sched) (id : Int) : Option Int :=
  (FindJob s.Jobs id).map (fun j => j.hold_until)

/-- The seconds since local midnight of a broken-down time. -/
def secondsOfDay (d : tm) : Int :=
  3600 * d.tm_hour + 60 * d.tm_min + d.tm_sec

/-- The fields of a broken-down time are in the ranges of `struct tm`
(`tm_sec` up to 60 for a leap second). -/
def tmInRange (d : tm) : Prop :=
  0 ≤ d.tm_sec ∧ d.tm_sec ≤ 60 ∧ 0 ≤ d.tm_min ∧ d.tm_min ≤ 59 ∧
    0 ≤ d.tm_hour ∧ d.tm_hour ≤ 23 ∧ 0 ≤ d.tm_wday ∧ d.tm_wday ≤ 6

instance tmInRange_decidable (d : tm) : Decidable (tmInRange d) :=
  inferInstanceAs (Decidable (0 ≤ d.tm_sec ∧ d.tm_sec ≤ 60 ∧ 0 ≤ d.tm_min ∧ d.tm_min ≤ 59 ∧
    0 ≤ d.tm_hour ∧ d.tm_hour ≤ 23 ∧ 0 ≤ d.tm_wday ∧ d.tm_wday ≤ 6))

/-! ### `CheckJobs` frames, status lines of `UpdateJob`, and `LoadAllJobs` -/

/-- What an operation on job `id` leaves alone in the job list: the records
of the jobs with another id; and it adds no record (the ids after it are a
sublist of the ids before it). -/
def OnlyJob (id : Int) (s t : Sched) : Prop :=
  (∀ k, k ≠ id → FindJob t.Jobs k = FindJob s.Jobs k) ∧
    (t.Jobs.map (fun j => j.id)).Sublist (s.Jobs.map (fun j => j.id))

/-- The test of `CheckJobs` on a held job: the hold time is set and has
passed. -/
def holdExpired (now : Int) (j : job_t) : Prop :=
  j.state = some IPP_JOB_HELD ∧ j.hold_until ≠ 0 ∧ j.hold_until < now

instance holdExpired_decidable (now : Int) (j : job_t) : Decidable (holdExpired now j) :=
  inferInstanceAs (Decidable (j.state = some IPP_JOB_HELD ∧ j.hold_until ≠ 0 ∧ j.hold_until < now))

/-- No record with the id `x` is in state held. -/
def notHeld (x : Int) (s : Sched) : Prop :=
  ∀ j ∈ s.Jobs, j.id = x → j.state ≠ some IPP_JOB_HELD

/-- The store after `CheckJobs` was called once for each of the given
collaborators (and times), in order. -/
def checkRounds (s : Sched) : List Env → Sched
  | [] => s
  | env :: envs => checkRounds (CheckJobs env s) envs

/-- A store for the idle local printer `lp`: job 4 is held indefinitely, job 6
is held until time 500, job 8 is pending for the destination `gone`, which
the collaborators of the scenarios do not know, and job 9 is stopped. -/
def heldStore : Sched :=
  { Jobs := [{ id := 4, priority := 50, dest := "lp", state := some IPP_JOB_HELD,
               num_files := 1, filetypes := [textPlain] },
             { id := 6, priority := 50, dest := "lp", state := some IPP_JOB_HELD,
               hold_until := 500, num_files := 1, filetypes := [textPlain] },
             { id := 8, priority := 50, dest := "gone", state := some IPP_JOB_PENDING,
               num_files := 1, filetypes := [textPlain] },
             { id := 9, priority := 50, dest := "lp", state := some IPP_JOB_STOPPED,
               num_files := 1, filetypes := [textPlain] }]
    NumJobs := 4
    NextJobId := 10
    RequestRoot := "/var/spool/cups"
    Printers := [{ name := "lp", type := 0, state := IPP_PRINTER_IDLE, filetype := postscript }] }

/-- Modelled from the spec: the severities of a status line, the values of
`loglevel` in `UpdateJob` (the constants `L_EMERG` to `L_PAGE` are in
`conf.h`, not among the sources). -/
inductive loglevel
  | L_EMERG
  | L_ALERT
  | L_CRIT
  | L_ERROR
  | L_WARN
  | L_NOTICE
  | L_INFO
  | L_DEBUG
  | L_DEBUG2
  | L_PAGE
  deriving DecidableEq

/-- The test `strncmp(s, lit, n) == 0` for a C string `s` and a literal of at
least `n` characters: the first `n` characters of both are the same. -/
def strncmpEq (s : List Nat) (lit : String) (n : Nat) : Bool :=
  s.take n = (ascii lit).take n

/-- The function `isspace` in the C locale: space, and the control characters
from horizontal tab to carriage return. -/
def isspace (c : Nat) : Bool :=
  c = 32 ∨ (9 ≤ c ∧ c ≤ 13)

/-- The part of the line loop of `UpdateJob` that finds the logging level
and the message of the line in `job->buffer` (a C string, the line without
its newline): the chain of `strncmp` tests, then the loop that skips leading
white space of the message. -/
def classifyLine (buffer : List Nat) : loglevel × List Nat :=
  let found : loglevel × List Nat :=
    if strncmpEq buffer "EMERG:" 6 then (loglevel.L_EMERG, buffer.drop 6)
    else if strncmpEq buffer "ALERT:" 6 then (loglevel.L_ALERT, buffer.drop 6)
    else if strncmpEq buffer "CRIT:" 5 then (loglevel.L_CRIT, buffer.drop 5)
    else if strncmpEq buffer "ERROR:" 6 then (loglevel.L_ERROR, buffer.drop 6)
    else if strncmpEq buffer "WARNING:" 8 then (loglevel.L_WARN, buffer.drop 8)
    else if strncmpEq buffer "NOTICE:" 6 then (loglevel.L_NOTICE, buffer.drop 6)
    else if strncmpEq buffer "INFO:" 5 then (loglevel.L_INFO, buffer.drop 5)
    else if strncmpEq buffer "DEBUG:" 6 then (loglevel.L_DEBUG, buffer.drop 6)
    else if strncmpEq buffer "DEBUG2:" 7 then (loglevel.L_DEBUG2, buffer.drop 7)
    else if strncmpEq buffer "PAGE:" 5 then (loglevel.L_PAGE, buffer.drop 5)
    else (loglevel.L_DEBUG, buffer)
  (found.1, found.2.dropWhile isspace)

/-- Modelled from the spec: `ippFindAttribute(ipp, name, type)` of
`cups/ipp.c` (not among the sources): the first attribute of that name whose
value tag is `type`, of any value tag for `IPP_TAG_ZERO`. -/
def ippFindAttribute (ipp : ipp_t) (name : String) (type : Nat) : Option ipp_attribute_t :=
  ipp.attrs.find? (fun a => a.name = some (ascii name) ∧ (a.value_tag = type ∨ type = IPP_TAG_ZERO))

/-- The member `attr->values[0].integer`, `none` where the attribute has no
value or the integer is not the member stored. -/
def valueInteger (attr : ipp_attribute_t) : Option Int :=
  match attr.values with
  | ipp_value_t.integer v :: _ => some v
  | _ => none

/-- The member `attr->values[0].string.text`, `none` where the attribute has
no value or the string is not the member stored. -/
def valueText (attr : ipp_attribute_t) : Option (List Nat) :=
  match attr.values with
  | ipp_value_t.string _ text :: _ => some text
  | _ => none

/-- The characters of a C string given by its bytes. -/
def textOf (bytes : List Nat) : String :=
  String.mk (bytes.map Char.ofNat)

/-- The function `atoi`: the value of the digits at the start of the string
(after white space and a sign), 0 when there are none. -/
def atoi (s : List Char) : Int :=
  match scanInt s with
  | some (v, _) => v
  | none => 0

/-- The collaborators of `LoadAllJobs` whose code is not among the sources:
`httpSeparate`, given by the host and the resource it stores for a URI, and
`ValidateDest(host, resource, &dtype)` over the printers and classes known,
given by the destination name it returns and the kind it stores (`none` for
`NULL`, `dtype` then stays as `calloc` left it). -/
structure LoadEnv where
  httpSeparate : List Nat → String × String
  ValidateDest : List printer_t → String → String → Option (String × Nat)

/-- Modelled from the spec: the record `AddClass(name)` or `AddPrinter(name)`
(`scheduler/classes.c` and `scheduler/printers.c`, not among the sources)
registers, after the assignments `LoadAllJobs` makes to it: state stopped and
the remote bit set. -/
def placeholderPrinter (name : String) (isClass : Bool) : printer_t :=
  { name := strlcpy name IPP_MAX_NAME
    type := (if isClass then CUPS_PRINTER_CLASS else 0) ||| CUPS_PRINTER_REMOTE
    state := IPP_PRINTER_STOPPED }

/-- The value of the job-state attribute of a catalog read from a control
file: what `job->state->values[0].integer` is after `job->state` is set. -/
def savedState (attrs : ipp_t) : Option Int :=
  (ippFindAttribute attrs "job-state" IPP_TAG_ENUM).bind valueInteger

/-- The attribute `LoadAllJobs` takes the hold time of a held job from:
job-hold-until as a keyword, or else as a name. -/
def holdAttr (attrs : ipp_t) : Option ipp_attribute_t :=
  match ippFindAttribute attrs "job-hold-until" IPP_TAG_KEYWORD with
  | some attr => some attr
  | none => ippFindAttribute attrs "job-hold-until" IPP_TAG_NAME

/-- The insertion loop of `LoadAllJobs`: the job is linked in before the first
job of lower priority, or of the same priority and a larger id. -/
def loadInsert (job : job_t) : List job_t → List job_t
  | [] => [job]
  | current :: rest =>
    if job.priority > current.priority then job :: current :: rest
    else if job.priority = current.priority ∧ job.id < current.id then job :: current :: rest
    else current :: loadInsert job rest

/-- The part of one round of the first loop of `LoadAllJobs` between
`ipp_read_file` and the insertion, for the catalog `attrs` read from the
control file of job `id`: the record built and the printers known afterwards,
`some none` where the round ends with `unlink(filename); continue;`, and `none`
where the C code goes through a `NULL` pointer (a missing job-priority,
job-name or job-originating-user-name attribute).  `calloc` and `ippNew` are
taken to succeed.  The placeholder for an unknown destination is put at the end
of the printer table. -/
def readControl (lenv : LoadEnv) (printers : List printer_t) (id : Int) (attrs : ipp_t) :
    Option (Option (job_t × List printer_t)) :=
  match ippFindAttribute attrs "job-printer-uri" IPP_TAG_URI with
  | none => some none
  | some uriAttr =>
    match valueText uriAttr with
    | none => none
    | some uri =>
      let host := (lenv.httpSeparate uri).1
      let resource := (lenv.httpSeparate uri).2
      let placed : Option (String × Nat) × List printer_t :=
        match lenv.ValidateDest printers host resource with
        | some found => (some found, printers)
        | none =>
          if (savedState attrs).any (fun st => decide (st ≤ IPP_JOB_PROCESSING)) then
            let p :=
              if resource.data.take 9 = "/classes/".data then
                placeholderPrinter (String.mk (resource.data.drop 9)) true
              else placeholderPrinter (String.mk (resource.data.drop 10)) false
            (some (p.name, 0), printers ++ [p])
          else (none, printers)
      match placed.1 with
      | none => some none
      | some (dest, dtype) =>
        match (ippFindAttribute attrs "job-priority" IPP_TAG_INTEGER).bind valueInteger,
              (ippFindAttribute attrs "job-name" IPP_TAG_NAME).bind valueText,
              (ippFindAttribute attrs "job-originating-user-name" IPP_TAG_NAME).bind valueText with
        | some priority, some title, some username =>
          some (some
            ({ id := id, priority := priority, dest := strlcpy dest IPP_MAX_NAME,
               state := savedState attrs,
               sheets := (ippFindAttribute attrs "job-media-sheets-completed"
                 IPP_TAG_INTEGER).bind valueInteger,
               username := strlcpy (textOf username) IPP_MAX_NAME,
               title := strlcpy (textOf title) IPP_MAX_NAME, dtype := dtype, attrs := attrs },
             placed.2))
        | _, _, _ => none

/-- The end of one round of the first loop of `LoadAllJobs`: the insertion,
`NumJobs ++`, and the hold time and state of the new job.  The assignments to
`job->state->values[0].integer` go through the pointer `job`, so they are made
on the record that is linked in; `SetJobHoldUntil` looks the job up by its id.
The result is `none` where `job->state` is `NULL`. -/
def linkJob (clock : Clock) (s : Sched) (job : job_t) : Option Sched :=
  match job.state with
  | none => none
  | some st =>
    if st = IPP_JOB_HELD then
      match holdAttr job.attrs with
      | none =>
        some { s with Jobs := loadInsert { job with state := some IPP_JOB_PENDING } s.Jobs,
                      NumJobs := s.NumJobs + 1 }
      | some attr =>
        match valueText attr with
        | none => none
        | some text =>
          some (SetJobHoldUntil clock
            { s with Jobs := loadInsert job s.Jobs, NumJobs := s.NumJobs + 1 } job.id (textOf text))
    else if st = IPP_JOB_PROCESSING then
      some { s with Jobs := loadInsert { job with state := some IPP_JOB_PENDING } s.Jobs,
                    NumJobs := s.NumJobs + 1 }
    else some { s with Jobs := loadInsert job s.Jobs, NumJobs := s.NumJobs + 1 }

/-- One round of the first loop of `LoadAllJobs`, for the directory entry
`d_name` (six characters, the first a `c`) of a file with the given contents
(`none` for a file that cannot be opened). -/
def loadControlFile (lenv : LoadEnv) (clock : Clock) (s : Sched) (d_name : String)
    (contents : Option (List Nat)) : Option Sched :=
  let id := atoi (d_name.data.drop 1)
  let s1 := if id ≥ s.NextJobId then { s with NextJobId := id + 1 } else s
  let skip := s1.emit [Event.unlink (s.RequestRoot ++ "/" ++ d_name)]
  match contents with
  | none => some skip
  | some file =>
    match ipp_read_file file ippNew with
    | none => none
    | some (state, attrs) =>
      if state ≠ ipp_state_t.IPP_DATA then some skip
      else
        match readControl lenv s1.Printers id attrs with
        | none => none
        | some none => some skip
        | some (some (job, printers)) => linkJob clock { s1 with Printers := printers } job

/-- The first loop of `LoadAllJobs`, over the directory entries in the order
`readdir` gives them, each with the contents of its file: the rounds for the
entries of six characters that start with `c`.  The result is `none` where the
behaviour of the C code is undefined.  (The second loop, over the data files,
assigns `num_files` and `filetypes` only.) -/
def loadControlFiles (lenv : LoadEnv) (clock : Clock) :
    List (String × Option (List Nat)) → Sched → Option Sched
  | [], s => some s
  | (d_name, contents) :: rest, s =>
    if d_name.length = 6 ∧ d_name.data.head? = some 'c' then
      match loadControlFile lenv clock s d_name contents with
      | none => none
      | some t => loadControlFiles lenv clock rest t
    else loadControlFiles lenv clock rest s

/-- What the spec says of the state of a job loaded from a control file: its
catalog has a job-state `saved`, and the job is pending if `saved` is
processing, pending if `saved` is held and the catalog has no job-hold-until
attribute, and in state `saved` otherwise. -/
def LoadedAsSaved (j : job_t) : Prop :=
  ∃ saved, savedState j.attrs = some saved ∧
    j.state = some (if saved = IPP_JOB_PROCESSING then IPP_JOB_PENDING
                    else if saved = IPP_JOB_HELD ∧ holdAttr j.attrs = none then IPP_JOB_PENDING
                    else saved)

/-- What the spec says of the hold time of a job loaded in state held from a
control file with a job-hold-until attribute: it is the time `SetJobHoldUntil`
computes from the value of the attribute (0 where it assigns none). -/
def HoldAsSaved (clock : Clock) (j : job_t) : Prop :=
  ∀ attr text, savedState j.attrs = some IPP_JOB_HELD → holdAttr j.attrs = some attr →
    valueText attr = some text → j.hold_until = (holdUntil clock (textOf text)).getD 0

/-- The bytes of a control file that holds the catalog `C`. -/
def controlBytes (C : ipp_t) : List Nat :=
  headerBytes C ++ encAttrs IPP_TAG_ZERO C.attrs

/-- The catalog of a control file of the scenarios: a job of priority 50 for
the printer `lp` saved in the given state, with the given job-hold-until
keyword if any. -/
def controlCatalog (state : Int) (hold : Option String) : ipp_t :=
  { version0 := 1, version1 := 0, op_status := 0, request_id := 1
    attrs :=
      [{ group_tag := IPP_TAG_JOB, value_tag := IPP_TAG_URI,
         name := some (ascii "job-printer-uri"),
         values := [ipp_value_t.string none (ascii "ipp://localhost/printers/lp")] },
       { group_tag := IPP_TAG_JOB, value_tag := IPP_TAG_NAME,
         name := some (ascii "job-originating-user-name"),
         values := [ipp_value_t.string none (ascii "ann")] },
       { group_tag := IPP_TAG_JOB, value_tag := IPP_TAG_NAME,
         name := some (ascii "job-name"), values := [ipp_value_t.string none (ascii "memo")] },
       { group_tag := IPP_TAG_JOB, value_tag := IPP_TAG_INTEGER,
         name := some (ascii "job-priority"), values := [ipp_value_t.integer 50] },
       { group_tag := IPP_TAG_JOB, value_tag := IPP_TAG_ENUM,
         name := some (ascii "job-state"), values := [ipp_value_t.integer state] }] ++
      (match hold with
       | some keyword =>
         [{ group_tag := IPP_TAG_JOB, value_tag := IPP_TAG_KEYWORD,
            name := some (ascii "job-hold-until"),
            values := [ipp_value_t.string none (ascii keyword)] }]
       | none => []) }

/-- Collaborators of the loading scenarios: the URI of the printer `lp` on
this host, which is a known local printer. -/
def loadEnv : LoadEnv :=
  { httpSeparate := fun uri =>
      if uri = ascii "ipp://localhost/printers/lp" then ("localhost", "/printers/lp")
      else ("", "")
    ValidateDest := fun _ _ resource => if resource = "/printers/lp" then some ("lp", 0) else none }

/-- The spool directory of the loading scenario: job 1 was saved while
processing, job 2 held with job-hold-until `day-time`, job 3 held without a
job-hold-until attribute, job 4 completed. -/
def spoolFiles : List (String × Option (List Nat)) :=
  [("c00001", some (controlBytes (controlCatalog IPP_JOB_PROCESSING none))),
   ("c00002", some (controlBytes (controlCatalog IPP_JOB_HELD (some "day-time")))),
   ("c00003", some (controlBytes (controlCatalog IPP_JOB_HELD none))),
   ("c00004", some (controlBytes (controlCatalog IPP_JOB_COMPLETED none)))]

/-- The store after the first loop of `LoadAllJobs` over `spoolFiles` at
20:00:00, started from the store `lpStore` without jobs. -/
def loadedStore : Sched :=
  (loadControlFiles loadEnv (utcClock 72000) spoolFiles lpStore).getD lpStore

/-! ### Pruned filter chains, options, templates, status lines and resources -/

/-- The collaborators of the scenarios when `pipe(statusfds)` fails. -/
def pipeFailEnv : Env :=
  { scenarioEnv with sys := fun _ => { statusfd := none } }

/-- The collaborators of the scenarios when the second `start_process` call
fails (it returns 0). -/
def forkFailEnv : Env :=
  { scenarioEnv with sys := fun _ => { pids := [101, 0, 103] } }

/-- The collaborators of the scenarios when `malloc` of the status buffer
fails. -/
def mallocFailEnv : Env :=
  { scenarioEnv with sys := fun _ => { malloc_ok := false } }

/-- Collaborators of the unknown-destination scenario: the URI is split as in
`loadEnv`, and no printer or class is known under the name. -/
def unknownEnv : LoadEnv :=
  { loadEnv with ValidateDest := fun _ _ _ => none }

/-- The tests of one round of the loop of `StartJob` over
`current->attrs->attrs` that builds the options string: whether the round
reaches the statements under "Otherwise add them to the list...", which append
the attribute to `options`.  `remote` is `printer->type & CUPS_PRINTER_REMOTE`
and `banner_page` the flag computed before the loop.  The result is `none` for
an attribute whose `name` is `NULL`, which `strcmp` is applied to. -/
def optionAdded (remote banner_page : Bool) (attr : ipp_attribute_t) : Option Bool :=
  match attr.name with
  | none => none
  | some name =>
    if name = ascii "copies" ∧ attr.value_tag = IPP_TAG_INTEGER then some false
    else if name = ascii "job-name" ∧
        (attr.value_tag = IPP_TAG_NAME ∨ attr.value_tag = IPP_TAG_NAMELANG) then some false
    else if attr.group_tag = IPP_TAG_JOB then
      if attr.value_tag = IPP_TAG_MIMETYPE ∨ attr.value_tag = IPP_TAG_NAMELANG ∨
          attr.value_tag = IPP_TAG_TEXTLANG ∨ attr.value_tag = IPP_TAG_URI ∨
          attr.value_tag = IPP_TAG_URISCHEME then some false
      else if strncmpEq name "time-" 5 then some false
      else if strncmpEq name "job-" 4 ∧ remote = false then some false
      else if strncmpEq name "job-" 4 ∧ name ≠ ascii "job-billing" ∧
          name ≠ ascii "job-sheets" ∧ name ≠ ascii "job-hold-until" ∧
          name ≠ ascii "job-priority" then some false
      else if name = ascii "page-label" ∧ banner_page = true then some false
      else some true
    else some false

/-- The loop of `StartJob` that builds the options string, as the list of the
attributes it appends to `options`, in the order of the catalog.  (The text
appended for an attribute, its name and values cut to the size of `options`,
is not modelled.) -/
def optionAttrs (remote banner_page : Bool) : List ipp_attribute_t → Option (List ipp_attribute_t)
  | [] => some []
  | attr :: rest =>
    match optionAdded remote banner_page attr, optionAttrs remote banner_page rest with
    | some true, some added => some (attr :: added)
    | some false, some added => some added
    | _, _ => none

/-- The job attributes of the options scenario: job-priority, job-sheets,
job-billing, job-hold-until, job-originating-user-name, media,
time-at-creation and job-printer-uri, all in the job group. -/
def optionCatalog : List ipp_attribute_t :=
  [{ group_tag := IPP_TAG_JOB, value_tag := IPP_TAG_INTEGER,
     name := some (ascii "job-priority"), values := [ipp_value_t.integer 50] },
   { group_tag := IPP_TAG_JOB, value_tag := IPP_TAG_NAME,
     name := some (ascii "job-sheets"), values := [ipp_value_t.string none (ascii "none")] },
   { group_tag := IPP_TAG_JOB, value_tag := IPP_TAG_TEXT,
     name := some (ascii "job-billing"), values := [ipp_value_t.string none (ascii "dept7")] },
   { group_tag := IPP_TAG_JOB, value_tag := IPP_TAG_KEYWORD,
     name := some (ascii "job-hold-until"),
     values := [ipp_value_t.string none (ascii "no-hold")] },
   { group_tag := IPP_TAG_JOB, value_tag := IPP_TAG_NAME,
     name := some (ascii "job-originating-user-name"),
     values := [ipp_value_t.string none (ascii "ann")] },
   { group_tag := IPP_TAG_JOB, value_tag := IPP_TAG_KEYWORD,
     name := some (ascii "media"), values := [ipp_value_t.string none (ascii "a4")] },
   { group_tag := IPP_TAG_JOB, value_tag := IPP_TAG_INTEGER,
     name := some (ascii "time-at-creation"), values := [ipp_value_t.integer 1000] },
   { group_tag := IPP_TAG_JOB, value_tag := IPP_TAG_URI,
     name := some (ascii "job-printer-uri"),
     values := [ipp_value_t.string none (ascii "ipp://localhost/printers/lp")] }]

/-- The array `hexchars` of `ippSetCGIVars`. -/
def hexchars : List Nat := ascii "0123456789ABCDEF"

/-- The test `*rawptr & 128 || *rawptr == '%' || *rawptr == ' '` of the
resource loop of `ippSetCGIVars`. -/
def needsEscape (c : Nat) : Bool :=
  c &&& 128 ≠ 0 ∨ c = 37 ∨ c = 32

/-- The loop `for (rawptr = rawresource, resptr = resource; *rawptr;)` of
`ippSetCGIVars`: `raw` holds the bytes from `rawptr` to the NUL that ends
`rawresource`, `res` the bytes stored in `resource[0 .. resptr)`, and `size` is
`sizeof(resource)` (`HTTP_MAX_URI`, which is not defined in the sources).  In
the branch of the bytes to escape only `resptr` is advanced.  The result is
`none` when `fuel` rounds do not end the loop. -/
def rewriteResource (size : Nat) : Nat → List Nat → List Nat → Option (List Nat)
  | 0, _, _ => none
  | _ + 1, [], res => some res
  | fuel + 1, c :: raw, res =>
    if needsEscape c then
      if res.length + 3 < size then
        rewriteResource size fuel (c :: raw)
          (res ++ [37, hexchars.getD ((c >>> 4) &&& 15) 0, hexchars.getD (c &&& 15) 0])
      else rewriteResource size fuel (c :: raw) res
    else if res.length + 1 < size then rewriteResource size fuel raw (res ++ [c])
    else rewriteResource size fuel (c :: raw) res

/-- The test `strchr("}]<>=! \t\n", ch)` of `ippGetAttributes`: the nine
characters of the literal and the NUL that ends it, which `strchr` finds too. -/
def endsName (ch : Nat) : Bool :=
  ch ∈ [125, 93, 60, 62, 61, 33, 32, 9, 10, 0]

/-- The loop "Grab the name" of `ippGetAttributes` on the rest of the file:
`name` is `name[0 .. nameptr)`.  It yields the name stored and what is left of
the file behind the character that ended the loop.  An underscore is stored
as a hyphen, and a character that does not fit the 255 bytes of `name` is
dropped. -/
def grabName : List Nat → List Nat → List Nat × List Nat
  | [], name => (name, [])
  | ch :: rest, name =>
    if endsName ch then (name, rest)
    else if name ≠ [] ∧ ch = 63 then (name, rest)
    else if name.length < 254 then grabName rest (name ++ [if ch = 95 then 45 else ch])
    else grabName rest name

/-- The loop `while ((ch = getc(in)) != EOF)` of `ippGetAttributes` on the
rest of the file, `attrs` being `attrs[0 .. num_attrs)`: a backslash takes
the next character with it, an opening brace (while fewer than 1000 names are
stored) grabs a name, which is stored unless `strcmp` finds it in `attrs`.
The result is `none` when `fuel` rounds do not end the loop. -/
def scanTemplate : Nat → List Nat → List (List Nat) → Option (List (List Nat))
  | 0, _, _ => none
  | _ + 1, [], attrs => some attrs
  | fuel + 1, ch :: rest, attrs =>
    if ch = 92 then scanTemplate fuel (rest.drop 1) attrs
    else if ch = 123 ∧ attrs.length < 1000 then
      scanTemplate fuel (grabName rest []).2
        (if (grabName rest []).1 ∈ attrs then attrs else attrs ++ [(grabName rest []).1])
    else scanTemplate fuel rest attrs

/-- Modelled from the spec: `ippAddStrings(request, group, type, name,
num_values, NULL, values)` of `cups/ipp.c` (not among the sources) appends one
attribute with the given strings as its values. -/
def ippAddStrings (request : ipp_t) (group type : Nat) (name : String)
    (values : List (List Nat)) : ipp_t :=
  { request with attrs := request.attrs ++
      [{ group_tag := group, value_tag := type, name := some (ascii name),
         values := values.map (fun v => ipp_value_t.string none v) }] }

/-- The function `ippGetAttributes(request, directory, tmpl, lang)` for the
contents of the template file it opens, `none` when `fopen` fails.  The loop
over the file gets one round for each byte and one for the end of the file. -/
def ippGetAttributes (request : ipp_t) (template : Option (List Nat)) : Option ipp_t :=
  match template with
  | none => some request
  | some text =>
    match scanTemplate (text.length + 1) text [] with
    | none => none
    | some attrs =>
      if attrs.length > 0 then
        some (ippAddStrings request IPP_TAG_OPERATION IPP_TAG_KEYWORD "requested-attributes" attrs)
      else some request

/-- The parts of a template text in the words of the spec: text without
braces and backslashes, a backslash with the character it escapes, and a
placeholder, a name between braces. -/
inductive TemplatePart
  | text (bytes : List Nat)
  | escape (byte : Nat)
  | placeholder (name : List Nat)

/-- The bytes of one part of a template. -/
def TemplatePart.bytes : TemplatePart → List Nat
  | TemplatePart.text bytes => bytes
  | TemplatePart.escape byte => [92, byte]
  | TemplatePart.placeholder name => 123 :: (name ++ [125])

/-- The bytes of a template made of the given parts. -/
def templateBytes : List TemplatePart → List Nat
  | [] => []
  | part :: rest => part.bytes ++ templateBytes rest

/-- A part of a template as the spec describes it: text has no opening brace
and no backslash; the name of a placeholder has at most 254 bytes, none of
them an opening brace, a backslash, or one of the characters that end a name,
and no question mark behind its first byte. -/
def TemplatePart.wellFormed : TemplatePart → Prop
  | TemplatePart.text bytes => ∀ b ∈ bytes, b ≠ 123 ∧ b ≠ 92
  | TemplatePart.escape _ => True
  | TemplatePart.placeholder name =>
    name.length ≤ 254 ∧ (∀ b ∈ name, b ≠ 123 ∧ b ≠ 92 ∧ endsName b = false) ∧
      ∀ b ∈ name.tail, b ≠ 63

/-- The names of the placeholders of a template in the words of the spec, in
their order, each with every underscore replaced by a hyphen. -/
def placeholderNames : List TemplatePart → List (List Nat)
  | [] => []
  | TemplatePart.placeholder name :: rest =>
    name.map (fun ch => if ch = 95 then 45 else ch) :: placeholderNames rest
  | _ :: rest => placeholderNames rest

/-- The distinct names among `names` in the order of their first occurrence,
behind those already in `seen`. -/
def distinctNames : List (List Nat) → List (List Nat) → List (List Nat)
  | seen, [] => seen
  | seen, name :: rest =>
    distinctNames (if name ∈ seen then seen else seen ++ [name]) rest

@[simp] theorem modJob_Jobs (s : Sched) (id : Int) (f : job_t → job_t) :
    (s.modJob id f).Jobs = updateJob id f s.Jobs := rfl

@[simp] theorem modJob_NumJobs (s : Sched) (id : Int) (f : job_t → job_t) :
    (s.modJob id f).NumJobs = s.NumJobs := rfl

@[simp] theorem modJob_NextJobId (s : Sched) (id : Int) (f : job_t → job_t) :
    (s.modJob id f).NextJobId = s.NextJobId := rfl

@[simp] theorem modJob_FilterLevel (s : Sched) (id : Int) (f : job_t → job_t) :
    (s.modJob id f).FilterLevel = s.FilterLevel := rfl

@[simp] theorem modJob_FilterLimit (s : Sched) (id : Int) (f : job_t → job_t) :
    (s.modJob id f).FilterLimit = s.FilterLimit := rfl

@[simp] theorem modJob_JobHistory (s : Sched) (id : Int) (f : job_t → job_t) :
    (s.modJob id f).JobHistory = s.JobHistory := rfl

@[simp] theorem modJob_JobFiles (s : Sched) (id : Int) (f : job_t → job_t) :
    (s.modJob id f).JobFiles = s.JobFiles := rfl

@[simp] theorem modJob_MaxJobs (s : Sched) (id : Int) (f : job_t → job_t) :
    (s.modJob id f).MaxJobs = s.MaxJobs := rfl

@[simp] theorem modJob_RequestRoot (s : Sched) (id : Int) (f : job_t → job_t) :
    (s.modJob id f).RequestRoot = s.RequestRoot := rfl

@[simp] theorem modJob_Printers (s : Sched) (id : Int) (f : job_t → job_t) :
    (s.modJob id f).Printers = s.Printers := rfl

@[simp] theorem modJob_InputSet (s : Sched) (id : Int) (f : job_t → job_t) :
    (s.modJob id f).InputSet = s.InputSet := rfl

@[simp] theorem modJob_log (s : Sched) (id : Int) (f : job_t → job_t) :
    (s.modJob id f).log = s.log := rfl

@[simp] theorem modPrinter_Jobs (s : Sched) (p : Nat) (f : printer_t → printer_t) :
    (s.modPrinter p f).Jobs = s.Jobs := rfl

@[simp] theorem modPrinter_NumJobs (s : Sched) (p : Nat) (f : printer_t → printer_t) :
    (s.modPrinter p f).NumJobs = s.NumJobs := rfl

@[simp] theorem modPrinter_NextJobId (s : Sched) (p : Nat) (f : printer_t → printer_t) :
    (s.modPrinter p f).NextJobId = s.NextJobId := rfl

@[simp] theorem modPrinter_FilterLevel (s : Sched) (p : Nat) (f : printer_t → printer_t) :
    (s.modPrinter p f).FilterLevel = s.FilterLevel := rfl

@[simp] theorem modPrinter_FilterLimit (s : Sched) (p : Nat) (f : printer_t → printer_t) :
    (s.modPrinter p f).FilterLimit = s.FilterLimit := rfl

@[simp] theorem modPrinter_JobHistory (s : Sched) (p : Nat) (f : printer_t → printer_t) :
    (s.modPrinter p f).JobHistory = s.JobHistory := rfl

@[simp] theorem modPrinter_JobFiles (s : Sched) (p : Nat) (f : printer_t → printer_t) :
    (s.modPrinter p f).JobFiles = s.JobFiles := rfl

@[simp] theorem modPrinter_MaxJobs (s : Sched) (p : Nat) (f : printer_t → printer_t) :
    (s.modPrinter p f).MaxJobs = s.MaxJobs := rfl

@[simp] theorem modPrinter_RequestRoot (s : Sched) (p : Nat) (f : printer_t → printer_t) :
    (s.modPrinter p f).RequestRoot = s.RequestRoot := rfl

@[simp] theorem modPrinter_Printers (s : Sched) (p : Nat) (f : printer_t → printer_t) :
    (s.modPrinter p f).Printers = updatePrinter f p s.Printers := rfl

@[simp] theorem modPrinter_InputSet (s : Sched) (p : Nat) (f : printer_t → printer_t) :
    (s.modPrinter p f).InputSet = s.InputSet := rfl

@[simp] theorem modPrinter_log (s : Sched) (p : Nat) (f : printer_t → printer_t) :
    (s.modPrinter p f).log = s.log := rfl

@[simp] theorem SetPrinterState_Jobs (s : Sched) (p : Nat) (st : Int) :
    (s.SetPrinterState p st).Jobs = s.Jobs := rfl

@[simp] theorem SetPrinterState_NumJobs (s : Sched) (p : Nat) (st : Int) :
    (s.SetPrinterState p st).NumJobs = s.NumJobs := rfl

@[simp] theorem SetPrinterState_NextJobId (s : Sched) (p : Nat) (st : Int) :
    (s.SetPrinterState p st).NextJobId = s.NextJobId := rfl

@[simp] theorem SetPrinterState_FilterLevel (s : Sched) (p : Nat) (st : Int) :
    (s.SetPrinterState p st).FilterLevel = s.FilterLevel := rfl

@[simp] theorem SetPrinterState_FilterLimit (s : Sched) (p : Nat) (st : Int) :
    (s.SetPrinterState p st).FilterLimit = s.FilterLimit := rfl

@[simp] theorem SetPrinterState_JobHistory (s : Sched) (p : Nat) (st : Int) :
    (s.SetPrinterState p st).JobHistory = s.JobHistory := rfl

@[simp] theorem SetPrinterState_JobFiles (s : Sched) (p : Nat) (st : Int) :
    (s.SetPrinterState p st).JobFiles = s.JobFiles := rfl

@[simp] theorem SetPrinterState_MaxJobs (s : Sched) (p : Nat) (st : Int) :
    (s.SetPrinterState p st).MaxJobs = s.MaxJobs := rfl

@[simp] theorem SetPrinterState_RequestRoot (s : Sched) (p : Nat) (st : Int) :
    (s.SetPrinterState p st).RequestRoot = s.RequestRoot := rfl

@[simp] theorem SetPrinterState_Printers (s : Sched) (p : Nat) (st : Int) :
    (s.SetPrinterState p st).Printers = updatePrinter (fun r => { r with state := st }) p s.Printers := rfl

@[simp] theorem SetPrinterState_InputSet (s : Sched) (p : Nat) (st : Int) :
    (s.SetPrinterState p st).InputSet = s.InputSet := rfl

@[simp] theorem SetPrinterState_log (s : Sched) (p : Nat) (st : Int) :
    (s.SetPrinterState p st).log = s.log := rfl

@[simp] theorem emit_Jobs (s : Sched) (es : List Event) :
    (s.emit es).Jobs = s.Jobs := rfl

@[simp] theorem emit_NumJobs (s : Sched) (es : List Event) :
    (s.emit es).NumJobs = s.NumJobs := rfl

@[simp] theorem emit_NextJobId (s : Sched) (es : List Event) :
    (s.emit es).NextJobId = s.NextJobId := rfl

@[simp] theorem emit_FilterLevel (s : Sched) (es : List Event) :
    (s.emit es).FilterLevel = s.FilterLevel := rfl

@[simp] theorem emit_FilterLimit (s : Sched) (es : List Event) :
    (s.emit es).FilterLimit = s.FilterLimit := rfl

@[simp] theorem emit_JobHistory (s : Sched) (es : List Event) :
    (s.emit es).JobHistory = s.JobHistory := rfl

@[simp] theorem emit_JobFiles (s : Sched) (es : List Event) :
    (s.emit es).JobFiles = s.JobFiles := rfl

@[simp] theorem emit_MaxJobs (s : Sched) (es : List Event) :
    (s.emit es).MaxJobs = s.MaxJobs := rfl

@[simp] theorem emit_RequestRoot (s : Sched) (es : List Event) :
    (s.emit es).RequestRoot = s.RequestRoot := rfl

@[simp] theorem emit_Printers (s : Sched) (es : List Event) :
    (s.emit es).Printers = s.Printers := rfl

@[simp] theorem emit_InputSet (s : Sched) (es : List Event) :
    (s.emit es).InputSet = s.InputSet := rfl

@[simp] theorem emit_log (s : Sched) (es : List Event) :
    (s.emit es).log = s.log ++ es := rfl

@[simp] theorem addLevel_Jobs (s : Sched) (d : Int) :
    (s.addLevel d).Jobs = s.Jobs := rfl

@[simp] theorem addLevel_NumJobs (s : Sched) (d : Int) :
    (s.addLevel d).NumJobs = s.NumJobs := rfl

@[simp] theorem addLevel_NextJobId (s : Sched) (d : Int) :
    (s.addLevel d).NextJobId = s.NextJobId := rfl

@[simp] theorem addLevel_FilterLevel (s : Sched) (d : Int) :
    (s.addLevel d).FilterLevel = s.FilterLevel + d := rfl

@[simp] theorem addLevel_FilterLimit (s : Sched) (d : Int) :
    (s.addLevel d).FilterLimit = s.FilterLimit := rfl

@[simp] theorem addLevel_JobHistory (s : Sched) (d : Int) :
    (s.addLevel d).JobHistory = s.JobHistory := rfl

@[simp] theorem addLevel_JobFiles (s : Sched) (d : Int) :
    (s.addLevel d).JobFiles = s.JobFiles := rfl

@[simp] theorem addLevel_MaxJobs (s : Sched) (d : Int) :
    (s.addLevel d).MaxJobs = s.MaxJobs := rfl

@[simp] theorem addLevel_RequestRoot (s : Sched) (d : Int) :
    (s.addLevel d).RequestRoot = s.RequestRoot := rfl

@[simp] theorem addLevel_Printers (s : Sched) (d : Int) :
    (s.addLevel d).Printers = s.Printers := rfl

@[simp] theorem addLevel_InputSet (s : Sched) (d : Int) :
    (s.addLevel d).InputSet = s.InputSet := rfl

@[simp] theorem addLevel_log (s : Sched) (d : Int) :
    (s.addLevel d).log = s.log := rfl

@[simp] theorem closePipe_Jobs (s : Sched) (fd : Int) :
    (s.closePipe fd).Jobs = s.Jobs := by
  unfold Sched.closePipe; split <;> rfl

@[simp] theorem closePipe_NumJobs (s : Sched) (fd : Int) :
    (s.closePipe fd).NumJobs = s.NumJobs := by
  unfold Sched.closePipe; split <;> rfl

@[simp] theorem closePipe_NextJobId (s : Sched) (fd : Int) :
    (s.closePipe fd).NextJobId = s.NextJobId := by
  unfold Sched.closePipe; split <;> rfl

@[simp] theorem closePipe_FilterLevel (s : Sched) (fd : Int) :
    (s.closePipe fd).FilterLevel = s.FilterLevel := by
  unfold Sched.closePipe; split <;> rfl

@[simp] theorem closePipe_FilterLimit (s : Sched) (fd : Int) :
    (s.closePipe fd).FilterLimit = s.FilterLimit := by
  unfold Sched.closePipe; split <;> rfl

@[simp] theorem closePipe_JobHistory (s : Sched) (fd : Int) :
    (s.closePipe fd).JobHistory = s.JobHistory := by
  unfold Sched.closePipe; split <;> rfl

@[simp] theorem closePipe_JobFiles (s : Sched) (fd : Int) :
    (s.closePipe fd).JobFiles = s.JobFiles := by
  unfold Sched.closePipe; split <;> rfl

@[simp] theorem closePipe_MaxJobs (s : Sched) (fd : Int) :
    (s.closePipe fd).MaxJobs = s.MaxJobs := by
  unfold Sched.closePipe; split <;> rfl

@[simp] theorem closePipe_RequestRoot (s : Sched) (fd : Int) :
    (s.closePipe fd).RequestRoot = s.RequestRoot := by
  unfold Sched.closePipe; split <;> rfl

@[simp] theorem closePipe_Printers (s : Sched) (fd : Int) :
    (s.closePipe fd).Printers = s.Printers := by
  unfold Sched.closePipe; split <;> rfl

@[simp] theorem fdSet_Jobs (s : Sched) (fd : Int) :
    (s.fdSet fd).Jobs = s.Jobs := rfl

@[simp] theorem fdSet_NumJobs (s : Sched) (fd : Int) :
    (s.fdSet fd).NumJobs = s.NumJobs := rfl

@[simp] theorem fdSet_NextJobId (s : Sched) (fd : Int) :
    (s.fdSet fd).NextJobId = s.NextJobId := rfl

@[simp] theorem fdSet_FilterLevel (s : Sched) (fd : Int) :
    (s.fdSet fd).FilterLevel = s.FilterLevel := rfl

@[simp] theorem fdSet_FilterLimit (s : Sched) (fd : Int) :
    (s.fdSet fd).FilterLimit = s.FilterLimit := rfl

@[simp] theorem fdSet_JobHistory (s : Sched) (fd : Int) :
    (s.fdSet fd).JobHistory = s.JobHistory := rfl

@[simp] theorem fdSet_JobFiles (s : Sched) (fd : Int) :
    (s.fdSet fd).JobFiles = s.JobFiles := rfl

@[simp] theorem fdSet_MaxJobs (s : Sched) (fd : Int) :
    (s.fdSet fd).MaxJobs = s.MaxJobs := rfl

@[simp] theorem fdSet_RequestRoot (s : Sched) (fd : Int) :
    (s.fdSet fd).RequestRoot = s.RequestRoot := rfl

@[simp] theorem fdSet_Printers (s : Sched) (fd : Int) :
    (s.fdSet fd).Printers = s.Printers := rfl

@[simp] theorem fdSet_InputSet (s : Sched) (fd : Int) :
    (s.fdSet fd).InputSet = fd :: s.InputSet := rfl

@[simp] theorem fdSet_log (s : Sched) (fd : Int) :
    (s.fdSet fd).log = s.log := rfl

@[simp] theorem dropJob_Jobs (s : Sched) (id : Int) :
    (s.dropJob id).Jobs = removeJob id s.Jobs := rfl

@[simp] theorem dropJob_NumJobs (s : Sched) (id : Int) :
    (s.dropJob id).NumJobs = s.NumJobs - 1 := rfl

@[simp] theorem dropJob_NextJobId (s : Sched) (id : Int) :
    (s.dropJob id).NextJobId = s.NextJobId := rfl

@[simp] theorem dropJob_FilterLevel (s : Sched) (id : Int) :
    (s.dropJob id).FilterLevel = s.FilterLevel := rfl

@[simp] theorem dropJob_FilterLimit (s : Sched) (id : Int) :
    (s.dropJob id).FilterLimit = s.FilterLimit := rfl

@[simp] theorem dropJob_JobHistory (s : Sched) (id : Int) :
    (s.dropJob id).JobHistory = s.JobHistory := rfl

@[simp] theorem dropJob_JobFiles (s : Sched) (id : Int) :
    (s.dropJob id).JobFiles = s.JobFiles := rfl

@[simp] theorem dropJob_MaxJobs (s : Sched) (id : Int) :
    (s.dropJob id).MaxJobs = s.MaxJobs := rfl

@[simp] theorem dropJob_RequestRoot (s : Sched) (id : Int) :
    (s.dropJob id).RequestRoot = s.RequestRoot := rfl

@[simp] theorem dropJob_Printers (s : Sched) (id : Int) :
    (s.dropJob id).Printers = s.Printers := rfl

@[simp] theorem dropJob_InputSet (s : Sched) (id : Int) :
    (s.dropJob id).InputSet = s.InputSet := rfl

@[simp] theorem dropJob_log (s : Sched) (id : Int) :
    (s.dropJob id).log = s.log := rfl

/-! ### Lookups in the job list and the printer table -/

theorem FindJob_nil (id : Int) : FindJob [] id = none := rfl

theorem FindJob_cons (c : job_t) (rest : List job_t) (id : Int) :
    FindJob (c :: rest) id = if c.id = id then some c else FindJob rest id := by
  by_cases h : c.id = id <;> simp [FindJob, List.find?_cons, h]

theorem FindJob_id {l : List job_t} {id : Int} {j : job_t} (h : FindJob l id = some j) :
    j.id = id := by
  have := List.find?_some h
  simpa using this

theorem FindJob_mem {l : List job_t} {id : Int} {j : job_t} (h : FindJob l id = some j) :
    j ∈ l := List.mem_of_find?_eq_some h

theorem FindJob_updateJob_same (l : List job_t) (id : Int) (f : job_t → job_t)
    (hf : ∀ j, (f j).id = j.id) :
    FindJob (updateJob id f l) id = (FindJob l id).map f := by
  induction l with
  | nil => rfl
  | cons c rest ih =>
    by_cases h : c.id = id
    · rw [updateJob, if_pos h, FindJob_cons, FindJob_cons, hf, if_pos h, if_pos h]; rfl
    · rw [updateJob, if_neg h, FindJob_cons, FindJob_cons, if_neg h, if_neg h, ih]

theorem FindJob_updateJob_ne (l : List job_t) (id id2 : Int) (f : job_t → job_t)
    (hf : ∀ j, (f j).id = j.id) (hne : id2 ≠ id) :
    FindJob (updateJob id f l) id2 = FindJob l id2 := by
  induction l with
  | nil => rfl
  | cons c rest ih =>
    by_cases h : c.id = id
    · have h3 : ¬ c.id = id2 := by omega
      rw [updateJob, if_pos h, FindJob_cons, FindJob_cons, hf, if_neg h3, if_neg h3]
    · rw [updateJob, if_neg h, FindJob_cons, FindJob_cons, ih]

theorem FindJob_removeJob_ne (l : List job_t) (id id2 : Int) (hne : id2 ≠ id) :
    FindJob (removeJob id l) id2 = FindJob l id2 := by
  induction l with
  | nil => rfl
  | cons c rest ih =>
    by_cases h : c.id = id
    · have h3 : ¬ c.id = id2 := by omega
      rw [removeJob, if_pos h, FindJob_cons, if_neg h3]
    · rw [removeJob, if_neg h, FindJob_cons, FindJob_cons, ih]

theorem get?_updatePrinter_same (f : printer_t → printer_t) (p : Nat) (l : List printer_t) :
    (updatePrinter f p l).get? p = (l.get? p).map f := by
  induction l generalizing p with
  | nil => cases p <;> rfl
  | cons c rest ih =>
    cases p with
    | zero => rfl
    | succ n => simpa [updatePrinter] using ih n

theorem get?_updatePrinter_ne (f : printer_t → printer_t) (p q : Nat) (l : List printer_t)
    (hne : q ≠ p) : (updatePrinter f p l).get? q = l.get? q := by
  induction l generalizing p q with
  | nil => cases p <;> rfl
  | cons c rest ih =>
    cases p with
    | zero =>
      cases q with
      | zero => exact absurd rfl hne
      | succ m => rfl
    | succ n =>
      cases q with
      | zero => rfl
      | succ m => simpa [updatePrinter] using ih n m (by omega)

@[simp] theorem set_time_id (j : job_t) (n : String) (t : Int) : (set_time j n t).id = j.id := rfl
@[simp] theorem set_time_state (j : job_t) (n : String) (t : Int) :
    (set_time j n t).state = j.state := rfl
@[simp] theorem set_time_printer (j : job_t) (n : String) (t : Int) :
    (set_time j n t).printer = j.printer := rfl
@[simp] theorem set_time_cost (j : job_t) (n : String) (t : Int) :
    (set_time j n t).cost = j.cost := rfl
@[simp] theorem set_time_buffer (j : job_t) (n : String) (t : Int) :
    (set_time j n t).buffer = j.buffer := rfl
@[simp] theorem set_time_dest (j : job_t) (n : String) (t : Int) :
    (set_time j n t).dest = j.dest := rfl

@[simp] theorem admitFields_id (t c : Int) (p : Nat) (j : job_t) :
    (admitFields t c p j).id = j.id := by
  unfold admitFields; split <;> rfl
@[simp] theorem admitFields_state (t c : Int) (p : Nat) (j : job_t) :
    (admitFields t c p j).state = some IPP_JOB_PROCESSING := by
  unfold admitFields; split <;> rfl
@[simp] theorem admitFields_printer (t c : Int) (p : Nat) (j : job_t) :
    (admitFields t c p j).printer = some p := by
  unfold admitFields; split <;> rfl
@[simp] theorem admitFields_cost (t c : Int) (p : Nat) (j : job_t) :
    (admitFields t c p j).cost = c := by
  unfold admitFields; split <;> rfl
@[simp] theorem admitFields_buffer (t c : Int) (p : Nat) (j : job_t) :
    (admitFields t c p j).buffer = j.buffer := by
  unfold admitFields; split <;> rfl
@[simp] theorem admitFields_dest (t c : Int) (p : Nat) (j : job_t) :
    (admitFields t c p j).dest = j.dest := by
  unfold admitFields; split <;> rfl

@[simp] theorem cancelFields_id (t : Int) (j : job_t) : (cancelFields t j).id = j.id := rfl
@[simp] theorem cancelFields_state (t : Int) (j : job_t) :
    (cancelFields t j).state = some IPP_JOB_CANCELLED := rfl
@[simp] theorem cancelFields_printer (t : Int) (j : job_t) :
    (cancelFields t j).printer = j.printer := rfl
@[simp] theorem cancelFields_cost (t : Int) (j : job_t) : (cancelFields t j).cost = j.cost := rfl

@[simp] theorem stopFields_id (j : job_t) : (stopFields j).id = j.id := rfl
@[simp] theorem stopFields_state (j : job_t) : (stopFields j).state = some IPP_JOB_STOPPED := rfl
@[simp] theorem stopFields_printer (j : job_t) : (stopFields j).printer = none := rfl
@[simp] theorem stopFields_cost (j : job_t) : (stopFields j).cost = j.cost := rfl


/-! ### The job store: `AddJob` and `SetJobPriority` -/

theorem insertJob_split (job : job_t) (l : List job_t) :
    insertJob job l = l.takeWhile (fun c => !decide (job.priority > c.priority)) ++
      job :: l.dropWhile (fun c => !decide (job.priority > c.priority)) := by
  induction l with
  | nil => rfl
  | cons c rest ih =>
    by_cases h : job.priority > c.priority
    · simp [insertJob, h, List.takeWhile, List.dropWhile]
    · simp [insertJob, h, List.takeWhile, List.dropWhile, ih]

theorem insertJob_chain (job : job_t) (l : List job_t)
    (hl : List.Chain' priorityOrder l) (hid : ∀ j ∈ l, j.id < job.id) :
    List.Chain' priorityOrder (insertJob job l) := by
  induction l with
  | nil => simp [insertJob]
  | cons c rest ih =>
    by_cases h : job.priority > c.priority
    · simp only [insertJob, h, if_true]
      exact List.Chain'.cons (Or.inl h) hl
    · simp only [insertJob, h, if_false]
      have hrest := ih (List.Chain'.tail hl) (fun j hj => hid j (List.mem_cons_of_mem _ hj))
      rw [List.chain'_cons']
      refine ⟨?_, hrest⟩
      intro b hb
      cases rest with
      | nil =>
        simp [insertJob] at hb
        subst hb
        have := hid c (List.mem_cons_self _ _)
        unfold priorityOrder
        omega
      | cons d rest2 =>
        by_cases h2 : job.priority > d.priority
        · simp [insertJob, h2] at hb
          subst hb
          have := hid c (List.mem_cons_self _ _)
          unfold priorityOrder
          omega
        · simp [insertJob, h2] at hb
          subst hb
          exact List.Chain'.rel_head hl

theorem mem_insertJob (job j : job_t) (l : List job_t) :
    j ∈ insertJob job l ↔ j = job ∨ j ∈ l := by
  induction l with
  | nil => simp [insertJob]
  | cons c rest ih =>
    by_cases h : job.priority > c.priority
    · simp [insertJob, h]
    · simp only [insertJob, h, if_false, List.mem_cons, ih]
      tauto

theorem priorityOrdered_iff_chain (l : List job_t) :
    PriorityOrdered l ↔ List.Chain' priorityOrder l := by
  induction l with
  | nil => simp [PriorityOrdered]
  | cons a rest ih =>
    cases rest with
    | nil => simp [PriorityOrdered]
    | cons b rest2 => simp only [PriorityOrdered, ih, List.chain'_cons]

theorem AddInv_AddJob (s : Sched) (p : Int) (d : String) (h : AddInv s) :
    AddInv (AddJob s p d).1 := by
  obtain ⟨hc, hid⟩ := h
  refine ⟨insertJob_chain _ _ hc hid, ?_⟩
  intro j hj
  simp only [AddJob] at hj ⊢
  rcases (mem_insertJob _ _ _).1 hj with rfl | hj
  · simp
  · have := hid j hj
    omega

theorem AddInv_addJobs (calls : List (Int × String)) (s : Sched) (h : AddInv s) :
    AddInv (addJobs s calls) := by
  induction calls generalizing s with
  | nil => exact h
  | cons c rest ih => exact ih _ (AddInv_AddJob s c.1 c.2 h)

theorem chain_priority_le (l : List job_t) (hl : List.Chain' priorityOrder l) :
    List.Pairwise (fun a b => a.priority ≥ b.priority) l := by
  have : List.Pairwise priorityOrder l := by
    refine (List.chain'_iff_pairwise (R := priorityOrder)).1 hl
  exact this.imp (fun h => by unfold priorityOrder at h; omega)

theorem dropWhile_priority_lt (p : Int) (l : List job_t)
    (hl : List.Pairwise (fun a b : job_t => a.priority ≥ b.priority) l) :
    ∀ j ∈ l.dropWhile (fun c => !decide (p > c.priority)), j.priority < p := by
  induction l with
  | nil => simp
  | cons c rest ih =>
    by_cases h : p > c.priority
    · intro j hj
      simp only [List.dropWhile, h, decide_True, Bool.not_true] at hj
      rcases List.mem_cons.1 hj with rfl | hj
      · exact h
      · have := List.rel_of_pairwise_cons hl hj
        omega
    · intro j hj
      simp only [List.dropWhile, h, decide_False, Bool.not_false] at hj
      exact ih (List.Pairwise.of_cons hl) j hj

/-- C3: in every store built from the empty store (`NextJobId = 1`) by a
sequence of `AddJob` calls, each two adjacent jobs are in priority order
(higher priority first, equal priority by ascending id); and one more `AddJob`
links the new job, whose id is `NextJobId`, directly after the jobs of priority
at least the new one and before all jobs of lower priority. -/
theorem AddJob_priority_order (calls : List (Int × String)) (priority : Int) (dest : String) :
    PriorityOrdered (addJobs emptyStore calls).Jobs ∧
    ∃ before after : List job_t,
      (addJobs emptyStore calls).Jobs = before ++ after ∧
      (AddJob (addJobs emptyStore calls) priority dest).1.Jobs =
        before ++ (AddJob (addJobs emptyStore calls) priority dest).2 :: after ∧
      (AddJob (addJobs emptyStore calls) priority dest).2.id =
        (addJobs emptyStore calls).NextJobId ∧
      (AddJob (addJobs emptyStore calls) priority dest).2.priority = priority ∧
      (∀ j ∈ before, j.priority ≥ priority) ∧ (∀ j ∈ after, j.priority < priority) := by
  have hinv : AddInv (addJobs emptyStore calls) :=
    AddInv_addJobs calls emptyStore ⟨by simp [emptyStore], by simp [emptyStore]⟩
  refine ⟨(priorityOrdered_iff_chain _).2 hinv.1,
    (addJobs emptyStore calls).Jobs.takeWhile (fun c => !decide (priority > c.priority)),
    (addJobs emptyStore calls).Jobs.dropWhile (fun c => !decide (priority > c.priority)),
    (List.takeWhile_append_dropWhile _ _).symm, ?_, rfl, rfl, ?_, ?_⟩
  · exact insertJob_split _ _
  · intro j hj
    have := List.mem_takeWhile_imp hj
    simpa using this
  · exact dropWhile_priority_lt priority _ (chain_priority_le _ hinv.1)

/-- C3, the scenario of the spec: priorities 50, 80, 50, 90 get the ids 1 to 4
and the store order is 4, 2, 1, 3. -/
theorem AddJob_priority_order_witness :
    (addJobs emptyStore [(50, "lp"), (80, "lp"), (50, "lp"), (90, "lp")]).Jobs.map
        (fun j => (j.id, j.priority)) = [(4, 90), (2, 80), (1, 50), (3, 50)] ∧
      PriorityOrdered
        (addJobs emptyStore [(50, "lp"), (80, "lp"), (50, "lp"), (90, "lp")]).Jobs :=
  ⟨by decide, (AddJob_priority_order [(50, "lp"), (80, "lp"), (50, "lp"), (90, "lp")] 0 "").1⟩

/-- C4 (the code departs from the claim): the store built by `AddJob` with
priorities 60 and 50 is in priority order; `SetJobPriority(1, 50)` relinks
job 1 behind job 2, so the jobs 2 and 1 of equal priority 50 are adjacent in
descending id order and the priority order of the spec no longer holds. -/
theorem SetJobPriority_breaks_priority_order :
    PriorityOrdered (addJobs emptyStore [(60, "lp"), (50, "lp")]).Jobs ∧
      (SetJobPriority (addJobs emptyStore [(60, "lp"), (50, "lp")]) 1 50).Jobs.map
        (fun j => (j.id, j.priority)) = [(2, 50), (1, 50)] ∧
      ¬ PriorityOrdered
        (SetJobPriority (addJobs emptyStore [(60, "lp"), (50, "lp")]) 1 50).Jobs := by
  decide

/-! ### `StartJob`: admission -/

theorem startProcesses_admitted (env : Env) (s : Sched) (id : Int) (printer nfilters : Nat)
    (j : job_t) (hj : FindJob s.Jobs id = some j)
    (hmalloc : j.buffer ≠ none ∨ (env.sys id).malloc_ok = true) :
    (startProcesses env s id printer nfilters).FilterLevel = s.FilterLevel ∧
    ∃ j2, FindJob (startProcesses env s id printer nfilters).Jobs id = some j2 ∧
      j2.state = j.state ∧ j2.printer = j.printer ∧ j2.cost = j.cost := by
  have hm : ¬ (j.buffer = none ∧ (env.sys id).malloc_ok = false) := by
    rintro ⟨hb, hmo⟩
    rcases hmalloc with h | h
    · exact h hb
    · simp [h] at hmo
  unfold startProcesses
  simp [FindJob_updateJob_same, hj, hm]
  cases hfd : (env.sys id).statusfd with
  | none =>
    simp only []
    split_ifs <;> simp [FindJob_updateJob_same, hj]
  | some fd =>
    simp only []
    split_ifs <;> simp [FindJob_updateJob_same, hj]

theorem addCosts_eq_sum (c : Int) (l : List mime_filter_t) :
    addCosts c l = c + (l.map (fun f => f.cost)).sum := by
  induction l generalizing c with
  | nil => simp [addCosts]
  | cons f rest ih => simp [addCosts, ih]; ring

theorem StartJob_cases (env : Env) (s : Sched) (id : Int) (printer : Nat) (job : job_t)
    (p : printer_t)
    (hjob : FindJob s.Jobs id = some job) (hfiles : job.num_files ≠ 0)
    (hp : s.Printers.get? printer = some p)
    (hconv : p.type &&& CUPS_PRINTER_REMOTE ≠ 0 ∨
      env.mimeFilter (currentFiletype job) p.filetype ≠ []) :
    (Deferred s (jobCost env job p) ∧
      StartJob env s id printer = s.modJob id (fun j => { j with cost := jobCost env job p })) ∨
    (¬ Deferred s (jobCost env job p) ∧
      ∃ n, StartJob env s id printer =
        startProcesses env
          ((((s.addLevel (jobCost env job p)).modJob id
            (admitFields env.time (jobCost env job p) printer)).modPrinter printer
            (fun r => { r with job := some id })).SetPrinterState printer IPP_PRINTER_PROCESSING)
          id printer n) := by
  unfold StartJob
  have hnot : ¬ (p.type &&& CUPS_PRINTER_REMOTE = 0 ∧
      env.mimeFilter (currentFiletype job) p.filetype = []) := by
    rintro ⟨h1, h2⟩
    rcases hconv with h | h
    · exact h h1
    · exact h h2
  simp only [hjob, hfiles, hp, if_false, hnot]
  have hcost : addCosts 0 (if p.type &&& CUPS_PRINTER_REMOTE = 0 then
      removeNullFilters (env.mimeFilter (currentFiletype job) p.filetype) else []) =
      jobCost env job p := by
    unfold jobCost
    split <;> simp [addCosts_eq_sum]
  rw [hcost]
  by_cases hD : s.FilterLevel + jobCost env job p > s.FilterLimit ∧ s.FilterLevel > 0 ∧
      s.FilterLimit > 0
  · left
    rw [if_pos hD]
    exact ⟨⟨hD.2.1, hD.2.2, hD.1⟩, rfl⟩
  · right
    rw [if_neg hD]
    exact ⟨fun h => hD ⟨h.2.2, h.1, h.2.1⟩, _, rfl⟩

/-- C8: a pending job with files whose current file has a non-empty filter
chain, started on a local printer that has no job (the status buffer can be
allocated).  `StartJob` stores the cost of the chain (the sum of the costs of
its entries other than `"-"`) in the job.  When `FilterLevel > 0`,
`FilterLimit > 0` and `FilterLevel + cost > FilterLimit` the job is deferred:
it is still pending, without a printer, the printer has no job and
`FilterLevel` is unchanged.  In every other case `FilterLevel` grows by
exactly the cost and the job is processing on the printer.  So the job is
deferred exactly when the three conditions hold. -/
theorem StartJob_admission (env : Env) (s : Sched) (id : Int) (printer : Nat) (job : job_t)
    (p : printer_t)
    (hjob : FindJob s.Jobs id = some job)
    (hstate : job.state = some IPP_JOB_PENDING) (hnoprinter : job.printer = none)
    (hfiles : job.num_files ≠ 0)
    (hp : s.Printers.get? printer = some p)
    (hlocal : p.type &&& CUPS_PRINTER_REMOTE = 0) (hpjob : p.job = none)
    (hchain : env.mimeFilter (currentFiletype job) p.filetype ≠ [])
    (hmalloc : job.buffer ≠ none ∨ (env.sys id).malloc_ok = true) :
    jobCost env job p =
      ((removeNullFilters (env.mimeFilter (currentFiletype job) p.filetype)).map
        (fun f => f.cost)).sum ∧
    ∃ job2, FindJob (StartJob env s id printer).Jobs id = some job2 ∧
      job2.cost = jobCost env job p ∧
      (job2.state = some IPP_JOB_PENDING ↔ Deferred s (jobCost env job p)) ∧
      (Deferred s (jobCost env job p) →
        job2.state = some IPP_JOB_PENDING ∧ job2.printer = none ∧
        ((StartJob env s id printer).Printers.get? printer).map (fun r => r.job) = some none ∧
        (StartJob env s id printer).FilterLevel = s.FilterLevel) ∧
      (¬ Deferred s (jobCost env job p) →
        job2.state = some IPP_JOB_PROCESSING ∧ job2.printer = some printer ∧
        (StartJob env s id printer).FilterLevel = s.FilterLevel + jobCost env job p) := by
  refine ⟨by simp [jobCost, hlocal], ?_⟩
  rcases StartJob_cases env s id printer job p hjob hfiles hp (Or.inr hchain) with
    ⟨hD, heq⟩ | ⟨hD, n, heq⟩
  · rw [heq]
    refine ⟨{ job with cost := jobCost env job p }, ?_, rfl, ?_, ?_, ?_⟩
    · simp [FindJob_updateJob_same, hjob]
    · simp [hstate, hD]
    · intro _
      have hp2 : s.Printers[printer]? = some p := by simpa using hp
      simp [hstate, hnoprinter, hp2, hpjob]
    · intro h
      exact absurd hD h
  · rw [heq]
    have hfind : FindJob ((((s.addLevel (jobCost env job p)).modJob id
            (admitFields env.time (jobCost env job p) printer)).modPrinter printer
            (fun r => { r with job := some id })).SetPrinterState printer
            IPP_PRINTER_PROCESSING).Jobs id =
        some (admitFields env.time (jobCost env job p) printer job) := by
      simp [FindJob_updateJob_same, hjob]
    obtain ⟨hlevel, j2, hj2, hst, hpr, hco⟩ :=
      startProcesses_admitted env _ id printer n _ hfind (by simpa using hmalloc)
    refine ⟨j2, hj2, by simpa using hco, ?_, ?_, ?_⟩
    · rw [hst]
      simp [hD]
      decide
    · intro h
      exact absurd h hD
    · intro _
      refine ⟨by simpa using hst, by simpa using hpr, ?_⟩
      rw [hlevel]
      simp

/-- C8 at scenario 4 of the spec: the job is deferred with cost 99 and
`FilterLevel` stays 150. -/
theorem StartJob_admission_witness :
    ∃ job2, FindJob (StartJob scenarioEnv scenario4 2 0).Jobs 2 = some job2 ∧
      job2.cost = 99 ∧ job2.state = some IPP_JOB_PENDING ∧
      (StartJob scenarioEnv scenario4 2 0).FilterLevel = 150 := by
  have h := StartJob_admission scenarioEnv scenario4 2 0
    { id := 2, priority := 50, dest := "lp", state := some IPP_JOB_PENDING,
      num_files := 1, filetypes := [textPlain] }
    { name := "lp", type := 0, state := IPP_PRINTER_IDLE, filetype := postscript }
    (by decide) (by decide) (by decide) (by decide) (by decide) (by decide) (by decide)
    (by decide) (by decide)
  obtain ⟨hc, job2, hfind, hcost, _, hdef, _⟩ := h
  have hD : Deferred scenario4 (jobCost scenarioEnv
      { id := 2, priority := 50, dest := "lp", state := some IPP_JOB_PENDING,
        num_files := 1, filetypes := [textPlain] }
      { name := "lp", type := 0, state := IPP_PRINTER_IDLE, filetype := postscript }) := by
    rw [hc]
    decide
  refine ⟨job2, hfind, ?_, (hdef hD).1, (hdef hD).2.2.2⟩
  rw [hcost, hc]
  decide


/-- C9 (the claim as stated fails): with `FilterLimit = 50` and nothing
processing (`FilterLevel = 0`), `StartJob` admits a job of cost 99: the job is
processing although `0 + 99 > 50`, and `FilterLevel` is left at 99, above the
limit. -/
theorem StartJob_idle_exceeds_limit :
    scenarioIdle.FilterLimit > 0 ∧
    (FindJob (StartJob scenarioEnv scenarioIdle 1 0).Jobs 1).map (fun j => (j.state, j.cost)) =
      some (some IPP_JOB_PROCESSING, 99) ∧
    ¬ (scenarioIdle.FilterLevel + 99 ≤ scenarioIdle.FilterLimit) ∧
    ¬ ((StartJob scenarioEnv scenarioIdle 1 0).FilterLevel ≤ scenarioIdle.FilterLimit) := by
  decide

/-- C9 (amended): when `FilterLimit > 0` and `FilterLevel > 0` before the call
and `StartJob` moves a pending job (with files, on a remote printer or with a
non-empty filter chain) to processing, then `FilterLevel` before the call plus
the cost of the job is at most `FilterLimit`; and when the status buffer can be
allocated, a `FilterLevel` that was at most `FilterLimit` is so after the
call. -/
theorem StartJob_within_limit (env : Env) (s : Sched) (id : Int) (printer : Nat) (job : job_t)
    (p : printer_t)
    (hjob : FindJob s.Jobs id = some job) (hstate : job.state = some IPP_JOB_PENDING)
    (hfiles : job.num_files ≠ 0)
    (hp : s.Printers.get? printer = some p)
    (hconv : p.type &&& CUPS_PRINTER_REMOTE ≠ 0 ∨
      env.mimeFilter (currentFiletype job) p.filetype ≠ [])
    (hlimit : 0 < s.FilterLimit) (hlevel : 0 < s.FilterLevel) :
    ((∃ job2, FindJob (StartJob env s id printer).Jobs id = some job2 ∧
        job2.state = some IPP_JOB_PROCESSING) →
      s.FilterLevel + jobCost env job p ≤ s.FilterLimit) ∧
    (job.buffer ≠ none ∨ (env.sys id).malloc_ok = true → s.FilterLevel ≤ s.FilterLimit →
      (StartJob env s id printer).FilterLevel ≤ s.FilterLimit) := by
  rcases StartJob_cases env s id printer job p hjob hfiles hp hconv with
    ⟨hD, heq⟩ | ⟨hD, n, heq⟩
  · rw [heq]
    constructor
    · rintro ⟨job2, hfind, hproc⟩
      simp [FindJob_updateJob_same, hjob] at hfind
      subst hfind
      simp [hstate] at hproc
      exact absurd hproc (by decide)
    · intro _ hle
      simpa using hle
  · have hle : s.FilterLevel + jobCost env job p ≤ s.FilterLimit := by
      unfold Deferred at hD
      omega
    rw [heq]
    refine ⟨fun _ => hle, ?_⟩
    intro hmalloc _
    have hfind : FindJob ((((s.addLevel (jobCost env job p)).modJob id
            (admitFields env.time (jobCost env job p) printer)).modPrinter printer
            (fun r => { r with job := some id })).SetPrinterState printer
            IPP_PRINTER_PROCESSING).Jobs id =
        some (admitFields env.time (jobCost env job p) printer job) := by
      simp [FindJob_updateJob_same, hjob]
    obtain ⟨hl, _⟩ :=
      startProcesses_admitted env _ id printer n _ hfind (by simpa using hmalloc)
    rw [hl]
    simpa using hle

/-- C9 (amended), at scenario 4 with the limit raised to 300: job 2 becomes
processing, `150 + 99 ≤ 300`, and `FilterLevel` after the call is at most
300. -/
theorem StartJob_within_limit_witness :
    (FindJob (StartJob scenarioEnv { scenario4 with FilterLimit := 300 } 2 0).Jobs 2).map
        (fun j => j.state) = some (some IPP_JOB_PROCESSING) ∧
    (150 : Int) + jobCost scenarioEnv
        { id := 2, priority := 50, dest := "lp", state := some IPP_JOB_PENDING,
          num_files := 1, filetypes := [textPlain] }
        { name := "lp", type := 0, state := IPP_PRINTER_IDLE, filetype := postscript } ≤ 300 ∧
    (StartJob scenarioEnv { scenario4 with FilterLimit := 300 } 2 0).FilterLevel ≤ 300 := by
  have h := StartJob_within_limit scenarioEnv { scenario4 with FilterLimit := 300 } 2 0
    { id := 2, priority := 50, dest := "lp", state := some IPP_JOB_PENDING,
      num_files := 1, filetypes := [textPlain] }
    { name := "lp", type := 0, state := IPP_PRINTER_IDLE, filetype := postscript }
    (by decide) (by decide) (by decide) (by decide) (by decide) (by decide) (by decide)
  have hs : (FindJob (StartJob scenarioEnv { scenario4 with FilterLimit := 300 } 2 0).Jobs
      2).map (fun j => j.state) = some (some IPP_JOB_PROCESSING) := by decide
  refine ⟨hs, h.1 ?_, h.2 (Or.inr rfl) (by decide)⟩
  cases hf : FindJob (StartJob scenarioEnv { scenario4 with FilterLimit := 300 } 2 0).Jobs 2 with
  | none =>
    rw [hf] at hs
    cases hs
  | some j =>
    rw [hf] at hs
    exact ⟨j, rfl, by simpa using hs⟩

/-- C10 (the claim as stated fails): in scenario 4 of the spec (chain texttops
33 and pstops 66, `FilterLimit = 200`, `FilterLevel = 150`) `StartJob` does
not make the job processing and `FilterLevel` does not become 249. -/
theorem StartJob_scenario4_not_admitted :
    ¬ ((FindJob (StartJob scenarioEnv scenario4 2 0).Jobs 2).map (fun j => j.state) =
          some (some IPP_JOB_PROCESSING) ∧
        (StartJob scenarioEnv scenario4 2 0).FilterLevel = 249) := by
  decide

/-- C10 (amended): in scenario 4 of the spec `StartJob` computes the cost
`33 + 66 = 99` and, since `150 > 0`, `200 > 0` and `150 + 99 > 200`, defers
the job: it stays pending without a printer, the printer stays idle and
`FilterLevel` stays 150. -/
theorem StartJob_scenario4_deferred :
    (FindJob (StartJob scenarioEnv scenario4 2 0).Jobs 2).map
        (fun j => (j.cost, j.state, j.printer)) = some (99, some IPP_JOB_PENDING, none) ∧
      ((StartJob scenarioEnv scenario4 2 0).Printers.get? 0).map (fun r => (r.state, r.job)) =
        some (IPP_PRINTER_IDLE, none) ∧
      (StartJob scenarioEnv scenario4 2 0).FilterLevel = 150 ∧
      (150 : Int) + 99 > 200 := by
  decide


/-! ### State exclusivity over the job operations -/

theorem mem_updateJob {id : Int} {f : job_t → job_t} {l : List job_t} {j : job_t}
    (h : j ∈ updateJob id f l) : j ∈ l ∨ ∃ j0, FindJob l id = some j0 ∧ j = f j0 := by
  induction l with
  | nil => simp [updateJob] at h
  | cons c rest ih =>
    by_cases hc : c.id = id
    · rw [updateJob, if_pos hc] at h
      rcases List.mem_cons.1 h with rfl | h
      · right; exact ⟨c, by rw [FindJob_cons, if_pos hc], rfl⟩
      · left; exact List.mem_cons_of_mem _ h
    · rw [updateJob, if_neg hc] at h
      rcases List.mem_cons.1 h with rfl | h
      · left; exact List.mem_cons_self _ _
      · rcases ih h with h | ⟨j0, h0, rfl⟩
        · left; exact List.mem_cons_of_mem _ h
        · right; exact ⟨j0, by rw [FindJob_cons, if_neg hc]; exact h0, rfl⟩

theorem map_id_updateJob (id : Int) (f : job_t → job_t) (l : List job_t)
    (hf : ∀ j, (f j).id = j.id) :
    (updateJob id f l).map (fun j => j.id) = l.map (fun j => j.id) := by
  induction l with
  | nil => rfl
  | cons c rest ih =>
    by_cases hc : c.id = id
    · simp [updateJob, hc, hf]
    · simp [updateJob, hc, ih]

theorem removeJob_sublist (id : Int) (l : List job_t) : (removeJob id l).Sublist l := by
  induction l with
  | nil => exact List.Sublist.refl _
  | cons c rest ih =>
    by_cases hc : c.id = id
    · rw [removeJob, if_pos hc]; exact List.sublist_cons_self _ _
    · rw [removeJob, if_neg hc]; exact ih.cons₂ _

theorem FindJob_none_of_not_mem {l : List job_t} {id : Int}
    (h : id ∉ l.map (fun j => j.id)) : FindJob l id = none := by
  induction l with
  | nil => rfl
  | cons c rest ih =>
    have hc : ¬ c.id = id := fun e => h (by simp [e.symm])
    rw [FindJob_cons, if_neg hc]
    exact ih (fun hm => h (by simp at hm ⊢; exact Or.inr hm))

theorem FindJob_removeJob_same {l : List job_t} {id : Int}
    (hnd : (l.map (fun j => j.id)).Nodup) : FindJob (removeJob id l) id = none := by
  induction l with
  | nil => rfl
  | cons c rest ih =>
    by_cases hc : c.id = id
    · rw [removeJob, if_pos hc]
      apply FindJob_none_of_not_mem
      have := (List.nodup_cons.1 hnd).1
      simpa [hc] using this
    · rw [removeJob, if_neg hc, FindJob_cons, if_neg hc]
      exact ih (List.nodup_cons.1 hnd).2

theorem JobsInv_of_eq {s t : Sched} (h : JobsInv s) (hj : t.Jobs = s.Jobs)
    (hn : t.NextJobId = s.NextJobId) : JobsInv t := by
  unfold JobsInv at *
  rw [hj, hn]
  exact h

theorem JobsInv_modJob {s : Sched} (id : Int) (f : job_t → job_t) (h : JobsInv s)
    (hid : ∀ j, (f j).id = j.id)
    (hf : ∀ j, FindJob s.Jobs id = some j → StateExclusive j → StateExclusive (f j)) :
    JobsInv (s.modJob id f) := by
  obtain ⟨h1, h2, h3⟩ := h
  refine ⟨?_, ?_, ?_⟩
  · intro j hj
    rcases mem_updateJob hj with hj | ⟨j0, h0, rfl⟩
    · exact h1 j hj
    · exact hf j0 h0 (h1 j0 (FindJob_mem h0))
  · simp only [modJob_Jobs]
    rw [map_id_updateJob _ _ _ hid]
    exact h2
  · intro j hj
    rcases mem_updateJob hj with hj | ⟨j0, h0, rfl⟩
    · exact h3 j hj
    · rw [hid]
      exact h3 j0 (FindJob_mem h0)

theorem JobsInv_dropJob {s : Sched} (id : Int) (h : JobsInv s) : JobsInv (s.dropJob id) := by
  obtain ⟨h1, h2, h3⟩ := h
  have hs := removeJob_sublist id s.Jobs
  refine ⟨fun j hj => h1 j (hs.subset hj), ?_, fun j hj => h3 j (hs.subset hj)⟩
  exact h2.sublist (hs.map _)

theorem StopJob_NextJobId (s : Sched) (id : Int) (force : Bool) :
    (StopJob s id force).NextJobId = s.NextJobId := by
  unfold StopJob
  repeat' split
  all_goals simp [apply_ite Sched.NextJobId]

theorem StopJob_Jobs (s : Sched) (id : Int) (force : Bool) :
    (StopJob s id force).Jobs =
      if (FindJob s.Jobs id).bind (fun j => j.state) = some IPP_JOB_PROCESSING then
        updateJob id stopFields s.Jobs
      else s.Jobs := by
  unfold StopJob
  split
  · next h => simp [h]
  · next c h =>
    simp only [h, Option.some_bind]
    repeat' split
    all_goals simp [apply_ite Sched.Jobs]

theorem StopJob_JobsInv {s : Sched} (id : Int) (force : Bool) (h : JobsInv s) :
    JobsInv (StopJob s id force) := by
  have h2 : JobsInv (s.modJob id stopFields) :=
    JobsInv_modJob id stopFields h (fun _ => rfl) (fun j _ _ => by
      unfold StateExclusive; simp; decide)
  by_cases hc : (FindJob s.Jobs id).bind (fun j => j.state) = some IPP_JOB_PROCESSING
  · exact JobsInv_of_eq h2 (by rw [StopJob_Jobs, if_pos hc]; rfl) (StopJob_NextJobId _ _ _)
  · exact JobsInv_of_eq h (by rw [StopJob_Jobs, if_neg hc]) (StopJob_NextJobId _ _ _)

theorem StopJob_find (s : Sched) (id : Int) (force : Bool) :
    FindJob (StopJob s id force).Jobs id =
      (FindJob s.Jobs id).map (fun j =>
        if j.state = some IPP_JOB_PROCESSING then stopFields j else j) := by
  rw [StopJob_Jobs]
  cases h : FindJob s.Jobs id with
  | none => simp [h]
  | some c =>
    by_cases hc : c.state = some IPP_JOB_PROCESSING
    · simp [hc, FindJob_updateJob_same, h]
    · simp [hc, h]

theorem SaveJob_Jobs (s : Sched) (id : Int) : (SaveJob s id).Jobs = s.Jobs := by
  unfold SaveJob; split <;> rfl

theorem SaveJob_NextJobId (s : Sched) (id : Int) : (SaveJob s id).NextJobId = s.NextJobId := by
  unfold SaveJob; split <;> rfl

theorem CancelJob_JobsInv {s : Sched} (now : Int) (id : Int) (purge : Bool) (h : JobsInv s) :
    JobsInv (CancelJob now s id purge) := by
  unfold CancelJob
  split
  · exact h
  · next found hfound =>
    have h1 : JobsInv (if found.state = some IPP_JOB_PROCESSING then StopJob s id false else s) := by
      split
      · exact StopJob_JobsInv id false h
      · exact h
    have hfind : ∀ j, FindJob (if found.state = some IPP_JOB_PROCESSING then StopJob s id false
        else s).Jobs id = some j → j.state ≠ some IPP_JOB_PROCESSING := by
      intro j hj
      split at hj
      · next hp =>
        rw [StopJob_find, hfound] at hj
        simp [hp] at hj
        subst hj
        simp; decide
      · next hp =>
        rw [hfound] at hj
        simp at hj
        subst hj
        exact hp
    have h2 := JobsInv_modJob id (cancelFields now) h1 (fun _ => rfl) (fun j hj hex => by
      have := hfind j hj
      unfold StateExclusive at hex ⊢
      simp
      constructor
      · intro hp; exact absurd (hex.1 hp) this
      · intro hc; exact absurd hc (by decide))
    simp only []
    split
    · exact JobsInv_of_eq (s := (if !s.JobHistory || !s.JobFiles || purge ||
          decide (found.dtype &&& CUPS_PRINTER_REMOTE ≠ 0) then _ else _))
        (by split <;> exact JobsInv_of_eq h2 rfl rfl) (SaveJob_Jobs _ _) (SaveJob_NextJobId _ _)
    · refine JobsInv_dropJob id (JobsInv_of_eq (s := (if !s.JobHistory || !s.JobFiles || purge ||
          decide (found.dtype &&& CUPS_PRINTER_REMOTE ≠ 0) then _ else _)) ?_ rfl rfl)
      split <;> exact JobsInv_of_eq h2 rfl rfl

theorem CancelJob_find_state {s : Sched} (now : Int) (id : Int) (purge : Bool)
    (hnd : (s.Jobs.map (fun j => j.id)).Nodup) (j : job_t)
    (hj : FindJob (CancelJob now s id purge).Jobs id = some j) :
    j.state = some IPP_JOB_CANCELLED := by
  unfold CancelJob at hj
  split at hj
  · next hnone => rw [hnone] at hj; exact absurd hj (by simp)
  · next found hfound =>
    simp only [] at hj
    have hnd1 : ((if found.state = some IPP_JOB_PROCESSING then StopJob s id false
        else s).Jobs.map (fun j => j.id)).Nodup := by
      split
      · rw [StopJob_Jobs]
        split
        · rw [map_id_updateJob]
          · exact hnd
          · intro _; rfl
        · exact hnd
      · exact hnd
    split at hj
    · rw [SaveJob_Jobs] at hj
      have hj2 : FindJob (updateJob id (cancelFields now)
          (if found.state = some IPP_JOB_PROCESSING then StopJob s id false else s).Jobs) id =
          some j := by
        split at hj <;> simpa using hj
      rw [FindJob_updateJob_same _ _ _ (cancelFields_id now)] at hj2
      cases hf : FindJob (if found.state = some IPP_JOB_PROCESSING then StopJob s id false
          else s).Jobs id with
      | none => rw [hf] at hj2; exact absurd hj2 (by simp)
      | some j0 =>
        rw [hf] at hj2
        simp at hj2
        rw [← hj2]
        rfl
    · have hj2 : FindJob (removeJob id (updateJob id (cancelFields now)
          (if found.state = some IPP_JOB_PROCESSING then StopJob s id false else s).Jobs)) id =
          some j := by
        split at hj <;> simpa using hj
      rw [FindJob_removeJob_same] at hj2
      · exact absurd hj2 (by simp)
      · rw [map_id_updateJob _ _ _ (cancelFields_id now)]
        exact hnd1

theorem JobsInv_modPrinter {s : Sched} (p : Nat) (f : printer_t → printer_t) (h : JobsInv s) :
    JobsInv (s.modPrinter p f) := JobsInv_of_eq h rfl rfl

theorem JobsInv_SetPrinterState {s : Sched} (p : Nat) (st : Int) (h : JobsInv s) :
    JobsInv (s.SetPrinterState p st) := JobsInv_of_eq h rfl rfl

theorem JobsInv_emit {s : Sched} (es : List Event) (h : JobsInv s) : JobsInv (s.emit es) :=
  JobsInv_of_eq h rfl rfl

theorem JobsInv_addLevel {s : Sched} (d : Int) (h : JobsInv s) : JobsInv (s.addLevel d) :=
  JobsInv_of_eq h rfl rfl

theorem JobsInv_fdSet {s : Sched} (fd : Int) (h : JobsInv s) : JobsInv (s.fdSet fd) :=
  JobsInv_of_eq h rfl rfl

theorem JobsInv_closePipe {s : Sched} (fd : Int) (h : JobsInv s) : JobsInv (s.closePipe fd) :=
  JobsInv_of_eq h (closePipe_Jobs _ _) (closePipe_NextJobId _ _)

theorem JobsInv_SaveJob {s : Sched} (id : Int) (h : JobsInv s) : JobsInv (SaveJob s id) :=
  JobsInv_of_eq h (SaveJob_Jobs _ _) (SaveJob_NextJobId _ _)

theorem JobsInv_ite {a b : Sched} (c : Prop) [Decidable c] (ha : JobsInv a) (hb : JobsInv b) :
    JobsInv (if c then a else b) := by
  split
  · exact ha
  · exact hb

theorem JobsInv_modJob_keep {s : Sched} (id : Int) (f : job_t → job_t)
    (hid : ∀ j, (f j).id = j.id) (hst : ∀ j, (f j).state = j.state)
    (hpr : ∀ j, (f j).printer = j.printer) (h : JobsInv s) : JobsInv (s.modJob id f) :=
  JobsInv_modJob id f h hid (fun j _ hex => by
    unfold StateExclusive at hex ⊢
    rw [hst, hpr]
    exact hex)

theorem startProcesses_JobsInv {s : Sched} (env : Env) (id : Int) (printer n : Nat)
    (h : JobsInv s) : JobsInv (startProcesses env s id printer n) := by
  unfold startProcesses
  have h1 : JobsInv (s.modJob id (fun j => { j with current_file := j.current_file + 1 })) :=
    JobsInv_modJob_keep id _ (fun _ => rfl) (fun _ => rfl) (fun _ => rfl) h
  simp only []
  split
  · exact h1
  · next current hcur =>
    split
    · exact CancelJob_JobsInv _ _ _ h1
    · have h2 : JobsInv (if current.buffer = none then
          (s.modJob id (fun j => { j with current_file := j.current_file + 1 })).modJob id
            (fun j => { j with buffer := some [], bufused := 0 })
          else s.modJob id (fun j => { j with current_file := j.current_file + 1 })) :=
        JobsInv_ite _
          (JobsInv_modJob_keep id _ (fun _ => rfl) (fun _ => rfl) (fun _ => rfl) h1) h1
      split
      · exact JobsInv_modPrinter _ _ h2
      · next fd hfd =>
        apply JobsInv_ite
        · apply JobsInv_modPrinter
          exact JobsInv_modJob_keep id _ (fun _ => rfl) (fun _ => rfl) (fun _ => rfl) h2
        · apply JobsInv_fdSet
          exact JobsInv_modJob_keep id _ (fun _ => rfl) (fun _ => rfl) (fun _ => rfl) h2

theorem StartJob_JobsInv {s : Sched} (env : Env) (id : Int) (printer : Nat)
    (h : JobsInv s) : JobsInv (StartJob env s id printer) := by
  unfold StartJob
  split
  · exact h
  · next current hcur =>
    split
    · exact CancelJob_JobsInv _ _ _ h
    · split
      · exact h
      · next p hp =>
        split
        · have h1 := JobsInv_modJob_keep id
            (fun j => { j with cost := 0, current_file := j.current_file + 1 })
            (fun _ => rfl) (fun _ => rfl) (fun _ => rfl) h
          exact JobsInv_ite _ (CancelJob_JobsInv _ _ _ h1) h1
        · simp only []
          generalize (if p.type &&& CUPS_PRINTER_REMOTE = 0 then
            removeNullFilters (env.mimeFilter (currentFiletype current) p.filetype)
            else []) = filters
          apply JobsInv_ite
          · exact JobsInv_modJob_keep id _ (fun _ => rfl) (fun _ => rfl) (fun _ => rfl) h
          · apply startProcesses_JobsInv
            apply JobsInv_SetPrinterState
            apply JobsInv_modPrinter
            refine JobsInv_modJob id _ (JobsInv_addLevel _ h) (admitFields_id _ _ _) ?_
            intro j _ _
            unfold StateExclusive
            simp

theorem dispatch_JobsInv {s : Sched} (env : Env) (id : Int) (dest : String)
    (h : JobsInv s) : JobsInv (dispatch env s id dest) := by
  unfold dispatch
  split
  · exact CancelJob_JobsInv _ _ _ h
  · exact h
  · split
    · exact h
    · exact JobsInv_ite _ (StartJob_JobsInv _ _ _ h) h

theorem JobsInv_setState {s : Sched} (id : Int) (st : Int) (hst : st ≠ IPP_JOB_PROCESSING)
    (h : JobsInv s)
    (hcur : ∀ j, FindJob s.Jobs id = some j → j.state ≠ some IPP_JOB_PROCESSING) :
    JobsInv (s.modJob id (fun j => { j with state := some st })) := by
  refine JobsInv_modJob id _ h (fun _ => rfl) ?_
  intro j hj hex
  have hne := hcur j hj
  unfold StateExclusive at hex ⊢
  constructor
  · intro hp
    exact absurd (hex.1 hp) hne
  · intro hc
    simp at hc
    exact absurd hc hst

theorem CheckJob_JobsInv {s : Sched} (env : Env) (id : Int)
    (h : JobsInv s) : JobsInv (CheckJob env s id) := by
  unfold CheckJob
  split
  · exact h
  · next current hcur =>
    split
    · next hrel =>
      apply dispatch_JobsInv
      apply JobsInv_setState id _ (by decide) h
      intro j hj
      rw [hcur] at hj
      simp at hj
      subst hj
      rw [hrel.1]
      decide
    · exact JobsInv_ite _ (dispatch_JobsInv _ _ _ h) h

theorem foldl_JobsInv {s : Sched} (step : Sched → Int → Sched)
    (hstep : ∀ t i, JobsInv t → JobsInv (step t i)) (ids : List Int) (h : JobsInv s) :
    JobsInv (ids.foldl step s) := by
  induction ids generalizing s with
  | nil => exact h
  | cons i rest ih => exact ih (hstep s i h)

theorem CheckJobs_JobsInv {s : Sched} (env : Env) (h : JobsInv s) :
    JobsInv (CheckJobs env s) :=
  foldl_JobsInv _ (fun _ i ht => CheckJob_JobsInv env i ht) _ h

theorem StopJob_find_not_processing {s : Sched} (id : Int) (force : Bool) (j : job_t)
    (hj : FindJob (StopJob s id force).Jobs id = some j) :
    j.state ≠ some IPP_JOB_PROCESSING := by
  rw [StopJob_find] at hj
  cases h : FindJob s.Jobs id with
  | none => rw [h] at hj; exact absurd hj (by simp)
  | some c =>
    rw [h] at hj
    simp at hj
    subst hj
    split
    · simp; decide
    · assumption

theorem find_ite_stop_not_processing {s : Sched} (id : Int) (force : Bool) (found j : job_t)
    (hfound : FindJob s.Jobs id = some found)
    (hj : FindJob (if found.state = some IPP_JOB_PROCESSING then StopJob s id force
      else s).Jobs id = some j) :
    j.state ≠ some IPP_JOB_PROCESSING := by
  split at hj
  · exact StopJob_find_not_processing id force j hj
  · next hp =>
    rw [hfound] at hj
    simp at hj
    subst hj
    exact hp

theorem HoldJob_JobsInv {s : Sched} (env : Env) (id : Int) (h : JobsInv s) :
    JobsInv (HoldJob env s id) := by
  unfold HoldJob
  split
  · exact h
  · next job hjob =>
    apply CheckJobs_JobsInv
    apply JobsInv_SaveJob
    apply JobsInv_setState id _ (by decide) (JobsInv_ite _ (StopJob_JobsInv _ _ h) h)
    intro j hj
    exact find_ite_stop_not_processing id false job j hjob hj

theorem ReleaseJob_JobsInv {s : Sched} (env : Env) (id : Int) (h : JobsInv s) :
    JobsInv (ReleaseJob env s id) := by
  unfold ReleaseJob
  split
  · exact h
  · next job hjob =>
    split
    · next hheld =>
      apply CheckJobs_JobsInv
      apply JobsInv_SaveJob
      apply JobsInv_setState id _ (by decide) h
      intro j hj
      rw [hjob] at hj
      simp at hj
      subst hj
      rw [hheld]
      decide
    · exact h

theorem RestartJob_JobsInv {s : Sched} (env : Env) (id : Int) (h : JobsInv s)
    (hguard : ∀ j, FindJob s.Jobs id = some j → j.state ≠ some IPP_JOB_PROCESSING) :
    JobsInv (RestartJob env s id) := by
  unfold RestartJob
  split
  · exact h
  · next job hjob =>
    split
    · apply CheckJobs_JobsInv
      apply JobsInv_SaveJob
      exact JobsInv_setState id _ (by decide) h hguard
    · exact h

theorem RestartJob_JobsInv_policy_off {s : Sched} (env : Env) (id : Int) (h : JobsInv s)
    (hoff : s.JobFiles = false) : JobsInv (RestartJob env s id) := by
  unfold RestartJob
  split
  · exact h
  · next job hjob =>
    split
    · next hc =>
      apply CheckJobs_JobsInv
      apply JobsInv_SaveJob
      apply JobsInv_setState id _ (by decide) h
      intro j hj
      rw [hjob] at hj
      simp at hj
      subst hj
      rcases hc with hc | hc
      · rw [hc]; decide
      · rw [hoff] at hc; exact absurd hc (by decide)
    · exact h

theorem StopAllJobsStep_JobsInv {s : Sched} (id : Int) (h : JobsInv s) :
    JobsInv (StopAllJobsStep s id) := by
  unfold StopAllJobsStep
  split
  · exact h
  · split
    · apply JobsInv_setState id _ (by decide) (StopJob_JobsInv _ _ h)
      intro j hj
      exact StopJob_find_not_processing id true j hj
    · exact h

theorem StopAllJobs_JobsInv {s : Sched} (h : JobsInv s) : JobsInv (StopAllJobs s) :=
  foldl_JobsInv _ (fun _ i ht => StopAllJobsStep_JobsInv i ht) _ h

theorem finishJob_JobsInv {s t : Sched} (env : Env) (id : Int) (final : Int)
    (hfinal : final ≠ IPP_JOB_PROCESSING) (h : JobsInv s)
    (hres : finishJob env s id final = some t) : JobsInv t := by
  unfold finishJob at hres
  simp only [] at hres
  split at hres
  · split at hres
    · cases hres
    · cases hres
      apply CheckJobs_JobsInv
      apply JobsInv_SaveJob
      apply JobsInv_setState id _ hfinal (CancelJob_JobsInv _ _ _ h)
      intro j hj
      rw [CancelJob_find_state env.time id false h.2.1 j hj]
      decide
  · cases hres
    exact CheckJobs_JobsInv _ (CancelJob_JobsInv _ _ _ h)

theorem UpdateJobEnd_JobsInv {s t : Sched} (env : Env) (id : Int) (h : JobsInv s)
    (hres : UpdateJobEnd env s id = some t) : JobsInv t := by
  unfold UpdateJobEnd at hres
  split at hres
  · cases hres
    exact h
  · next job hjob =>
    have h1 : JobsInv ((s.modJob id (fun j => { j with pipe := 0 })).closePipe job.pipe) :=
      JobsInv_closePipe _
        (JobsInv_modJob_keep id _ (fun _ => rfl) (fun _ => rfl) (fun _ => rfl) h)
    simp only [] at hres
    split at hres
    · cases hres
      apply JobsInv_SaveJob
      apply JobsInv_setState id _ (by decide) (StopJob_JobsInv _ _ h1)
      intro j hj
      exact StopJob_find_not_processing id false j hj
    · split at hres
      · split at hres
        · split at hres
          · cases hres
            exact StartJob_JobsInv _ _ _ h1
          · cases hres
            exact h1
        · exact finishJob_JobsInv env id _ (by decide) h1 hres
      · split at hres
        · split at hres
          · cases hres
            exact StartJob_JobsInv _ _ _ (JobsInv_addLevel _ h1)
          · cases hres
            exact JobsInv_addLevel _ h1
        · exact finishJob_JobsInv env id _ (by decide) h1 hres

theorem reapInJobs_spec (pid status : Int) (l : List job_t) :
    (reapInJobs pid status l).map (fun j => (j.id, j.state, j.printer)) =
      l.map (fun j => (j.id, j.state, j.printer)) := by
  induction l with
  | nil => rfl
  | cons c rest ih =>
    unfold reapInJobs
    split
    · simp only []
      split
      · split <;> rfl
      · rfl
    · simp [ih]

theorem JobsInv_of_map_eq {s t : Sched} (h : JobsInv s)
    (hj : t.Jobs.map (fun j => (j.id, j.state, j.printer)) =
      s.Jobs.map (fun j => (j.id, j.state, j.printer)))
    (hn : t.NextJobId = s.NextJobId) : JobsInv t := by
  obtain ⟨h1, h2, h3⟩ := h
  have key : ∀ j ∈ t.Jobs, ∃ j0 ∈ s.Jobs, j.id = j0.id ∧ j.state = j0.state ∧
      j.printer = j0.printer := by
    intro j hj2
    have : (j.id, j.state, j.printer) ∈ t.Jobs.map (fun j => (j.id, j.state, j.printer)) :=
      List.mem_map_of_mem _ hj2
    rw [hj] at this
    obtain ⟨j0, hj0, he⟩ := List.mem_map.1 this
    simp only [Prod.mk.injEq] at he
    exact ⟨j0, hj0, he.1.symm, he.2.1.symm, he.2.2.symm⟩
  refine ⟨?_, ?_, ?_⟩
  · intro j hj2
    obtain ⟨j0, hj0, _, hs, hp⟩ := key j hj2
    have := h1 j0 hj0
    unfold StateExclusive at this ⊢
    rw [hs, hp]
    exact this
  · have e : t.Jobs.map (fun j => j.id) = s.Jobs.map (fun j => j.id) := by
      have := congrArg (List.map Prod.fst) hj
      simpa [List.map_map, Function.comp] using this
    rw [e]
    exact h2
  · intro j hj2
    obtain ⟨j0, hj0, hi, _, _⟩ := key j hj2
    rw [hi, hn]
    exact h3 j0 hj0

theorem sigchld_handler_JobsInv {s : Sched} (pid status : Int) (h : JobsInv s) :
    JobsInv (sigchld_handler s pid status) :=
  JobsInv_of_map_eq h (reapInJobs_spec _ _ _) rfl

theorem insertJob_perm (job : job_t) (l : List job_t) :
    (insertJob job l).Perm (job :: l) := by
  rw [insertJob_split]
  have h := List.takeWhile_append_dropWhile (fun c => !decide (job.priority > c.priority)) l
  conv_rhs => rw [← h]
  exact List.perm_middle

theorem AddJob_JobsInv {s : Sched} (priority : Int) (dest : String) (init : job_t → job_t)
    (hid : ∀ j, (init j).id = j.id) (hprinter : ∀ j, (init j).printer = j.printer)
    (hstate : ∀ j, (init j).state = some IPP_JOB_PENDING ∨ (init j).state = some IPP_JOB_HELD)
    (h : JobsInv s) :
    JobsInv ((AddJob s priority dest).1.modJob (AddJob s priority dest).2.id init) := by
  obtain ⟨h1, h2, h3⟩ := h
  have hperm := insertJob_perm (AddJob s priority dest).2 s.Jobs
  have hadd : JobsInv (AddJob s priority dest).1 := by
    refine ⟨?_, ?_, ?_⟩
    · intro j hj
      rcases (mem_insertJob _ _ _).1 hj with rfl | hj
      · unfold StateExclusive; simp [AddJob]
      · exact h1 j hj
    · have hp2 := hperm.map (fun j => j.id)
      refine (hp2.nodup_iff).2 ?_
      simp only [List.map_cons]
      refine List.nodup_cons.2 ⟨?_, h2⟩
      intro hm
      obtain ⟨j0, hj0, he⟩ := List.mem_map.1 hm
      have := h3 j0 hj0
      simp [AddJob] at he
      omega
    · intro j hj
      rcases (mem_insertJob _ _ _).1 hj with rfl | hj
      · simp [AddJob]
      · have := h3 j hj
        simp [AddJob]
        omega
  refine JobsInv_modJob _ init hadd hid ?_
  intro j hj _
  have hmem := FindJob_mem hj
  have hjid := FindJob_id hj
  have hnew : j = (AddJob s priority dest).2 := by
    rcases (mem_insertJob _ _ _).1 hmem with rfl | hold
    · rfl
    · have := h3 j hold
      simp [AddJob] at hjid
      omega
  unfold StateExclusive
  rw [hprinter, hnew]
  rcases hstate (AddJob s priority dest).2 with hs | hs <;> rw [hs] <;> simp [AddJob] <;> decide

theorem JobOp_JobsInv : ∀ {s t : Sched}, JobOp s t → JobsInv s → JobsInv t
  | _, _, JobOp.add _ priority dest init hid hprinter hstate, h =>
    AddJob_JobsInv priority dest init hid hprinter hstate h
  | _, _, JobOp.check env _, h => CheckJobs_JobsInv env h
  | _, _, JobOp.start env _ id printer, h => StartJob_JobsInv env id printer h
  | _, _, JobOp.stop _ id force, h => StopJob_JobsInv id force h
  | _, _, JobOp.cancel now _ id purge, h => CancelJob_JobsInv now id purge h
  | _, _, JobOp.hold env _ id, h => HoldJob_JobsInv env id h
  | _, _, JobOp.release env _ id, h => ReleaseJob_JobsInv env id h
  | _, _, JobOp.restart env _ id (Or.inl hoff), h => RestartJob_JobsInv_policy_off env id h hoff
  | _, _, JobOp.restart env _ id (Or.inr hg), h => RestartJob_JobsInv env id h hg
  | _, _, JobOp.stopAll _, h => StopAllJobs_JobsInv h
  | _, _, JobOp.update env _ _ id hupdate, h => UpdateJobEnd_JobsInv env id h hupdate
  | _, _, JobOp.reap _ pid status, h => sigchld_handler_JobsInv pid status h

theorem Reachable_JobsInv {s : Sched} (h : Reachable s) : JobsInv s := by
  induction h with
  | empty s h0 =>
    unfold JobsInv
    rw [h0]
    simp
  | step s t _ op ih => exact JobOp_JobsInv op ih

/-- C7 (the claim as stated fails): with the preserve-files policy on, a job is
added and dispatched (it is processing on printer 0) and then restarted:
`RestartJob` makes it pending while its printer pointer stays set. -/
theorem RestartJob_keeps_printer :
    (FindJob (CheckJobs scenarioEnv
        ((AddJob preserveStore 50 "lp").1.modJob 1 initPending)).Jobs 1).map
        (fun j => (j.state, j.printer)) = some (some IPP_JOB_PROCESSING, some 0) ∧
    (FindJob (RestartJob scenarioEnv (CheckJobs scenarioEnv
        ((AddJob preserveStore 50 "lp").1.modJob 1 initPending)) 1).Jobs 1).map
        (fun j => (j.state, j.printer)) = some (some IPP_JOB_PENDING, some 0) := by
  decide

/-- C7 (amended): in every state reached from a store without jobs by `AddJob`
(with the caller attaching state pending or held), `CheckJobs`, `StartJob`,
`StopJob`, `CancelJob`, `HoldJob`, `ReleaseJob`, `StopAllJobs`, the
end-of-file handling of `UpdateJob` (where its behaviour is defined), the
child reaper, and `RestartJob` with the preserve-files policy off or applied
to a job that is not processing, a job has an assigned printer if and only if
its state is processing. -/
theorem state_exclusive_reachable (s : Sched) (h : Reachable s) :
    ∀ j ∈ s.Jobs, (j.printer ≠ none ↔ j.state = some IPP_JOB_PROCESSING) :=
  (Reachable_JobsInv h).1

/-- C7 (amended) at a state reached by `AddJob` and `CheckJobs`: the state is
reachable and its jobs have a printer exactly when they are processing. -/
theorem state_exclusive_reachable_witness :
    Reachable (CheckJobs scenarioEnv ((AddJob preserveStore 50 "lp").1.modJob
        (AddJob preserveStore 50 "lp").2.id initPending)) ∧
    ∀ j ∈ (CheckJobs scenarioEnv ((AddJob preserveStore 50 "lp").1.modJob
        (AddJob preserveStore 50 "lp").2.id initPending)).Jobs,
      (j.printer ≠ none ↔ j.state = some IPP_JOB_PROCESSING) :=
  ⟨Reachable.step _ _
      (Reachable.step _ _ (Reachable.empty preserveStore rfl)
        (JobOp.add preserveStore 50 "lp" initPending (fun _ => rfl) (fun _ => rfl)
          (fun _ => Or.inl rfl)))
      (JobOp.check scenarioEnv _),
    state_exclusive_reachable _
      (Reachable.step _ _
        (Reachable.step _ _ (Reachable.empty preserveStore rfl)
          (JobOp.add preserveStore 50 "lp" initPending (fun _ => rfl) (fun _ => rfl)
            (fun _ => Or.inl rfl)))
        (JobOp.check scenarioEnv _))⟩

/-! ### The filter budget -/

theorem processingCost_updateJob (id : Int) (f : job_t → job_t) (l : List job_t) :
    processingCost (updateJob id f l) =
      processingCost l +
        (match FindJob l id with
         | some j => budgetShare (f j) - budgetShare j
         | none => 0) := by
  induction l with
  | nil => simp [updateJob, processingCost, FindJob_nil]
  | cons c rest ih =>
    by_cases hc : c.id = id
    · rw [updateJob, if_pos hc, FindJob_cons, if_pos hc]
      simp only [processingCost]
      ring
    · rw [updateJob, if_neg hc, FindJob_cons, if_neg hc]
      simp only [processingCost, ih]
      ring

theorem processingCost_removeJob (id : Int) (l : List job_t) :
    processingCost (removeJob id l) =
      processingCost l -
        (match FindJob l id with
         | some j => budgetShare j
         | none => 0) := by
  induction l with
  | nil => simp [removeJob, processingCost, FindJob_nil]
  | cons c rest ih =>
    by_cases hc : c.id = id
    · rw [removeJob, if_pos hc, FindJob_cons, if_pos hc]
      simp only [processingCost]
      ring
    · rw [removeJob, if_neg hc, FindJob_cons, if_neg hc]
      simp only [processingCost, ih]
      ring

theorem processingCost_insertJob (job : job_t) (l : List job_t) :
    processingCost (insertJob job l) = budgetShare job + processingCost l := by
  induction l with
  | nil => simp [insertJob, processingCost]
  | cons c rest ih =>
    by_cases h : job.priority > c.priority
    · simp [insertJob, h, processingCost]
    · simp only [insertJob, h, if_false, processingCost, ih]
      ring

theorem Budget_of_eq {s t : Sched} (h : Budget s) (hj : t.Jobs = s.Jobs)
    (hl : t.FilterLevel = s.FilterLevel) : Budget t := by
  unfold Budget at *
  rw [hj, hl]
  exact h

theorem Budget_modJob {s : Sched} (id : Int) (f : job_t → job_t) (h : Budget s)
    (hf : ∀ j, FindJob s.Jobs id = some j → budgetShare (f j) = budgetShare j) :
    Budget (s.modJob id f) := by
  unfold Budget at *
  simp only [modJob_FilterLevel, modJob_Jobs, processingCost_updateJob]
  cases hj : FindJob s.Jobs id with
  | none => simpa using h
  | some j => simp [hf j hj]; exact h

theorem Budget_modJob_keep {s : Sched} (id : Int) (f : job_t → job_t)
    (hst : ∀ j, (f j).state = j.state) (hco : ∀ j, (f j).cost = j.cost) (h : Budget s) :
    Budget (s.modJob id f) :=
  Budget_modJob id f h (fun j _ => by unfold budgetShare; rw [hst, hco])

theorem Budget_setState {s : Sched} (id : Int) (st : Int) (hst : st ≠ IPP_JOB_PROCESSING)
    (h : Budget s)
    (hcur : ∀ j, FindJob s.Jobs id = some j → j.state ≠ some IPP_JOB_PROCESSING) :
    Budget (s.modJob id (fun j => { j with state := some st })) :=
  Budget_modJob id _ h (fun j hj => by
    have := hcur j hj
    unfold budgetShare
    simp [this, hst])

theorem Budget_modPrinter {s : Sched} (p : Nat) (f : printer_t → printer_t) (h : Budget s) :
    Budget (s.modPrinter p f) := Budget_of_eq h rfl rfl

theorem Budget_SetPrinterState {s : Sched} (p : Nat) (st : Int) (h : Budget s) :
    Budget (s.SetPrinterState p st) := Budget_of_eq h rfl rfl

theorem Budget_emit {s : Sched} (es : List Event) (h : Budget s) : Budget (s.emit es) :=
  Budget_of_eq h rfl rfl

theorem Budget_fdSet {s : Sched} (fd : Int) (h : Budget s) : Budget (s.fdSet fd) :=
  Budget_of_eq h rfl rfl

theorem Budget_closePipe {s : Sched} (fd : Int) (h : Budget s) : Budget (s.closePipe fd) :=
  Budget_of_eq h (closePipe_Jobs _ _) (closePipe_FilterLevel _ _)

theorem SaveJob_FilterLevel (s : Sched) (id : Int) :
    (SaveJob s id).FilterLevel = s.FilterLevel := by
  unfold SaveJob; split <;> rfl

theorem Budget_SaveJob {s : Sched} (id : Int) (h : Budget s) : Budget (SaveJob s id) :=
  Budget_of_eq h (SaveJob_Jobs _ _) (SaveJob_FilterLevel _ _)

theorem Budget_ite {a b : Sched} (c : Prop) [Decidable c] (ha : Budget a) (hb : Budget b) :
    Budget (if c then a else b) := by
  split
  · exact ha
  · exact hb

theorem StopJob_FilterLevel (s : Sched) (id : Int) (force : Bool) :
    (StopJob s id force).FilterLevel =
      s.FilterLevel -
        (match FindJob s.Jobs id with
         | some j => budgetShare j
         | none => 0) := by
  unfold StopJob
  cases hj : FindJob s.Jobs id with
  | none => simp
  | some c =>
    simp only []
    unfold budgetShare
    by_cases hp : c.state = some IPP_JOB_PROCESSING
    · simp only [hp, if_true]
      repeat' split
      all_goals simp [apply_ite Sched.FilterLevel]
      all_goals ring
    · simp [hp]

theorem StopJob_Budget {s : Sched} (id : Int) (force : Bool) (h : Budget s) :
    Budget (StopJob s id force) := by
  unfold Budget at *
  rw [StopJob_FilterLevel, StopJob_Jobs]
  cases hj : FindJob s.Jobs id with
  | none => simp [h]
  | some j =>
    by_cases hp : j.state = some IPP_JOB_PROCESSING
    · simp only [Option.some_bind, hp, if_true, processingCost_updateJob, hj]
      rw [h]
      have : budgetShare (stopFields j) = 0 := by
        unfold budgetShare; simp; intro hc; exact absurd hc (by decide)
      rw [this]
      ring
    · simp only [Option.some_bind, hp, if_false]
      rw [h]
      unfold budgetShare
      simp [hp]

theorem Budget_dropJob {s : Sched} (id : Int) (h : Budget s)
    (hcur : ∀ j, FindJob s.Jobs id = some j → j.state ≠ some IPP_JOB_PROCESSING) :
    Budget (s.dropJob id) := by
  unfold Budget at *
  simp only [dropJob_FilterLevel, dropJob_Jobs, processingCost_removeJob]
  cases hj : FindJob s.Jobs id with
  | none => simpa using h
  | some j =>
    have := hcur j hj
    unfold budgetShare
    simp [this, h]

theorem CancelJob_Budget {s : Sched} (now : Int) (id : Int) (purge : Bool) (h : Budget s) :
    Budget (CancelJob now s id purge) := by
  unfold CancelJob
  split
  · exact h
  · next found hfound =>
    have h1 : Budget (if found.state = some IPP_JOB_PROCESSING then StopJob s id false else s) :=
      Budget_ite _ (StopJob_Budget _ _ h) h
    have h2 : Budget ((if found.state = some IPP_JOB_PROCESSING then StopJob s id false
        else s).modJob id (cancelFields now)) :=
      Budget_modJob id _ h1 (fun j hj => by
        have := find_ite_stop_not_processing id false found j hfound hj
        unfold budgetShare
        simp [this]
        intro hc; exact absurd hc (by decide))
    have hfind : ∀ j, FindJob ((if found.state = some IPP_JOB_PROCESSING then StopJob s id false
        else s).modJob id (cancelFields now)).Jobs id = some j →
        j.state ≠ some IPP_JOB_PROCESSING := by
      intro j hj
      simp only [modJob_Jobs] at hj
      rw [FindJob_updateJob_same _ _ _ (cancelFields_id now)] at hj
      cases hf : FindJob (if found.state = some IPP_JOB_PROCESSING then StopJob s id false
          else s).Jobs id with
      | none => rw [hf] at hj; exact absurd hj (by simp)
      | some j0 =>
        rw [hf] at hj
        simp at hj
        rw [← hj]
        simp; decide
    simp only []
    split
    · apply Budget_SaveJob
      exact Budget_ite _ (Budget_emit _ h2) h2
    · apply Budget_dropJob
      · apply Budget_emit
        exact Budget_ite _ (Budget_emit _ h2) h2
      · intro j hj
        apply hfind j
        split at hj <;> simpa using hj

theorem startProcesses_Budget {s : Sched} (env : Env) (id : Int) (printer n : Nat)
    (h : Budget s) : Budget (startProcesses env s id printer n) := by
  unfold startProcesses
  have h1 : Budget (s.modJob id (fun j => { j with current_file := j.current_file + 1 })) :=
    Budget_modJob_keep id _ (fun _ => rfl) (fun _ => rfl) h
  simp only []
  split
  · exact h1
  · next current hcur =>
    split
    · exact CancelJob_Budget _ _ _ h1
    · have h2 : Budget (if current.buffer = none then
          (s.modJob id (fun j => { j with current_file := j.current_file + 1 })).modJob id
            (fun j => { j with buffer := some [], bufused := 0 })
          else s.modJob id (fun j => { j with current_file := j.current_file + 1 })) :=
        Budget_ite _ (Budget_modJob_keep id _ (fun _ => rfl) (fun _ => rfl) h1) h1
      split
      · exact Budget_modPrinter _ _ h2
      · next fd hfd =>
        apply Budget_ite
        · apply Budget_modPrinter
          exact Budget_modJob_keep id _ (fun _ => rfl) (fun _ => rfl) h2
        · apply Budget_fdSet
          exact Budget_modJob_keep id _ (fun _ => rfl) (fun _ => rfl) h2

theorem Budget_admit {s : Sched} (id : Int) (now cost : Int) (printer : Nat) (h : Budget s)
    (j : job_t) (hj : FindJob s.Jobs id = some j) (hidle : j.state ≠ some IPP_JOB_PROCESSING) :
    Budget ((s.addLevel cost).modJob id (admitFields now cost printer)) := by
  unfold Budget at *
  simp only [modJob_FilterLevel, addLevel_FilterLevel, modJob_Jobs, addLevel_Jobs,
    processingCost_updateJob, hj]
  unfold budgetShare
  simp [hidle, h]

theorem StartJob_Budget {s : Sched} (env : Env) (id : Int) (printer : Nat) (h : Budget s)
    (hidle : ∀ j, FindJob s.Jobs id = some j → j.state ≠ some IPP_JOB_PROCESSING) :
    Budget (StartJob env s id printer) := by
  unfold StartJob
  split
  · exact h
  · next current hcur =>
    have hc := hidle current hcur
    split
    · exact CancelJob_Budget _ _ _ h
    · split
      · exact h
      · next p hp =>
        split
        · have h1 : Budget (s.modJob id
              (fun j => { j with cost := 0, current_file := j.current_file + 1 })) :=
            Budget_modJob id _ h (fun j hj => by
              have := hidle j hj
              unfold budgetShare
              simp [this])
          exact Budget_ite _ (CancelJob_Budget _ _ _ h1) h1
        · simp only []
          generalize (if p.type &&& CUPS_PRINTER_REMOTE = 0 then
            removeNullFilters (env.mimeFilter (currentFiletype current) p.filetype)
            else []) = filters
          apply Budget_ite
          · exact Budget_modJob id _ h (fun j hj => by
              have := hidle j hj
              unfold budgetShare
              simp [this])
          · apply startProcesses_Budget
            apply Budget_SetPrinterState
            apply Budget_modPrinter
            exact Budget_admit id _ _ _ h current hcur hc

theorem dispatch_Budget {s : Sched} (env : Env) (id : Int) (dest : String) (h : Budget s)
    (hidle : ∀ j, FindJob s.Jobs id = some j → j.state ≠ some IPP_JOB_PROCESSING) :
    Budget (dispatch env s id dest) := by
  unfold dispatch
  split
  · exact CancelJob_Budget _ _ _ h
  · exact h
  · split
    · exact h
    · exact Budget_ite _ (StartJob_Budget _ _ _ h hidle) h

theorem FindJob_setState {s : Sched} {id st : Int} {j : job_t}
    (hj : FindJob (s.modJob id (fun j => { j with state := some st })).Jobs id = some j) :
    j.state = some st := by
  simp [FindJob_updateJob_same] at hj
  obtain ⟨j0, _, rfl⟩ := hj
  rfl

theorem CheckJob_Budget {s : Sched} (env : Env) (id : Int) (h : Budget s) :
    Budget (CheckJob env s id) := by
  unfold CheckJob
  split
  · exact h
  · next current hcur =>
    split
    · next hrel =>
      apply dispatch_Budget
      · apply Budget_setState id _ (by decide) h
        intro j hj
        rw [hcur] at hj
        simp at hj
        subst hj
        rw [hrel.1]
        decide
      · intro j hj
        rw [FindJob_setState hj]
        decide
    · split
      · next hpend =>
        apply dispatch_Budget _ _ _ h
        intro j hj
        rw [hcur] at hj
        simp at hj
        subst hj
        rw [hpend]
        decide
      · exact h

theorem foldl_Budget {s : Sched} (step : Sched → Int → Sched)
    (hstep : ∀ t i, Budget t → Budget (step t i)) (ids : List Int) (h : Budget s) :
    Budget (ids.foldl step s) := by
  induction ids generalizing s with
  | nil => exact h
  | cons i rest ih => exact ih (hstep s i h)

theorem CheckJobs_Budget {s : Sched} (env : Env) (h : Budget s) : Budget (CheckJobs env s) :=
  foldl_Budget _ (fun _ i ht => CheckJob_Budget env i ht) _ h

theorem HoldJob_Budget {s : Sched} (env : Env) (id : Int) (h : Budget s) :
    Budget (HoldJob env s id) := by
  unfold HoldJob
  split
  · exact h
  · next job hjob =>
    apply CheckJobs_Budget
    apply Budget_SaveJob
    apply Budget_setState id _ (by decide) (Budget_ite _ (StopJob_Budget _ _ h) h)
    intro j hj
    exact find_ite_stop_not_processing id false job j hjob hj

theorem ReleaseJob_Budget {s : Sched} (env : Env) (id : Int) (h : Budget s) :
    Budget (ReleaseJob env s id) := by
  unfold ReleaseJob
  split
  · exact h
  · next job hjob =>
    split
    · next hheld =>
      apply CheckJobs_Budget
      apply Budget_SaveJob
      apply Budget_setState id _ (by decide) h
      intro j hj
      rw [hjob] at hj
      simp at hj
      subst hj
      rw [hheld]
      decide
    · exact h

theorem RestartJob_Budget {s : Sched} (env : Env) (id : Int) (h : Budget s)
    (hguard : s.JobFiles = false ∨
      ∀ j, FindJob s.Jobs id = some j → j.state ≠ some IPP_JOB_PROCESSING) :
    Budget (RestartJob env s id) := by
  unfold RestartJob
  split
  · exact h
  · next job hjob =>
    split
    · next hc =>
      apply CheckJobs_Budget
      apply Budget_SaveJob
      apply Budget_setState id _ (by decide) h
      intro j hj
      rcases hguard with hoff | hg
      · rw [hjob] at hj
        simp at hj
        subst hj
        rcases hc with hc | hc
        · rw [hc]; decide
        · rw [hoff] at hc; exact absurd hc (by decide)
      · exact hg j hj
    · exact h

theorem StopAllJobsStep_Budget {s : Sched} (id : Int) (h : Budget s) :
    Budget (StopAllJobsStep s id) := by
  unfold StopAllJobsStep
  split
  · exact h
  · split
    · apply Budget_setState id _ (by decide) (StopJob_Budget _ _ h)
      intro j hj
      exact StopJob_find_not_processing id true j hj
    · exact h

theorem StopAllJobs_Budget {s : Sched} (h : Budget s) : Budget (StopAllJobs s) :=
  foldl_Budget _ (fun _ i ht => StopAllJobsStep_Budget i ht) _ h

theorem finishJob_Budget {s t : Sched} (env : Env) (id : Int) (final : Int)
    (hfinal : final ≠ IPP_JOB_PROCESSING) (hinv : JobsInv s) (h : Budget s)
    (hres : finishJob env s id final = some t) : Budget t := by
  unfold finishJob at hres
  simp only [] at hres
  split at hres
  · split at hres
    · cases hres
    · cases hres
      apply CheckJobs_Budget
      apply Budget_SaveJob
      apply Budget_setState id _ hfinal (CancelJob_Budget _ _ _ h)
      intro j hj
      rw [CancelJob_find_state env.time id false hinv.2.1 j hj]
      decide
  · cases hres
    exact CheckJobs_Budget _ (CancelJob_Budget _ _ _ h)

theorem StartJob_Budget_next {s : Sched} (env : Env) (id : Int) (printer : Nat)
    (current : job_t) (p : printer_t)
    (hcur : FindJob s.Jobs id = some current)
    (hproc : current.state = some IPP_JOB_PROCESSING)
    (hlevel : s.FilterLevel = processingCost s.Jobs - current.cost)
    (hfiles : current.num_files ≠ 0) (hp : s.Printers.get? printer = some p)
    (hgo : ¬ Deferred s (jobCost env current p)) :
    Budget (StartJob env s id printer) := by
  by_cases hun : p.type &&& CUPS_PRINTER_REMOTE = 0 ∧
      env.mimeFilter (currentFiletype current) p.filetype = []
  · have h1 : Budget (s.modJob id
        (fun j => { j with cost := 0, current_file := j.current_file + 1 })) := by
      unfold Budget
      simp only [modJob_FilterLevel, modJob_Jobs, processingCost_updateJob, hcur]
      unfold budgetShare
      simp only [hproc, if_true]
      rw [hlevel]
      ring
    unfold StartJob
    simp only [hcur, hfiles, hp, hun, if_false]
    simp only [and_self, if_true]
    exact Budget_ite _ (CancelJob_Budget _ _ _ h1) h1
  · have hconv : p.type &&& CUPS_PRINTER_REMOTE ≠ 0 ∨
        env.mimeFilter (currentFiletype current) p.filetype ≠ [] := by
      by_cases hr : p.type &&& CUPS_PRINTER_REMOTE = 0
      · exact Or.inr (fun he => hun ⟨hr, he⟩)
      · exact Or.inl hr
    rcases StartJob_cases env s id printer current p hcur hfiles hp hconv with
      ⟨hD, _⟩ | ⟨_, n, heq⟩
    · exact absurd hD hgo
    · rw [heq]
      apply startProcesses_Budget
      apply Budget_SetPrinterState
      apply Budget_modPrinter
      unfold Budget
      simp only [modJob_FilterLevel, addLevel_FilterLevel, modJob_Jobs, addLevel_Jobs,
        processingCost_updateJob, hcur]
      unfold budgetShare
      simp only [admitFields_state, admitFields_cost, hproc, if_true]
      rw [hlevel]
      ring

theorem UpdateJobEnd_Budget {s t : Sched} (env : Env) (id : Int) (hinv : JobsInv s)
    (h : Budget s)
    (hguard : ∀ j, FindJob s.Jobs id = some j →
      j.status < 0 ∨ ¬ (j.current_file < j.num_files) ∨
      (j.status = 0 ∧ j.num_files ≠ 0 ∧ ∃ p r, j.printer = some p ∧
        s.Printers.get? p = some r ∧
        ¬ Deferred (s.addLevel (-j.cost)) (jobCost env j r)))
    (hres : UpdateJobEnd env s id = some t) : Budget t := by
  unfold UpdateJobEnd at hres
  split at hres
  · cases hres
    exact h
  · next job hjob =>
    have h1 : Budget ((s.modJob id (fun j => { j with pipe := 0 })).closePipe job.pipe) :=
      Budget_closePipe _ (Budget_modJob_keep id _ (fun _ => rfl) (fun _ => rfl) h)
    have hinv1 : JobsInv ((s.modJob id (fun j => { j with pipe := 0 })).closePipe job.pipe) :=
      JobsInv_closePipe _
        (JobsInv_modJob_keep id _ (fun _ => rfl) (fun _ => rfl) (fun _ => rfl) hinv)
    have hg := hguard job hjob
    simp only [] at hres
    split at hres
    · cases hres
      apply Budget_SaveJob
      apply Budget_setState id _ (by decide) (StopJob_Budget _ _ h1)
      intro j hj
      exact StopJob_find_not_processing id false j hj
    · next hneg =>
      by_cases hlt : job.current_file < job.num_files
      · obtain ⟨hzero, hfiles, p, r, hprinter, hp, hgo⟩ : job.status = 0 ∧
            job.num_files ≠ 0 ∧ ∃ p r, job.printer = some p ∧ s.Printers.get? p = some r ∧
              ¬ Deferred (s.addLevel (-job.cost)) (jobCost env job r) := by
          rcases hg with hg | hg | hg
          · exact absurd hg hneg
          · exact absurd hlt hg
          · exact hg
        have hpos : ¬ job.status > 0 := by omega
        rw [if_neg hpos, if_pos hlt, hprinter] at hres
        simp only [] at hres
        cases hres
        have hproc : job.state = some IPP_JOB_PROCESSING :=
          (hinv.1 job (FindJob_mem hjob)).1 (by rw [hprinter]; simp)
        refine StartJob_Budget_next env id p { job with pipe := 0 } r ?_ hproc ?_ hfiles ?_ ?_
        · simp [FindJob_updateJob_same, hjob]
        · have hb := h
          unfold Budget at hb
          simp only [addLevel_FilterLevel, closePipe_FilterLevel, modJob_FilterLevel,
            addLevel_Jobs, closePipe_Jobs, modJob_Jobs, processingCost_updateJob, hjob, hb]
          unfold budgetShare
          simp only [hproc, if_true]
          ring
        · simpa using hp
        · intro hD
          apply hgo
          unfold Deferred at hD ⊢
          simpa [jobCost, currentFiletype] using hD
      · rw [if_neg hlt, if_neg hlt] at hres
        split at hres
        · exact finishJob_Budget env id _ (by decide) hinv1 h1 hres
        · exact finishJob_Budget env id _ (by decide) hinv1 h1 hres

theorem reapInJobs_budget (pid status : Int) (l : List job_t) :
    processingCost (reapInJobs pid status l) = processingCost l := by
  induction l with
  | nil => rfl
  | cons c rest ih =>
    unfold reapInJobs
    split
    · simp only [processingCost]
      congr 1
      unfold budgetShare
      split
      · split <;> rfl
      · rfl
    · simp only [processingCost, ih]

theorem sigchld_handler_Budget {s : Sched} (pid status : Int) (h : Budget s) :
    Budget (sigchld_handler s pid status) := by
  unfold Budget at *
  simp only [sigchld_handler, reapInJobs_budget]
  exact h

theorem AddJob_Budget {s : Sched} (priority : Int) (dest : String) (init : job_t → job_t)
    (hstate : ∀ j, (init j).state = some IPP_JOB_PENDING ∨ (init j).state = some IPP_JOB_HELD)
    (hinv : JobsInv s) (h : Budget s) :
    Budget ((AddJob s priority dest).1.modJob (AddJob s priority dest).2.id init) := by
  have hadd : Budget (AddJob s priority dest).1 := by
    unfold Budget at *
    simp only [AddJob, processingCost_insertJob]
    unfold budgetShare
    simp [h]
  refine Budget_modJob _ init hadd ?_
  intro j hj
  have hmem := FindJob_mem hj
  have hjid := FindJob_id hj
  have hnew : j = (AddJob s priority dest).2 := by
    rcases (mem_insertJob _ _ _).1 hmem with rfl | hold
    · rfl
    · have := hinv.2.2 j hold
      simp [AddJob] at hjid
      omega
  unfold budgetShare
  rw [hnew]
  rcases hstate (AddJob s priority dest).2 with hs | hs
  · rw [hs, if_neg (by decide)]
    simp [AddJob]
  · rw [hs, if_neg (by decide)]
    simp [AddJob]

theorem BudgetOp_JobOp : ∀ {s t : Sched}, BudgetOp s t → JobOp s t
  | _, _, BudgetOp.add s priority dest init hid hprinter hstate =>
    JobOp.add s priority dest init hid hprinter hstate
  | _, _, BudgetOp.check env s => JobOp.check env s
  | _, _, BudgetOp.start env s id printer _ => JobOp.start env s id printer
  | _, _, BudgetOp.stop s id force => JobOp.stop s id force
  | _, _, BudgetOp.cancel now s id purge => JobOp.cancel now s id purge
  | _, _, BudgetOp.hold env s id => JobOp.hold env s id
  | _, _, BudgetOp.release env s id => JobOp.release env s id
  | _, _, BudgetOp.restart env s id hguard => JobOp.restart env s id hguard
  | _, _, BudgetOp.stopAll s => JobOp.stopAll s
  | _, _, BudgetOp.update env s t id hupdate _ => JobOp.update env s t id hupdate
  | _, _, BudgetOp.reap s pid status => JobOp.reap s pid status

theorem BudgetOp_Budget : ∀ {s t : Sched}, BudgetOp s t → JobsInv s → Budget s → Budget t
  | _, _, BudgetOp.add _ priority dest init _ _ hstate, hinv, h =>
    AddJob_Budget priority dest init hstate hinv h
  | _, _, BudgetOp.check env _, _, h => CheckJobs_Budget env h
  | _, _, BudgetOp.start env _ id printer hidle, _, h => StartJob_Budget env id printer h hidle
  | _, _, BudgetOp.stop _ id force, _, h => StopJob_Budget id force h
  | _, _, BudgetOp.cancel now _ id purge, _, h => CancelJob_Budget now id purge h
  | _, _, BudgetOp.hold env _ id, _, h => HoldJob_Budget env id h
  | _, _, BudgetOp.release env _ id, _, h => ReleaseJob_Budget env id h
  | _, _, BudgetOp.restart env _ id hguard, _, h => RestartJob_Budget env id h hguard
  | _, _, BudgetOp.stopAll _, _, h => StopAllJobs_Budget h
  | _, _, BudgetOp.update env _ _ id hupdate hguard, hinv, h =>
    UpdateJobEnd_Budget env id hinv h hguard hupdate
  | _, _, BudgetOp.reap _ pid status, _, h => sigchld_handler_Budget pid status h

theorem BudgetReachable_inv {s : Sched} (h : BudgetReachable s) : JobsInv s ∧ Budget s := by
  induction h with
  | empty s h0 hl =>
    refine ⟨?_, ?_⟩
    · unfold JobsInv
      rw [h0]
      simp
    · unfold Budget
      rw [h0, hl]
      rfl
  | step s t _ op ih => exact ⟨JobOp_JobsInv (BudgetOp_JobOp op) ih.1, BudgetOp_Budget op ih.1 ih.2⟩

/-- The positive-status branch of the end-of-file handling of `UpdateJob`: a
job of two files (filter cost 99) is added to an empty store and dispatched,
so `FilterLevel = 99` is the sum of the costs of the processing jobs.  The
first filter (pid 101) exits with status 256 and the child reaper records the
positive status.  At end of file `UpdateJob` starts the second file without
taking the cost of the first from `FilterLevel`: `FilterLevel` is 198 while the
costs of the processing jobs sum to 99.  After a zero status the same step
leaves `FilterLevel = 99`. -/
theorem UpdateJob_filter_fault_breaks_budget :
    twoFilesPrinting.FilterLevel = 99 ∧ processingCost twoFilesPrinting.Jobs = 99 ∧
    (FindJob (sigchld_handler twoFilesPrinting 101 256).Jobs 1).map
        (fun j => (j.status, j.current_file, j.num_files)) = some (256, 1, 2) ∧
    (UpdateJobEnd scenarioEnv (sigchld_handler twoFilesPrinting 101 256) 1).map
        (fun t => (t.FilterLevel, processingCost t.Jobs)) = some (198, 99) ∧
    (UpdateJobEnd scenarioEnv twoFilesPrinting 1).map
        (fun t => (t.FilterLevel, processingCost t.Jobs)) = some (99, 99) := by
  decide

/-- C6 (the claim as stated fails): from the store `preserveStore` (no jobs,
`FilterLevel = 0`, preserve-files policy on) a job is added and dispatched, so
`FilterLevel = 99` is the cost of the one processing job; `RestartJob` then
makes the job pending without calling `StopJob`: `FilterLevel` stays 99 while
no job is processing. -/
theorem RestartJob_keeps_filter_level :
    preserveStore.Jobs = [] ∧ preserveStore.FilterLevel = 0 ∧
    (CheckJobs scenarioEnv ((AddJob preserveStore 50 "lp").1.modJob 1 initPending)).FilterLevel
      = 99 ∧
    processingCost
      (CheckJobs scenarioEnv ((AddJob preserveStore 50 "lp").1.modJob 1 initPending)).Jobs = 99 ∧
    (RestartJob scenarioEnv (CheckJobs scenarioEnv
        ((AddJob preserveStore 50 "lp").1.modJob 1 initPending)) 1).FilterLevel = 99 ∧
    processingCost (RestartJob scenarioEnv (CheckJobs scenarioEnv
        ((AddJob preserveStore 50 "lp").1.modJob 1 initPending)) 1).Jobs = 0 := by
  decide

/-- C6 (amended): in every state reached from a store without jobs and with
`FilterLevel = 0` by `AddJob` (with the caller attaching state pending or
held), `CheckJobs`, `StartJob` on a job that is not processing, `StopJob`,
`CancelJob`, `HoldJob`, `ReleaseJob`, `StopAllJobs`, the child reaper,
`RestartJob` with the preserve-files policy off or applied to a job that is not
processing, and the end-of-file handling of `UpdateJob` (where its behaviour
is defined) when the accumulated status is negative, when no file remains, or
when the status is zero and the next file is not deferred, `FilterLevel` equals
the sum of `cost` over the jobs whose state is processing. -/
theorem filter_budget_reachable (s : Sched) (h : BudgetReachable s) :
    s.FilterLevel = processingCost s.Jobs :=
  (BudgetReachable_inv h).2

/-- C6 (amended) at the state reached by `AddJob` of a job of two files,
`CheckJobs`, the child reaper (exit status 0) and the end-of-file handling of
`UpdateJob`, which starts the second file. -/
theorem filter_budget_reachable_witness :
    ∃ t, UpdateJobEnd scenarioEnv (sigchld_handler (CheckJobs scenarioEnv
        ((AddJob lpStore 50 "lp").1.modJob (AddJob lpStore 50 "lp").2.id initTwoFiles)) 101 0)
        1 = some t ∧ t.FilterLevel = processingCost t.Jobs := by
  have hsome : (UpdateJobEnd scenarioEnv (sigchld_handler (CheckJobs scenarioEnv
        ((AddJob lpStore 50 "lp").1.modJob (AddJob lpStore 50 "lp").2.id initTwoFiles)) 101 0)
        1).isSome = true := by
    decide
  obtain ⟨t, ht⟩ := Option.isSome_iff_exists.1 hsome
  have key : ∀ j, FindJob (sigchld_handler (CheckJobs scenarioEnv
        ((AddJob lpStore 50 "lp").1.modJob (AddJob lpStore 50 "lp").2.id initTwoFiles))
        101 0).Jobs 1 = some j →
      j.status = 0 ∧ j.num_files ≠ 0 ∧ j.printer = some 0 ∧
      ¬ Deferred ((sigchld_handler (CheckJobs scenarioEnv
          ((AddJob lpStore 50 "lp").1.modJob (AddJob lpStore 50 "lp").2.id initTwoFiles))
          101 0).addLevel (-j.cost))
        (jobCost scenarioEnv j
          { name := "lp", type := 0, state := IPP_PRINTER_PROCESSING, job := some 1,
            filetype := postscript }) := by
    decide
  exact ⟨t, ht, filter_budget_reachable t
    (BudgetReachable.step _ _
      (BudgetReachable.step _ _
        (BudgetReachable.step _ _
          (BudgetReachable.step _ _ (BudgetReachable.empty lpStore rfl rfl)
            (BudgetOp.add lpStore 50 "lp" initTwoFiles (fun _ => rfl) (fun _ => rfl)
              (fun _ => Or.inl rfl)))
          (BudgetOp.check scenarioEnv _))
        (BudgetOp.reap _ 101 0))
      (BudgetOp.update scenarioEnv _ t 1 ht (fun j hj => Or.inr (Or.inr
        ⟨(key j hj).1, (key j hj).2.1, 0,
          { name := "lp", type := 0, state := IPP_PRINTER_PROCESSING, job := some 1,
            filetype := postscript },
          (key j hj).2.2.1, by decide, (key j hj).2.2.2⟩))))⟩

/-! ### Store order of the dispatcher -/

theorem Frame_refl (id : Int) (q : Nat) (s : Sched) : Frame id q s s :=
  ⟨fun _ _ => rfl, rfl, rfl⟩

theorem Frame_trans {id : Int} {q : Nat} {s t u : Sched} (h1 : Frame id q s t)
    (h2 : Frame id q t u) : Frame id q s u :=
  ⟨fun k hk => (h2.1 k hk).trans (h1.1 k hk), h2.2.1.trans h1.2.1, h2.2.2.trans h1.2.2⟩

theorem Frame_of_eq (id : Int) (q : Nat) {s t : Sched} (hJ : t.Jobs = s.Jobs)
    (hP : t.Printers = s.Printers) (hL : t.FilterLimit = s.FilterLimit) : Frame id q s t :=
  ⟨fun _ _ => by rw [hJ], by rw [hP], hL⟩

theorem Frame_modJob (id : Int) (q : Nat) (s : Sched) (f : job_t → job_t)
    (hf : ∀ j, (f j).id = j.id) : Frame id q s (s.modJob id f) :=
  ⟨fun _ hk => FindJob_updateJob_ne _ _ _ _ hf hk, rfl, rfl⟩

theorem Frame_modPrinter (id : Int) {q i : Nat} (s : Sched) (f : printer_t → printer_t)
    (hne : q ≠ i) : Frame id q s (s.modPrinter i f) :=
  ⟨fun _ _ => rfl, get?_updatePrinter_ne _ _ _ _ hne, rfl⟩

theorem Frame_SetPrinterState (id : Int) {q i : Nat} (s : Sched) (st : Int)
    (hne : q ≠ i) : Frame id q s (s.SetPrinterState i st) :=
  Frame_modPrinter id s _ hne

theorem Frame_emit (id : Int) (q : Nat) (s : Sched) (ev : List Event) :
    Frame id q s (s.emit ev) := Frame_of_eq id q rfl rfl rfl

theorem Frame_addLevel (id : Int) (q : Nat) (s : Sched) (d : Int) :
    Frame id q s (s.addLevel d) := Frame_of_eq id q rfl rfl rfl

theorem Frame_fdSet (id : Int) (q : Nat) (s : Sched) (fd : Int) :
    Frame id q s (s.fdSet fd) := Frame_of_eq id q rfl rfl rfl

theorem Frame_closePipe (id : Int) (q : Nat) (s : Sched) (fd : Int) :
    Frame id q s (s.closePipe fd) :=
  Frame_of_eq id q (closePipe_Jobs _ _) (closePipe_Printers _ _) (closePipe_FilterLimit _ _)

theorem Frame_SaveJob (id : Int) (q : Nat) (s : Sched) (id2 : Int) :
    Frame id q s (SaveJob s id2) := by
  unfold SaveJob
  split
  · exact Frame_refl _ _ _
  · exact Frame_emit _ _ _ _

theorem Frame_dropJob (id : Int) (q : Nat) (s : Sched) : Frame id q s (s.dropJob id) :=
  ⟨fun _ hk => FindJob_removeJob_ne _ _ _ hk, rfl, rfl⟩

theorem Frame_StopJob (id : Int) (q : Nat) (s : Sched) (force : Bool)
    (hpr : ∀ j, FindJob s.Jobs id = some j → j.state = some IPP_JOB_PROCESSING →
      j.printer ≠ some q) :
    Frame id q s (StopJob s id force) := by
  unfold StopJob
  split
  · exact Frame_refl _ _ _
  · next current hcur =>
    split
    · next hproc =>
      have hq := hpr current hcur hproc
      refine Frame_trans (Frame_trans (Frame_trans ?_ (Frame_modJob id q _ stopFields
        (fun _ => rfl))) (Frame_emit _ _ _ _)) (Frame_closePipe _ _ _ _)
      cases hprinter : current.printer with
      | none => exact Frame_addLevel _ _ _ _
      | some p =>
        have hne : q ≠ p := by
          intro e
          apply hq
          rw [hprinter, e]
        simp only []
        refine Frame_trans ?_ (Frame_modPrinter id _ _ hne)
        split
        · exact Frame_trans (Frame_addLevel _ _ _ _) (Frame_SetPrinterState id _ _ hne)
        · split
          · exact Frame_trans (Frame_addLevel _ _ _ _) (Frame_SetPrinterState id _ _ hne)
          · exact Frame_addLevel _ _ _ _
    · exact Frame_refl _ _ _

theorem Frame_CancelJob (now : Int) (id : Int) (q : Nat) (s : Sched) (purge : Bool)
    (hpr : ∀ j, FindJob s.Jobs id = some j → j.state = some IPP_JOB_PROCESSING →
      j.printer ≠ some q) :
    Frame id q s (CancelJob now s id purge) := by
  unfold CancelJob
  split
  · exact Frame_refl _ _ _
  · next found hfound =>
    have h1 : Frame id q s
        (if found.state = some IPP_JOB_PROCESSING then StopJob s id false else s) := by
      split
      · exact Frame_StopJob id q s false hpr
      · exact Frame_refl _ _ _
    have h2 := Frame_trans h1 (Frame_modJob id q _ (cancelFields now) (cancelFields_id now))
    simp only []
    split
    · split
      · exact Frame_trans (Frame_trans h2 (Frame_emit _ _ _ _)) (Frame_SaveJob _ _ _ _)
      · exact Frame_trans h2 (Frame_SaveJob _ _ _ _)
    · split
      · exact Frame_trans (Frame_trans (Frame_trans h2 (Frame_emit _ _ _ _)) (Frame_emit _ _ _ _))
          (Frame_dropJob _ _ _)
      · exact Frame_trans (Frame_trans h2 (Frame_emit _ _ _ _)) (Frame_dropJob _ _ _)

theorem Frame_ite (id : Int) (q : Nat) (s : Sched) {c : Prop} [Decidable c] {t e : Sched}
    (ht : Frame id q s t) (he : Frame id q s e) : Frame id q s (if c then t else e) := by
  split
  · exact ht
  · exact he

theorem Frame_startProcesses (env : Env) (id : Int) {q printer : Nat} (s : Sched)
    (nfilters : Nat) (hne : q ≠ printer)
    (hpr : ∀ j, FindJob s.Jobs id = some j → j.printer = some printer) :
    Frame id q s (startProcesses env s id printer nfilters) := by
  have h1 : Frame id q s (s.modJob id (fun j => { j with current_file := j.current_file + 1 })) :=
    Frame_modJob id q s _ (by intro _; rfl)
  unfold startProcesses
  simp only []
  split
  · exact h1
  · next current hcur =>
    have hcp : current.printer = some printer := by
      simp [FindJob_updateJob_same] at hcur
      obtain ⟨j0, hj0, rfl⟩ := hcur
      exact hpr j0 hj0
    split
    · refine Frame_trans h1 (Frame_CancelJob _ _ _ _ _ ?_)
      intro j hj _
      rw [hcur] at hj
      simp at hj
      subst hj
      rw [hcp]
      intro e
      apply hne
      simpa using e.symm
    · have h2 : Frame id q s
          (if current.buffer = none then
            (s.modJob id (fun j => { j with current_file := j.current_file + 1 })).modJob id
              (fun j => { j with buffer := some [], bufused := 0 })
           else s.modJob id (fun j => { j with current_file := j.current_file + 1 })) :=
        Frame_ite id q s (Frame_trans h1 (Frame_modJob id q _ _ (by intro _; rfl))) h1
      split
      · exact Frame_trans h2 (Frame_modPrinter id _ _ hne)
      · apply Frame_ite
        · exact Frame_trans (Frame_trans h2 (Frame_modJob id q _ _ (by intro _; rfl)))
            (Frame_modPrinter id _ _ hne)
        · exact Frame_trans (Frame_trans h2 (Frame_modJob id q _ _ (by intro _; rfl)))
            (Frame_fdSet _ _ _ _)

theorem Frame_StartJob (env : Env) (id : Int) {q printer : Nat} (s : Sched)
    (hne : q ≠ printer)
    (hidle : ∀ j, FindJob s.Jobs id = some j → j.state ≠ some IPP_JOB_PROCESSING) :
    Frame id q s (StartJob env s id printer) := by
  unfold StartJob
  split
  · exact Frame_refl _ _ _
  · next current hcur =>
    have hi := hidle current hcur
    split
    · exact Frame_CancelJob _ _ _ _ _ (fun j hj hp => absurd hp (hidle j hj))
    · split
      · exact Frame_refl _ _ _
      · next p hp =>
        split
        · have h1 : Frame id q s
              (s.modJob id (fun j => { j with cost := 0, current_file := j.current_file + 1 })) :=
            Frame_modJob id q s _ (by intro _; rfl)
          simp only []
          split
          · refine Frame_trans h1 (Frame_CancelJob _ _ _ _ _ ?_)
            intro j hj hproc
            simp [FindJob_updateJob_same, hcur] at hj
            subst hj
            exact absurd hproc hi
          · exact h1
        · simp only []
          generalize (if p.type &&& CUPS_PRINTER_REMOTE = 0 then
              removeNullFilters (env.mimeFilter (currentFiletype current) p.filetype)
            else []) = filters
          split
          · exact Frame_modJob id q s _ (by intro _; rfl)
          · have h1 : Frame id q s
                ((((s.addLevel (addCosts 0 filters)).modJob id
                  (admitFields env.time (addCosts 0 filters) printer)).modPrinter printer
                  (fun r => { r with job := some id })).SetPrinterState printer
                  IPP_PRINTER_PROCESSING) :=
              Frame_trans (Frame_trans (Frame_trans (Frame_addLevel _ _ _ _)
                (Frame_modJob id q _ _ (admitFields_id _ _ _))) (Frame_modPrinter id _ _ hne))
                (Frame_SetPrinterState id _ _ hne)
            refine Frame_trans h1 (Frame_startProcesses env id _ _ hne ?_)
            intro j hj
            simp [FindJob_updateJob_same, hcur] at hj
            subst hj
            simp

theorem Frame_dispatch (env : Env) (id : Int) (q : Nat) (s : Sched) (dest : String)
    (hbusy : ∀ r, s.Printers.get? q = some r → printerAvailable r = false)
    (hidle : ∀ j, FindJob s.Jobs id = some j → j.state ≠ some IPP_JOB_PROCESSING) :
    Frame id q s (dispatch env s id dest) := by
  unfold dispatch
  split
  · exact Frame_CancelJob _ _ _ _ _ (fun j hj hp => absurd hp (hidle j hj))
  · exact Frame_refl _ _ _
  · next i _ _ =>
    split
    · exact Frame_refl _ _ _
    · next r hr =>
      split
      · next hav =>
        have hne : q ≠ i := by
          rintro rfl
          rw [hbusy r hr] at hav
          exact absurd hav (by decide)
        exact Frame_StartJob env id s hne hidle
      · exact Frame_refl _ _ _

theorem Frame_CheckJob (env : Env) (id : Int) (q : Nat) (s : Sched)
    (hbusy : ∀ r, s.Printers.get? q = some r → printerAvailable r = false) :
    Frame id q s (CheckJob env s id) := by
  unfold CheckJob
  split
  · exact Frame_refl _ _ _
  · next current hcur =>
    split
    · refine Frame_trans (Frame_modJob id q s _ (by intro _; rfl)) (Frame_dispatch env id q _ _ hbusy ?_)
      intro j hj
      rw [FindJob_setState hj]
      decide
    · split
      · next hpend =>
        refine Frame_dispatch env id q s _ hbusy ?_
        intro j hj
        rw [hcur] at hj
        simp at hj
        subst hj
        rw [hpend]
        decide
      · exact Frame_refl _ _ _

theorem get?_updatePrinter_core (f : printer_t → printer_t) (p q : Nat) (l : List printer_t)
    (hf : ∀ r, printerCore (f r) = printerCore r) :
    ((updatePrinter f p l).get? q).map printerCore = (l.get? q).map printerCore := by
  by_cases h : q = p
  · subst h
    rw [get?_updatePrinter_same]
    cases l.get? q with
    | none => rfl
    | some r => simp [hf]
  · rw [get?_updatePrinter_ne _ _ _ _ h]

theorem startProcesses_printer (env : Env) (s : Sched) (id : Int) (printer nfilters : Nat)
    (j : job_t) (hj : FindJob s.Jobs id = some j)
    (hmalloc : j.buffer ≠ none ∨ (env.sys id).malloc_ok = true) (q : Nat) :
    ((startProcesses env s id printer nfilters).Printers.get? q).map printerCore =
      (s.Printers.get? q).map printerCore := by
  have hm : ¬ (j.buffer = none ∧ (env.sys id).malloc_ok = false) := by
    rintro ⟨hb, hmo⟩
    rcases hmalloc with h | h
    · exact h hb
    · simp [h] at hmo
  unfold startProcesses
  simp only [modJob_Jobs]
  rw [FindJob_updateJob_same, hj]
  · simp only [Option.map_some']
    rw [if_neg hm]
    cases hfd : (env.sys id).statusfd with
    | none =>
      simp only []
      split_ifs <;> simp only [modPrinter_Printers, fdSet_Printers, modJob_Printers] <;>
        first
        | rfl
        | (rw [get?_updatePrinter_core]; intro _; rfl)
    | some fd =>
      simp only []
      split_ifs <;> simp only [modPrinter_Printers, fdSet_Printers, modJob_Printers] <;>
        first
        | rfl
        | (rw [get?_updatePrinter_core]; intro _; rfl)
  · intro _
    rfl

theorem FindJob_append_of_not_mem (pre rest : List job_t) (id : Int)
    (h : id ∉ pre.map (fun j => j.id)) : FindJob (pre ++ rest) id = FindJob rest id := by
  induction pre with
  | nil => rfl
  | cons c pre ih =>
    have hc : ¬ c.id = id := fun e => h (by simp [e.symm])
    rw [List.cons_append, FindJob_cons, if_neg hc]
    exact ih (fun hm => h (by simp at hm ⊢; exact Or.inr hm))

theorem FindJob_of_mem_nodup {l : List job_t} (hnd : (l.map (fun j => j.id)).Nodup)
    {j : job_t} (hj : j ∈ l) : FindJob l j.id = some j := by
  induction l with
  | nil => cases hj
  | cons c rest ih =>
    rw [List.map_cons, List.nodup_cons] at hnd
    rcases List.mem_cons.1 hj with rfl | hrest
    · rw [FindJob_cons, if_pos rfl]
    · have hc : ¬ c.id = j.id := by
        intro e
        apply hnd.1
        rw [e]
        exact List.mem_map_of_mem _ hrest
      rw [FindJob_cons, if_neg hc]
      exact ih hnd.2 hrest

theorem CheckJob_noop (env : Env) (s : Sched) (id : Int) (j : job_t)
    (hj : FindJob s.Jobs id = some j) (hpend : j.state ≠ some IPP_JOB_PENDING)
    (hheld : j.state ≠ some IPP_JOB_HELD) : CheckJob env s id = s := by
  unfold CheckJob
  simp [hj, hpend, hheld]

theorem resolveDest_printer (env : Env) (s : Sched) (dest : String) (P : Nat) (r : printer_t)
    (hclass : env.FindClass dest = none) (hfind : env.FindPrinter dest = some P)
    (hp : s.Printers.get? P = some r) (himpl : r.type &&& CUPS_PRINTER_IMPLICIT = 0) :
    resolveDest env s dest = (some P, none) := by
  unfold resolveDest
  simp only [hclass, hfind, Option.some_bind, hp]
  simp [himpl]

theorem CheckJob_blocked (env : Env) (s : Sched) (b : job_t) (P : Nat) (r : printer_t)
    (hb : FindJob s.Jobs b.id = some b) (hstate : b.state = some IPP_JOB_PENDING)
    (hclass : env.FindClass b.dest = none) (hfind : env.FindPrinter b.dest = some P)
    (hp : s.Printers.get? P = some r) (himpl : r.type &&& CUPS_PRINTER_IMPLICIT = 0)
    (hbusy : printerAvailable r = false) : CheckJob env s b.id = s := by
  unfold CheckJob
  have hnh : ¬ (b.state = some IPP_JOB_HELD ∧ b.hold_until ≠ 0 ∧ b.hold_until < env.time) := by
    rw [hstate]
    rintro ⟨h, _⟩
    exact absurd h (by decide)
  simp only [hb, if_neg hnh, if_pos hstate]
  unfold dispatch
  rw [resolveDest_printer env s b.dest P r hclass hfind hp himpl]
  simp only [hp, hbusy]
  rfl

theorem foldl_CheckJob_noop (env : Env) (s : Sched) (l : List job_t)
    (h : ∀ j ∈ l, FindJob s.Jobs j.id = some j ∧ j.state ≠ some IPP_JOB_PENDING ∧
      j.state ≠ some IPP_JOB_HELD) :
    (l.map (fun j => j.id)).foldl (CheckJob env) s = s := by
  induction l with
  | nil => rfl
  | cons c rest ih =>
    have hc := h c (List.mem_cons_self _ _)
    rw [List.map_cons, List.foldl_cons, CheckJob_noop env s c.id c hc.1 hc.2.1 hc.2.2]
    exact ih (fun j hj => h j (List.mem_cons_of_mem _ hj))

theorem CheckJob_starts (env : Env) (s : Sched) (a : job_t) (P : Nat) (p : printer_t)
    (ha : FindJob s.Jobs a.id = some a) (hstate : a.state = some IPP_JOB_PENDING)
    (hclass : env.FindClass a.dest = none) (hfind : env.FindPrinter a.dest = some P)
    (hp : s.Printers.get? P = some p) (hidle : p.state = IPP_PRINTER_IDLE)
    (himpl : p.type &&& CUPS_PRINTER_IMPLICIT = 0) :
    CheckJob env s a.id = StartJob env s a.id P := by
  unfold CheckJob
  have hnh : ¬ (a.state = some IPP_JOB_HELD ∧ a.hold_until ≠ 0 ∧ a.hold_until < env.time) := by
    rw [hstate]
    rintro ⟨h, _⟩
    exact absurd h (by decide)
  simp only [ha, if_neg hnh, if_pos hstate]
  unfold dispatch
  rw [resolveDest_printer env s a.dest P p hclass hfind hp himpl]
  have hav : printerAvailable p = true := by
    unfold printerAvailable
    simp [hidle]
  simp only [hp, hav]
  rfl

theorem foldl_CheckJob_frame (env : Env) (ids : List Int) (a2 b : job_t) (aid : Int) (P : Nat)
    (p2 : printer_t) (haid : aid ∉ ids)
    (hstate : b.state = some IPP_JOB_PENDING)
    (hclass : env.FindClass b.dest = none) (hfind : env.FindPrinter b.dest = some P)
    (himpl : p2.type &&& CUPS_PRINTER_IMPLICIT = 0) (hbusy : printerAvailable p2 = false)
    (t : Sched)
    (hK : FindJob t.Jobs aid = some a2 ∧ FindJob t.Jobs b.id = some b ∧
      t.Printers.get? P = some p2) :
    FindJob (ids.foldl (CheckJob env) t).Jobs aid = some a2 ∧
    FindJob (ids.foldl (CheckJob env) t).Jobs b.id = some b ∧
    (ids.foldl (CheckJob env) t).Printers.get? P = some p2 := by
  induction ids generalizing t with
  | nil => exact hK
  | cons c rest ih =>
    rw [List.foldl_cons]
    have hc : aid ≠ c := fun e => haid (by simp [e])
    apply ih (fun hm => haid (List.mem_cons_of_mem _ hm))
    by_cases hcb : c = b.id
    · subst hcb
      rw [CheckJob_blocked env t b P p2 hK.2.1 hstate hclass hfind hK.2.2 himpl hbusy]
      exact hK
    · have hF := Frame_CheckJob env c P t (by
        intro r hr
        rw [hK.2.2] at hr
        simp at hr
        subst hr
        exact hbusy)
      refine ⟨?_, ?_, ?_⟩
      · rw [hF.1 aid hc]
        exact hK.1
      · rw [hF.1 b.id (fun e => hcb e.symm)]
        exact hK.2.1
      · rw [hF.2.1]
        exact hK.2.2

theorem StartJob_on_idle (env : Env) (s : Sched) (a : job_t) (P : Nat) (p : printer_t)
    (ha : FindJob s.Jobs a.id = some a) (hstate : a.state = some IPP_JOB_PENDING)
    (hp : s.Printers.get? P = some p)
    (hfiles : a.num_files ≠ 0)
    (hconv : env.mimeFilter (currentFiletype a) p.filetype ≠ [])
    (hlimit : s.FilterLimit = 0)
    (hbuf : a.buffer ≠ none ∨ (env.sys a.id).malloc_ok = true) :
    (∃ a2, FindJob (StartJob env s a.id P).Jobs a.id = some a2 ∧
      a2.state = some IPP_JOB_PROCESSING ∧ a2.printer = some P) ∧
    (∃ p2, (StartJob env s a.id P).Printers.get? P = some p2 ∧ p2.type = p.type ∧
      p2.state = IPP_PRINTER_PROCESSING ∧ p2.job = some a.id) ∧
    ∀ k, k ≠ a.id → FindJob (StartJob env s a.id P).Jobs k = FindJob s.Jobs k := by
  have hF : Frame a.id (P + 1) s (StartJob env s a.id P) :=
    Frame_StartJob env a.id s (Nat.succ_ne_self P) (by
      intro j hj
      rw [ha] at hj
      simp at hj
      subst hj
      rw [hstate]
      decide)
  refine ⟨?_, ?_, hF.1⟩
  all_goals
    rcases StartJob_cases env s a.id P a p ha hfiles hp (Or.inr hconv) with ⟨hD, _⟩ | ⟨_, n, hn⟩
    · exact absurd hD.2.1 (by rw [hlimit]; decide)
  · rw [hn]
    have hj1 : FindJob ((((s.addLevel (jobCost env a p)).modJob a.id
        (admitFields env.time (jobCost env a p) P)).modPrinter P
        (fun r => { r with job := some a.id })).SetPrinterState P IPP_PRINTER_PROCESSING).Jobs a.id
        = some (admitFields env.time (jobCost env a p) P a) := by
      simp [FindJob_updateJob_same, ha]
    obtain ⟨_, j2, hj2, hs2, hp2, _⟩ := startProcesses_admitted env _ a.id P n _ hj1
      (by simpa using hbuf)
    exact ⟨j2, hj2, by simpa using hs2, by simpa using hp2⟩
  · rw [hn]
    have hj1 : FindJob ((((s.addLevel (jobCost env a p)).modJob a.id
        (admitFields env.time (jobCost env a p) P)).modPrinter P
        (fun r => { r with job := some a.id })).SetPrinterState P IPP_PRINTER_PROCESSING).Jobs a.id
        = some (admitFields env.time (jobCost env a p) P a) := by
      simp [FindJob_updateJob_same, ha]
    have hcore := startProcesses_printer env _ a.id P n _ hj1 (by simpa using hbuf) P
    rw [SetPrinterState_Printers, get?_updatePrinter_same, modPrinter_Printers,
      get?_updatePrinter_same, modJob_Printers, addLevel_Printers, hp] at hcore
    cases hq : (startProcesses env ((((s.addLevel (jobCost env a p)).modJob a.id
        (admitFields env.time (jobCost env a p) P)).modPrinter P
        (fun r => { r with job := some a.id })).SetPrinterState P IPP_PRINTER_PROCESSING)
        a.id P n).Printers.get? P with
    | none =>
      rw [hq] at hcore
      simp at hcore
    | some p2 =>
      rw [hq] at hcore
      simp [printerCore] at hcore
      exact ⟨p2, rfl, hcore.1, hcore.2.1, hcore.2.2⟩

/-- C5 (amended): the store holds the pending jobs `a` and, later in store
order, `b`, both destined for the printer `P` (a printer, not a class), which
is idle and local; the ids in the store are distinct and no job before `a` is
pending or held.  The job `a` has files, the file it is at has a non-empty
filter chain, no filter limit is in force and the status buffer can be
allocated.  After `CheckJobs` the job `a` is processing on `P`, the printer `P`
is processing job `a`, and the record of `b` is unchanged, so `b` is still
pending. -/
theorem CheckJobs_store_order (env : Env) (s : Sched) (pre mid post : List job_t)
    (a b : job_t) (P : Nat) (p : printer_t)
    (hjobs : s.Jobs = pre ++ a :: (mid ++ b :: post))
    (hnodup : (s.Jobs.map (fun j => j.id)).Nodup)
    (hpre : ∀ j ∈ pre, j.state ≠ some IPP_JOB_PENDING ∧ j.state ≠ some IPP_JOB_HELD)
    (ha : a.state = some IPP_JOB_PENDING) (hb : b.state = some IPP_JOB_PENDING)
    (hdest : b.dest = a.dest)
    (hclass : env.FindClass a.dest = none) (hfind : env.FindPrinter a.dest = some P)
    (hp : s.Printers.get? P = some p) (hidle : p.state = IPP_PRINTER_IDLE)
    (hlocal : p.type &&& CUPS_PRINTER_REMOTE = 0)
    (himpl : p.type &&& CUPS_PRINTER_IMPLICIT = 0)
    (hfiles : a.num_files ≠ 0)
    (hconv : env.mimeFilter (currentFiletype a) p.filetype ≠ [])
    (hlimit : s.FilterLimit = 0)
    (hbuf : a.buffer ≠ none ∨ (env.sys a.id).malloc_ok = true) :
    (∃ a2, FindJob (CheckJobs env s).Jobs a.id = some a2 ∧
      a2.state = some IPP_JOB_PROCESSING ∧ a2.printer = some P) ∧
    (∃ p2, (CheckJobs env s).Printers.get? P = some p2 ∧
      p2.state = IPP_PRINTER_PROCESSING ∧ p2.job = some a.id) ∧
    FindJob (CheckJobs env s).Jobs b.id = some b ∧ b.state = some IPP_JOB_PENDING := by
  have hamem : a ∈ s.Jobs := by rw [hjobs]; simp
  have hbmem : b ∈ s.Jobs := by rw [hjobs]; simp
  have hfa := FindJob_of_mem_nodup hnodup hamem
  have hfb := FindJob_of_mem_nodup hnodup hbmem
  have hnd := hnodup
  rw [hjobs, List.map_append, List.map_cons, List.nodup_append] at hnd
  obtain ⟨_, hnd2, _⟩ := hnd
  rw [List.nodup_cons] at hnd2
  have hba : b.id ≠ a.id := by
    intro e
    apply hnd2.1
    rw [← e]
    exact List.mem_map_of_mem _ (by simp)
  have hfold : CheckJobs env s =
      ((mid ++ b :: post).map (fun j => j.id)).foldl (CheckJob env) (StartJob env s a.id P) := by
    unfold CheckJobs
    rw [hjobs, List.map_append, List.map_cons, List.foldl_append, List.foldl_cons,
      foldl_CheckJob_noop env s pre (fun j hj =>
        ⟨FindJob_of_mem_nodup hnodup (by rw [hjobs]; simp [hj]), hpre j hj⟩),
      CheckJob_starts env s a P p hfa ha hclass hfind hp hidle himpl]
  obtain ⟨⟨a2, ha2, hs2, hpr2⟩, ⟨p2, hp2, hty, hst, hjob⟩, hothers⟩ :=
    StartJob_on_idle env s a P p hfa ha hp hfiles hconv hlimit hbuf
  have hbusy : printerAvailable p2 = false := by
    unfold printerAvailable
    have hne : IPP_PRINTER_PROCESSING ≠ IPP_PRINTER_IDLE := by decide
    rw [hst, hty, hlocal]
    simp [hne]
  have hK := foldl_CheckJob_frame env ((mid ++ b :: post).map (fun j => j.id)) a2 b a.id P p2
    hnd2.1 hb (by rw [hdest]; exact hclass) (by rw [hdest]; exact hfind)
    (by rw [hty]; exact himpl) hbusy (StartJob env s a.id P)
    ⟨ha2, by rw [hothers b.id hba]; exact hfb, hp2⟩
  rw [hfold]
  exact ⟨⟨a2, hK.1, hs2, hpr2⟩, ⟨p2, hK.2.2, hst, hjob⟩, hK.2.1, hb⟩

/-- C5 (the claim as stated fails), two stores of pending jobs for the idle
local printer `lp` without a filter limit.  (1) Job 1 has an unconvertible
first file and a `text/plain` second file, job 2 one `text/plain` file: after
`CheckJobs` job 1 is pending at its second file and job 2, later in store
order, is processing on `lp`.  (2) Jobs 1, 2, 3 with one `text/plain` file
each: of the two pending jobs 2 and 3 the earlier one, job 2, is still pending
after `CheckJobs`, because job 1 is processing on `lp`. -/
theorem CheckJobs_earlier_job_not_started :
    ((CheckJobs scenarioEnv
        (lpStoreWith [pendingJob 1 [octetStream, textPlain], pendingJob 2 [textPlain]])).Jobs.map
      (fun j => (j.id, j.state, j.printer, j.current_file)) =
        [(1, some IPP_JOB_PENDING, none, 1), (2, some IPP_JOB_PROCESSING, some 0, 1)]) ∧
    ((CheckJobs scenarioEnv
        (lpStoreWith [pendingJob 1 [textPlain], pendingJob 2 [textPlain],
          pendingJob 3 [textPlain]])).Jobs.map
      (fun j => (j.id, j.state, j.printer, j.current_file)) =
        [(1, some IPP_JOB_PROCESSING, some 0, 1), (2, some IPP_JOB_PENDING, none, 0),
         (3, some IPP_JOB_PENDING, none, 0)]) := by
  decide

/-- C5 (amended) at the store of the pending jobs 1 and 2 with one `text/plain`
file each: job 1 is processing on `lp`, job 2 is unchanged. -/
theorem CheckJobs_store_order_witness :
    (∃ a2, FindJob (CheckJobs scenarioEnv
        (lpStoreWith [pendingJob 1 [textPlain], pendingJob 2 [textPlain]])).Jobs 1 = some a2 ∧
      a2.state = some IPP_JOB_PROCESSING ∧ a2.printer = some 0) ∧
    (∃ p2, (CheckJobs scenarioEnv
        (lpStoreWith [pendingJob 1 [textPlain], pendingJob 2 [textPlain]])).Printers.get? 0
          = some p2 ∧
      p2.state = IPP_PRINTER_PROCESSING ∧ p2.job = some 1) ∧
    FindJob (CheckJobs scenarioEnv
        (lpStoreWith [pendingJob 1 [textPlain], pendingJob 2 [textPlain]])).Jobs 2 =
      some (pendingJob 2 [textPlain]) ∧
    (pendingJob 2 [textPlain]).state = some IPP_JOB_PENDING :=
  CheckJobs_store_order scenarioEnv
    (lpStoreWith [pendingJob 1 [textPlain], pendingJob 2 [textPlain]]) [] [] []
    (pendingJob 1 [textPlain]) (pendingJob 2 [textPlain]) 0
    { name := "lp", type := 0, state := IPP_PRINTER_IDLE, filetype := postscript }
    rfl (by decide) (by simp) rfl rfl rfl rfl rfl rfl rfl (by decide) (by decide) (by decide)
    (by decide) rfl (Or.inr rfl)

/-! ### Bytes written and read back, value by value -/

theorem shiftRight_eq_div (x : Int) (n : Nat) : x >>> (n : Int) = x / 2 ^ n := by
  have h : x >>> (n : Int) = x >>> n := by
    cases x with
    | ofNat m => exact Int.shiftRight_coe_nat m n
    | negSucc m => exact Int.shiftRight_negSucc m n
  rw [h, Int.shiftRight_eq_div_pow]
  norm_num

theorem shiftRight_8 (x : Int) : x >>> 8 = x / 256 := by
  have := shiftRight_eq_div x 8
  norm_num at this
  exact this

theorem shiftRight_16 (x : Int) : x >>> 16 = x / 65536 := by
  have := shiftRight_eq_div x 16
  norm_num at this
  exact this

theorem shiftRight_24 (x : Int) : x >>> 24 = x / 16777216 := by
  have := shiftRight_eq_div x 24
  norm_num at this
  exact this

theorem be16_eq (a b : Nat) (hb : b < 256) : be16 a b = a * 256 + b := by
  unfold be16
  rw [Nat.shiftLeft_eq, Nat.mul_comm a, ← Nat.mul_add_lt_is_or (by simpa using hb)]

theorem byteOf_lt (x : Int) : byteOf x < 256 := by
  unfold byteOf
  omega

theorem be16_bytes16 (n : Nat) (h : n < 65536) :
    be16 (byteOf ((n : Int) >>> 8)) (byteOf (n : Int)) = n := by
  rw [be16_eq _ _ (byteOf_lt _), shiftRight_8]
  unfold byteOf
  omega

theorem be32_bytes32 (x : Int) (h1 : -2 ^ 31 ≤ x) (h2 : x < 2 ^ 31) :
    be32 (byteOf (x >>> 24)) (byteOf (x >>> 16)) (byteOf (x >>> 8)) (byteOf x) = x := by
  have e2 : ∀ a b : Nat, b < 256 → (a <<< 8) ||| b = a * 256 + b := fun a b hb => be16_eq a b hb
  unfold be32
  rw [e2 _ _ (byteOf_lt _), e2 _ _ (byteOf_lt _), e2 _ _ (byteOf_lt _), shiftRight_8,
    shiftRight_16, shiftRight_24]
  unfold byteOf toInt32
  norm_num at h1 h2 ⊢
  split <;> omega

@[simp] theorem bytes16_length (n : Int) : (bytes16 n).length = 2 := rfl

@[simp] theorem bytes32_length (x : Int) : (bytes32 x).length = 4 := rfl

theorem map_mod_of_isBytes : ∀ (l : List Nat), isBytes l → l.map (fun b => b % 256) = l
  | [], _ => rfl
  | b :: rest, h => by
    rw [List.map_cons, map_mod_of_isBytes rest h.2, Nat.mod_eq_of_lt h.1]

theorem isBytes_of_isCString : ∀ (l : List Nat), isCString l → isBytes l
  | [], _ => trivial
  | _ :: rest, h => ⟨h.1.2, isBytes_of_isCString rest h.2⟩

theorem cstr_append_of_isCString : ∀ (l : List Nat), isCString l → ∀ rest : List Nat,
    (rest.head? = none ∨ rest.head? = some 0) → cstr (l ++ rest) = l
  | [], _, rest, hr => by
    unfold cstr
    cases rest with
    | nil => rfl
    | cons c cs =>
      rcases hr with h | h
      · cases h
      · simp at h
        subst h
        rfl
  | b :: l, h, rest, hr => by
    have ih := cstr_append_of_isCString l h.2 rest hr
    unfold cstr at ih ⊢
    have hb : (b != 0) = true := by
      have := h.1.1
      simp
      omega
    rw [List.cons_append, List.takeWhile_cons, hb]
    simp only [if_true]
    rw [ih]

theorem cstr_of_isCString (l : List Nat) (h : isCString l) : cstr l = l := by
  have := cstr_append_of_isCString l h [] (Or.inl rfl)
  simpa using this

theorem wfValues_forall : ∀ {tag : Nat} {vs : List ipp_value_t}, wfValues tag vs →
    ∀ v ∈ vs, wfValue tag v
  | _, [], _, _, hv => by cases hv
  | _, v :: vs, h, u, hu => by
    rcases List.mem_cons.1 hu with rfl | hrest
    · exact h.1
    · exact wfValues_forall h.2 u hrest

/-! ### The writer -/

theorem put_spec (w : WBuf) (bs : List Nat) (h : w.buf.length + bs.length ≤ BUFFER_SIZE) :
    w.put bs = some { file := w.file, buf := w.buf ++ bs } := by
  unfold WBuf.put
  rw [if_pos h]

theorem room_spec (w : WBuf) (k : Nat) (hk : k ≤ BUFFER_SIZE)
    (hw : w.buf.length ≤ BUFFER_SIZE) :
    (w.room k).file ++ (w.room k).buf = w.file ++ w.buf ∧
    (w.room k).buf.length + k ≤ BUFFER_SIZE := by
  unfold WBuf.room
  split
  · exact ⟨by simp [WBuf.flush], by simpa [WBuf.flush] using hk⟩
  · exact ⟨rfl, by omega⟩

theorem writeFixed_ok (tag need : Nat) (enc : ipp_value_t → Option (List Nat))
    (hneed : need ≤ BUFFER_SIZE) :
    ∀ (vs : List ipp_value_t),
      (∀ v ∈ vs, enc v = some (valueBytes v) ∧ (valueBytes v).length + 3 ≤ need) →
      ∀ (i : Nat) (w : WBuf), w.buf.length ≤ BUFFER_SIZE →
      ∃ w2, writeFixed tag need enc i vs w = WVal.ok w2 ∧
        w2.file ++ w2.buf = w.file ++ w.buf ++ contBytes tag i vs
  | [], _, i, w, _ => ⟨w, by simp [writeFixed, contBytes]⟩
  | v :: vs, henc, i, w, hw => by
    obtain ⟨hv, hlen⟩ := henc v (List.mem_cons_self _ _)
    obtain ⟨hr1, hr2⟩ := room_spec w need hneed hw
    unfold writeFixed
    by_cases hi : i = 0
    · subst hi
      simp only [ne_eq, not_true_eq_false, if_false, hv]
      rw [put_spec _ _ (by omega)]
      simp only []
      obtain ⟨w2, h2, h3⟩ := writeFixed_ok tag need enc hneed vs
        (fun u hu => henc u (List.mem_cons_of_mem _ hu)) (0 + 1)
        { file := (w.room need).file, buf := (w.room need).buf ++ valueBytes v }
        (by simp only [List.length_append]; omega)
      refine ⟨w2, h2, ?_⟩
      rw [h3, contBytes]
      simp only [ne_eq, not_true_eq_false, if_false, List.nil_append]
      rw [← List.append_assoc, ← List.append_assoc, hr1]
    · simp only [ne_eq, hi, not_false_eq_true, if_true, hv]
      rw [put_spec _ _ (by simp only [List.length_cons, List.length_nil]; omega)]
      simp only []
      rw [put_spec _ _ (by simp only [List.length_append, List.length_cons, List.length_nil]; omega)]
      simp only []
      obtain ⟨w2, h2, h3⟩ := writeFixed_ok tag need enc hneed vs
        (fun u hu => henc u (List.mem_cons_of_mem _ hu)) (i + 1)
        { file := (w.room need).file,
          buf := (w.room need).buf ++ [tag % 256, 0, 0] ++ valueBytes v }
        (by simp only [List.length_append, List.length_cons, List.length_nil]; omega)
      refine ⟨w2, h2, ?_⟩
      rw [h3, contBytes]
      simp only [ne_eq, hi, not_false_eq_true, if_true]
      rw [← List.append_assoc, ← List.append_assoc, ← List.append_assoc, hr1]
      simp

theorem writeVar_ok (tag : Nat) (enc : ipp_value_t → Option (Int × List Nat)) :
    ∀ (vs : List ipp_value_t),
      (∀ v ∈ vs, ∃ n : Int, enc v = some (n, valueBytes v) ∧ 0 ≤ n ∧
        (valueBytes v).length = n.toNat + 2 ∧ n.toNat + 2 ≤ BUFFER_SIZE) →
      ∀ (i : Nat) (w : WBuf), w.buf.length ≤ BUFFER_SIZE →
      ∃ w2, writeVar tag enc i vs w = WVal.ok w2 ∧
        w2.file ++ w2.buf = w.file ++ w.buf ++ contBytes tag i vs
  | [], _, i, w, _ => ⟨w, by simp [writeVar, contBytes]⟩
  | v :: vs, henc, i, w, hw => by
    obtain ⟨n, hv, hn0, hlen, hn⟩ := henc v (List.mem_cons_self _ _)
    have hcheck : ¬ (n < 0 ∨ n > ((BUFFER_SIZE : Nat) : Int)) := by
      unfold BUFFER_SIZE at hn ⊢
      omega
    unfold writeVar
    by_cases hi : i = 0
    · subst hi
      simp only [ne_eq, not_true_eq_false, if_false, hv, hcheck]
      obtain ⟨hr1, hr2⟩ := room_spec w (n.toNat + 2) hn hw
      rw [put_spec _ _ (by omega)]
      simp only []
      obtain ⟨w2, h2, h3⟩ := writeVar_ok tag enc vs
        (fun u hu => henc u (List.mem_cons_of_mem _ hu)) (0 + 1)
        { file := (w.room (n.toNat + 2)).file,
          buf := (w.room (n.toNat + 2)).buf ++ valueBytes v }
        (by simp only [List.length_append]; omega)
      refine ⟨w2, h2, ?_⟩
      rw [h3, contBytes]
      simp only [ne_eq, not_true_eq_false, if_false, List.nil_append]
      rw [← List.append_assoc, ← List.append_assoc, hr1]
    · obtain ⟨hr1, hr2⟩ := room_spec w 3 (by unfold BUFFER_SIZE; omega) hw
      simp only [ne_eq, hi, not_false_eq_true, if_true]
      rw [put_spec _ _ (by simp only [List.length_cons, List.length_nil]; omega)]
      simp only [hv, hcheck, if_false]
      obtain ⟨hq1, hq2⟩ := room_spec
        { file := (w.room 3).file, buf := (w.room 3).buf ++ [tag % 256, 0, 0] } (n.toNat + 2) hn
        (by simp only [List.length_append, List.length_cons, List.length_nil]; omega)
      rw [put_spec _ _ (by omega)]
      simp only []
      obtain ⟨w2, h2, h3⟩ := writeVar_ok tag enc vs
        (fun u hu => henc u (List.mem_cons_of_mem _ hu)) (i + 1)
        { file := (WBuf.room (n.toNat + 2)
            { file := (w.room 3).file, buf := (w.room 3).buf ++ [tag % 256, 0, 0] }).file,
          buf := (WBuf.room (n.toNat + 2)
            { file := (w.room 3).file, buf := (w.room 3).buf ++ [tag % 256, 0, 0] }).buf ++
              valueBytes v }
        (by simp only [List.length_append]; omega)
      refine ⟨w2, h2, ?_⟩
      rw [h3, contBytes]
      simp only [ne_eq, hi, not_false_eq_true, if_true]
      rw [← List.append_assoc, ← List.append_assoc, hq1, ← List.append_assoc, hr1]
      simp

/-! ### What the data model says about a value under each class of value tag -/

theorem wf_inv_integer {tag : Nat} {v : ipp_value_t} (h : wfValue tag v)
    (hc : tag = IPP_TAG_INTEGER ∨ tag = IPP_TAG_ENUM) :
    ∃ x, v = ipp_value_t.integer x ∧ isInt32 x := by
  rcases v with x | b | d | ⟨x, y, u⟩ | ⟨l, u⟩ | ⟨_ | cs, text⟩ | ⟨n, data⟩ <;>
    first
    | exact ⟨_, rfl, h.2⟩
    | exact ⟨_, _, rfl, h.2⟩
    | exact ⟨_, _, _, rfl, h.2⟩
    | (exfalso
       simp only [wfValue, isStringTag, isOtherTag, IPP_TAG_INTEGER, IPP_TAG_ENUM,
         IPP_TAG_BOOLEAN, IPP_TAG_TEXT, IPP_TAG_NAME, IPP_TAG_KEYWORD, IPP_TAG_STRING,
         IPP_TAG_URI, IPP_TAG_URISCHEME, IPP_TAG_CHARSET, IPP_TAG_LANGUAGE, IPP_TAG_MIMETYPE,
         IPP_TAG_DATE, IPP_TAG_RESOLUTION, IPP_TAG_RANGE, IPP_TAG_TEXTLANG,
         IPP_TAG_NAMELANG] at h hc
       omega)

theorem wf_inv_boolean {tag : Nat} {v : ipp_value_t} (h : wfValue tag v)
    (hc : tag = IPP_TAG_BOOLEAN) :
    ∃ b, v = ipp_value_t.boolean b ∧ b < 256 := by
  rcases v with x | b | d | ⟨x, y, u⟩ | ⟨l, u⟩ | ⟨_ | cs, text⟩ | ⟨n, data⟩ <;>
    first
    | exact ⟨_, rfl, h.2⟩
    | exact ⟨_, _, rfl, h.2⟩
    | exact ⟨_, _, _, rfl, h.2⟩
    | (exfalso
       simp only [wfValue, isStringTag, isOtherTag, IPP_TAG_INTEGER, IPP_TAG_ENUM,
         IPP_TAG_BOOLEAN, IPP_TAG_TEXT, IPP_TAG_NAME, IPP_TAG_KEYWORD, IPP_TAG_STRING,
         IPP_TAG_URI, IPP_TAG_URISCHEME, IPP_TAG_CHARSET, IPP_TAG_LANGUAGE, IPP_TAG_MIMETYPE,
         IPP_TAG_DATE, IPP_TAG_RESOLUTION, IPP_TAG_RANGE, IPP_TAG_TEXTLANG,
         IPP_TAG_NAMELANG] at h hc
       omega)

theorem wf_inv_string {tag : Nat} {v : ipp_value_t} (h : wfValue tag v)
    (hc : isStringTag tag) :
    ∃ text, v = ipp_value_t.string none text ∧ text.length + 2 ≤ BUFFER_SIZE ∧
      isCString text := by
  rcases v with x | b | d | ⟨x, y, u⟩ | ⟨l, u⟩ | ⟨_ | cs, text⟩ | ⟨n, data⟩ <;>
    first
    | exact ⟨_, rfl, h.2⟩
    | exact ⟨_, _, rfl, h.2⟩
    | exact ⟨_, _, _, rfl, h.2⟩
    | (exfalso
       simp only [wfValue, isStringTag, isOtherTag, IPP_TAG_INTEGER, IPP_TAG_ENUM,
         IPP_TAG_BOOLEAN, IPP_TAG_TEXT, IPP_TAG_NAME, IPP_TAG_KEYWORD, IPP_TAG_STRING,
         IPP_TAG_URI, IPP_TAG_URISCHEME, IPP_TAG_CHARSET, IPP_TAG_LANGUAGE, IPP_TAG_MIMETYPE,
         IPP_TAG_DATE, IPP_TAG_RESOLUTION, IPP_TAG_RANGE, IPP_TAG_TEXTLANG,
         IPP_TAG_NAMELANG] at h hc
       omega)

theorem wf_inv_date {tag : Nat} {v : ipp_value_t} (h : wfValue tag v)
    (hc : tag = IPP_TAG_DATE) :
    ∃ d, v = ipp_value_t.date d ∧ d.length = 11 ∧ isBytes d := by
  rcases v with x | b | d | ⟨x, y, u⟩ | ⟨l, u⟩ | ⟨_ | cs, text⟩ | ⟨n, data⟩ <;>
    first
    | exact ⟨_, rfl, h.2⟩
    | exact ⟨_, _, rfl, h.2⟩
    | exact ⟨_, _, _, rfl, h.2⟩
    | (exfalso
       simp only [wfValue, isStringTag, isOtherTag, IPP_TAG_INTEGER, IPP_TAG_ENUM,
         IPP_TAG_BOOLEAN, IPP_TAG_TEXT, IPP_TAG_NAME, IPP_TAG_KEYWORD, IPP_TAG_STRING,
         IPP_TAG_URI, IPP_TAG_URISCHEME, IPP_TAG_CHARSET, IPP_TAG_LANGUAGE, IPP_TAG_MIMETYPE,
         IPP_TAG_DATE, IPP_TAG_RESOLUTION, IPP_TAG_RANGE, IPP_TAG_TEXTLANG,
         IPP_TAG_NAMELANG] at h hc
       omega)

theorem wf_inv_resolution {tag : Nat} {v : ipp_value_t} (h : wfValue tag v)
    (hc : tag = IPP_TAG_RESOLUTION) :
    ∃ x y u, v = ipp_value_t.resolution x y u ∧ isInt32 x ∧ isInt32 y ∧ 0 ≤ u ∧ u < 256 := by
  rcases v with x | b | d | ⟨x, y, u⟩ | ⟨l, u⟩ | ⟨_ | cs, text⟩ | ⟨n, data⟩ <;>
    first
    | exact ⟨_, rfl, h.2⟩
    | exact ⟨_, _, rfl, h.2⟩
    | exact ⟨_, _, _, rfl, h.2⟩
    | (exfalso
       simp only [wfValue, isStringTag, isOtherTag, IPP_TAG_INTEGER, IPP_TAG_ENUM,
         IPP_TAG_BOOLEAN, IPP_TAG_TEXT, IPP_TAG_NAME, IPP_TAG_KEYWORD, IPP_TAG_STRING,
         IPP_TAG_URI, IPP_TAG_URISCHEME, IPP_TAG_CHARSET, IPP_TAG_LANGUAGE, IPP_TAG_MIMETYPE,
         IPP_TAG_DATE, IPP_TAG_RESOLUTION, IPP_TAG_RANGE, IPP_TAG_TEXTLANG,
         IPP_TAG_NAMELANG] at h hc
       omega)

theorem wf_inv_range {tag : Nat} {v : ipp_value_t} (h : wfValue tag v)
    (hc : tag = IPP_TAG_RANGE) :
    ∃ l u, v = ipp_value_t.range l u ∧ isInt32 l ∧ isInt32 u := by
  rcases v with x | b | d | ⟨x, y, u⟩ | ⟨l, u⟩ | ⟨_ | cs, text⟩ | ⟨n, data⟩ <;>
    first
    | exact ⟨_, rfl, h.2⟩
    | exact ⟨_, _, rfl, h.2⟩
    | exact ⟨_, _, _, rfl, h.2⟩
    | (exfalso
       simp only [wfValue, isStringTag, isOtherTag, IPP_TAG_INTEGER, IPP_TAG_ENUM,
         IPP_TAG_BOOLEAN, IPP_TAG_TEXT, IPP_TAG_NAME, IPP_TAG_KEYWORD, IPP_TAG_STRING,
         IPP_TAG_URI, IPP_TAG_URISCHEME, IPP_TAG_CHARSET, IPP_TAG_LANGUAGE, IPP_TAG_MIMETYPE,
         IPP_TAG_DATE, IPP_TAG_RESOLUTION, IPP_TAG_RANGE, IPP_TAG_TEXTLANG,
         IPP_TAG_NAMELANG] at h hc
       omega)

theorem wf_inv_lang {tag : Nat} {v : ipp_value_t} (h : wfValue tag v)
    (hc : tag = IPP_TAG_TEXTLANG ∨ tag = IPP_TAG_NAMELANG) :
    ∃ cs text, v = ipp_value_t.string (some cs) text ∧
      cs.length + text.length + 6 ≤ BUFFER_SIZE ∧ isCString cs ∧ isCString text := by
  rcases v with x | b | d | ⟨x, y, u⟩ | ⟨l, u⟩ | ⟨_ | cs, text⟩ | ⟨n, data⟩ <;>
    first
    | exact ⟨_, rfl, h.2⟩
    | exact ⟨_, _, rfl, h.2⟩
    | exact ⟨_, _, _, rfl, h.2⟩
    | (exfalso
       simp only [wfValue, isStringTag, isOtherTag, IPP_TAG_INTEGER, IPP_TAG_ENUM,
         IPP_TAG_BOOLEAN, IPP_TAG_TEXT, IPP_TAG_NAME, IPP_TAG_KEYWORD, IPP_TAG_STRING,
         IPP_TAG_URI, IPP_TAG_URISCHEME, IPP_TAG_CHARSET, IPP_TAG_LANGUAGE, IPP_TAG_MIMETYPE,
         IPP_TAG_DATE, IPP_TAG_RESOLUTION, IPP_TAG_RANGE, IPP_TAG_TEXTLANG,
         IPP_TAG_NAMELANG] at h hc
       omega)

theorem wf_inv_other {tag : Nat} {v : ipp_value_t} (h : wfValue tag v)
    (hc : isOtherTag tag) :
    ∃ n data, v = ipp_value_t.unknown n data ∧ 0 ≤ n ∧ data.length = n.toNat ∧
      data.length + 2 ≤ BUFFER_SIZE ∧ isBytes data := by
  rcases v with x | b | d | ⟨x, y, u⟩ | ⟨l, u⟩ | ⟨_ | cs, text⟩ | ⟨n, data⟩ <;>
    first
    | exact ⟨_, rfl, h.2⟩
    | exact ⟨_, _, rfl, h.2⟩
    | exact ⟨_, _, _, rfl, h.2⟩
    | (exfalso
       simp only [wfValue, isStringTag, isOtherTag, IPP_TAG_INTEGER, IPP_TAG_ENUM,
         IPP_TAG_BOOLEAN, IPP_TAG_TEXT, IPP_TAG_NAME, IPP_TAG_KEYWORD, IPP_TAG_STRING,
         IPP_TAG_URI, IPP_TAG_URISCHEME, IPP_TAG_CHARSET, IPP_TAG_LANGUAGE, IPP_TAG_MIMETYPE,
         IPP_TAG_DATE, IPP_TAG_RESOLUTION, IPP_TAG_RANGE, IPP_TAG_TEXTLANG,
         IPP_TAG_NAMELANG] at h hc
       omega)

theorem writeValues_ok (tag : Nat) (vs : List ipp_value_t) (hwf : wfValues tag vs) (w : WBuf)
    (hw : w.buf.length ≤ BUFFER_SIZE) :
    ∃ w2, writeValues tag vs w = WVal.ok w2 ∧
      w2.file ++ w2.buf = w.file ++ w.buf ++ contBytes tag 0 vs := by
  have hall := wfValues_forall hwf
  unfold writeValues
  by_cases h1 : tag = IPP_TAG_INTEGER ∨ tag = IPP_TAG_ENUM
  · rw [if_pos h1]
    refine writeFixed_ok tag 9 encInteger (by decide) vs (fun v hv => ?_) 0 w hw
    obtain ⟨x, rfl, _⟩ := wf_inv_integer (hall v hv) h1
    exact ⟨rfl, by simp [valueBytes]⟩
  rw [if_neg h1]
  by_cases h2 : tag = IPP_TAG_BOOLEAN
  · rw [if_pos h2]
    refine writeFixed_ok tag 6 encBoolean (by decide) vs (fun v hv => ?_) 0 w hw
    obtain ⟨b, rfl, hb⟩ := wf_inv_boolean (hall v hv) h2
    exact ⟨by simp [encBoolean, valueBytes, Nat.mod_eq_of_lt hb], by simp [valueBytes]⟩
  rw [if_neg h2]
  by_cases h3 : tag = IPP_TAG_TEXT ∨ tag = IPP_TAG_NAME ∨ tag = IPP_TAG_KEYWORD ∨
      tag = IPP_TAG_STRING ∨ tag = IPP_TAG_URI ∨ tag = IPP_TAG_URISCHEME ∨
      tag = IPP_TAG_CHARSET ∨ tag = IPP_TAG_LANGUAGE ∨ tag = IPP_TAG_MIMETYPE
  · rw [if_pos h3]
    refine writeVar_ok tag encString vs (fun v hv => ?_) 0 w hw
    obtain ⟨text, rfl, hlen, htext⟩ := wf_inv_string (hall v hv) h3
    refine ⟨(text.length : Int), ?_, by omega, by simp [valueBytes]; omega, by simpa using hlen⟩
    simp [encString, valueBytes, map_mod_of_isBytes text (isBytes_of_isCString text htext)]
  rw [if_neg h3]
  by_cases h4 : tag = IPP_TAG_DATE
  · rw [if_pos h4]
    refine writeFixed_ok tag 16 encDate (by decide) vs (fun v hv => ?_) 0 w hw
    obtain ⟨d, rfl, hlen, hd⟩ := wf_inv_date (hall v hv) h4
    exact ⟨by simp [encDate, valueBytes, hlen, map_mod_of_isBytes d hd],
      by simp [valueBytes, hlen]⟩
  rw [if_neg h4]
  by_cases h5 : tag = IPP_TAG_RESOLUTION
  · rw [if_pos h5]
    refine writeFixed_ok tag 14 encResolution (by decide) vs (fun v hv => ?_) 0 w hw
    obtain ⟨x, y, u, rfl, _⟩ := wf_inv_resolution (hall v hv) h5
    exact ⟨rfl, by simp [valueBytes]⟩
  rw [if_neg h5]
  by_cases h6 : tag = IPP_TAG_RANGE
  · rw [if_pos h6]
    refine writeFixed_ok tag 13 encRange (by decide) vs (fun v hv => ?_) 0 w hw
    obtain ⟨l, u, rfl, _⟩ := wf_inv_range (hall v hv) h6
    exact ⟨rfl, by simp [valueBytes]⟩
  rw [if_neg h6]
  by_cases h7 : tag = IPP_TAG_TEXTLANG ∨ tag = IPP_TAG_NAMELANG
  · rw [if_pos h7]
    refine writeVar_ok tag encLang vs (fun v hv => ?_) 0 w hw
    obtain ⟨cs, text, rfl, hlen, hcs, htext⟩ := wf_inv_lang (hall v hv) h7
    refine ⟨((cs.length + text.length + 4 : Nat) : Int), ?_, by omega,
      by simp [valueBytes]; omega, by simp; omega⟩
    simp [encLang, valueBytes, map_mod_of_isBytes text (isBytes_of_isCString text htext),
      map_mod_of_isBytes cs (isBytes_of_isCString cs hcs)]
  rw [if_neg h7]
  refine writeVar_ok tag encUnknown vs (fun v hv => ?_) 0 w hw
  obtain ⟨n, data, rfl, hn, hlen, hfit, hdata⟩ :=
    wf_inv_other (hall v hv) ⟨h1, h2, h3, h4, h5, h6, h7⟩
  refine ⟨n, ?_, hn, by simp [valueBytes]; omega, by omega⟩
  simp only [encUnknown]
  by_cases hpos : 0 < n ∧ n ≤ ((BUFFER_SIZE : Nat) : Int)
  · rw [if_pos hpos, if_pos hlen, map_mod_of_isBytes data hdata]
    rfl
  · rw [if_neg hpos]
    have hz : data = [] := by
      apply List.eq_nil_of_length_eq_zero
      unfold BUFFER_SIZE at hpos hfit
      omega
    simp [valueBytes, hz]

/-! ### The reader -/

theorem readString_ok (text rest : List Nat) (hlen : text.length + 2 ≤ BUFFER_SIZE)
    (htext : isCString text) :
    readString text.length (text ++ rest) = RVal.ok (ipp_value_t.string none text) rest := by
  unfold readString
  have h1 : ¬ min text.length (text ++ rest).length > BUFFER_SIZE := by
    simp only [List.length_append]
    omega
  have h2 : ¬ (text ++ rest).length < text.length := by
    simp only [List.length_append]
    omega
  have h3 : ¬ text.length ≥ BUFFER_SIZE := by omega
  rw [if_neg h1, if_neg h2, if_neg h3, List.take_left, List.drop_left,
    cstr_of_isCString text htext]

theorem readLang_ok (cs text rest : List Nat)
    (hlen : cs.length + text.length + 6 ≤ BUFFER_SIZE) (hcs : isCString cs)
    (htext : isCString text) :
    readLang (cs.length + text.length + 4)
      (bytes16 cs.length ++ cs ++ bytes16 text.length ++ text ++ rest) =
      RVal.ok (ipp_value_t.string (some cs) text) rest := by
  unfold readLang
  have h1 : ¬ cs.length + text.length + 4 > BUFFER_SIZE := by omega
  have hl : (bytes16 cs.length ++ cs ++ bytes16 text.length ++ text).length =
      cs.length + text.length + 4 := by
    simp only [List.length_append, bytes16_length]
    omega
  have h2 : ¬ (bytes16 cs.length ++ cs ++ bytes16 text.length ++ text ++ rest).length <
      cs.length + text.length + 4 := by
    rw [List.length_append, hl]
    omega
  rw [if_neg h1, if_neg h2, List.take_left' hl, List.drop_left' hl]
  have hb1 := be16_bytes16 cs.length (by unfold BUFFER_SIZE at hlen; omega)
  have hb2 := be16_bytes16 text.length (by unfold BUFFER_SIZE at hlen; omega)
  simp only [bytes16, List.cons_append, List.nil_append, hb1, List.drop_left,
    hb2, List.take_left, List.append_assoc]
  rw [if_pos (le_refl _), cstr_of_isCString cs hcs]
  have : List.take text.length text = text := List.take_length _
  rw [this, cstr_of_isCString text htext]

theorem readValue_ok (tag : Nat) (v : ipp_value_t) (h : wfValue tag v) (rest : List Nat) :
    ∃ l0 l1 body, valueBytes v = l0 :: l1 :: body ∧
      readValue tag (be16 l0 l1) (body ++ rest) = RVal.ok v rest := by
  by_cases h1 : tag = IPP_TAG_INTEGER ∨ tag = IPP_TAG_ENUM
  · obtain ⟨x, rfl, hx⟩ := wf_inv_integer h h1
    refine ⟨0, 4, bytes32 x, rfl, ?_⟩
    unfold readValue
    rw [if_pos h1]
    simp only [bytes32, List.cons_append, List.nil_append, be32_bytes32 x hx.1 hx.2]
  by_cases h2 : tag = IPP_TAG_BOOLEAN
  · obtain ⟨b, rfl, _⟩ := wf_inv_boolean h h2
    refine ⟨0, 1, [b], rfl, ?_⟩
    unfold readValue
    rw [if_neg h1, if_pos h2]
    rfl
  by_cases h3 : tag = IPP_TAG_TEXT ∨ tag = IPP_TAG_NAME ∨ tag = IPP_TAG_KEYWORD ∨
      tag = IPP_TAG_STRING ∨ tag = IPP_TAG_URI ∨ tag = IPP_TAG_URISCHEME ∨
      tag = IPP_TAG_CHARSET ∨ tag = IPP_TAG_LANGUAGE ∨ tag = IPP_TAG_MIMETYPE
  · obtain ⟨text, rfl, hlen, htext⟩ := wf_inv_string h h3
    refine ⟨_, _, text, rfl, ?_⟩
    unfold readValue
    rw [if_neg h1, if_neg h2, if_pos h3, be16_bytes16 text.length (by unfold BUFFER_SIZE at hlen; omega)]
    exact readString_ok text rest hlen htext
  by_cases h4 : tag = IPP_TAG_DATE
  · obtain ⟨d, rfl, hlen, _⟩ := wf_inv_date h h4
    refine ⟨0, 11, d, rfl, ?_⟩
    have hl : ¬ (d ++ rest).length < 11 := by
      rw [List.length_append]
      omega
    unfold readValue
    rw [if_neg h1, if_neg h2, if_neg h3, if_pos h4, if_neg hl, List.take_left' hlen, List.drop_left' hlen]
  by_cases h5 : tag = IPP_TAG_RESOLUTION
  · obtain ⟨x, y, u, rfl, hx, hy, hu0, hu1⟩ := wf_inv_resolution h h5
    refine ⟨0, 9, bytes32 x ++ bytes32 y ++ [byteOf u], rfl, ?_⟩
    have hu : ((byteOf u : Nat) : Int) = u := by
      unfold byteOf
      omega
    unfold readValue
    rw [if_neg h1, if_neg h2, if_neg h3, if_neg h4, if_pos h5]
    simp only [bytes32, List.cons_append, List.nil_append, be32_bytes32 x hx.1 hx.2,
      be32_bytes32 y hy.1 hy.2, hu]
  by_cases h6 : tag = IPP_TAG_RANGE
  · obtain ⟨l, u, rfl, hl, hu⟩ := wf_inv_range h h6
    refine ⟨0, 8, bytes32 l ++ bytes32 u, rfl, ?_⟩
    unfold readValue
    rw [if_neg h1, if_neg h2, if_neg h3, if_neg h4, if_neg h5, if_pos h6]
    simp only [bytes32, List.cons_append, List.nil_append, be32_bytes32 l hl.1 hl.2,
      be32_bytes32 u hu.1 hu.2]
  by_cases h7 : tag = IPP_TAG_TEXTLANG ∨ tag = IPP_TAG_NAMELANG
  · obtain ⟨cs, text, rfl, hlen, hcs, htext⟩ := wf_inv_lang h h7
    refine ⟨byteOf (((cs.length + text.length + 4 : Nat) : Int) >>> 8),
      byteOf ((cs.length + text.length + 4 : Nat) : Int),
      bytes16 cs.length ++ cs ++ bytes16 text.length ++ text, ?_, ?_⟩
    · simp only [valueBytes, bytes16, List.cons_append, List.nil_append, List.append_assoc]
    · unfold readValue
      rw [if_neg h1, if_neg h2, if_neg h3, if_neg h4, if_neg h5, if_neg h6, if_pos h7,
        be16_bytes16 _ (by unfold BUFFER_SIZE at hlen; omega)]
      exact readLang_ok cs text rest hlen hcs htext
  obtain ⟨n, data, rfl, hn, hlen, hfit, _⟩ := wf_inv_other h ⟨h1, h2, h3, h4, h5, h6, h7⟩
  refine ⟨_, _, data, rfl, ?_⟩
  have hcast : ((n.toNat : Nat) : Int) = n := Int.toNat_of_nonneg hn
  have hbe := be16_bytes16 n.toNat (by unfold BUFFER_SIZE at hfit; omega)
  rw [hcast] at hbe
  unfold readValue
  rw [if_neg h1, if_neg h2, if_neg h3, if_neg h4, if_neg h5, if_neg h6, if_neg h7, hbe]
  by_cases hpos : n.toNat > 0
  · have hl : ¬ (data ++ rest).length < n.toNat := by
      rw [List.length_append]
      omega
    rw [if_pos hpos, if_neg hl, List.take_left' hlen, List.drop_left' hlen, hcast]
  · have hz : data = [] := by
      apply List.eq_nil_of_length_eq_zero
      omega
    have hn0 : n = 0 := by omega
    rw [if_neg hpos, hz, hn0]
    rfl

theorem readOneValue_ok (tag : Nat) (v : ipp_value_t) (h : wfValue tag v) (rest : List Nat)
    (st : RState) (attr : ipp_attribute_t) :
    readOneValue tag (valueBytes v ++ rest) st attr =
      some (Sum.inr (rest,
        { st with current := some { attr with values := attr.values ++ [v] } })) := by
  obtain ⟨l0, l1, body, hb, hr⟩ := readValue_ok tag v h rest
  rw [hb]
  unfold readOneValue
  simp only [List.cons_append, hr]

/-! ### Round trip of the attribute codec -/

theorem ReadsTo_end (rest : List Nat) (st : RState) :
    ReadsTo (IPP_TAG_END :: rest) st st.catalog := by
  intro fuel hfuel
  cases fuel with
  | zero => cases hfuel
  | succ f =>
    refine ⟨st, ?_, rfl⟩
    unfold readAttributes
    rw [if_pos rfl]

theorem ReadsTo_group (tag : Nat) (htag : tag < IPP_TAG_UNSUPPORTED_VALUE)
    (hne : tag ≠ IPP_TAG_END) (file : List Nat) (st : RState) (cat : List ipp_attribute_t)
    (h : ReadsTo file
      { attrs := if st.curtag = tag then st.catalog ++ [separator] else st.catalog,
        current := none, curtag := tag } cat) :
    ReadsTo (tag :: file) st cat := by
  intro fuel hfuel
  cases fuel with
  | zero => cases hfuel
  | succ f =>
    unfold readAttributes
    rw [if_neg hne, if_pos htag]
    exact h f (by simpa using hfuel)

theorem ReadsTo_round (tag : Nat) (htag : IPP_TAG_UNSUPPORTED_VALUE ≤ tag)
    (file rest : List Nat) (st st2 : RState) (cat : List ipp_attribute_t)
    (hr : readAttribute tag file st = some (Sum.inr (rest, st2)))
    (hlen : rest.length ≤ file.length) (h : ReadsTo rest st2 cat) :
    ReadsTo (tag :: file) st cat := by
  intro fuel hfuel
  cases fuel with
  | zero => cases hfuel
  | succ f =>
    have hne : tag ≠ IPP_TAG_END := by
      unfold IPP_TAG_UNSUPPORTED_VALUE at htag
      unfold IPP_TAG_END
      omega
    have hnot : ¬ tag < IPP_TAG_UNSUPPORTED_VALUE := by omega
    unfold readAttributes
    rw [if_neg hne, if_neg hnot, hr]
    simp only []
    exact h f (by simp only [List.length_cons] at hfuel; omega)

theorem readAttribute_cont (tag : Nat) (v : ipp_value_t) (h : wfValue tag v)
    (rest : List Nat) (st : RState) (attr : ipp_attribute_t) (hcur : st.current = some attr) :
    readAttribute tag (0 :: 0 :: (valueBytes v ++ rest)) st =
      some (Sum.inr (rest,
        { st with current := some { attr with values := attr.values ++ [v] } })) := by
  unfold readAttribute
  have h0 : be16 0 0 = 0 := rfl
  simp only [h0]
  rw [if_pos trivial, hcur]
  exact readOneValue_ok tag v h rest st attr

theorem valueBytes_length_pos (tag : Nat) (v : ipp_value_t) (h : wfValue tag v) :
    2 ≤ (valueBytes v).length := by
  obtain ⟨l0, l1, body, hb, _⟩ := readValue_ok tag v h []
  rw [hb]
  simp

theorem ReadsTo_cont (tag : Nat) (htag : IPP_TAG_UNSUPPORTED_VALUE ≤ tag) (hbyte : tag < 256) :
    ∀ (vs : List ipp_value_t), wfValues tag vs → ∀ (i : Nat), i ≠ 0 →
      ∀ (st : RState) (attr : ipp_attribute_t) (rest : List Nat) (cat : List ipp_attribute_t),
      st.current = some attr →
      ReadsTo rest { st with current := some { attr with values := attr.values ++ vs } } cat →
      ReadsTo (contBytes tag i vs ++ rest) st cat
  | [], _, i, _, st, attr, rest, cat, hcur, h => by
    have hst : { st with current := some { attr with values := attr.values ++ [] } } = st := by
      cases st
      cases attr
      simp only [List.append_nil] at hcur ⊢
      rw [hcur]
    rw [hst] at h
    simpa [contBytes] using h
  | v :: vs, hwf, i, hi, st, attr, rest, cat, hcur, h => by
    have ih := ReadsTo_cont tag htag hbyte vs hwf.2 (i + 1) (Nat.succ_ne_zero i)
      { st with current := some { attr with values := attr.values ++ [v] } }
      { attr with values := attr.values ++ [v] } rest cat rfl
      (by simpa [List.append_assoc] using h)
    have henc : contBytes tag i (v :: vs) ++ rest =
        tag :: 0 :: 0 :: (valueBytes v ++ (contBytes tag (i + 1) vs ++ rest)) := by
      rw [contBytes, if_pos hi, Nat.mod_eq_of_lt hbyte]
      simp
    rw [henc]
    refine ReadsTo_round tag htag _ _ st _ cat
      (readAttribute_cont tag v hwf.1 _ st attr hcur) ?_ ih
    simp only [List.length_cons, List.length_append]
    omega

theorem readAttribute_new (tag : Nat) (name : List Nat) (hne : name ≠ [])
    (hlen : name.length + 3 ≤ BUFFER_SIZE) (hname : isCString name) (v : ipp_value_t)
    (h : wfValue tag v) (rest : List Nat) (st : RState) :
    readAttribute tag (bytes16 name.length ++ name ++ (valueBytes v ++ rest)) st =
      some (Sum.inr (rest,
        { attrs := st.catalog,
          current := some { group_tag := st.curtag, value_tag := tag, name := some name,
                            values := [v] },
          curtag := st.curtag })) := by
  have hpos : 0 < name.length := List.length_pos.2 hne
  have hbe := be16_bytes16 name.length (by unfold BUFFER_SIZE at hlen; omega)
  unfold readAttribute
  simp only [bytes16, List.cons_append, List.nil_append, hbe]
  have h1 : ¬ name.length > BUFFER_SIZE - 1 := by
    unfold BUFFER_SIZE at hlen ⊢
    omega
  have h2 : ¬ name.length = 0 := by omega
  have h3 : ¬ (name ++ (valueBytes v ++ rest)).length < name.length := by
    rw [List.length_append]
    omega
  rw [if_neg h1, if_neg h2, if_neg h3, List.take_left, List.drop_left,
    cstr_of_isCString name hname]
  rw [readOneValue_ok tag v h rest]
  rfl

theorem ReadsTo_attr (a : ipp_attribute_t) (c : Nat) (hp : properAttr c a) (st : RState)
    (hcur : st.curtag = a.group_tag) (rest : List Nat) (cat : List ipp_attribute_t)
    (h : ReadsTo rest { attrs := st.catalog, current := some a, curtag := a.group_tag } cat) :
    ReadsTo (attrBytes a ++ rest) st cat := by
  obtain ⟨hname, hne, hlen4, hcstr, _, htag, hbyte, hvals, hwf⟩ := hp
  have hlen : (a.name.getD []).length + 3 ≤ BUFFER_SIZE :=
    Nat.le_trans (Nat.le_add_right _ _) hlen4
  obtain ⟨name, hn⟩ := Option.ne_none_iff_exists'.1 hname
  rw [hn] at hne hlen hcstr
  simp only [Option.getD_some] at hne hlen hcstr
  cases hv : a.values with
  | nil => exact absurd hv hvals
  | cons v vs =>
    rw [hv] at hwf
    have henc : attrBytes a ++ rest =
        a.value_tag :: (bytes16 name.length ++ name ++
          (valueBytes v ++ (contBytes a.value_tag 1 vs ++ rest))) := by
      unfold attrBytes
      rw [hn, hv, contBytes, Nat.mod_eq_of_lt hbyte]
      simp
    rw [henc]
    refine ReadsTo_round a.value_tag htag _ _ st _ cat
      (readAttribute_new a.value_tag name hne hlen hcstr v hwf.1 _ st) ?_ ?_
    · simp only [List.length_append]
      omega
    · refine ReadsTo_cont a.value_tag htag hbyte vs hwf.2 1 (by decide) _
        { group_tag := st.curtag, value_tag := a.value_tag, name := some name, values := [v] }
        rest cat rfl ?_
      have ha : a = ipp_attribute_t.mk st.curtag a.value_tag (some name) ([v] ++ vs) := by
        cases a
        simp only at hn hv hcur ⊢
        rw [hn, hv, hcur]
        rfl
      rw [hcur] at ha ⊢
      simp only []
      rw [← ha]
      exact h

theorem ReadsTo_proper_step (a : ipp_attribute_t) (c : Nat) (hp : properAttr c a) (st : RState)
    (tail : List Nat) (cat sep : List ipp_attribute_t)
    (hstate : (c = st.curtag ∧ sep = []) ∨
      (c = IPP_TAG_ZERO ∧ st.curtag = a.group_tag ∧ a.group_tag ≠ IPP_TAG_ZERO ∧
        sep = [separator]))
    (hnext : ReadsTo tail
      { attrs := st.catalog ++ sep, current := some a, curtag := a.group_tag } cat) :
    ReadsTo ((if c ≠ a.group_tag then [a.group_tag % 256] else []) ++ attrBytes a ++ tail)
      st cat := by
  by_cases hc : c = a.group_tag
  · rw [if_neg (by simpa using hc), List.nil_append]
    rcases hstate with ⟨hcs, rfl⟩ | ⟨hz, _, hg0, _⟩
    · refine ReadsTo_attr a c hp st (by rw [← hcs, hc]) tail cat ?_
      simpa using hnext
    · exfalso
      rw [hz] at hc
      exact hg0 hc.symm
  · obtain ⟨hg0, hg1, hg3⟩ : IPP_TAG_ZERO < a.group_tag ∧
        a.group_tag < IPP_TAG_UNSUPPORTED_VALUE ∧ a.group_tag ≠ IPP_TAG_END := by
      rcases hp.2.2.2.2.1 with h | h
      · exact absurd h.symm hc
      · exact h
    have hmod : a.group_tag % 256 = a.group_tag := by
      apply Nat.mod_eq_of_lt
      unfold IPP_TAG_UNSUPPORTED_VALUE at hg1
      omega
    rw [if_pos hc, hmod, List.append_assoc, List.singleton_append]
    apply ReadsTo_group a.group_tag hg1 hg3
    rcases hstate with ⟨hcs, rfl⟩ | ⟨_, hcur, _, rfl⟩
    · rw [if_neg (by rw [← hcs]; exact hc)]
      refine ReadsTo_attr a c hp _ rfl tail cat ?_
      simpa [RState.catalog] using hnext
    · rw [if_pos hcur]
      refine ReadsTo_attr a c hp _ rfl tail cat ?_
      simpa [RState.catalog] using hnext

theorem wfAttrs_after_separator {prev : Nat} {rest : List ipp_attribute_t}
    (hprev : prev ≠ IPP_TAG_ZERO)
    (hhead : rest.head?.map (fun b => b.group_tag) = some prev)
    (hrest : wfAttrs IPP_TAG_ZERO rest) :
    ∃ b tail, rest = b :: tail ∧ b.group_tag = prev ∧ properAttr IPP_TAG_ZERO b ∧
      wfAttrs b.group_tag tail := by
  cases rest with
  | nil => simp at hhead
  | cons b tail =>
    have hb : b.group_tag = prev := by simpa using hhead
    refine ⟨b, tail, rfl, hb, ?_⟩
    rcases hrest with ⟨hp, ht⟩ | ⟨hsep, _⟩
    · exact ⟨hp, ht⟩
    · exfalso
      apply hprev
      rw [← hb, hsep]
      rfl

theorem properAttr_not_skipped (a : ipp_attribute_t) (c : Nat) (hp : properAttr c a) :
    ¬ (c ≠ a.group_tag ∧ a.group_tag = IPP_TAG_ZERO) := by
  rintro ⟨hc, h0⟩
  rcases hp.2.2.2.2.1 with h | h
  · exact hc h.symm
  · rw [h0] at h
    exact absurd h.1 (lt_irrefl _)

theorem encAttrs_proper (a : ipp_attribute_t) (c : Nat) (hp : properAttr c a)
    (rest : List ipp_attribute_t) :
    encAttrs c (a :: rest) =
      (if c ≠ a.group_tag then [a.group_tag % 256] else []) ++ attrBytes a ++
        encAttrs a.group_tag rest := by
  rw [encAttrs, if_neg (properAttr_not_skipped a c hp)]

theorem encAttrs_separator (c : Nat) (hc : c ≠ IPP_TAG_ZERO) (rest : List ipp_attribute_t) :
    encAttrs c (separator :: rest) = encAttrs IPP_TAG_ZERO rest := by
  rw [encAttrs, if_pos ⟨hc, rfl⟩]
  rfl

theorem ReadsTo_attrs : (l : List ipp_attribute_t) → (st : RState) → wfAttrs st.curtag l →
    ReadsTo (encAttrs st.curtag l) st (st.catalog ++ l)
  | [], st, _ => by
    simpa [encAttrs] using ReadsTo_end [] st
  | a :: rest, st, h => by
    rcases h with ⟨hp, hrest⟩ | ⟨hsep, hprev, hhead, hrest⟩
    · rw [encAttrs_proper a _ hp]
      refine ReadsTo_proper_step a st.curtag hp st _ _ [] (Or.inl ⟨rfl, rfl⟩) ?_
      have ih := ReadsTo_attrs rest
        { attrs := st.catalog ++ [], current := some a, curtag := a.group_tag } hrest
      simpa [RState.catalog] using ih
    · obtain ⟨b, tail, rfl, hb, hpb, htail⟩ := wfAttrs_after_separator hprev hhead hrest
      rw [hsep, encAttrs_separator _ hprev, encAttrs_proper b _ hpb]
      refine ReadsTo_proper_step b IPP_TAG_ZERO hpb st _ _ [separator]
        (Or.inr ⟨rfl, hb.symm, by rw [hb]; exact hprev, rfl⟩) ?_
      have ih := ReadsTo_attrs tail
        { attrs := st.catalog ++ [separator], current := some b, curtag := b.group_tag } htail
      simpa [RState.catalog] using ih
termination_by l => l.length

theorem writeAttributes_proper (a : ipp_attribute_t) (c : Nat) (hp : properAttr c a)
    (file : List Nat) (rest : List ipp_attribute_t) :
    writeAttributes (a :: rest) c file =
      writeAttributes rest a.group_tag
        (file ++ ((if c ≠ a.group_tag then [a.group_tag % 256] else []) ++ attrBytes a)) := by
  have hno := properAttr_not_skipped a c hp
  obtain ⟨hname, hne, hlen, hcstr, _, _, _, _, hwf⟩ := hp
  obtain ⟨name, hn⟩ := Option.ne_none_iff_exists'.1 hname
  rw [hn] at hne hlen hcstr
  simp only [Option.getD_some] at hne hlen hcstr
  have hlong : ¬ name.length > BUFFER_SIZE - 3 := by
    unfold BUFFER_SIZE at hlen ⊢
    omega
  have hmap := map_mod_of_isBytes name (isBytes_of_isCString name hcstr)
  rw [writeAttributes, if_neg hno]
  simp only [hn]
  by_cases hc : c = a.group_tag
  · have hc2 : ¬ c ≠ a.group_tag := by simpa using hc
    rw [if_neg hc2] at hlen
    simp only [if_neg hc2, if_neg hlong, hmap]
    rw [put_spec _ _ (by
      simp only [List.length_nil, List.length_append, List.length_cons, bytes16_length]
      unfold BUFFER_SIZE at hlen ⊢
      omega)]
    simp only []
    obtain ⟨w2, h2, h3⟩ := writeValues_ok a.value_tag a.values hwf
      { file := file, buf := [] ++ ([a.value_tag % 256] ++ bytes16 name.length ++ name) }
      (by
        simp only [List.length_nil, List.length_append, List.length_cons, bytes16_length]
        unfold BUFFER_SIZE at hlen ⊢
        omega)
    rw [h2]
    simp only [WBuf.flush, h3, attrBytes, hn, Option.getD_some]
    simp
  · have hc2 : c ≠ a.group_tag := hc
    rw [if_pos hc2] at hlen
    simp only [if_pos hc2, if_neg hlong, hmap]
    rw [put_spec _ _ (by unfold BUFFER_SIZE; simp)]
    simp only []
    rw [put_spec _ _ (by
      simp only [List.length_nil, List.length_append, List.length_cons, bytes16_length]
      unfold BUFFER_SIZE at hlen ⊢
      omega)]
    simp only []
    obtain ⟨w2, h2, h3⟩ := writeValues_ok a.value_tag a.values hwf
      { file := file,
        buf := [] ++ [a.group_tag % 256] ++ ([a.value_tag % 256] ++ bytes16 name.length ++ name) }
      (by
        simp only [List.length_nil, List.length_append, List.length_cons, bytes16_length]
        unfold BUFFER_SIZE at hlen ⊢
        omega)
    rw [h2]
    simp only [WBuf.flush, h3, attrBytes, hn, Option.getD_some]
    simp

theorem writeAttributes_separator (c : Nat) (hc : c ≠ IPP_TAG_ZERO) (file : List Nat)
    (rest : List ipp_attribute_t) :
    writeAttributes (separator :: rest) c file = writeAttributes rest IPP_TAG_ZERO file := by
  rw [writeAttributes, if_pos ⟨hc, rfl⟩]
  rfl

theorem writeAttributes_ok : (l : List ipp_attribute_t) → (c : Nat) → wfAttrs c l →
    ∀ file, writeAttributes l c file = some (ipp_state_t.IPP_DATA, file ++ encAttrs c l)
  | [], c, _, file => by
    rw [writeAttributes, encAttrs]
  | a :: rest, c, h, file => by
    rcases h with ⟨hp, hrest⟩ | ⟨hsep, hprev, hhead, hrest⟩
    · rw [writeAttributes_proper a c hp, encAttrs_proper a c hp,
        writeAttributes_ok rest a.group_tag hrest]
      simp
    · obtain ⟨b, tail, rfl, hb, hpb, htail⟩ := wfAttrs_after_separator hprev hhead hrest
      rw [hsep, writeAttributes_separator _ hprev, encAttrs_separator _ hprev,
        writeAttributes_proper b _ hpb, encAttrs_proper b _ hpb,
        writeAttributes_ok tail b.group_tag htail]
      simp
termination_by l => l.length

theorem codec_core (C : ipp_t) (hwf : wfCatalog C) :
    ipp_write_file C =
      some (ipp_state_t.IPP_DATA, headerBytes C ++ encAttrs IPP_TAG_ZERO C.attrs) ∧
    ipp_read_file (headerBytes C ++ encAttrs IPP_TAG_ZERO C.attrs) ippNew =
      some (ipp_state_t.IPP_DATA, C) := by
  obtain ⟨hv0, hv1, hop0, hop1, hid, hattrs⟩ := hwf
  refine ⟨?_, ?_⟩
  · unfold ipp_write_file
    rw [writeAttributes_ok C.attrs IPP_TAG_ZERO hattrs]
    rfl
  · have hopc : ((C.op_status.toNat : Nat) : Int) = C.op_status := Int.toNat_of_nonneg hop0
    have hbe := be16_bytes16 C.op_status.toNat (by omega)
    rw [hopc] at hbe
    have hrd := ReadsTo_attrs C.attrs
      { attrs := [], current := none, curtag := IPP_TAG_ZERO } hattrs
      ((encAttrs IPP_TAG_ZERO C.attrs).length + 1) (Nat.lt_succ_self _)
    obtain ⟨st2, hst2, hcat⟩ := hrd
    unfold ipp_read_file headerBytes
    simp only [bytes16, bytes32, List.cons_append, List.nil_append, hv0]
    rw [if_neg (by decide)]
    simp only [ippNew]
    rw [hst2]
    simp only [hcat]
    simp only [RState.catalog, List.nil_append, Option.toList, List.append_nil, hbe, hopc,
      be32_bytes32 C.request_id hid.1 hid.2, Nat.mod_eq_of_lt hv1]
    cases C
    simp only at hv0 ⊢
    rw [hv0]

theorem writeVar_overflow (tag : Nat) (enc : ipp_value_t → Option (Int × List Nat))
    (v : ipp_value_t) (vs : List ipp_value_t) (w : WBuf) (n : Int) (bytes : List Nat)
    (henc : enc v = some (n, bytes)) (hn0 : 0 ≤ n) (hn : n ≤ (BUFFER_SIZE : Nat))
    (hlen : BUFFER_SIZE < bytes.length) :
    writeVar tag enc 0 (v :: vs) w = WVal.undefined := by
  unfold writeVar
  simp only [ne_eq, not_true_eq_false, if_false, henc]
  rw [if_neg (by omega)]
  have hput : (w.room (n.toNat + 2)).put bytes = none := by
    unfold WBuf.put
    rw [if_neg (by omega)]
  rw [hput]

theorem writeValues_string (tag : Nat) (htag : isStringTag tag) (vs : List ipp_value_t)
    (w : WBuf) : writeValues tag vs w = writeVar tag encString 0 vs w := by
  have h1 : ¬ (tag = IPP_TAG_INTEGER ∨ tag = IPP_TAG_ENUM) := by
    unfold isStringTag IPP_TAG_TEXT IPP_TAG_NAME IPP_TAG_KEYWORD IPP_TAG_STRING IPP_TAG_URI
      IPP_TAG_URISCHEME IPP_TAG_CHARSET IPP_TAG_LANGUAGE IPP_TAG_MIMETYPE at htag
    unfold IPP_TAG_INTEGER IPP_TAG_ENUM
    omega
  have h2 : ¬ tag = IPP_TAG_BOOLEAN := by
    unfold isStringTag IPP_TAG_TEXT IPP_TAG_NAME IPP_TAG_KEYWORD IPP_TAG_STRING IPP_TAG_URI
      IPP_TAG_URISCHEME IPP_TAG_CHARSET IPP_TAG_LANGUAGE IPP_TAG_MIMETYPE at htag
    unfold IPP_TAG_BOOLEAN
    omega
  have h3 : tag = IPP_TAG_TEXT ∨ tag = IPP_TAG_NAME ∨ tag = IPP_TAG_KEYWORD ∨
      tag = IPP_TAG_STRING ∨ tag = IPP_TAG_URI ∨ tag = IPP_TAG_URISCHEME ∨
      tag = IPP_TAG_CHARSET ∨ tag = IPP_TAG_LANGUAGE ∨ tag = IPP_TAG_MIMETYPE := htag
  unfold writeValues
  rw [if_neg h1, if_neg h2, if_pos h3]

theorem writeAttributes_value_overflow (a : ipp_attribute_t) (rest : List ipp_attribute_t)
    (c : Nat) (file name text : List Nat) (vs : List ipp_value_t)
    (hname : a.name = some name) (hnlen : name.length + 4 ≤ BUFFER_SIZE)
    (hgroup : a.group_tag ≠ IPP_TAG_ZERO) (htag : isStringTag a.value_tag)
    (hvals : a.values = ipp_value_t.string none text :: vs)
    (hlen : BUFFER_SIZE < text.length + 2) (hle : text.length ≤ BUFFER_SIZE) :
    writeAttributes (a :: rest) c file = none := by
  have hlong : ¬ name.length > BUFFER_SIZE - 3 := by
    unfold BUFFER_SIZE at hnlen ⊢
    omega
  have hval : ∀ w, writeValues a.value_tag a.values w = WVal.undefined := by
    intro w
    rw [writeValues_string a.value_tag htag, hvals]
    refine writeVar_overflow a.value_tag encString _ vs w (text.length : Int)
      (bytes16 text.length ++ text.map (fun b => b % 256)) rfl (by omega)
      (by exact_mod_cast hle) ?_
    simp only [List.length_append, bytes16_length, List.length_map]
    omega
  rw [writeAttributes, if_neg (fun h => hgroup h.2)]
  simp only [hname]
  by_cases hc : c = a.group_tag
  · have hc2 : ¬ c ≠ a.group_tag := by simpa using hc
    simp only [if_neg hc2, if_neg hlong]
    rw [put_spec _ _ (by
      simp only [List.length_nil, List.length_append, List.length_cons, bytes16_length,
        List.length_map]
      unfold BUFFER_SIZE at hnlen ⊢
      omega)]
    simp only [hval]
  · have hc2 : c ≠ a.group_tag := hc
    simp only [if_pos hc2, if_neg hlong]
    rw [put_spec _ _ (by unfold BUFFER_SIZE; simp)]
    simp only []
    rw [put_spec _ _ (by
      simp only [List.length_nil, List.length_append, List.length_cons, bytes16_length,
        List.length_map]
      unfold BUFFER_SIZE at hnlen ⊢
      omega)]
    simp only [hval]

theorem writeAttributes_name_overflow (a : ipp_attribute_t) (rest : List ipp_attribute_t)
    (c : Nat) (file name : List Nat) (hname : a.name = some name)
    (hgroup : a.group_tag ≠ IPP_TAG_ZERO) (hc : c ≠ a.group_tag)
    (hlen : name.length = BUFFER_SIZE - 3) :
    writeAttributes (a :: rest) c file = none := by
  have hlong : ¬ name.length > BUFFER_SIZE - 3 := by omega
  rw [writeAttributes, if_neg (fun h => hgroup h.2)]
  simp only [hname, if_pos hc, if_neg hlong]
  rw [put_spec _ _ (by unfold BUFFER_SIZE; simp)]
  simp only []
  have hput : WBuf.put { file := file, buf := [] ++ [a.group_tag % 256] }
      ([a.value_tag % 256] ++ bytes16 name.length ++ name.map (fun b => b % 256)) = none := by
    unfold WBuf.put
    rw [if_neg]
    simp only [List.length_nil, List.length_append, List.length_cons, bytes16_length,
      List.length_map]
    unfold BUFFER_SIZE at hlen ⊢
    omega
  rw [hput]


theorem ipp_read_file_ReadsTo (b1 b2 b3 b4 b5 b6 b7 : Nat) (body : List Nat)
    (cat : List ipp_attribute_t)
    (h : ReadsTo body { attrs := [], current := none, curtag := IPP_TAG_ZERO } cat) :
    ipp_read_file (1 :: b1 :: b2 :: b3 :: b4 :: b5 :: b6 :: b7 :: body) ippNew =
      some (ipp_state_t.IPP_DATA,
        { version0 := 1, version1 := b1, op_status := (be16 b2 b3 : Nat),
          request_id := be32 b4 b5 b6 b7, attrs := cat }) := by
  obtain ⟨st2, hst2, hcat⟩ := h (body.length + 1) (Nat.lt_succ_self _)
  simp only [ipp_read_file, ne_eq, not_true_eq_false, if_false, ippNew]
  rw [hst2]
  simp only [hcat]

theorem isCString_replicate (b : Nat) (hb : 0 < b ∧ b < 256) :
    ∀ n, isCString (List.replicate n b)
  | 0 => trivial
  | n + 1 => ⟨hb, isCString_replicate b hb n⟩

theorem readAttribute_name (tag : Nat) (name : List Nat) (hne : name ≠ [])
    (hlen : name.length + 1 ≤ BUFFER_SIZE) (hname : isCString name) (more : List Nat)
    (st : RState) :
    readAttribute tag (bytes16 name.length ++ name ++ more) st =
      readOneValue tag more
        { st with attrs := st.catalog,
                  current := some { group_tag := st.curtag, value_tag := tag,
                                    name := some name, values := [] } }
        { group_tag := st.curtag, value_tag := tag, name := some name, values := [] } := by
  have hpos : 0 < name.length := List.length_pos.2 hne
  have hbe := be16_bytes16 name.length (by unfold BUFFER_SIZE at hlen; omega)
  unfold readAttribute
  simp only [bytes16, List.cons_append, List.nil_append, hbe]
  have h1 : ¬ name.length > BUFFER_SIZE - 1 := by
    unfold BUFFER_SIZE at hlen ⊢
    omega
  have h2 : ¬ name.length = 0 := by omega
  have h3 : ¬ (name ++ more).length < name.length := by
    rw [List.length_append]
    omega
  rw [if_neg h1, if_neg h2, if_neg h3, List.take_left, List.drop_left,
    cstr_of_isCString name hname]

theorem readOneValue_string (tag : Nat) (htag : isStringTag tag) (text rest : List Nat)
    (hlen : text.length < BUFFER_SIZE) (htext : isCString text) (st : RState)
    (attr : ipp_attribute_t) :
    readOneValue tag (bytes16 text.length ++ text ++ rest) st attr =
      some (Sum.inr (rest,
        { st with current := some { attr with values := attr.values ++
            [ipp_value_t.string none text] } })) := by
  have h1 : ¬ (tag = IPP_TAG_INTEGER ∨ tag = IPP_TAG_ENUM) := by
    unfold isStringTag IPP_TAG_TEXT IPP_TAG_NAME IPP_TAG_KEYWORD IPP_TAG_STRING IPP_TAG_URI
      IPP_TAG_URISCHEME IPP_TAG_CHARSET IPP_TAG_LANGUAGE IPP_TAG_MIMETYPE at htag
    unfold IPP_TAG_INTEGER IPP_TAG_ENUM
    omega
  have h2 : ¬ tag = IPP_TAG_BOOLEAN := by
    unfold isStringTag IPP_TAG_TEXT IPP_TAG_NAME IPP_TAG_KEYWORD IPP_TAG_STRING IPP_TAG_URI
      IPP_TAG_URISCHEME IPP_TAG_CHARSET IPP_TAG_LANGUAGE IPP_TAG_MIMETYPE at htag
    unfold IPP_TAG_BOOLEAN
    omega
  have h3 : tag = IPP_TAG_TEXT ∨ tag = IPP_TAG_NAME ∨ tag = IPP_TAG_KEYWORD ∨
      tag = IPP_TAG_STRING ∨ tag = IPP_TAG_URI ∨ tag = IPP_TAG_URISCHEME ∨
      tag = IPP_TAG_CHARSET ∨ tag = IPP_TAG_LANGUAGE ∨ tag = IPP_TAG_MIMETYPE := htag
  have hbe := be16_bytes16 text.length (by unfold BUFFER_SIZE at hlen; omega)
  have hrs : readString text.length (text ++ rest) =
      RVal.ok (ipp_value_t.string none text) rest := by
    unfold readString
    have c1 : ¬ min text.length (text ++ rest).length > BUFFER_SIZE := by
      simp only [List.length_append]
      omega
    have c2 : ¬ (text ++ rest).length < text.length := by
      simp only [List.length_append]
      omega
    have c3 : ¬ text.length ≥ BUFFER_SIZE := by omega
    rw [if_neg c1, if_neg c2, if_neg c3, List.take_left, List.drop_left,
      cstr_of_isCString text htext]
  unfold readOneValue
  simp only [bytes16, List.cons_append, List.nil_append, hbe]
  unfold readValue
  rw [if_neg h1, if_neg h2, if_pos h3, hrs]

/-- A stream with one group tag and one string attribute whose value has up
to `sizeof(buffer) - 1` bytes is read to `IPP_DATA`. -/
theorem ipp_read_file_string_attr (b1 b2 b3 b4 b5 b6 b7 g tag : Nat) (name text : List Nat)
    (hg : IPP_TAG_ZERO < g ∧ g < IPP_TAG_UNSUPPORTED_VALUE ∧ g ≠ IPP_TAG_END)
    (htag : isStringTag tag) (hne : name ≠ []) (hnlen : name.length + 1 ≤ BUFFER_SIZE)
    (hname : isCString name) (hlen : text.length < BUFFER_SIZE) (htext : isCString text) :
    ipp_read_file (1 :: b1 :: b2 :: b3 :: b4 :: b5 :: b6 :: b7 :: g :: tag ::
        (bytes16 name.length ++ name ++ (bytes16 text.length ++ text ++ [IPP_TAG_END]))) ippNew =
      some (ipp_state_t.IPP_DATA,
        { version0 := 1, version1 := b1, op_status := (be16 b2 b3 : Nat),
          request_id := be32 b4 b5 b6 b7,
          attrs := [{ group_tag := g, value_tag := tag, name := some name,
                      values := [ipp_value_t.string none text] }] }) := by
  have hvt : IPP_TAG_UNSUPPORTED_VALUE ≤ tag := by
    unfold isStringTag IPP_TAG_TEXT IPP_TAG_NAME IPP_TAG_KEYWORD IPP_TAG_STRING IPP_TAG_URI
      IPP_TAG_URISCHEME IPP_TAG_CHARSET IPP_TAG_LANGUAGE IPP_TAG_MIMETYPE at htag
    unfold IPP_TAG_UNSUPPORTED_VALUE
    omega
  apply ipp_read_file_ReadsTo
  apply ReadsTo_group g hg.2.1 hg.2.2
  rw [if_neg (Nat.ne_of_lt hg.1)]
  refine ReadsTo_round tag hvt _ [IPP_TAG_END] _
    (RState.mk [] (some (ipp_attribute_t.mk g tag (some name) [ipp_value_t.string none text])) g)
    _ ?_ ?_ ?_
  · rw [readAttribute_name tag name hne hnlen hname, readOneValue_string tag htag text _ hlen htext]
    rfl
  · simp only [List.length_append, List.length_cons, List.length_nil, bytes16_length]
    omega
  · exact ReadsTo_end [] _

/-- A stream with one group tag and one integer attribute whose name has up
to `sizeof(buffer) - 1` bytes is read to `IPP_DATA`. -/
theorem ipp_read_file_integer_attr (b1 b2 b3 b4 b5 b6 b7 g : Nat) (name : List Nat) (x : Int)
    (hg : IPP_TAG_ZERO < g ∧ g < IPP_TAG_UNSUPPORTED_VALUE ∧ g ≠ IPP_TAG_END)
    (hne : name ≠ []) (hnlen : name.length + 1 ≤ BUFFER_SIZE) (hname : isCString name)
    (hx : isInt32 x) :
    ipp_read_file (1 :: b1 :: b2 :: b3 :: b4 :: b5 :: b6 :: b7 :: g :: IPP_TAG_INTEGER ::
        (bytes16 name.length ++ name ++ (valueBytes (ipp_value_t.integer x) ++ [IPP_TAG_END])))
        ippNew =
      some (ipp_state_t.IPP_DATA,
        { version0 := 1, version1 := b1, op_status := (be16 b2 b3 : Nat),
          request_id := be32 b4 b5 b6 b7,
          attrs := [{ group_tag := g, value_tag := IPP_TAG_INTEGER, name := some name,
                      values := [ipp_value_t.integer x] }] }) := by
  apply ipp_read_file_ReadsTo
  apply ReadsTo_group g hg.2.1 hg.2.2
  rw [if_neg (Nat.ne_of_lt hg.1)]
  refine ReadsTo_round IPP_TAG_INTEGER (by decide) _ [IPP_TAG_END] _
    (RState.mk []
      (some (ipp_attribute_t.mk g IPP_TAG_INTEGER (some name) [ipp_value_t.integer x])) g)
    _ ?_ ?_ ?_
  · rw [readAttribute_name IPP_TAG_INTEGER name hne hnlen hname,
      readOneValue_ok IPP_TAG_INTEGER (ipp_value_t.integer x) ⟨Or.inl rfl, hx⟩]
    rfl
  · simp only [List.length_append, List.length_cons, List.length_nil, bytes16_length]
    omega
  · exact ReadsTo_end [] _

theorem ipp_write_file_overflow (C : ipp_t) (a : ipp_attribute_t)
    (rest : List ipp_attribute_t) (name text : List Nat) (vs : List ipp_value_t)
    (hattrs : C.attrs = a :: rest) (hname : a.name = some name)
    (hgroup : a.group_tag ≠ IPP_TAG_ZERO)
    (hcase : (name.length + 4 ≤ BUFFER_SIZE ∧ isStringTag a.value_tag ∧
        a.values = ipp_value_t.string none text :: vs ∧ BUFFER_SIZE - 2 < text.length ∧
        text.length ≤ BUFFER_SIZE) ∨
      name.length = BUFFER_SIZE - 3) :
    ipp_write_file C = none := by
  unfold ipp_write_file
  rw [hattrs]
  rcases hcase with ⟨hnlen, htag, hvals, hlen, hle⟩ | hlen
  · exact writeAttributes_value_overflow a rest _ _ name text vs hname hnlen hgroup htag hvals
      (by omega) hle
  · exact writeAttributes_name_overflow a rest _ _ name hname hgroup
      (fun h => hgroup h.symm) hlen

/-! ### Re-encoding a stream -/

theorem bytes16_be16 (a b : Nat) (ha : a < 256) (hb : b < 256) :
    bytes16 ((be16 a b : Nat) : Int) = [a, b] := by
  unfold bytes16
  rw [be16_eq a b hb, shiftRight_8]
  unfold byteOf
  simp only [List.cons.injEq, and_true]
  constructor <;> omega

theorem be32_range (a b c d : Nat) : isInt32 (be32 a b c d) := by
  unfold isInt32 be32 toInt32
  norm_num
  split <;> constructor <;> omega

theorem bytes32_be32 (a b c d : Nat) (ha : a < 256) (hb : b < 256) (hc : c < 256)
    (hd : d < 256) : bytes32 (be32 a b c d) = [a, b, c, d] := by
  have e2 : ∀ a b : Nat, b < 256 → (a <<< 8) ||| b = a * 256 + b := fun a b hb => be16_eq a b hb
  unfold bytes32 be32
  rw [e2 _ _ hd, e2 _ _ hc, e2 _ _ hb, shiftRight_8, shiftRight_16, shiftRight_24]
  unfold byteOf toInt32
  norm_num
  split <;> (refine ⟨?_, ?_, ?_, ?_⟩ <;> omega)

theorem StreamAttr_proper (a : StreamAttr) (behind : Bool) (c g : Nat)
    (hwf : a.wellFormed behind)
    (hctx : (behind = true ∧ c ≠ g ∧ IPP_TAG_ZERO < g ∧ g < IPP_TAG_UNSUPPORTED_VALUE ∧
        g ≠ IPP_TAG_END) ∨ (behind = false ∧ c = g)) :
    properAttr c (a.attr g) := by
  obtain ⟨htag, hbyte, hne, hcstr, hlen, hvals, hvs⟩ := hwf
  refine ⟨by simp [StreamAttr.attr], by simpa [StreamAttr.attr] using hne, ?_,
    by simpa [StreamAttr.attr] using hcstr, ?_, htag, hbyte, hvals, hvs⟩
  · show a.name.length + 3 + (if c ≠ g then 1 else 0) ≤ BUFFER_SIZE
    rcases hctx with ⟨hb, hc, _⟩ | ⟨hb, hc⟩
    · rw [hb] at hlen
      rw [if_pos hc]
      simpa using hlen
    · rw [hb] at hlen
      rw [if_neg (by simpa using hc)]
      simpa using hlen
  · show g = c ∨ _
    rcases hctx with ⟨_, _, h⟩ | ⟨_, hc⟩
    · exact Or.inr h
    · exact Or.inl hc.symm

theorem StreamAttr_attrBytes (a : StreamAttr) (g : Nat) (hbyte : a.value_tag < 256) :
    attrBytes (a.attr g) = a.bytes := by
  unfold attrBytes StreamAttr.bytes StreamAttr.attr
  simp only [Option.getD_some, Nat.mod_eq_of_lt hbyte]

theorem stream_run (g : Nat) (T : List ipp_attribute_t) (hT : wfAttrs g T) :
    ∀ (l : List StreamAttr), streamAttrsWellFormed false l →
      wfAttrs g (l.map (StreamAttr.attr g) ++ T) ∧
      encAttrs g (l.map (StreamAttr.attr g) ++ T) = streamAttrsBytes l ++ encAttrs g T
  | [], _ => ⟨hT, rfl⟩
  | a :: rest, h => by
    obtain ⟨ih1, ih2⟩ := stream_run g T hT rest h.2
    have hp : properAttr g (a.attr g) :=
      StreamAttr_proper a false g g h.1 (Or.inr ⟨rfl, rfl⟩)
    refine ⟨Or.inl ⟨hp, ih1⟩, ?_⟩
    rw [List.map_cons, List.cons_append, encAttrs_proper _ _ hp]
    show (if g ≠ g then [g % 256] else []) ++ attrBytes (a.attr g) ++
      encAttrs g (rest.map (StreamAttr.attr g) ++ T) = _
    rw [if_neg (by simp), ih2, StreamAttr_attrBytes a g h.1.2.1, streamAttrsBytes]
    simp

theorem stream_group_start (c g : Nat) (hc : c ≠ g)
    (hg : IPP_TAG_ZERO < g ∧ g < IPP_TAG_UNSUPPORTED_VALUE ∧ g ≠ IPP_TAG_END)
    (T : List ipp_attribute_t) (hT : wfAttrs g T) (a : StreamAttr) (rest : List StreamAttr)
    (h : streamAttrsWellFormed true (a :: rest)) :
    wfAttrs c ((a :: rest).map (StreamAttr.attr g) ++ T) ∧
    encAttrs c ((a :: rest).map (StreamAttr.attr g) ++ T) =
      [g] ++ streamAttrsBytes (a :: rest) ++ encAttrs g T := by
  obtain ⟨ih1, ih2⟩ := stream_run g T hT rest h.2
  have hp : properAttr c (a.attr g) :=
    StreamAttr_proper a true c g h.1 (Or.inl ⟨rfl, hc, hg⟩)
  have hmod : g % 256 = g := by
    apply Nat.mod_eq_of_lt
    have := hg.2.1
    unfold IPP_TAG_UNSUPPORTED_VALUE at this
    omega
  refine ⟨Or.inl ⟨hp, ih1⟩, ?_⟩
  rw [List.map_cons, List.cons_append, encAttrs_proper _ _ hp]
  show (if c ≠ g then [g % 256] else []) ++ attrBytes (a.attr g) ++
    encAttrs g (rest.map (StreamAttr.attr g) ++ T) = _
  rw [if_pos hc, ih2, StreamAttr_attrBytes a g h.1.2.1, streamAttrsBytes, hmod]
  simp

theorem stream_groups : ∀ (l : List StreamGroup) (c : Nat), streamGroupsWellFormed l →
    wfAttrs c (streamGroupsCatalog c l) ∧
    encAttrs c (streamGroupsCatalog c l) = streamGroupsBytes l ++ [IPP_TAG_END]
  | [], _, _ => ⟨trivial, rfl⟩
  | g :: rest, c, h => by
    obtain ⟨hg, hne, hattrs, hrest⟩ := h
    obtain ⟨ih1, ih2⟩ := stream_groups rest g.tag hrest
    cases hl : g.attrs with
    | nil => exact absurd hl hne
    | cons a as =>
      rw [hl] at hattrs
      rw [streamGroupsCatalog, streamGroupsBytes, hl]
      by_cases hc : c = g.tag
      · have h0 : IPP_TAG_ZERO ≠ g.tag := Nat.ne_of_lt hg.1
        obtain ⟨h1, h2⟩ := stream_group_start IPP_TAG_ZERO g.tag h0 hg _ ih1 a as hattrs
        have hcz : c ≠ IPP_TAG_ZERO := by
          rw [hc]
          exact fun e => h0 e.symm
        rw [if_pos hc, List.append_assoc, List.singleton_append]
        refine ⟨Or.inr ⟨rfl, hcz, ?_, h1⟩, ?_⟩
        · simp [StreamAttr.attr, hc]
        · rw [encAttrs_separator _ hcz, h2, ih2]
          simp
      · obtain ⟨h1, h2⟩ := stream_group_start c g.tag hc hg _ ih1 a as hattrs
        rw [if_neg hc, List.nil_append]
        refine ⟨h1, ?_⟩
        rw [h2, ih2]
        simp

theorem IppStream_catalog_wf (S : IppStream) (hwf : S.wellFormed) :
    wfCatalog S.catalog ∧
    headerBytes S.catalog ++ encAttrs IPP_TAG_ZERO S.catalog.attrs = S.bytes := by
  obtain ⟨⟨hm, ho0, ho1, hi0, hi1, hi2, hi3⟩, hlead, hgroups⟩ := hwf
  obtain ⟨g1, g2⟩ := stream_groups S.groups IPP_TAG_ZERO hgroups
  obtain ⟨l1, l2⟩ := stream_run IPP_TAG_ZERO _ g1 S.lead hlead
  refine ⟨⟨rfl, hm, ?_, ?_, be32_range _ _ _ _, l1⟩, ?_⟩
  · exact Int.natCast_nonneg _
  · show ((be16 S.op0 S.op1 : Nat) : Int) < 65536
    rw [be16_eq _ _ ho1]
    omega
  · show headerBytes S.catalog ++ encAttrs IPP_TAG_ZERO
      (S.lead.map (StreamAttr.attr IPP_TAG_ZERO) ++ streamGroupsCatalog IPP_TAG_ZERO S.groups) = _
    rw [l2, g2]
    unfold headerBytes IppStream.catalog IppStream.bytes
    simp only [bytes16_be16 _ _ ho0 ho1, bytes32_be32 _ _ _ _ hi0 hi1 hi2 hi3,
      Nat.mod_eq_of_lt hm]
    simp

theorem stream_reencodes (S : IppStream) (hwf : S.wellFormed) :
    ipp_read_file S.bytes ippNew = some (ipp_state_t.IPP_DATA, S.catalog) ∧
    ipp_write_file S.catalog = some (ipp_state_t.IPP_DATA, S.bytes) := by
  obtain ⟨hcat, hbytes⟩ := IppStream_catalog_wf S hwf
  obtain ⟨hw, hr⟩ := codec_core S.catalog hcat
  rw [hbytes] at hw hr
  exact ⟨hr, hw⟩

/-! ### The catalogs `ipp_read_file` builds from bytes -/

theorem Reads_end (rest : List Nat) (st stf : RState)
    (h : Reads (IPP_TAG_END :: rest) st stf) : stf = st := by
  obtain ⟨fuel, h⟩ := h
  cases fuel with
  | zero => cases h
  | succ f =>
    rw [readAttributes, if_pos rfl] at h
    cases h
    rfl

theorem Reads_group (tag : Nat) (htag : tag < IPP_TAG_UNSUPPORTED_VALUE)
    (hne : tag ≠ IPP_TAG_END) (file : List Nat) (st stf : RState)
    (h : Reads (tag :: file) st stf) :
    Reads file
      { attrs := if st.curtag = tag then st.catalog ++ [separator] else st.catalog,
        current := none, curtag := tag } stf := by
  obtain ⟨fuel, h⟩ := h
  cases fuel with
  | zero => cases h
  | succ f =>
    rw [readAttributes, if_neg hne, if_pos htag] at h
    exact ⟨f, h⟩

theorem value_tag_cases (tag : Nat) (htag : IPP_TAG_UNSUPPORTED_VALUE ≤ tag) :
    tag ≠ IPP_TAG_END ∧ ¬ tag < IPP_TAG_UNSUPPORTED_VALUE := by
  have e1 : IPP_TAG_END = 3 := rfl
  have e2 : IPP_TAG_UNSUPPORTED_VALUE = 16 := rfl
  constructor <;> omega

theorem Reads_round (tag : Nat) (htag : IPP_TAG_UNSUPPORTED_VALUE ≤ tag)
    (file rest : List Nat) (st st2 stf : RState)
    (hr : readAttribute tag file st = some (Sum.inr (rest, st2)))
    (h : Reads (tag :: file) st stf) : Reads rest st2 stf := by
  obtain ⟨fuel, h⟩ := h
  cases fuel with
  | zero => cases h
  | succ f =>
    rw [readAttributes, if_neg (value_tag_cases tag htag).1, if_neg (value_tag_cases tag htag).2,
      hr] at h
    exact ⟨f, h⟩

theorem Reads_round_inv (tag : Nat) (htag : IPP_TAG_UNSUPPORTED_VALUE ≤ tag)
    (file : List Nat) (st stf : RState) (h : Reads (tag :: file) st stf) :
    ∃ rest st2, readAttribute tag file st = some (Sum.inr (rest, st2)) ∧ Reads rest st2 stf := by
  obtain ⟨fuel, h⟩ := h
  cases fuel with
  | zero => cases h
  | succ f =>
    rw [readAttributes, if_neg (value_tag_cases tag htag).1,
      if_neg (value_tag_cases tag htag).2] at h
    cases hr : readAttribute tag file st with
    | none => rw [hr] at h; cases h
    | some r =>
      rw [hr] at h
      cases r with
      | inl res =>
        exfalso
        simp only [Option.some.injEq] at h
        subst h
        unfold readAttribute at hr
        split at hr
        · simp only [] at hr
          split at hr
          · cases hr
          · split at hr
            · split at hr
              · cases hr
              · unfold readOneValue at hr
                split at hr
                · split at hr <;> cases hr
                · cases hr
            · split at hr
              · cases hr
              · unfold readOneValue at hr
                split at hr
                · split at hr <;> cases hr
                · cases hr
        · cases hr
      | inr p =>
        obtain ⟨rest, st2⟩ := p
        exact ⟨rest, st2, rfl, f, h⟩

theorem readOneValue_inr (tag : Nat) (file : List Nat) (st : RState) (attr : ipp_attribute_t)
    (rest : List Nat) (st2 : RState)
    (h : readOneValue tag file st attr = some (Sum.inr (rest, st2))) :
    ∃ l0 l1 body v, file = l0 :: l1 :: body ∧ readValue tag (be16 l0 l1) body = RVal.ok v rest ∧
      st2 = { st with current := some { attr with values := attr.values ++ [v] } } := by
  unfold readOneValue at h
  split at h
  · next l0 l1 body =>
    split at h
    · next v rest2 hv =>
      simp only [Option.some.injEq, Sum.inr.injEq, Prod.mk.injEq] at h
      obtain ⟨rfl, rfl⟩ := h
      exact ⟨l0, l1, body, v, rfl, hv, rfl⟩
    · cases h
    · cases h
  · cases h

theorem readAttribute_inr (tag : Nat) (file : List Nat) (st : RState) (rest : List Nat)
    (st2 : RState) (h : readAttribute tag file st = some (Sum.inr (rest, st2))) :
    ∃ n0 n1 more, file = n0 :: n1 :: more ∧ be16 n0 n1 ≤ BUFFER_SIZE - 1 ∧
      ((be16 n0 n1 = 0 ∧ ∃ attr, st.current = some attr ∧
          readOneValue tag more st attr = some (Sum.inr (rest, st2))) ∨
        (be16 n0 n1 ≠ 0 ∧ be16 n0 n1 ≤ more.length ∧
          readOneValue tag (more.drop (be16 n0 n1))
            { st with attrs := st.catalog,
                      current := some { group_tag := st.curtag, value_tag := tag,
                                        name := some (cstr (more.take (be16 n0 n1))),
                                        values := [] } }
            { group_tag := st.curtag, value_tag := tag,
              name := some (cstr (more.take (be16 n0 n1))), values := [] } =
            some (Sum.inr (rest, st2)))) := by
  unfold readAttribute at h
  split at h
  · next n0 n1 more =>
    simp only [] at h
    split at h
    · cases h
    · next hbig =>
      refine ⟨n0, n1, more, rfl, by omega, ?_⟩
      split at h
      · next hz =>
        left
        refine ⟨hz, ?_⟩
        split at h
        · cases h
        · next attr hcur => exact ⟨attr, hcur, h⟩
      · next hz =>
        right
        split at h
        · cases h
        · next hlen => exact ⟨hz, by omega, h⟩
  · cases h

theorem attr_values_append_nil (cur : ipp_attribute_t) :
    { cur with values := cur.values ++ [] } = cur := by
  cases cur
  simp

/-- The catalog a read ends with begins with the attributes that were complete
when it started, and the attribute that was current then has only gained
values. -/
theorem Reads_extends : ∀ (fuel : Nat) (file : List Nat) (st stf : RState),
    readAttributes fuel file st = some (ipp_state_t.IPP_DATA, stf) →
    ∃ tail, stf.catalog = st.attrs ++ tail ∧
      ∀ cur, st.current = some cur →
        ∃ more tail2, tail = { cur with values := cur.values ++ more } :: tail2
  | 0, _, _, _, h => by cases h
  | _ + 1, [], _, _, h => by
    simp only [readAttributes, Option.some.injEq, Prod.mk.injEq, reduceCtorEq, false_and] at h
  | fuel + 1, tag :: file, st, stf, h => by
    rw [readAttributes] at h
    split at h
    · cases h
      refine ⟨st.current.toList, rfl, ?_⟩
      intro cur hcur
      refine ⟨[], [], ?_⟩
      rw [hcur, attr_values_append_nil]
      rfl
    · split at h
      · obtain ⟨tail, ht, _⟩ := Reads_extends fuel file _ stf h
        simp only [] at ht
        by_cases hc : st.curtag = tag
        · rw [if_pos hc] at ht
          refine ⟨st.current.toList ++ [separator] ++ tail, ?_, ?_⟩
          · rw [ht]
            simp [RState.catalog]
          · intro cur hcur
            refine ⟨[], [separator] ++ tail, ?_⟩
            rw [hcur, attr_values_append_nil]
            rfl
        · rw [if_neg hc] at ht
          refine ⟨st.current.toList ++ tail, ?_, ?_⟩
          · rw [ht]
            simp [RState.catalog]
          · intro cur hcur
            refine ⟨[], tail, ?_⟩
            rw [hcur, attr_values_append_nil]
            rfl
      · split at h
        · cases h
        · next result hres =>
          exfalso
          simp only [Option.some.injEq] at h
          subst h
          unfold readAttribute at hres
          split at hres
          · simp only [] at hres
            split at hres
            · cases hres
            · split at hres
              · split at hres
                · cases hres
                · unfold readOneValue at hres
                  split at hres
                  · split at hres <;> cases hres
                  · cases hres
              · split at hres
                · cases hres
                · unfold readOneValue at hres
                  split at hres
                  · split at hres <;> cases hres
                  · cases hres
          · cases hres
        · next rest st2 hres =>
          obtain ⟨tail, ht, hcur2⟩ := Reads_extends fuel rest st2 stf h
          obtain ⟨n0, n1, more, _, _, hcase⟩ := readAttribute_inr tag file st rest st2 hres
          rcases hcase with ⟨_, attr, hcur, hval⟩ | ⟨_, _, hval⟩
          · obtain ⟨_, _, _, v, _, _, hst2⟩ := readOneValue_inr _ _ _ _ _ _ hval
            subst hst2
            obtain ⟨more2, tail2, ht2⟩ := hcur2 _ rfl
            refine ⟨tail, ht, ?_⟩
            intro cur hc
            rw [hcur] at hc
            cases hc
            refine ⟨[v] ++ more2, tail2, ?_⟩
            rw [ht2]
            simp
          · obtain ⟨_, _, _, v, _, _, hst2⟩ := readOneValue_inr _ _ _ _ _ _ hval
            subst hst2
            simp only [] at ht
            refine ⟨st.current.toList ++ tail, ?_, ?_⟩
            · rw [ht]
              simp [RState.catalog]
            · intro cur hcur
              refine ⟨[], tail, ?_⟩
              rw [hcur, attr_values_append_nil]
              rfl

theorem isBytes_iff : ∀ (l : List Nat), isBytes l ↔ ∀ b ∈ l, b < 256
  | [] => by simp [isBytes]
  | b :: rest => by simp [isBytes, isBytes_iff rest]

theorem isBytes_append (l1 l2 : List Nat) : isBytes (l1 ++ l2) ↔ isBytes l1 ∧ isBytes l2 := by
  simp only [isBytes_iff, List.mem_append]
  constructor
  · intro h
    exact ⟨fun b hb => h b (Or.inl hb), fun b hb => h b (Or.inr hb)⟩
  · rintro ⟨h1, h2⟩ b (hb | hb)
    · exact h1 b hb
    · exact h2 b hb

theorem isBytes_take (n : Nat) (l : List Nat) (h : isBytes l) : isBytes (l.take n) := by
  rw [isBytes_iff] at h ⊢
  intro b hb
  exact h b (List.mem_of_mem_take hb)

theorem isBytes_drop (n : Nat) (l : List Nat) (h : isBytes l) : isBytes (l.drop n) := by
  rw [isBytes_iff] at h ⊢
  intro b hb
  exact h b (List.mem_of_mem_drop hb)

theorem isCString_cstr : ∀ (l : List Nat), isBytes l → isCString (cstr l)
  | [], _ => by simp [cstr, isCString]
  | b :: rest, h => by
    have ih := isCString_cstr rest h.2
    unfold cstr at ih ⊢
    by_cases hb : b = 0
    · subst hb
      simp [List.takeWhile, isCString]
    · have hb2 : (b != 0) = true := by simpa using hb
      rw [List.takeWhile_cons, hb2]
      simp only [if_true]
      exact ⟨⟨Nat.pos_of_ne_zero hb, h.1⟩, ih⟩

theorem readValue_content (tag n : Nat) (file : List Nat) (v : ipp_value_t) (rest : List Nat)
    (h : readValue tag n file = RVal.ok v rest) (hfile : isBytes file) :
    valueContent v ∧ isBytes rest := by
  unfold readValue at h
  split at h
  · split at h
    · cases h
      exact ⟨be32_range _ _ _ _, hfile.2.2.2.2⟩
    · cases h
  · split at h
    · split at h
      · cases h
        exact ⟨hfile.1, hfile.2⟩
      · cases h
    · split at h
      · unfold readString at h
        split at h
        · cases h
        · split at h
          · cases h
          · split at h
            · cases h
            · cases h
              exact ⟨isCString_cstr _ (isBytes_take _ _ hfile), isBytes_drop _ _ hfile⟩
      · split at h
        · split at h
          · cases h
          · next hlen =>
            cases h
            refine ⟨⟨?_, isBytes_take _ _ hfile⟩, isBytes_drop _ _ hfile⟩
            rw [List.length_take]
            omega
        · split at h
          · split at h
            · cases h
              obtain ⟨h0, h1, h2, h3, h4, h5, h6, h7, h8, hr⟩ := hfile
              refine ⟨⟨be32_range _ _ _ _, be32_range _ _ _ _, ?_, ?_⟩, hr⟩
              · exact Int.natCast_nonneg _
              · exact_mod_cast h8
            · cases h
          · split at h
            · split at h
              · cases h
                obtain ⟨h0, h1, h2, h3, h4, h5, h6, h7, hr⟩ := hfile
                exact ⟨⟨be32_range _ _ _ _, be32_range _ _ _ _⟩, hr⟩
              · cases h
            · split at h
              · unfold readLang at h
                split at h
                · cases h
                · split at h
                  · cases h
                  · split at h
                    · next c0 c1 more htake =>
                      simp only [] at h
                      split at h
                      · next t0 t1 text hdrop =>
                        split at h
                        · cases h
                          have hm : isBytes more := by
                            have := isBytes_take n file hfile
                            rw [htake] at this
                            exact this.2.2
                          have ht : isBytes text := by
                            have := isBytes_drop (be16 c0 c1) more hm
                            rw [hdrop] at this
                            exact this.2.2
                          exact ⟨⟨isCString_cstr _ (isBytes_take _ _ hm),
                            isCString_cstr _ (isBytes_take _ _ ht)⟩, isBytes_drop _ _ hfile⟩
                        · cases h
                      · cases h
                    · cases h
              · split at h
                · split at h
                  · cases h
                  · next hlen =>
                    cases h
                    refine ⟨⟨Int.natCast_nonneg _, ?_, isBytes_take _ _ hfile⟩,
                      isBytes_drop _ _ hfile⟩
                    rw [List.length_take, Int.toNat_ofNat]
                    omega
                · cases h
                  exact ⟨⟨le_refl _, rfl, trivial⟩, hfile⟩

theorem readCursor_catalog (st : RState) (h : readCursor st) : ∀ a ∈ st.catalog, readNode a := by
  intro a ha
  unfold RState.catalog at ha
  rcases List.mem_append.1 ha with h1 | h1
  · exact h.1 a h1
  · cases hc : st.current with
    | none => rw [hc] at h1; simp at h1
    | some cur =>
      rw [hc] at h1
      simp only [Option.toList, List.mem_singleton] at h1
      subst h1
      exact Or.inr (h.2.1 _ hc)

theorem namedAttr_add (attr : ipp_attribute_t) (v : ipp_value_t)
    (hname : ∃ name, attr.name = some name ∧ isCString name)
    (hg : attr.group_tag < IPP_TAG_UNSUPPORTED_VALUE ∧ attr.group_tag ≠ IPP_TAG_END)
    (ht : IPP_TAG_UNSUPPORTED_VALUE ≤ attr.value_tag ∧ attr.value_tag < 256)
    (hvals : ∀ v ∈ attr.values, valueContent v) (hv : valueContent v) :
    namedAttr { attr with values := attr.values ++ [v] } := by
  refine ⟨hname, hg.1, hg.2, ht.1, ht.2, by simp, ?_⟩
  intro x hx
  rcases List.mem_append.1 hx with h1 | h1
  · exact hvals x h1
  · simp only [List.mem_singleton] at h1
    subst h1
    exact hv

theorem readAttribute_cursor (tag : Nat) (htag : IPP_TAG_UNSUPPORTED_VALUE ≤ tag) (file : List Nat)
    (st : RState) (rest : List Nat) (st2 : RState)
    (h : readAttribute tag file st = some (Sum.inr (rest, st2)))
    (hfile : isBytes (tag :: file)) (hst : readCursor st) :
    isBytes rest ∧ readCursor st2 := by
  obtain ⟨n0, n1, more, hf, _, hcase⟩ := readAttribute_inr tag file st rest st2 h
  subst hf
  have hmore : isBytes more := hfile.2.2.2
  rcases hcase with ⟨_, attr, hcur, hval⟩ | ⟨_, _, hval⟩
  · obtain ⟨l0, l1, body, v, hb, hv, hst2⟩ := readOneValue_inr _ _ _ _ _ _ hval
    subst hb
    obtain ⟨hc, hr⟩ := readValue_content _ _ _ _ _ hv hmore.2.2
    refine ⟨hr, ?_⟩
    subst hst2
    obtain ⟨hn, hg1, hg2, ht1, ht2, _, hvals⟩ := hst.2.1 attr hcur
    refine ⟨hst.1, ?_, hst.2.2⟩
    intro cur hc2
    cases hc2
    exact namedAttr_add attr v hn ⟨hg1, hg2⟩ ⟨ht1, ht2⟩ hvals hc
  · obtain ⟨l0, l1, body, v, hb, hv, hst2⟩ := readOneValue_inr _ _ _ _ _ _ hval
    have hd : isBytes (more.drop (be16 n0 n1)) := isBytes_drop _ _ hmore
    rw [hb] at hd
    obtain ⟨hc, hr⟩ := readValue_content _ _ _ _ _ hv hd.2.2
    refine ⟨hr, ?_⟩
    subst hst2
    refine ⟨readCursor_catalog st hst, ?_, hst.2.2⟩
    intro cur hc2
    cases hc2
    exact namedAttr_add
      { group_tag := st.curtag, value_tag := tag,
        name := some (cstr (more.take (be16 n0 n1))), values := [] } v
      ⟨_, rfl, isCString_cstr _ (isBytes_take _ _ hmore)⟩ hst.2.2 ⟨htag, hfile.1⟩
      (by simp) hc

theorem readAttributes_cursor : ∀ (fuel : Nat) (file : List Nat) (st stf : RState),
    readAttributes fuel file st = some (ipp_state_t.IPP_DATA, stf) → isBytes file →
    readCursor st → readCursor stf
  | 0, _, _, _, h, _, _ => by cases h
  | _ + 1, [], _, _, h, _, _ => by
    simp only [readAttributes, Option.some.injEq, Prod.mk.injEq, reduceCtorEq, false_and] at h
  | fuel + 1, tag :: file, st, stf, h, hfile, hst => by
    by_cases hend : tag = IPP_TAG_END
    · subst hend
      rw [Reads_end file st stf ⟨fuel + 1, h⟩]
      exact hst
    · by_cases hg : tag < IPP_TAG_UNSUPPORTED_VALUE
      · rw [readAttributes, if_neg hend, if_pos hg] at h
        refine readAttributes_cursor fuel file _ stf h hfile.2 ⟨?_, ?_, hg, hend⟩
        · intro a ha
          simp only [] at ha
          split at ha
          · rcases List.mem_append.1 ha with h1 | h1
            · exact readCursor_catalog st hst a h1
            · simp only [List.mem_singleton] at h1
              exact Or.inl h1
          · exact readCursor_catalog st hst a ha
        · intro cur hc
          cases hc
      · have htag : IPP_TAG_UNSUPPORTED_VALUE ≤ tag := Nat.le_of_not_lt hg
        rw [readAttributes, if_neg hend, if_neg hg] at h
        cases hr : readAttribute tag file st with
        | none => rw [hr] at h; cases h
        | some r =>
          cases r with
          | inl res =>
            obtain ⟨rest, st2, hr2, _⟩ := Reads_round_inv tag htag file st stf
              ⟨fuel + 1, by rw [readAttributes, if_neg hend, if_neg hg]; exact h⟩
            rw [hr] at hr2
            cases hr2
          | inr p =>
            obtain ⟨rest, st2⟩ := p
            rw [hr] at h
            obtain ⟨hb, hc⟩ := readAttribute_cursor tag htag file st rest st2 hr hfile hst
            exact readAttributes_cursor fuel rest st2 stf h hb hc

/-! ### What a successful write says about the catalog -/

theorem put_some (w : WBuf) (bs : List Nat) (w2 : WBuf) (h : w.put bs = some w2) :
    w.buf.length + bs.length ≤ BUFFER_SIZE := by
  unfold WBuf.put at h
  split at h
  · assumption
  · cases h

theorem writeFixed_inv (tag need : Nat) (enc : ipp_value_t → Option (List Nat)) :
    ∀ (vs : List ipp_value_t) (i : Nat) (w w2 : WBuf),
      writeFixed tag need enc i vs w = WVal.ok w2 → ∀ v ∈ vs, ∃ bytes, enc v = some bytes
  | [], _, _, _, _ => by simp
  | v :: vs, i, w, w2, h => by
    rw [writeFixed] at h
    split at h
    · cases h
    · split at h
      · cases h
      · next bytes henc =>
        split at h
        · cases h
        · next w3 _ =>
          intro u hu
          rcases List.mem_cons.1 hu with rfl | hu
          · exact ⟨bytes, henc⟩
          · exact writeFixed_inv tag need enc vs (i + 1) w3 w2 h u hu

theorem writeVar_inv (tag : Nat) (enc : ipp_value_t → Option (Int × List Nat)) :
    ∀ (vs : List ipp_value_t) (i : Nat) (w w2 : WBuf),
      writeVar tag enc i vs w = WVal.ok w2 →
      ∀ v ∈ vs, ∃ n bytes, enc v = some (n, bytes) ∧ 0 ≤ n ∧ n ≤ (BUFFER_SIZE : Nat) ∧
        bytes.length ≤ BUFFER_SIZE
  | [], _, _, _, _ => by simp
  | v :: vs, i, w, w2, h => by
    rw [writeVar] at h
    split at h
    · cases h
    · split at h
      · cases h
      · next n bytes henc =>
        split at h
        · cases h
        · next hn =>
          split at h
          · cases h
          · next w3 hput =>
            intro u hu
            rcases List.mem_cons.1 hu with rfl | hu
            · have := put_some _ _ _ hput
              exact ⟨n, bytes, henc, by omega, by omega, by omega⟩
            · exact writeVar_inv tag enc vs (i + 1) w3 w2 h u hu

theorem writeVar_congr (tag : Nat) (enc : ipp_value_t → Option (Int × List Nat))
    (f : ipp_value_t → ipp_value_t) (hf : ∀ v, enc (f v) = enc v) :
    ∀ (vs : List ipp_value_t) (i : Nat) (w : WBuf),
      writeVar tag enc i (vs.map f) w = writeVar tag enc i vs w
  | [], _, _ => rfl
  | v :: vs, i, w => by
    rw [List.map_cons, writeVar, writeVar, hf v]
    split
    · rfl
    · split
      · rfl
      · split
        · rfl
        · split
          · rfl
          · exact writeVar_congr tag enc f hf vs _ _

theorem wfValues_of_forall (tag : Nat) : ∀ (vs : List ipp_value_t),
    (∀ v ∈ vs, wfValue tag v) → wfValues tag vs
  | [], _ => trivial
  | v :: vs, h =>
    ⟨h v (List.mem_cons_self _ _),
      wfValues_of_forall tag vs (fun u hu => h u (List.mem_cons_of_mem _ hu))⟩

/-- The values `ipp_write_file` has stored for an attribute whose values were
decoded from bytes are those of a list that meets the data model; the list is
the one given except that under a string tag the writer leaves out a charset
qualifier. -/
theorem writeValues_stored (tag : Nat) (vs : List ipp_value_t) (w w2 : WBuf)
    (h : writeValues tag vs w = WVal.ok w2) (hc : ∀ v ∈ vs, valueContent v) :
    ∃ vs2, vs2.length = vs.length ∧ wfValues tag vs2 ∧
      ∀ w3, writeValues tag vs w3 = writeValues tag vs2 w3 := by
  unfold writeValues at h
  by_cases h1 : tag = IPP_TAG_INTEGER ∨ tag = IPP_TAG_ENUM
  · rw [if_pos h1] at h
    refine ⟨vs, rfl, wfValues_of_forall _ _ (fun v hv => ?_), fun _ => rfl⟩
    obtain ⟨bytes, hb⟩ := writeFixed_inv _ _ _ _ _ _ _ h v hv
    have hcv := hc v hv
    cases v <;> simp only [encInteger, reduceCtorEq] at hb
    exact ⟨h1, hcv⟩
  rw [if_neg h1] at h
  by_cases h2 : tag = IPP_TAG_BOOLEAN
  · rw [if_pos h2] at h
    refine ⟨vs, rfl, wfValues_of_forall _ _ (fun v hv => ?_), fun _ => rfl⟩
    obtain ⟨bytes, hb⟩ := writeFixed_inv _ _ _ _ _ _ _ h v hv
    have hcv := hc v hv
    cases v <;> simp only [encBoolean, reduceCtorEq] at hb
    exact ⟨h2, hcv⟩
  rw [if_neg h2] at h
  by_cases h3 : tag = IPP_TAG_TEXT ∨ tag = IPP_TAG_NAME ∨ tag = IPP_TAG_KEYWORD ∨
      tag = IPP_TAG_STRING ∨ tag = IPP_TAG_URI ∨ tag = IPP_TAG_URISCHEME ∨
      tag = IPP_TAG_CHARSET ∨ tag = IPP_TAG_LANGUAGE ∨ tag = IPP_TAG_MIMETYPE
  · rw [if_pos h3] at h
    have hf : ∀ v, encString
        (match v with
          | ipp_value_t.string _ text => ipp_value_t.string none text
          | u => u) = encString v := by
      intro v
      cases v <;> rfl
    refine ⟨vs.map (fun v => match v with
        | ipp_value_t.string _ text => ipp_value_t.string none text
        | u => u), by simp, wfValues_of_forall _ _ (fun v hv => ?_), fun w3 => ?_⟩
    · obtain ⟨u, hu, rfl⟩ := List.mem_map.1 hv
      obtain ⟨n, bytes, hb, _, _, hlen⟩ := writeVar_inv _ _ _ _ _ _ h u hu
      have hcu := hc u hu
      cases u <;> simp only [encString, reduceCtorEq] at hb
      next cs text =>
        simp only [Option.some.injEq, Prod.mk.injEq] at hb
        obtain ⟨_, rfl⟩ := hb
        simp only [List.length_append, bytes16_length, List.length_map] at hlen
        refine ⟨h3, by omega, ?_⟩
        cases cs with
        | none => exact hcu
        | some c => exact hcu.2
    · unfold writeValues
      rw [if_neg h1, if_neg h2, if_pos h3, if_neg h1, if_neg h2, if_pos h3]
      exact (writeVar_congr tag encString _ hf vs 0 w3).symm
  rw [if_neg h3] at h
  by_cases h4 : tag = IPP_TAG_DATE
  · rw [if_pos h4] at h
    refine ⟨vs, rfl, wfValues_of_forall _ _ (fun v hv => ?_), fun _ => rfl⟩
    obtain ⟨bytes, hb⟩ := writeFixed_inv _ _ _ _ _ _ _ h v hv
    have hcv := hc v hv
    cases v <;> simp only [encDate, reduceCtorEq] at hb
    exact ⟨h4, hcv⟩
  rw [if_neg h4] at h
  by_cases h5 : tag = IPP_TAG_RESOLUTION
  · rw [if_pos h5] at h
    refine ⟨vs, rfl, wfValues_of_forall _ _ (fun v hv => ?_), fun _ => rfl⟩
    obtain ⟨bytes, hb⟩ := writeFixed_inv _ _ _ _ _ _ _ h v hv
    have hcv := hc v hv
    cases v <;> simp only [encResolution, reduceCtorEq] at hb
    exact ⟨h5, hcv⟩
  rw [if_neg h5] at h
  by_cases h6 : tag = IPP_TAG_RANGE
  · rw [if_pos h6] at h
    refine ⟨vs, rfl, wfValues_of_forall _ _ (fun v hv => ?_), fun _ => rfl⟩
    obtain ⟨bytes, hb⟩ := writeFixed_inv _ _ _ _ _ _ _ h v hv
    have hcv := hc v hv
    cases v <;> simp only [encRange, reduceCtorEq] at hb
    exact ⟨h6, hcv⟩
  rw [if_neg h6] at h
  by_cases h7 : tag = IPP_TAG_TEXTLANG ∨ tag = IPP_TAG_NAMELANG
  · rw [if_pos h7] at h
    refine ⟨vs, rfl, wfValues_of_forall _ _ (fun v hv => ?_), fun _ => rfl⟩
    obtain ⟨n, bytes, hb, _, _, hlen⟩ := writeVar_inv _ _ _ _ _ _ h v hv
    have hcv := hc v hv
    cases v <;> simp only [encLang, reduceCtorEq] at hb
    next cs text =>
      cases cs with
      | none => simp only [encLang, reduceCtorEq] at hb
      | some c =>
        simp only [encLang, Option.some.injEq, Prod.mk.injEq] at hb
        obtain ⟨_, rfl⟩ := hb
        simp only [List.length_append, bytes16_length, List.length_map] at hlen
        exact ⟨h7, by omega, hcv.1, hcv.2⟩
  rw [if_neg h7] at h
  refine ⟨vs, rfl, wfValues_of_forall _ _ (fun v hv => ?_), fun _ => rfl⟩
  obtain ⟨n, bytes, hb, hn0, hn1, hlen⟩ := writeVar_inv _ _ _ _ _ _ h v hv
  have hcv := hc v hv
  cases v <;> simp only [encUnknown, reduceCtorEq] at hb
  next m data =>
    obtain ⟨hm, hd, hbytes⟩ := hcv
    refine ⟨⟨h1, h2, h3, h4, h5, h6, h7⟩, hm, hd, ?_, hbytes⟩
    by_cases hpos : 0 < m ∧ m ≤ ((BUFFER_SIZE : Nat) : Int)
    · rw [if_pos hpos, if_pos hd] at hb
      simp only [Option.some.injEq, Prod.mk.injEq] at hb
      obtain ⟨_, rfl⟩ := hb
      simp only [List.length_append, bytes16_length, List.length_map] at hlen
      omega
    · rw [if_neg hpos] at hb
      simp only [Option.some.injEq, Prod.mk.injEq] at hb
      obtain ⟨rfl, _⟩ := hb
      unfold BUFFER_SIZE at hpos hn1 ⊢
      omega

theorem writeAttributes_named (a : ipp_attribute_t) (c : Nat) (name : List Nat)
    (hn : a.name = some name)
    (hno : ¬ (c ≠ a.group_tag ∧ a.group_tag = IPP_TAG_ZERO))
    (hlen : name.length + 3 + (if c ≠ a.group_tag then 1 else 0) ≤ BUFFER_SIZE)
    (hcstr : isCString name) (hwf : wfValues a.value_tag a.values)
    (file : List Nat) (rest : List ipp_attribute_t) :
    writeAttributes (a :: rest) c file =
      writeAttributes rest a.group_tag
        (file ++ ((if c ≠ a.group_tag then [a.group_tag % 256] else []) ++ attrBytes a)) := by
  have hlong : ¬ name.length > BUFFER_SIZE - 3 := by
    unfold BUFFER_SIZE at hlen ⊢
    omega
  have hmap := map_mod_of_isBytes name (isBytes_of_isCString name hcstr)
  rw [writeAttributes, if_neg hno]
  simp only [hn]
  by_cases hc : c = a.group_tag
  · have hc2 : ¬ c ≠ a.group_tag := by simpa using hc
    rw [if_neg hc2] at hlen
    simp only [if_neg hc2, if_neg hlong, hmap]
    rw [put_spec _ _ (by
      simp only [List.length_nil, List.length_append, List.length_cons, bytes16_length]
      unfold BUFFER_SIZE at hlen ⊢
      omega)]
    simp only []
    obtain ⟨w2, h2, h3⟩ := writeValues_ok a.value_tag a.values hwf
      { file := file, buf := [] ++ ([a.value_tag % 256] ++ bytes16 name.length ++ name) }
      (by
        simp only [List.length_nil, List.length_append, List.length_cons, bytes16_length]
        unfold BUFFER_SIZE at hlen ⊢
        omega)
    rw [h2]
    simp only [WBuf.flush, h3, attrBytes, hn, Option.getD_some]
    simp
  · have hc2 : c ≠ a.group_tag := hc
    rw [if_pos hc2] at hlen
    simp only [if_pos hc2, if_neg hlong, hmap]
    rw [put_spec _ _ (by unfold BUFFER_SIZE; simp)]
    simp only []
    rw [put_spec _ _ (by
      simp only [List.length_nil, List.length_append, List.length_cons, bytes16_length]
      unfold BUFFER_SIZE at hlen ⊢
      omega)]
    simp only []
    obtain ⟨w2, h2, h3⟩ := writeValues_ok a.value_tag a.values hwf
      { file := file,
        buf := [] ++ [a.group_tag % 256] ++ ([a.value_tag % 256] ++ bytes16 name.length ++ name) }
      (by
        simp only [List.length_nil, List.length_append, List.length_cons, bytes16_length]
        unfold BUFFER_SIZE at hlen ⊢
        omega)
    rw [h2]
    simp only [WBuf.flush, h3, attrBytes, hn, Option.getD_some]
    simp

/-- What a successful round of the writer says about a node decoded from
bytes: a separator or an attribute of group zero under another current group
is passed over; any other node is a named attribute, and the round stores the
bytes of an attribute of the data model with the same name, tags and number of
values. -/
theorem writeAttributes_step (a : ipp_attribute_t) (rest : List ipp_attribute_t) (c : Nat)
    (file out : List Nat) (hnode : readNode a)
    (h : writeAttributes (a :: rest) c file = some (ipp_state_t.IPP_DATA, out)) :
    (c ≠ IPP_TAG_ZERO ∧ a.group_tag = IPP_TAG_ZERO ∧
      writeAttributes rest IPP_TAG_ZERO file = some (ipp_state_t.IPP_DATA, out)) ∨
    (namedAttr a ∧ ¬ (c ≠ a.group_tag ∧ a.group_tag = IPP_TAG_ZERO) ∧
      ∃ vs2, vs2.length = a.values.length ∧
        (a.name.getD [] ≠ [] → properAttr c { a with values := vs2 }) ∧
        wfValues a.value_tag vs2 ∧
        writeAttributes rest a.group_tag
          (file ++ ((if c ≠ a.group_tag then [a.group_tag % 256] else []) ++
            attrBytes { a with values := vs2 })) = some (ipp_state_t.IPP_DATA, out)) := by
  by_cases hskip : c ≠ a.group_tag ∧ a.group_tag = IPP_TAG_ZERO
  · left
    rw [writeAttributes, if_pos hskip, hskip.2] at h
    refine ⟨?_, hskip.2, h⟩
    rw [← hskip.2]
    exact hskip.1
  · right
    rcases hnode with hsep | hnamed
    · exfalso
      subst hsep
      rw [writeAttributes, if_neg hskip] at h
      simp only [separator] at h
      cases h
    · refine ⟨hnamed, hskip, ?_⟩
      obtain ⟨⟨name, hn, hcstr⟩, hg1, hg2, ht1, ht2, hvne, hcont⟩ := hnamed
      have h0 := h
      rw [writeAttributes, if_neg hskip] at h
      simp only [hn] at h
      have hsize : name.length + 3 + (if c ≠ a.group_tag then 1 else 0) ≤ BUFFER_SIZE ∧
          ∃ w1 w2, writeValues a.value_tag a.values w1 = WVal.ok w2 := by
        by_cases hc : c = a.group_tag
        · have hc2 : ¬ c ≠ a.group_tag := by simpa using hc
          simp only [if_neg hc2] at h ⊢
          split at h
          · cases h
          · split at h
            · cases h
            · next w1 hput =>
              have hp := put_some _ _ _ hput
              simp only [List.length_nil, List.length_append, List.length_cons, bytes16_length,
                List.length_map] at hp
              refine ⟨by omega, w1, ?_⟩
              split at h
              · cases h
              · cases h
              · next w2 hw2 => exact ⟨w2, hw2⟩
        · have hc2 : c ≠ a.group_tag := hc
          simp only [if_pos hc2] at h ⊢
          rw [put_spec _ _ (by unfold BUFFER_SIZE; simp)] at h
          simp only [] at h
          split at h
          · cases h
          · split at h
            · cases h
            · next w1 hput =>
              have hp := put_some _ _ _ hput
              simp only [List.length_nil, List.length_append, List.length_cons, bytes16_length,
                List.length_map] at hp
              refine ⟨by omega, w1, ?_⟩
              split at h
              · cases h
              · cases h
              · next w2 hw2 => exact ⟨w2, hw2⟩
      obtain ⟨hlen, w1, w2, hw⟩ := hsize
      obtain ⟨vs2, hl2, hwf2, hsame⟩ := writeValues_stored _ _ _ _ hw hcont
      refine ⟨vs2, hl2, ?_, hwf2, ?_⟩
      · intro hne
        rw [hn] at hne
        refine ⟨by simp [hn], by simpa [hn] using hne, by simpa [hn] using hlen,
          by simpa [hn] using hcstr, ?_, ht1, ht2, ?_, hwf2⟩
        · by_cases hc : a.group_tag = c
          · exact Or.inl hc
          · right
            refine ⟨?_, hg1, hg2⟩
            apply Nat.pos_of_ne_zero
            intro hz
            exact hskip ⟨fun e => hc e.symm, hz⟩
        · intro hnil
          simp only [] at hnil
          rw [hnil] at hl2
          exact hvne (List.eq_nil_of_length_eq_zero hl2.symm)
      · rw [← writeAttributes_named { a with values := vs2 } c name hn hskip hlen hcstr hwf2,
          ← h0]
        rw [writeAttributes, writeAttributes]
        simp only [hsame]

theorem writeAttributes_extends : ∀ (l : List ipp_attribute_t) (c : Nat) (file out : List Nat),
    (∀ a ∈ l, readNode a) →
    writeAttributes l c file = some (ipp_state_t.IPP_DATA, out) → ∃ t, out = file ++ t
  | [], _, file, out, _, h => by
    rw [writeAttributes] at h
    cases h
    exact ⟨_, rfl⟩
  | a :: rest, c, file, out, hn, h => by
    have hrest : ∀ b ∈ rest, readNode b := fun b hb => hn b (List.mem_cons_of_mem _ hb)
    rcases writeAttributes_step a rest c file out (hn a (List.mem_cons_self _ _)) h with
      ⟨_, _, h2⟩ | ⟨_, _, vs2, _, _, _, h2⟩
    · exact writeAttributes_extends rest _ file out hrest h2
    · obtain ⟨t, ht⟩ := writeAttributes_extends rest _ _ out hrest h2
      exact ⟨_, by rw [ht, List.append_assoc]⟩

/-! ### Reading what the writer has stored -/

theorem Reads_cont (tag : Nat) (htag : IPP_TAG_UNSUPPORTED_VALUE ≤ tag) (hbyte : tag < 256) :
    ∀ (vs : List ipp_value_t), wfValues tag vs → ∀ (i : Nat), i ≠ 0 →
      ∀ (st : RState) (attr : ipp_attribute_t) (rest : List Nat) (stf : RState),
      st.current = some attr → Reads (contBytes tag i vs ++ rest) st stf →
      Reads rest { st with current := some { attr with values := attr.values ++ vs } } stf
  | [], _, i, _, st, attr, rest, stf, hcur, h => by
    have hst : { st with current := some { attr with values := attr.values ++ [] } } = st := by
      cases st
      cases attr
      simp only [List.append_nil] at hcur ⊢
      rw [hcur]
    rw [hst]
    simpa [contBytes] using h
  | v :: vs, hwf, i, hi, st, attr, rest, stf, hcur, h => by
    have henc : contBytes tag i (v :: vs) ++ rest =
        tag :: 0 :: 0 :: (valueBytes v ++ (contBytes tag (i + 1) vs ++ rest)) := by
      rw [contBytes, if_pos hi, Nat.mod_eq_of_lt hbyte]
      simp
    rw [henc] at h
    have h1 := Reads_round tag htag _ _ st _ stf (readAttribute_cont tag v hwf.1 _ st attr hcur) h
    have ih := Reads_cont tag htag hbyte vs hwf.2 (i + 1) (Nat.succ_ne_zero i)
      { st with current := some { attr with values := attr.values ++ [v] } }
      { attr with values := attr.values ++ [v] } rest stf rfl h1
    simpa [List.append_assoc] using ih

theorem Reads_attr (a : ipp_attribute_t) (c : Nat) (hp : properAttr c a) (st : RState)
    (hcur : st.curtag = a.group_tag) (rest : List Nat) (stf : RState)
    (h : Reads (attrBytes a ++ rest) st stf) :
    Reads rest { attrs := st.catalog, current := some a, curtag := a.group_tag } stf := by
  obtain ⟨hname, hne, hlen4, hcstr, _, htag, hbyte, hvals, hwf⟩ := hp
  have hlen : (a.name.getD []).length + 3 ≤ BUFFER_SIZE :=
    Nat.le_trans (Nat.le_add_right _ _) hlen4
  obtain ⟨name, hn⟩ := Option.ne_none_iff_exists'.1 hname
  rw [hn] at hne hlen hcstr
  simp only [Option.getD_some] at hne hlen hcstr
  cases hv : a.values with
  | nil => exact absurd hv hvals
  | cons v vs =>
    rw [hv] at hwf
    have henc : attrBytes a ++ rest =
        a.value_tag :: (bytes16 name.length ++ name ++
          (valueBytes v ++ (contBytes a.value_tag 1 vs ++ rest))) := by
      unfold attrBytes
      rw [hn, hv, contBytes, Nat.mod_eq_of_lt hbyte]
      simp
    rw [henc] at h
    have h1 := Reads_round a.value_tag htag _ _ st _ stf
      (readAttribute_new a.value_tag name hne hlen hcstr v hwf.1 _ st) h
    have h2 := Reads_cont a.value_tag htag hbyte vs hwf.2 1 (by decide) _
      { group_tag := st.curtag, value_tag := a.value_tag, name := some name, values := [v] }
      rest stf rfl h1
    have ha : a = ipp_attribute_t.mk st.curtag a.value_tag (some name) ([v] ++ vs) := by
      cases a
      simp only at hn hv hcur ⊢
      rw [hn, hv, hcur]
      rfl
    rw [hcur] at ha h2
    simp only [] at h2
    rw [← ha] at h2
    exact h2

/-- Reading the bytes of an attribute of the data model appends it to the
catalog under the current group tag of the reader. -/
theorem Reads_item (a : ipp_attribute_t) (c : Nat) (hp : properAttr c a) (st : RState)
    (rest : List Nat) (stf : RState) (h : Reads (attrBytes a ++ rest) st stf) :
    Reads rest
      { attrs := st.catalog, current := some { a with group_tag := st.curtag },
        curtag := st.curtag } stf := by
  obtain ⟨hname, hne, hlen4, hcstr, _, htag, hbyte, hvals, hwf⟩ := hp
  have hp2 : properAttr st.curtag { a with group_tag := st.curtag } := by
    refine ⟨hname, hne, ?_, hcstr, Or.inl rfl, htag, hbyte, hvals, hwf⟩
    simp only [ne_eq, not_true_eq_false, if_false]
    split at hlen4 <;> omega
  exact Reads_attr { a with group_tag := st.curtag } st.curtag hp2 st rfl rest stf h

theorem attr_gain_eq (a : ipp_attribute_t) (g : Nat) (vs2 more : List ipp_value_t)
    (hlen : vs2.length = a.values.length)
    (h : a = ipp_attribute_t.mk g a.value_tag a.name (vs2 ++ more)) :
    a.group_tag = g ∧ a.values = vs2 := by
  have hg : a.group_tag = g := by
    have := congrArg ipp_attribute_t.group_tag h
    simpa using this
  have hv : a.values = vs2 ++ more := by
    have := congrArg ipp_attribute_t.values h
    simpa using this
  have hm : more = [] := by
    apply List.eq_nil_of_length_eq_zero
    have := congrArg List.length hv
    simp only [List.length_append] at this
    omega
  rw [hm, List.append_nil] at hv
  exact ⟨hg, hv⟩

theorem Reads_empty_name (tag : Nat) (htag : IPP_TAG_UNSUPPORTED_VALUE ≤ tag) (X : List Nat)
    (st stf : RState) (h : Reads (tag :: 0 :: 0 :: X) st stf) :
    ∃ attr v more tail2, st.current = some attr ∧
      stf.catalog = st.attrs ++ { attr with values := attr.values ++ v :: more } :: tail2 := by
  obtain ⟨rest, st2, hra, hR⟩ := Reads_round_inv tag htag _ st stf h
  obtain ⟨n0, n1, more1, hfile, _, hcase⟩ := readAttribute_inr tag _ st rest st2 hra
  simp only [List.cons.injEq] at hfile
  obtain ⟨rfl, rfl, rfl⟩ := hfile
  rcases hcase with ⟨_, attr, hcur, hval⟩ | ⟨hz, _⟩
  · obtain ⟨_, _, _, v, _, _, hst2⟩ := readOneValue_inr _ _ _ _ _ _ hval
    subst hst2
    obtain ⟨fuel, hf⟩ := hR
    obtain ⟨tail, htail, hcur2⟩ := Reads_extends fuel _ _ _ hf
    obtain ⟨more, tail2, ht2⟩ := hcur2 _ rfl
    refine ⟨attr, v, more, tail2, hcur, ?_⟩
    rw [htail, ht2]
    simp
  · exact absurd rfl hz

/-- The heart of the converse: when `ipp_write_file` has stored the nodes
`todo` of a catalog decoded from bytes, and reading what it stored builds the
same catalog again, the nodes meet `wfAttrs`.  `pend` is a node the writer has
passed over and the reader has not built yet. -/
theorem reencode_wf : ∀ (todo : List ipp_attribute_t) (st stf : RState)
    (pend : List ipp_attribute_t) (cw : Nat) (f remaining : List Nat),
    (∀ a ∈ todo, readNode a) →
    stf.catalog = st.catalog ++ pend ++ todo →
    writeAttributes todo cw f = some (ipp_state_t.IPP_DATA, f ++ remaining) →
    Reads remaining st stf →
    ((pend = [] ∧ st.curtag = cw) ∨
      (∃ p, pend = [p] ∧ cw = IPP_TAG_ZERO ∧ p.group_tag = IPP_TAG_ZERO ∧
        st.curtag ≠ IPP_TAG_ZERO)) →
    (pend = [] → wfAttrs cw todo) ∧
    (∀ p, pend = [p] → p = separator ∧
      todo.head?.map (fun b => b.group_tag) = some st.curtag ∧ wfAttrs IPP_TAG_ZERO todo)
  | [], st, stf, pend, cw, f, remaining, _, hcat, hw, hr, _ => by
    rw [writeAttributes] at hw
    simp only [Option.some.injEq, Prod.mk.injEq, true_and] at hw
    have hrem : remaining = [IPP_TAG_END] := (List.append_cancel_left hw).symm
    subst hrem
    have hst := Reads_end [] st stf hr
    subst hst
    have hp : pend = [] := by
      have := congrArg List.length hcat
      simp only [List.length_append, List.length_nil] at this
      exact List.eq_nil_of_length_eq_zero (by omega)
    subst hp
    exact ⟨fun _ => trivial, fun p h => by cases h⟩
  | a :: rest, st, stf, pend, cw, f, remaining, hnodes, hcat, hw, hr, hsync => by
    have hrest : ∀ b ∈ rest, readNode b := fun b hb => hnodes b (List.mem_cons_of_mem _ hb)
    rcases writeAttributes_step a rest cw f _ (hnodes a (List.mem_cons_self _ _)) hw with
      ⟨hc0, hg0, hw2⟩ | ⟨hnamed, hno, vs2, hl2, hprop, hwf2, hw2⟩
    · rcases hsync with ⟨hp, hcur⟩ | ⟨p, _, hcw, _, _⟩
      · subst hp
        have ih := reencode_wf rest st stf [a] IPP_TAG_ZERO f remaining hrest
          (by rw [hcat]; simp) hw2 hr
          (Or.inr ⟨a, rfl, rfl, hg0, by rw [hcur]; exact hc0⟩)
        obtain ⟨hsep, hhead, hwf⟩ := ih.2 a rfl
        exact ⟨fun _ => Or.inr ⟨hsep, hc0, by rw [← hcur]; exact hhead, hwf⟩,
          fun p h => by cases h⟩
      · exact absurd hcw hc0
    · obtain ⟨t, ht⟩ := writeAttributes_extends rest _ _ _ hrest hw2
      have hrem : remaining =
          (if cw ≠ a.group_tag then [a.group_tag % 256] else []) ++
            (attrBytes { a with values := vs2 } ++ t) := by
        rw [List.append_assoc] at ht
        have := List.append_cancel_left ht
        rw [this, List.append_assoc]
      subst hrem
      rw [ht] at hw2
      obtain ⟨⟨name, hn, hcstr⟩, hg1, hg2, ht1, ht2, hvne, hcont⟩ := hnamed
      have hmod : a.group_tag % 256 = a.group_tag :=
        Nat.mod_eq_of_lt (by unfold IPP_TAG_UNSUPPORTED_VALUE at hg1; omega)
      by_cases hnm : name = []
      · exfalso
        subst hnm
        have hbytes : ∃ X, attrBytes { a with values := vs2 } ++ t = a.value_tag :: 0 :: 0 :: X := by
          refine ⟨contBytes a.value_tag 0 vs2 ++ t, ?_⟩
          unfold attrBytes
          simp only [hn, Option.getD_some, List.length_nil, Nat.mod_eq_of_lt ht2]
          rfl
        obtain ⟨X, hX⟩ := hbytes
        rw [hX] at hr
        by_cases hc : cw = a.group_tag
        · rw [if_neg (by simpa using hc), List.nil_append] at hr
          obtain ⟨attr, v, more, tail2, hcur, hcat2⟩ :=
            Reads_empty_name a.value_tag ht1 X st stf hr
          rw [hcat] at hcat2
          unfold RState.catalog at hcat2
          rw [hcur] at hcat2
          simp only [Option.toList, List.append_assoc] at hcat2
          have e := List.append_cancel_left hcat2
          simp only [List.singleton_append, List.cons.injEq] at e
          have hv := congrArg ipp_attribute_t.values e.1
          have hl := congrArg List.length hv
          simp only [List.length_append, List.length_cons] at hl
          omega
        · rw [if_pos hc, hmod, List.singleton_append] at hr
          have hr2 := Reads_group a.group_tag hg1 hg2 _ st stf hr
          obtain ⟨attr, _, _, _, hcur, _⟩ := Reads_empty_name a.value_tag ht1 X _ stf hr2
          cases hcur
      · have hp2 : properAttr cw { a with values := vs2 } := hprop (by rw [hn]; exact hnm)
        by_cases hc : cw = a.group_tag
        · rw [if_neg (by simpa using hc), List.nil_append] at hr
          rw [if_neg (by simpa using hc), List.nil_append] at hw2
          have hr2 := Reads_item _ cw hp2 st t stf hr
          obtain ⟨fuel, hf⟩ := hr2
          obtain ⟨tail, htail, hcur2⟩ := Reads_extends fuel _ _ _ hf
          obtain ⟨more, tail2, ht3⟩ := hcur2 _ rfl
          rw [ht3, hcat] at htail
          simp only [List.append_assoc] at htail
          have e := List.append_cancel_left htail
          rcases hsync with ⟨hp, hcur⟩ | ⟨p, hp, hcw, hpg, hst0⟩
          · subst hp
            simp only [List.nil_append, List.cons.injEq] at e
            obtain ⟨hgq, hvq⟩ := attr_gain_eq a st.curtag vs2 more hl2 e.1
            have ha2 : ({ a with values := vs2 } : ipp_attribute_t) = a := by
              cases a
              simp only at hvq ⊢
              rw [hvq]
            rw [ha2] at hp2 hw2 hf
            have ha3 : ({ a with group_tag := st.curtag } : ipp_attribute_t) = a := by
              cases a
              simp only at hgq ⊢
              rw [hgq]
            rw [ha3] at hf
            have ih := reencode_wf rest
              { attrs := st.catalog, current := some a, curtag := st.curtag } stf []
              a.group_tag (f ++ attrBytes a) t hrest
              (by rw [hcat]; simp [RState.catalog]) hw2 ⟨fuel, hf⟩
              (Or.inl ⟨rfl, hgq.symm⟩)
            exact ⟨fun _ => Or.inl ⟨hp2, ih.1 rfl⟩, fun p h => by cases h⟩
          · exfalso
            subst hp
            simp only [List.singleton_append, List.cons.injEq] at e
            have hg := congrArg ipp_attribute_t.group_tag e.1
            simp only [] at hg
            rw [hpg] at hg
            exact hst0 hg.symm
        · have hc2 : cw ≠ a.group_tag := hc
          rw [if_pos hc2, hmod, List.singleton_append] at hr
          rw [if_pos hc2, hmod] at hw2
          have hr1 := Reads_group a.group_tag hg1 hg2 _ st stf hr
          have hr2 := Reads_item _ cw hp2 _ t stf hr1
          obtain ⟨fuel, hf⟩ := hr2
          obtain ⟨tail, htail, hcur2⟩ := Reads_extends fuel _ _ _ hf
          obtain ⟨more, tail2, ht3⟩ := hcur2 _ rfl
          rw [ht3, hcat] at htail
          simp only [RState.catalog, Option.toList, List.append_nil, List.append_assoc]
            at htail hf
          have hg0 : a.group_tag ≠ IPP_TAG_ZERO := fun hz => hno ⟨hc2, hz⟩
          rcases hsync with ⟨hp, hcur⟩ | ⟨p, hp, hcw, hpg, hst0⟩
          · subst hp
            have hsg : ¬ st.curtag = a.group_tag := by rw [hcur]; exact hc
            rw [if_neg hsg] at htail hf
            simp only [List.append_assoc] at htail
            have e := List.append_cancel_left htail
            simp only [List.nil_append] at e
            have e2 := List.append_cancel_left e
            simp only [List.cons.injEq] at e2
            obtain ⟨hgq, hvq⟩ := attr_gain_eq a a.group_tag vs2 more hl2 e2.1
            have ha2 : ({ a with values := vs2 } : ipp_attribute_t) = a := by
              cases a
              simp only at hvq ⊢
              rw [hvq]
            rw [ha2] at hp2 hw2 hf
            have ih := reencode_wf rest
              { attrs := st.attrs ++ st.current.toList, current := some a,
                curtag := a.group_tag } stf []
              a.group_tag (f ++ ([a.group_tag] ++ attrBytes a)) t hrest
              (by rw [hcat]; simp [RState.catalog]) hw2 ⟨fuel, hf⟩
              (Or.inl ⟨rfl, rfl⟩)
            exact ⟨fun _ => Or.inl ⟨hp2, ih.1 rfl⟩, fun p h => by cases h⟩
          · subst hp
            subst hcw
            by_cases hsg : st.curtag = a.group_tag
            · rw [if_pos hsg] at htail hf
              simp only [List.append_assoc] at htail
              have e := List.append_cancel_left htail
              have e2 := List.append_cancel_left e
              simp only [List.singleton_append, List.cons.injEq] at e2
              obtain ⟨hps, hae, _⟩ := e2
              obtain ⟨hgq, hvq⟩ := attr_gain_eq a a.group_tag vs2 more hl2 hae
              have ha2 : ({ a with values := vs2 } : ipp_attribute_t) = a := by
                cases a
                simp only at hvq ⊢
                rw [hvq]
              rw [ha2] at hp2 hw2 hf
              have ih := reencode_wf rest
                { attrs := st.attrs ++ (st.current.toList ++ [separator]), current := some a,
                  curtag := a.group_tag } stf []
                a.group_tag (f ++ ([a.group_tag] ++ attrBytes a)) t hrest
                (by rw [hcat, hps]; simp [RState.catalog]) hw2 ⟨fuel, hf⟩
                (Or.inl ⟨rfl, rfl⟩)
              refine ⟨fun h => absurd h (by simp), fun q hq => ?_⟩
              simp only [List.cons.injEq, and_true] at hq
              subst hq
              exact ⟨hps, by simp [hsg], Or.inl ⟨hp2, ih.1 rfl⟩⟩
            · exfalso
              rw [if_neg hsg] at htail
              simp only [List.append_assoc] at htail
              have e := List.append_cancel_left htail
              have e2 := List.append_cancel_left e
              simp only [List.singleton_append, List.cons.injEq] at e2
              have hg := congrArg ipp_attribute_t.group_tag e2.1
              simp only [] at hg
              rw [hpg] at hg
              exact hg0 hg.symm

/-! ### What `ipp_write_file` stores is bytes -/

theorem isBytes_map_mod : ∀ (l : List Nat), isBytes (l.map (fun b => b % 256))
  | [] => trivial
  | b :: rest => ⟨Nat.mod_lt b (by decide), isBytes_map_mod rest⟩

theorem isBytes_bytes16 (n : Int) : isBytes (bytes16 n) :=
  ⟨byteOf_lt _, byteOf_lt _, trivial⟩

theorem isBytes_bytes32 (x : Int) : isBytes (bytes32 x) :=
  ⟨byteOf_lt _, byteOf_lt _, byteOf_lt _, byteOf_lt _, trivial⟩

theorem room_bytes (w : WBuf) (k : Nat) : (w.room k).file ++ (w.room k).buf = w.file ++ w.buf := by
  unfold WBuf.room
  split
  · simp [WBuf.flush]
  · rfl

theorem put_bytes (w w2 : WBuf) (bs : List Nat) (h : w.put bs = some w2) :
    w2.file ++ w2.buf = w.file ++ w.buf ++ bs := by
  unfold WBuf.put at h
  split at h
  · cases h
    simp
  · cases h

theorem writeFixed_bytes (tag need : Nat) (enc : ipp_value_t → Option (List Nat))
    (henc : ∀ v bytes, enc v = some bytes → isBytes bytes) :
    ∀ (vs : List ipp_value_t) (i : Nat) (w w2 : WBuf), isBytes (w.file ++ w.buf) →
      writeFixed tag need enc i vs w = WVal.ok w2 → isBytes (w2.file ++ w2.buf)
  | [], _, w, w2, hw, h => by
    rw [writeFixed] at h
    cases h
    exact hw
  | v :: vs, i, w, w2, hw, h => by
    rw [writeFixed] at h
    split at h
    · cases h
    · next w1 h1 =>
      have hw1 : isBytes (w1.file ++ w1.buf) := by
        split at h1
        · rw [put_bytes _ _ _ h1, room_bytes]
          exact (isBytes_append _ _).2 ⟨hw, Nat.mod_lt _ (by decide), by decide, by decide, trivial⟩
        · cases h1
          rw [room_bytes]
          exact hw
      split at h
      · cases h
      · next bytes hb =>
        split at h
        · cases h
        · next w3 h3 =>
          refine writeFixed_bytes tag need enc henc vs (i + 1) w3 w2 ?_ h
          rw [put_bytes _ _ _ h3]
          exact (isBytes_append _ _).2 ⟨hw1, henc v bytes hb⟩

theorem writeVar_bytes (tag : Nat) (enc : ipp_value_t → Option (Int × List Nat))
    (henc : ∀ v n bytes, enc v = some (n, bytes) → isBytes bytes) :
    ∀ (vs : List ipp_value_t) (i : Nat) (w w2 : WBuf), isBytes (w.file ++ w.buf) →
      writeVar tag enc i vs w = WVal.ok w2 → isBytes (w2.file ++ w2.buf)
  | [], _, w, w2, hw, h => by
    rw [writeVar] at h
    cases h
    exact hw
  | v :: vs, i, w, w2, hw, h => by
    rw [writeVar] at h
    split at h
    · cases h
    · next w1 h1 =>
      have hw1 : isBytes (w1.file ++ w1.buf) := by
        split at h1
        · rw [put_bytes _ _ _ h1, room_bytes]
          exact (isBytes_append _ _).2 ⟨hw, Nat.mod_lt _ (by decide), by decide, by decide, trivial⟩
        · cases h1
          exact hw
      split at h
      · cases h
      · next n bytes hb =>
        split at h
        · cases h
        · split at h
          · cases h
          · next w3 h3 =>
            refine writeVar_bytes tag enc henc vs (i + 1) w3 w2 ?_ h
            rw [put_bytes _ _ _ h3, room_bytes]
            exact (isBytes_append _ _).2 ⟨hw1, henc v n bytes hb⟩

theorem writeValues_bytes (tag : Nat) (vs : List ipp_value_t) (w w2 : WBuf)
    (hw : isBytes (w.file ++ w.buf)) (h : writeValues tag vs w = WVal.ok w2) :
    isBytes (w2.file ++ w2.buf) := by
  unfold writeValues at h
  split at h
  · refine writeFixed_bytes _ _ _ (fun v bytes hb => ?_) vs 0 w w2 hw h
    cases v <;> simp only [encInteger, reduceCtorEq, Option.some.injEq] at hb
    subst hb
    exact (isBytes_append _ _).2 ⟨by decide, isBytes_bytes32 _⟩
  · split at h
    · refine writeFixed_bytes _ _ _ (fun v bytes hb => ?_) vs 0 w w2 hw h
      cases v <;> simp only [encBoolean, reduceCtorEq, Option.some.injEq] at hb
      subst hb
      exact ⟨by decide, by decide, Nat.mod_lt _ (by decide), trivial⟩
    · split at h
      · refine writeVar_bytes _ _ (fun v n bytes hb => ?_) vs 0 w w2 hw h
        cases v <;> simp only [encString, reduceCtorEq, Option.some.injEq, Prod.mk.injEq] at hb
        obtain ⟨_, rfl⟩ := hb
        exact (isBytes_append _ _).2 ⟨isBytes_bytes16 _, isBytes_map_mod _⟩
      · split at h
        · refine writeFixed_bytes _ _ _ (fun v bytes hb => ?_) vs 0 w w2 hw h
          cases v <;> simp only [encDate, reduceCtorEq] at hb
          split at hb
          · simp only [Option.some.injEq] at hb
            subst hb
            exact (isBytes_append _ _).2 ⟨by decide, isBytes_map_mod _⟩
          · cases hb
        · split at h
          · refine writeFixed_bytes _ _ _ (fun v bytes hb => ?_) vs 0 w w2 hw h
            cases v <;> simp only [encResolution, reduceCtorEq, Option.some.injEq] at hb
            subst hb
            exact (isBytes_append _ _).2 ⟨(isBytes_append _ _).2
              ⟨(isBytes_append _ _).2 ⟨by decide, isBytes_bytes32 _⟩, isBytes_bytes32 _⟩,
              byteOf_lt _, trivial⟩
          · split at h
            · refine writeFixed_bytes _ _ _ (fun v bytes hb => ?_) vs 0 w w2 hw h
              cases v <;> simp only [encRange, reduceCtorEq, Option.some.injEq] at hb
              subst hb
              exact (isBytes_append _ _).2
                ⟨(isBytes_append _ _).2 ⟨by decide, isBytes_bytes32 _⟩, isBytes_bytes32 _⟩
            · split at h
              · refine writeVar_bytes _ _ (fun v n bytes hb => ?_) vs 0 w w2 hw h
                cases v <;> simp only [encLang, reduceCtorEq] at hb
                next cs text =>
                  cases cs with
                  | none => simp only [encLang, reduceCtorEq] at hb
                  | some c =>
                    simp only [encLang, Option.some.injEq, Prod.mk.injEq] at hb
                    obtain ⟨_, rfl⟩ := hb
                    exact (isBytes_append _ _).2 ⟨(isBytes_append _ _).2
                      ⟨(isBytes_append _ _).2 ⟨(isBytes_append _ _).2
                        ⟨isBytes_bytes16 _, isBytes_bytes16 _⟩, isBytes_map_mod _⟩,
                        isBytes_bytes16 _⟩, isBytes_map_mod _⟩
              · refine writeVar_bytes _ _ (fun v n bytes hb => ?_) vs 0 w w2 hw h
                cases v <;> simp only [encUnknown, reduceCtorEq] at hb
                split at hb
                · split at hb
                  · simp only [Option.some.injEq, Prod.mk.injEq] at hb
                    obtain ⟨_, rfl⟩ := hb
                    exact (isBytes_append _ _).2 ⟨isBytes_bytes16 _, isBytes_map_mod _⟩
                  · cases hb
                · simp only [Option.some.injEq, Prod.mk.injEq] at hb
                  obtain ⟨_, rfl⟩ := hb
                  exact isBytes_bytes16 _

theorem writeAttributes_bytes : ∀ (l : List ipp_attribute_t) (c : Nat) (file out : List Nat),
    isBytes file → writeAttributes l c file = some (ipp_state_t.IPP_DATA, out) → isBytes out
  | [], _, file, out, hf, h => by
    rw [writeAttributes] at h
    cases h
    exact (isBytes_append _ _).2 ⟨hf, by decide⟩
  | a :: rest, c, file, out, hf, h => by
    rw [writeAttributes] at h
    split at h
    · exact writeAttributes_bytes rest _ file out hf h
    · split at h
      · cases h
      · next name hn =>
        split at h
        · cases h
        · next w0 h0 =>
          have hw0 : isBytes (w0.file ++ w0.buf) := by
            split at h0
            · rw [put_bytes _ _ _ h0]
              simp only [List.append_nil]
              exact (isBytes_append _ _).2 ⟨hf, Nat.mod_lt _ (by decide), trivial⟩
            · cases h0
              simpa using hf
          split at h
          · cases h
          · split at h
            · cases h
            · next w1 h1 =>
              have hw1 : isBytes (w1.file ++ w1.buf) := by
                rw [put_bytes _ _ _ h1]
                exact (isBytes_append _ _).2 ⟨hw0, (isBytes_append _ _).2
                  ⟨(isBytes_append _ _).2 ⟨⟨Nat.mod_lt _ (by decide), trivial⟩,
                    isBytes_bytes16 _⟩, isBytes_map_mod _⟩⟩
              split at h
              · cases h
              · cases h
              · next w2 h2 =>
                exact writeAttributes_bytes rest _ _ out
                  (writeValues_bytes _ _ _ _ hw1 h2) h

theorem ipp_write_file_bytes (C : ipp_t) (out : List Nat)
    (h : ipp_write_file C = some (ipp_state_t.IPP_DATA, out)) : isBytes out := by
  unfold ipp_write_file at h
  refine writeAttributes_bytes _ _ _ out ?_ h
  exact (isBytes_append _ _).2 ⟨(isBytes_append _ _).2
    ⟨⟨Nat.mod_lt _ (by decide), Nat.mod_lt _ (by decide), trivial⟩, isBytes_bytes16 _⟩,
    isBytes_bytes32 _⟩

/-! ### From a catalog of the data model to its stream -/

theorem StreamAttr_of_proper (a : ipp_attribute_t) (c : Nat) (hp : properAttr c a) :
    ∃ sa : StreamAttr, sa.attr a.group_tag = a ∧
      (c = a.group_tag → sa.wellFormed false) ∧ (c ≠ a.group_tag → sa.wellFormed true) := by
  obtain ⟨hname, hne, hlen, hcstr, _, htag, hbyte, hvals, hwf⟩ := hp
  obtain ⟨name, hn⟩ := Option.ne_none_iff_exists'.1 hname
  rw [hn] at hne hlen hcstr
  simp only [Option.getD_some] at hne hlen hcstr
  refine ⟨{ value_tag := a.value_tag, name := name, values := a.values }, ?_, ?_, ?_⟩
  · cases a
    simp only at hn
    simp only [StreamAttr.attr, hn]
  · intro hc
    rw [if_neg (by simpa using hc)] at hlen
    exact ⟨htag, hbyte, hne, hcstr, by simpa using hlen, hvals, hwf⟩
  · intro hc
    rw [if_pos hc] at hlen
    exact ⟨htag, hbyte, hne, hcstr, by simpa using hlen, hvals, hwf⟩

/-- An attribute list of the data model is the catalog of a run of well-formed
attributes under the current group, followed by well-formed groups. -/
theorem wfAttrs_stream : ∀ (l : List ipp_attribute_t) (c : Nat), wfAttrs c l →
    ∃ (run : List StreamAttr) (groups : List StreamGroup),
      streamAttrsWellFormed false run ∧ streamGroupsWellFormed groups ∧
      l = run.map (StreamAttr.attr c) ++ streamGroupsCatalog c groups
  | [], c, _ => ⟨[], [], trivial, trivial, rfl⟩
  | a :: rest, c, h => by
    rcases h with ⟨hp, hrest⟩ | ⟨hsep, hprev, hhead, hrest⟩
    · obtain ⟨run, groups, hrun, hgroups, hl⟩ := wfAttrs_stream rest a.group_tag hrest
      obtain ⟨sa, hsa, hf, ht⟩ := StreamAttr_of_proper a c hp
      by_cases hc : c = a.group_tag
      · refine ⟨sa :: run, groups, ⟨hf hc, hrun⟩, hgroups, ?_⟩
        rw [List.map_cons, hc, hsa, hl]
        rfl
      · have hg : IPP_TAG_ZERO < a.group_tag ∧ a.group_tag < IPP_TAG_UNSUPPORTED_VALUE ∧
            a.group_tag ≠ IPP_TAG_END := by
          rcases hp.2.2.2.2.1 with h | h
          · exact absurd h.symm hc
          · exact h
        refine ⟨[], { tag := a.group_tag, attrs := sa :: run } :: groups, trivial,
          ⟨hg, by simp, ⟨ht hc, hrun⟩, hgroups⟩, ?_⟩
        rw [streamGroupsCatalog, if_neg hc]
        simp only [List.map_nil, List.nil_append, List.map_cons, hsa]
        rw [hl]
        rfl
    · obtain ⟨b, tail, rfl, hb, hpb, htail⟩ := wfAttrs_after_separator hprev hhead hrest
      obtain ⟨run, groups, hrun, hgroups, hl⟩ := wfAttrs_stream tail b.group_tag htail
      obtain ⟨sb, hsb, _, ht⟩ := StreamAttr_of_proper b IPP_TAG_ZERO hpb
      have hb0 : IPP_TAG_ZERO ≠ b.group_tag := by rw [hb]; exact hprev.symm
      have hg : IPP_TAG_ZERO < b.group_tag ∧ b.group_tag < IPP_TAG_UNSUPPORTED_VALUE ∧
          b.group_tag ≠ IPP_TAG_END := by
        rcases hpb.2.2.2.2.1 with h | h
        · exact absurd h.symm hb0
        · exact h
      refine ⟨[], { tag := b.group_tag, attrs := sb :: run } :: groups, trivial,
        ⟨hg, by simp, ⟨ht hb0, hrun⟩, hgroups⟩, ?_⟩
      rw [streamGroupsCatalog, if_pos hb.symm]
      simp only [List.map_nil, List.nil_append, List.map_cons, hsb]
      rw [hl, hsep]
      rfl
termination_by l => l.length

/-- A byte stream that `ipp_read_file` decodes with `IPP_DATA` and that
`ipp_write_file` produces again from the decoded catalog is the byte sequence
of a well-formed stream, and the decoded catalog is the catalog the stream
stands for. -/
theorem reencode_stream (B : List Nat) (C : ipp_t)
    (hread : ipp_read_file B ippNew = some (ipp_state_t.IPP_DATA, C))
    (hwrite : ipp_write_file C = some (ipp_state_t.IPP_DATA, B)) :
    ∃ S : IppStream, S.wellFormed ∧ S.bytes = B ∧ S.catalog = C := by
  have hB : isBytes B := ipp_write_file_bytes C B hwrite
  rcases B with _ | ⟨b0, _ | ⟨b1, _ | ⟨b2, _ | ⟨b3, _ | ⟨b4, _ | ⟨b5, _ | ⟨b6, _ | ⟨b7, body⟩⟩⟩⟩⟩⟩⟩⟩
  · cases hread
  · cases hread
  · cases hread
  · cases hread
  · cases hread
  · cases hread
  · cases hread
  · cases hread
  · obtain ⟨h0, h1, h2, h3, h4, h5, h6, h7, hbody⟩ := hB
    by_cases hb : b0 = 1
    · subst hb
      simp only [ipp_read_file, ne_eq, not_true_eq_false, if_false] at hread
      split at hread
      · cases hread
      · next state stf hres =>
        simp only [Option.some.injEq, Prod.mk.injEq] at hread
        obtain ⟨rfl, rfl⟩ := hread
        simp only [ippNew] at hres
        have hcur : readCursor stf :=
          readAttributes_cursor _ body _ stf hres hbody
            ⟨fun a ha => absurd ha (List.not_mem_nil a), fun cur hc => Option.noConfusion hc,
              by decide, by decide⟩
        have hnodes := readCursor_catalog stf hcur
        unfold ipp_write_file at hwrite
        simp only [] at hwrite
        have hhdr : [1 % 256, b1 % 256] ++ bytes16 ((be16 b2 b3 : Nat) : Int) ++
            bytes32 (be32 b4 b5 b6 b7) = [1, b1, b2, b3, b4, b5, b6, b7] := by
          rw [bytes16_be16 b2 b3 h2 h3, bytes32_be32 _ _ _ _ h4 h5 h6 h7, Nat.mod_eq_of_lt h1]
          rfl
        rw [hhdr] at hwrite
        obtain ⟨t, ht⟩ := writeAttributes_extends _ _ _ _ hnodes hwrite
        have htail : body = t := by simpa using ht
        subst htail
        have hwf := (reencode_wf stf.catalog
          { attrs := [], current := none, curtag := IPP_TAG_ZERO } stf [] IPP_TAG_ZERO _ body hnodes
          (by simp [RState.catalog]) hwrite ⟨_, hres⟩ (Or.inl ⟨rfl, rfl⟩)).1 rfl
        obtain ⟨run, groups, hrun, hgroups, hl⟩ := wfAttrs_stream _ _ hwf
        have hS : IppStream.wellFormed
            { minor := b1, op0 := b2, op1 := b3, id0 := b4, id1 := b5, id2 := b6, id3 := b7,
              lead := run, groups := groups } :=
          ⟨⟨h1, h2, h3, h4, h5, h6, h7⟩, hrun, hgroups⟩
        have hcatalog : IppStream.catalog
            { minor := b1, op0 := b2, op1 := b3, id0 := b4, id1 := b5, id2 := b6, id3 := b7,
              lead := run, groups := groups } =
            { version0 := 1, version1 := b1, op_status := (be16 b2 b3 : Nat),
              request_id := be32 b4 b5 b6 b7, attrs := stf.catalog } := by
          simp only [IppStream.catalog, hl]
        refine ⟨_, hS, ?_, hcatalog⟩
        have hw2 := (stream_reencodes _ hS).2
        rw [hcatalog] at hw2
        unfold ipp_write_file at hw2
        simp only [] at hw2
        rw [hhdr, hwrite] at hw2
        simp only [Option.some.injEq, Prod.mk.injEq, true_and] at hw2
        exact hw2.symm
    · simp only [ipp_read_file, hb, ne_eq, not_false_eq_true, if_true, Option.some.injEq,
        Prod.mk.injEq, reduceCtorEq, false_and] at hread

/-! ### The round trip: the claim -/

/-- C1 (the code departs from the claim): `ipp_write_file` stores a name
behind the group tag, the value tag and two length bytes, and a string value
behind two length bytes, in the 8192-byte `buffer`.  A catalog `C` meets the
data model with names of at most 8188 bytes behind a group tag (8189 where no
group tag is written) and string values of at most 8190 bytes (`wfCatalog`)
exactly when `ipp_write_file` returns `IPP_DATA` and `ipp_read_file` applied
to the bytes it produced, into a new catalog, returns `IPP_DATA` and yields a
catalog equal to `C`: the round trip holds for every such catalog and for no
other.  In particular, when the first attribute of `C` (under a group tag
other than `IPP_TAG_ZERO`) has a first string value of 8191 or 8192 bytes, or
a name of 8189 bytes, the value or name fits the 8192-byte buffer and passes
the tests of the writer (`n > sizeof(buffer)`, `n > sizeof(buffer) - 3`), and
is stored past the end of `buffer`: `ipp_write_file` has no defined result, so
there are no bytes to read back. -/
theorem ipp_round_trip (C : ipp_t) :
    (wfCatalog C ↔
      ∃ bytes, ipp_write_file C = some (ipp_state_t.IPP_DATA, bytes) ∧
        ipp_read_file bytes ippNew = some (ipp_state_t.IPP_DATA, C)) ∧
    (∀ (a : ipp_attribute_t) (rest : List ipp_attribute_t) (name text : List Nat)
        (vs : List ipp_value_t),
      C.attrs = a :: rest → a.name = some name → a.group_tag ≠ IPP_TAG_ZERO →
      ((name.length + 4 ≤ BUFFER_SIZE ∧ isStringTag a.value_tag ∧
          a.values = ipp_value_t.string none text :: vs ∧ BUFFER_SIZE - 2 < text.length ∧
          text.length ≤ BUFFER_SIZE) ∨
        name.length = BUFFER_SIZE - 3) →
      ipp_write_file C = none) := by
  refine ⟨⟨fun hwf => ⟨_, (codec_core C hwf).1, (codec_core C hwf).2⟩, ?_⟩,
    fun a rest name text vs hattrs hname hgroup hcase =>
      ipp_write_file_overflow C a rest name text vs hattrs hname hgroup hcase⟩
  rintro ⟨bytes, hw, hr⟩
  obtain ⟨S, hS, _, hcat⟩ := reencode_stream bytes C hr hw
  rw [← hcat]
  exact (IppStream_catalog_wf S hS).1

set_option maxRecDepth 100000 in
/-- C1 at the catalog of the round-trip scenario, which is written and read
back and, being read back, meets the data model, and at an operation
attribute with a text value of 8191 bytes and one with a name of 8189 bytes,
for which `ipp_write_file` has no defined result. -/
theorem ipp_round_trip_witness :
    (wfCatalog roundTripCatalog ∧
      ∃ bytes, ipp_write_file roundTripCatalog = some (ipp_state_t.IPP_DATA, bytes) ∧
        ipp_read_file bytes ippNew = some (ipp_state_t.IPP_DATA, roundTripCatalog)) ∧
    (ipp_write_file roundTripCatalog = some (ipp_state_t.IPP_DATA, roundTripBytes) ∧
      ipp_read_file roundTripBytes ippNew = some (ipp_state_t.IPP_DATA, roundTripCatalog) ∧
      wfCatalog roundTripCatalog) ∧
    ((List.replicate 8191 120).length ≤ BUFFER_SIZE ∧
      ipp_write_file
        { version0 := 1, version1 := 1, op_status := 2, request_id := 1,
          attrs := [{ group_tag := IPP_TAG_OPERATION, value_tag := IPP_TAG_TEXT,
                      name := some [97],
                      values := [ipp_value_t.string none (List.replicate 8191 120)] }] } =
        none) ∧
    ((List.replicate 8189 97).length ≤ BUFFER_SIZE ∧
      ipp_write_file
        { version0 := 1, version1 := 1, op_status := 2, request_id := 1,
          attrs := [{ group_tag := IPP_TAG_OPERATION, value_tag := IPP_TAG_INTEGER,
                      name := some (List.replicate 8189 97),
                      values := [ipp_value_t.integer 5] }] } = none) :=
  ⟨⟨by decide, (ipp_round_trip roundTripCatalog).1.1 (by decide)⟩,
    ⟨by decide, by decide,
      (ipp_round_trip roundTripCatalog).1.2 ⟨roundTripBytes, by decide, by decide⟩⟩,
    ⟨by rw [List.length_replicate]; decide,
      (ipp_round_trip _).2 _ [] [97] (List.replicate 8191 120) [] rfl rfl (by decide)
        (Or.inl ⟨by decide, by decide, rfl, by rw [List.length_replicate]; decide,
          by rw [List.length_replicate]; decide⟩)⟩,
    ⟨by rw [List.length_replicate]; decide,
      (ipp_round_trip _).2 _ [] (List.replicate 8189 97) [] [] rfl rfl (by decide)
        (Or.inr (by rw [List.length_replicate]; rfl))⟩⟩

/-! ### Re-encoding a stream: the claim -/

/-- C2 (the claim as stated fails), streams with an 8-byte header of major
version 1, group tags and attributes with consistent lengths, and one end tag
at the end.  (1) The operation group tag directly before the end tag: the
catalog read has no attributes and is written without the group tag.  (2) An
operation attribute `a` with a text value of the three bytes `x`, NUL, `y`: the
value read is the C string `x` and is written with length 1.  (3) The
operation group tag directly before the job group tag: the attribute `a` = 5
is read into the job group and only the job group tag is written.  (4) An
attribute whose name is the three bytes `a`, NUL, `b`: the name read is the C
string `a` and is written with length 1.  (5) An integer attribute `a` = 5
with an additional value 6 behind the enum tag: the value is added to the
integer attribute and written behind the integer tag.  (6) The group tag
`0x00` before the attribute `a` = 5: a separator node is read, and the writer
has no defined result for it (`strlen` of its `NULL` name).  (7) An operation
attribute `a` with a text value of 8191 bytes `x`: it is read, and the writer
stores it past the end of `buffer`.  (8) An operation attribute `a` = 5 whose
name has 8189 bytes: it is read, and the writer stores the name past the end
of `buffer`. -/
theorem reencode_differs :
    (ipp_read_file [1, 1, 0, 2, 0, 0, 0, 1, 1, 3] ippNew).bind (fun r => ipp_write_file r.2) =
      some (ipp_state_t.IPP_DATA, [1, 1, 0, 2, 0, 0, 0, 1, 3]) ∧
    (ipp_read_file [1, 1, 0, 2, 0, 0, 0, 1, 1, 0x41, 0, 1, 97, 0, 3, 120, 0, 121, 3]
        ippNew).bind (fun r => ipp_write_file r.2) =
      some (ipp_state_t.IPP_DATA, [1, 1, 0, 2, 0, 0, 0, 1, 1, 0x41, 0, 1, 97, 0, 1, 120, 3]) ∧
    (ipp_read_file [1, 1, 0, 2, 0, 0, 0, 1, 1, 2, 0x21, 0, 1, 97, 0, 4, 0, 0, 0, 5, 3]
        ippNew).bind (fun r => ipp_write_file r.2) =
      some (ipp_state_t.IPP_DATA, [1, 1, 0, 2, 0, 0, 0, 1, 2, 0x21, 0, 1, 97, 0, 4, 0, 0, 0, 5, 3]) ∧
    (ipp_read_file [1, 1, 0, 2, 0, 0, 0, 1, 1, 0x21, 0, 3, 97, 0, 98, 0, 4, 0, 0, 0, 5, 3]
        ippNew).bind (fun r => ipp_write_file r.2) =
      some (ipp_state_t.IPP_DATA, [1, 1, 0, 2, 0, 0, 0, 1, 1, 0x21, 0, 1, 97, 0, 4, 0, 0, 0, 5, 3]) ∧
    (ipp_read_file [1, 1, 0, 2, 0, 0, 0, 1, 1, 0x21, 0, 1, 97, 0, 4, 0, 0, 0, 5,
        0x23, 0, 0, 0, 4, 0, 0, 0, 6, 3] ippNew).bind (fun r => ipp_write_file r.2) =
      some (ipp_state_t.IPP_DATA, [1, 1, 0, 2, 0, 0, 0, 1, 1, 0x21, 0, 1, 97, 0, 4, 0, 0, 0, 5,
        0x21, 0, 0, 0, 4, 0, 0, 0, 6, 3]) ∧
    (ipp_read_file [1, 1, 0, 2, 0, 0, 0, 1, 0, 0x21, 0, 1, 97, 0, 4, 0, 0, 0, 5, 3] ippNew =
      some (ipp_state_t.IPP_DATA,
        { version0 := 1, version1 := 1, op_status := 2, request_id := 1,
          attrs := [separator,
                    { group_tag := IPP_TAG_ZERO, value_tag := IPP_TAG_INTEGER,
                      name := some [97], values := [ipp_value_t.integer 5] }] }) ∧
      ipp_write_file
        { version0 := 1, version1 := 1, op_status := 2, request_id := 1,
          attrs := [separator,
                    { group_tag := IPP_TAG_ZERO, value_tag := IPP_TAG_INTEGER,
                      name := some [97], values := [ipp_value_t.integer 5] }] } = none) ∧
    (ipp_read_file (1 :: 1 :: 0 :: 2 :: 0 :: 0 :: 0 :: 1 :: 1 :: 0x41 ::
          ([0, 1] ++ [97] ++ ([31, 255] ++ List.replicate 8191 120 ++ [3]))) ippNew =
      some (ipp_state_t.IPP_DATA,
        { version0 := 1, version1 := 1, op_status := 2, request_id := 1,
          attrs := [{ group_tag := 1, value_tag := 0x41, name := some [97],
                      values := [ipp_value_t.string none (List.replicate 8191 120)] }] }) ∧
      ipp_write_file
        { version0 := 1, version1 := 1, op_status := 2, request_id := 1,
          attrs := [{ group_tag := 1, value_tag := 0x41, name := some [97],
                      values := [ipp_value_t.string none (List.replicate 8191 120)] }] } =
        none) ∧
    (ipp_read_file (1 :: 1 :: 0 :: 2 :: 0 :: 0 :: 0 :: 1 :: 1 :: 0x21 ::
          ([31, 253] ++ List.replicate 8189 97 ++ ([0, 4, 0, 0, 0, 5] ++ [3]))) ippNew =
      some (ipp_state_t.IPP_DATA,
        { version0 := 1, version1 := 1, op_status := 2, request_id := 1,
          attrs := [{ group_tag := 1, value_tag := 0x21, name := some (List.replicate 8189 97),
                      values := [ipp_value_t.integer 5] }] }) ∧
      ipp_write_file
        { version0 := 1, version1 := 1, op_status := 2, request_id := 1,
          attrs := [{ group_tag := 1, value_tag := 0x21, name := some (List.replicate 8189 97),
                      values := [ipp_value_t.integer 5] }] } = none) := by
  have e1 : ((be16 0 2 : Nat) : Int) = 2 := by decide
  have e2 : be32 0 0 0 1 = 1 := by decide
  have e3 : bytes16 ((1 : Nat) : Int) = [0, 1] := by decide
  have e4 : bytes16 ((8191 : Nat) : Int) = [31, 255] := by decide
  have e5 : bytes16 ((8189 : Nat) : Int) = [31, 253] := by decide
  have e6 : valueBytes (ipp_value_t.integer 5) = [0, 4, 0, 0, 0, 5] := by decide
  have hx : isCString (List.replicate 8191 120) := isCString_replicate 120 (by decide) 8191
  have ha : isCString (List.replicate 8189 97) := isCString_replicate 97 (by decide) 8189
  have hv := ipp_read_file_string_attr 1 0 2 0 0 0 1 1 0x41 [97] (List.replicate 8191 120)
    (by decide) (by decide) (by decide) (by decide) (by decide)
    (by rw [List.length_replicate]; decide) hx
  rw [List.length_replicate, List.length_singleton, e1, e2, e3, e4] at hv
  have hn := ipp_read_file_integer_attr 1 0 2 0 0 0 1 1 (List.replicate 8189 97) 5
    (by decide)
    (fun h => absurd ((List.length_replicate 8189 97).symm.trans (congrArg List.length h))
      (by decide))
    (by rw [List.length_replicate]; decide) ha (by decide)
  rw [List.length_replicate, e1, e2, e5, e6] at hn
  refine ⟨by decide, by decide, by decide, by decide, by decide, by decide, ⟨hv, ?_⟩, ⟨hn, ?_⟩⟩
  · exact writeAttributes_value_overflow _ [] _ _ [97] (List.replicate 8191 120) [] rfl
      (by decide) (by decide) (by decide) rfl (by rw [List.length_replicate]; decide)
      (by rw [List.length_replicate]; decide)
  · exact writeAttributes_name_overflow _ [] _ _ (List.replicate 8189 97) rfl (by decide)
      (by decide) (by rw [List.length_replicate]; rfl)

/-- C2 (amended): for every well-formed byte stream `B`, that is, an 8-byte
header with major version 1, then attributes and group tags, then one end tag
and nothing after it, where every group tag is one of `0x01 .. 0x0f` other
than the end tag and is directly followed by an attribute, every attribute
has a value tag from `0x10` on, a non-empty name without a NUL byte and one or
more values behind the same value tag, every value has the declared length of
its kind and strings hold no NUL byte, a name has at most 8189 bytes (8188
directly behind a group tag) and a string or opaque value at most 8190 bytes:
decoding `B` with `ipp_read_file` into a new catalog returns `IPP_DATA` and
the catalog the stream stands for, and re-encoding that catalog with
`ipp_write_file` returns `IPP_DATA` and produces exactly the bytes of `B`.
These are the only byte streams with that property: a file content `B`
that `ipp_read_file` decodes with `IPP_DATA` into a catalog `C`, and that
`ipp_write_file` produces again from `C` with `IPP_DATA`, is the byte sequence
of a well-formed stream, and `C` is the catalog that stream stands for. -/
theorem ipp_reencode :
    (∀ S : IppStream, S.wellFormed →
      ipp_read_file S.bytes ippNew = some (ipp_state_t.IPP_DATA, S.catalog) ∧
      ipp_write_file S.catalog = some (ipp_state_t.IPP_DATA, S.bytes)) ∧
    (∀ (B : List Nat) (C : ipp_t),
      ipp_read_file B ippNew = some (ipp_state_t.IPP_DATA, C) →
      ipp_write_file C = some (ipp_state_t.IPP_DATA, B) →
      ∃ S : IppStream, S.wellFormed ∧ S.bytes = B ∧ S.catalog = C) :=
  ⟨stream_reencodes, reencode_stream⟩

set_option maxRecDepth 100000 in
/-- C2 (amended) at the stream of the round-trip scenario, whose bytes are
`roundTripBytes` and whose catalog is `roundTripCatalog`, at a stream whose
first attribute has no group tag before it and whose job group tag is
repeated, and, for the converse, at the bytes `roundTripBytes`. -/
theorem ipp_reencode_witness :
    (roundTripStream.wellFormed ∧ roundTripStream.bytes = roundTripBytes ∧
      roundTripStream.catalog = roundTripCatalog ∧
      ipp_read_file roundTripStream.bytes ippNew =
        some (ipp_state_t.IPP_DATA, roundTripStream.catalog) ∧
      ipp_write_file roundTripStream.catalog =
        some (ipp_state_t.IPP_DATA, roundTripStream.bytes)) ∧
    (leadStream.wellFormed ∧
      leadStream.bytes = [1, 1, 0, 2, 0, 0, 0, 1, 0x21, 0, 1, 97, 0, 4, 0, 0, 0, 5,
        2, 0x22, 0, 1, 98, 0, 1, 1, 2, 0x44, 0, 1, 99, 0, 1, 120, 0x44, 0, 0, 0, 1, 121, 3] ∧
      ipp_read_file leadStream.bytes ippNew =
        some (ipp_state_t.IPP_DATA, leadStream.catalog) ∧
      ipp_write_file leadStream.catalog = some (ipp_state_t.IPP_DATA, leadStream.bytes)) ∧
    (ipp_read_file roundTripBytes ippNew = some (ipp_state_t.IPP_DATA, roundTripCatalog) ∧
      ipp_write_file roundTripCatalog = some (ipp_state_t.IPP_DATA, roundTripBytes) ∧
      ∃ S : IppStream, S.wellFormed ∧ S.bytes = roundTripBytes ∧
        S.catalog = roundTripCatalog) :=
  ⟨⟨by decide, by decide, by decide, ipp_reencode.1 roundTripStream (by decide)⟩,
    ⟨by decide, by decide, ipp_reencode.1 leadStream (by decide)⟩,
    ⟨by decide, by decide,
      ipp_reencode.2 roundTripBytes roundTripCatalog (by decide) (by decide)⟩⟩

/-! ### `CancelJob`: history and purge -/

theorem removeJob_updateJob (id : Int) (f : job_t → job_t) (hf : ∀ j, (f j).id = j.id) :
    ∀ l : List job_t, removeJob id (updateJob id f l) = removeJob id l
  | [] => rfl
  | c :: rest => by
    by_cases hc : c.id = id
    · rw [updateJob, if_pos hc, removeJob, removeJob, if_pos hc, if_pos (by rw [hf]; exact hc)]
    · rw [updateJob, if_neg hc, removeJob, removeJob, if_neg hc, if_neg hc,
        removeJob_updateJob id f hf rest]

theorem removeJob_of_not_found : ∀ (l : List job_t) (id : Int), FindJob l id = none →
    removeJob id l = l
  | [], _, _ => rfl
  | c :: rest, id, h => by
    by_cases hc : c.id = id
    · rw [FindJob_cons, if_pos hc] at h
      cases h
    · rw [FindJob_cons, if_neg hc] at h
      rw [removeJob, if_neg hc, removeJob_of_not_found rest id h]

theorem removeJob_split (id : Int) (pre post : List job_t) (j : job_t) (hid : j.id = id)
    (hpre : ∀ k ∈ pre, k.id ≠ id) : removeJob id (pre ++ j :: post) = pre ++ post := by
  induction pre with
  | nil => rw [List.nil_append, removeJob, if_pos hid, List.nil_append]
  | cons c pre ih =>
    rw [List.cons_append, removeJob, if_neg (hpre c (List.mem_cons_self _ _)),
      ih (fun k hk => hpre k (List.mem_cons_of_mem _ hk)), List.cons_append]

theorem FindJob_split (id : Int) (pre post : List job_t) (j : job_t) (hid : j.id = id)
    (hpre : ∀ k ∈ pre, k.id ≠ id) : FindJob (pre ++ j :: post) id = some j := by
  induction pre with
  | nil => rw [List.nil_append, FindJob_cons, if_pos hid]
  | cons c pre ih =>
    rw [List.cons_append, FindJob_cons, if_neg (hpre c (List.mem_cons_self _ _)),
      ih (fun k hk => hpre k (List.mem_cons_of_mem _ hk))]

theorem CancelJob_purge_Jobs (now : Int) (s : Sched) (id : Int) :
    (CancelJob now s id true).Jobs = removeJob id s.Jobs := by
  unfold CancelJob
  split
  · next hnone => rw [removeJob_of_not_found _ _ hnone]
  · next found hfound =>
    simp only [Bool.not_true, Bool.and_false, Bool.false_and, Bool.false_eq_true, if_false,
      dropJob_Jobs, emit_Jobs, modJob_Jobs]
    split
    · simp only [emit_Jobs, modJob_Jobs]
      rw [removeJob_updateJob id _ (cancelFields_id now)]
      split
      · rw [StopJob_Jobs]
        split
        · exact removeJob_updateJob id stopFields stopFields_id _
        · rfl
      · rfl
    · simp only [modJob_Jobs]
      rw [removeJob_updateJob id _ (cancelFields_id now)]
      split
      · rw [StopJob_Jobs]
        split
        · exact removeJob_updateJob id stopFields stopFields_id _
        · rfl
      · rfl

theorem CancelJob_absent (now : Int) (s : Sched) (id : Int) (purge : Bool)
    (h : FindJob s.Jobs id = none) : CancelJob now s id purge = s := by
  unfold CancelJob
  rw [h]

theorem CancelJob_idle_purge (now : Int) (s : Sched) (id : Int) (j : job_t)
    (hfind : FindJob s.Jobs id = some j) (hstate : j.state ≠ some IPP_JOB_PROCESSING) :
    CancelJob now s id true =
      { s with
        Jobs := removeJob id s.Jobs
        NumJobs := s.NumJobs - 1
        log := s.log ++ (List.range j.num_files.toNat).map (fun (i : Nat) =>
            Event.unlink (dataFile s.RequestRoot id ((i : Int) + 1))) ++
          [Event.unlink (controlFile s.RequestRoot id)] } := by
  unfold CancelJob
  simp only [hfind, if_neg hstate, Bool.not_true, Bool.and_false, Bool.false_and,
    Bool.false_eq_true, if_false, Bool.or_true, Bool.true_or, if_true]
  simp only [Sched.dropJob, Sched.emit, Sched.modJob]
  rw [removeJob_updateJob id _ (cancelFields_id now)]

/-- C12: whether or not job history is retained, `CancelJob(id, 1)` on a pending job
with `n` files (the first job with the id in the list `pre ++ j :: post`)
leaves the list `pre ++ post`, so it removes exactly that record and leaves
the other records and their order as they are; `NumJobs` is one less; the
files unlinked are the data files `d<id>-001` to `d<id>-<n>` and then the
control file `c<id>`; nothing else in the scheduler state changes.
`CancelJob` on an id not in the list changes nothing. -/
theorem CancelJob_purge_frame (now : Int) (s : Sched) (id : Int) (n : Nat)
    (pre post : List job_t) (j : job_t)
    (hjobs : s.Jobs = pre ++ j :: post) (hid : j.id = id) (hpre : ∀ k ∈ pre, k.id ≠ id)
    (hstate : j.state = some IPP_JOB_PENDING) (hfiles : j.num_files = (n : Int)) :
    CancelJob now s id true =
      { s with
        Jobs := pre ++ post
        NumJobs := s.NumJobs - 1
        log := s.log ++ (List.range n).map (fun (i : Nat) =>
            Event.unlink (dataFile s.RequestRoot id ((i : Int) + 1))) ++
          [Event.unlink (controlFile s.RequestRoot id)] } ∧
    ∀ (s2 : Sched) (id2 : Int) (purge : Bool), FindJob s2.Jobs id2 = none →
      CancelJob now s2 id2 purge = s2 := by
  have hfind : FindJob s.Jobs id = some j := by
    rw [hjobs]
    exact FindJob_split id pre post j hid hpre
  refine ⟨?_, fun s2 id2 purge h => CancelJob_absent now s2 id2 purge h⟩
  rw [CancelJob_idle_purge now s id j hfind (by rw [hstate]; decide), hfiles, hjobs,
    removeJob_split id pre post j hid hpre]
  rfl

theorem StopJob_RequestRoot (s : Sched) (id : Int) (force : Bool) :
    (StopJob s id force).RequestRoot = s.RequestRoot := by
  unfold StopJob
  repeat' split
  all_goals simp [apply_ite Sched.RequestRoot]

theorem CancelJob_find_some (s : Sched) (id : Int) (j : job_t)
    (hfind : FindJob s.Jobs id = some j) :
    ∃ j1, FindJob (if j.state = some IPP_JOB_PROCESSING then StopJob s id false else s).Jobs id
      = some j1 := by
  split
  · rw [StopJob_find, hfind]
    exact ⟨_, rfl⟩
  · exact ⟨j, hfind⟩

theorem CancelJob_drop_Jobs (now : Int) (s : Sched) (id : Int) (purge : Bool) (j : job_t)
    (hfind : FindJob s.Jobs id = some j)
    (hdrop : ¬ (s.JobHistory = true ∧ purge = false ∧ j.dtype &&& CUPS_PRINTER_REMOTE = 0)) :
    (CancelJob now s id purge).Jobs = removeJob id s.Jobs ∧
    (CancelJob now s id purge).log.getLast? =
      some (Event.unlink (controlFile s.RequestRoot id)) := by
  have hc : ¬ ((s.JobHistory && !purge && !decide (j.dtype &&& CUPS_PRINTER_REMOTE ≠ 0)) = true) := by
    intro h
    apply hdrop
    simp only [Bool.and_eq_true, Bool.not_eq_true', decide_eq_false_iff_not, ne_eq,
      not_not] at h
    exact ⟨h.1.1, h.1.2, h.2⟩
  unfold CancelJob
  simp only [hfind]
  rw [if_neg hc]
  refine ⟨?_, by simp [Sched.dropJob, Sched.emit]⟩
  simp only [dropJob_Jobs, emit_Jobs]
  have hj : ∀ t : Sched, (if (!s.JobHistory || !s.JobFiles || purge ||
      decide (j.dtype &&& CUPS_PRINTER_REMOTE ≠ 0)) = true then
        (t.modJob id (cancelFields now)).emit ((List.range j.num_files.toNat).map (fun (i : Nat) =>
          Event.unlink (dataFile s.RequestRoot id ((i : Int) + 1))))
      else t.modJob id (cancelFields now)).Jobs = updateJob id (cancelFields now) t.Jobs := by
    intro t
    split <;> rfl
  rw [hj, removeJob_updateJob id _ (cancelFields_id now)]
  split
  · rw [StopJob_Jobs]
    split
    · exact removeJob_updateJob id stopFields stopFields_id _
    · rfl
  · rfl

theorem CancelJob_keep (now : Int) (s : Sched) (id : Int) (purge : Bool) (j : job_t)
    (hfind : FindJob s.Jobs id = some j)
    (hkeep : s.JobHistory = true ∧ purge = false ∧ j.dtype &&& CUPS_PRINTER_REMOTE = 0) :
    (∃ j2, FindJob (CancelJob now s id purge).Jobs id = some j2 ∧
      j2.state = some IPP_JOB_CANCELLED) ∧
    (CancelJob now s id purge).log.getLast? =
      some (Event.save (controlFile s.RequestRoot id)) := by
  have hc : (s.JobHistory && !purge && !decide (j.dtype &&& CUPS_PRINTER_REMOTE ≠ 0)) = true := by
    simp [hkeep.1, hkeep.2.1, hkeep.2.2]
  obtain ⟨j1, hj1⟩ := CancelJob_find_some s id j hfind
  unfold CancelJob
  simp only [hfind]
  rw [if_pos hc]
  have hj : ∀ t : Sched, (if (!s.JobHistory || !s.JobFiles || purge ||
      decide (j.dtype &&& CUPS_PRINTER_REMOTE ≠ 0)) = true then
        (t.modJob id (cancelFields now)).emit ((List.range j.num_files.toNat).map (fun (i : Nat) =>
          Event.unlink (dataFile s.RequestRoot id ((i : Int) + 1))))
      else t.modJob id (cancelFields now)).Jobs = updateJob id (cancelFields now) t.Jobs ∧
      (if (!s.JobHistory || !s.JobFiles || purge ||
      decide (j.dtype &&& CUPS_PRINTER_REMOTE ≠ 0)) = true then
        (t.modJob id (cancelFields now)).emit ((List.range j.num_files.toNat).map (fun (i : Nat) =>
          Event.unlink (dataFile s.RequestRoot id ((i : Int) + 1))))
      else t.modJob id (cancelFields now)).RequestRoot = t.RequestRoot := by
    intro t
    split <;> exact ⟨rfl, rfl⟩
  have hroot : (if j.state = some IPP_JOB_PROCESSING then StopJob s id false else s).RequestRoot
      = s.RequestRoot := by
    split
    · exact StopJob_RequestRoot s id false
    · rfl
  have hf2 : FindJob (updateJob id (cancelFields now)
      (if j.state = some IPP_JOB_PROCESSING then StopJob s id false else s).Jobs) id =
      some (cancelFields now j1) := by
    rw [FindJob_updateJob_same _ _ _ (cancelFields_id now), hj1]
    rfl
  unfold SaveJob
  rw [(hj _).1, hf2]
  simp only [emit_Jobs, (hj _).1, hf2, Option.some.injEq, exists_eq_left', cancelFields_state,
    true_and]
  rw [(hj _).2, hroot, emit_log]
  simp

/-- C12 at scenario 3 of the spec: `CancelJob(7, 1)` leaves the jobs 5 and 9,
two jobs counted, and unlinks `d00007-001`, `d00007-002`, `d00007-003` and
`c00007`. -/
theorem CancelJob_purge_frame_witness :
    CancelJob 1000 purgeStore 7 true =
      { purgeStore with
        Jobs := [{ id := 5, priority := 60, dest := "lp", state := some IPP_JOB_PENDING,
                   num_files := 1, filetypes := [textPlain] },
                 { id := 9, priority := 50, dest := "lp2", state := some IPP_JOB_HELD,
                   num_files := 1, filetypes := [textPlain] }]
        NumJobs := 2
        log := [Event.unlink "/var/spool/cups/d00007-001",
                Event.unlink "/var/spool/cups/d00007-002",
                Event.unlink "/var/spool/cups/d00007-003",
                Event.unlink "/var/spool/cups/c00007"] } :=
  (CancelJob_purge_frame 1000 purgeStore 7 3
    [{ id := 5, priority := 60, dest := "lp", state := some IPP_JOB_PENDING,
       num_files := 1, filetypes := [textPlain] }]
    [{ id := 9, priority := 50, dest := "lp2", state := some IPP_JOB_HELD,
       num_files := 1, filetypes := [textPlain] }]
    { id := 7, priority := 50, dest := "lp", state := some IPP_JOB_PENDING,
      num_files := 3, filetypes := [textPlain, textPlain, textPlain] }
    rfl rfl (by decide) rfl rfl).1.trans (by decide)

/-- C11 (the claim as stated fails): with job history retained, `CancelJob(7,
1)` removes the record of job 7 from the store and unlinks its control file:
with `purge` set the history is not kept. -/
theorem CancelJob_purge_drops_history :
    historyStore.JobHistory = true ∧
    FindJob historyStore.Jobs 7 ≠ none ∧
    FindJob (CancelJob 1000 historyStore 7 true).Jobs 7 = none ∧
    (CancelJob 1000 historyStore 7 true).log =
      [Event.unlink "/var/spool/cups/d00007-001",
       Event.unlink "/var/spool/cups/d00007-002",
       Event.unlink "/var/spool/cups/d00007-003",
       Event.unlink "/var/spool/cups/c00007"] := by
  decide

/-- C11 (amended): for a job in the store (distinct ids) and either value of
`purge`: when job history is retained, `purge` is not set and the destination
of the job is not remote, after `CancelJob(id, purge)` the record is still in
the store with state cancelled and the last file operation is the rewrite of
its control file by `SaveJob`; in every other case (history not retained, or
`purge` set, or a remote destination) the record is no longer in the store and
the last file operation is the unlink of its control file. -/
theorem CancelJob_history (now : Int) (s : Sched) (id : Int) (purge : Bool) (j : job_t)
    (hfind : FindJob s.Jobs id = some j) (hnd : (s.Jobs.map (fun j => j.id)).Nodup) :
    (s.JobHistory = true ∧ purge = false ∧ j.dtype &&& CUPS_PRINTER_REMOTE = 0 →
      (∃ j2, FindJob (CancelJob now s id purge).Jobs id = some j2 ∧
        j2.state = some IPP_JOB_CANCELLED) ∧
      (CancelJob now s id purge).log.getLast? =
        some (Event.save (controlFile s.RequestRoot id))) ∧
    (¬ (s.JobHistory = true ∧ purge = false ∧ j.dtype &&& CUPS_PRINTER_REMOTE = 0) →
      FindJob (CancelJob now s id purge).Jobs id = none ∧
      (CancelJob now s id purge).log.getLast? =
        some (Event.unlink (controlFile s.RequestRoot id))) := by
  refine ⟨fun hkeep => CancelJob_keep now s id purge j hfind hkeep, fun hdrop => ?_⟩
  obtain ⟨hjobs, hlog⟩ := CancelJob_drop_Jobs now s id purge j hfind hdrop
  rw [hjobs]
  exact ⟨FindJob_removeJob_same hnd, hlog⟩

/-- C11 (amended) at the store `historyStore`: `CancelJob(7, 0)` keeps job 7,
cancelled, and rewrites `c00007`. -/
theorem CancelJob_history_witness :
    (∃ j2, FindJob (CancelJob 1000 historyStore 7 false).Jobs 7 = some j2 ∧
      j2.state = some IPP_JOB_CANCELLED) ∧
    (CancelJob 1000 historyStore 7 false).log.getLast? =
      some (Event.save (controlFile "/var/spool/cups" 7)) :=
  (CancelJob_history 1000 historyStore 7 false
    { id := 7, priority := 50, dest := "lp", state := some IPP_JOB_PENDING,
      num_files := 3, filetypes := [textPlain, textPlain, textPlain] }
    (by decide) (by decide)).1 ⟨rfl, rfl, by decide⟩

/-! ### The loop of `CancelJobs` -/

theorem removeJob_nodup (id : Int) (l : List job_t) (h : (l.map (fun j => j.id)).Nodup) :
    ((removeJob id l).map (fun j => j.id)).Nodup :=
  h.sublist ((removeJob_sublist id l).map _)

theorem removeJob_length_le (id : Int) (l : List job_t) : (removeJob id l).length ≤ l.length :=
  (removeJob_sublist id l).length_le

theorem CancelJobsLoop_ok (now : Int) (dest : String) :
    ∀ (m : Nat) (s : Sched), s.Jobs.length ≤ m → (s.Jobs.map (fun j => j.id)).Nodup →
      ∀ (cur done : List job_t), s.Jobs = done ++ cur → (∀ j ∈ done, j.dest ≠ dest) →
      ∀ fuel, cur.length + loopFuel m ≤ fuel →
      ∃ t, CancelJobsLoop now dest fuel s cur = some t ∧
        t.Jobs = s.Jobs.filter (fun j => decide (j.dest ≠ dest)) := by
  intro m
  induction m with
  | zero =>
    intro s hlen _ cur done hj _ fuel hfuel
    have hnil : s.Jobs = [] := List.eq_nil_of_length_eq_zero (by omega)
    have hcur : cur = [] := by
      rw [hnil] at hj
      exact (List.append_eq_nil.1 hj.symm).2
    subst hcur
    cases fuel with
    | zero => simp [loopFuel] at hfuel
    | succ f => exact ⟨s, rfl, by rw [hnil]; rfl⟩
  | succ k ih =>
    intro s hlen hnd cur
    induction cur with
    | nil =>
      intro done hj hdone fuel hfuel
      cases fuel with
      | zero => simp [loopFuel] at hfuel
      | succ f =>
        refine ⟨s, rfl, ?_⟩
        rw [hj, List.append_nil]
        exact (List.filter_eq_self.2 (fun j hjm => by simpa using hdone j hjm)).symm
    | cons c rest ihc =>
      intro done hj hdone fuel hfuel
      cases fuel with
      | zero => simp at hfuel
      | succ f =>
        unfold CancelJobsLoop
        by_cases hc : c.dest = dest
        · rw [if_pos hc]
          have hpre : ∀ j ∈ done, j.id ≠ c.id := by
            intro j hjm e
            rw [hj, List.map_append, List.map_cons, List.nodup_append] at hnd
            exact hnd.2.2 (List.mem_map_of_mem _ hjm) (by rw [e]; exact List.mem_cons_self _ _)
          have hjobs : (CancelJob now s c.id true).Jobs = done ++ rest := by
            rw [CancelJob_purge_Jobs, hj, removeJob_split c.id done rest c rfl hpre]
          have hlen2 : (CancelJob now s c.id true).Jobs.length ≤ k := by
            rw [hjobs]
            rw [hj] at hlen
            simp only [List.length_append, List.length_cons] at hlen ⊢
            omega
          have hnd2 : ((CancelJob now s c.id true).Jobs.map (fun j => j.id)).Nodup := by
            rw [CancelJob_purge_Jobs]
            exact removeJob_nodup _ _ hnd
          obtain ⟨t, ht, hres⟩ := ih (CancelJob now s c.id true) hlen2 hnd2
            (CancelJob now s c.id true).Jobs [] rfl (fun _ h => absurd h (List.not_mem_nil _)) f
            (by
              simp only [List.length_cons, loopFuel] at hfuel
              omega)
          refine ⟨t, ht, ?_⟩
          rw [hres, hjobs, hj, List.filter_append, List.filter_append, List.filter_cons]
          simp [hc]
        · rw [if_neg hc]
          obtain ⟨t, ht, hres⟩ := ihc (done ++ [c]) (by rw [hj]; simp)
            (fun j hjm => by
              rcases List.mem_append.1 hjm with h | h
              · exact hdone j h
              · rw [List.mem_singleton.1 h]
                exact hc)
            f (by simp only [List.length_cons] at hfuel; omega)
          exact ⟨t, ht, hres⟩

theorem CancelJobsLoop_mono (now : Int) (dest : String) :
    ∀ (fuel : Nat) (s : Sched) (cur : List job_t) (t : Sched),
      CancelJobsLoop now dest fuel s cur = some t →
      ∀ fuel2, fuel ≤ fuel2 → CancelJobsLoop now dest fuel2 s cur = some t := by
  intro fuel
  induction fuel with
  | zero => intro s cur t h; cases h
  | succ f ih =>
    intro s cur t h fuel2 hle
    obtain ⟨g, rfl⟩ : ∃ g, fuel2 = g + 1 := ⟨fuel2 - 1, by omega⟩
    cases cur with
    | nil => exact h
    | cons c rest =>
      unfold CancelJobsLoop at h ⊢
      by_cases hc : c.dest = dest
      · rw [if_pos hc] at h ⊢
        exact ih _ _ _ h g (by omega)
      · rw [if_neg hc] at h ⊢
        exact ih _ _ _ h g (by omega)

/-- C13: for every store with distinct job ids and every destination `dest`,
the cancellation loop of `CancelJobs(dest)` terminates (with the rounds
`CancelJobs` gives it, and with any larger number), although it restarts from
the head after each removal; in the store it ends with, before `CheckJobs` is
run, no job has destination `dest`, and the jobs left are exactly the jobs of
other destinations, in their original order. -/
theorem CancelJobs_loop (env : Env) (s : Sched) (dest : String)
    (hnd : (s.Jobs.map (fun j => j.id)).Nodup) :
    ∃ t, (∀ fuel, s.Jobs.length + loopFuel s.Jobs.length ≤ fuel →
          CancelJobsLoop env.time dest fuel s s.Jobs = some t) ∧
      CancelJobs env s dest = some (CheckJobs env t) ∧
      (∀ j ∈ t.Jobs, j.dest ≠ dest) ∧
      t.Jobs = s.Jobs.filter (fun j => decide (j.dest ≠ dest)) := by
  obtain ⟨t, ht, hres⟩ := CancelJobsLoop_ok env.time dest s.Jobs.length s (le_refl _) hnd
    s.Jobs [] rfl (fun _ h => absurd h (List.not_mem_nil _)) _ (le_refl _)
  refine ⟨t, ?_, ?_, ?_, hres⟩
  · intro fuel hfuel
    exact CancelJobsLoop_mono env.time dest _ s s.Jobs t ht fuel hfuel
  · unfold CancelJobs
    rw [ht]
    rfl
  · intro j hj
    rw [hres] at hj
    simpa using (List.mem_filter.1 hj).2

theorem CancelJobs_loop_witness :
    (purgeStore.Jobs.map (fun j => j.id)).Nodup ∧
      ∃ t, (∀ fuel, purgeStore.Jobs.length + loopFuel purgeStore.Jobs.length ≤ fuel →
            CancelJobsLoop scenarioEnv.time "lp" fuel purgeStore purgeStore.Jobs = some t) ∧
        CancelJobs scenarioEnv purgeStore "lp" = some (CheckJobs scenarioEnv t) ∧
        (∀ j ∈ t.Jobs, j.dest ≠ "lp") ∧
        t.Jobs = purgeStore.Jobs.filter (fun j => decide (j.dest ≠ "lp")) :=
  ⟨by decide, CancelJobs_loop scenarioEnv purgeStore "lp" (by decide)⟩

/-! ### `CleanJobs` -/

theorem CleanJobsLoop_split (now : Int) :
    ∀ (rest : List job_t) (s : Sched) (done : List job_t), s.Jobs = done ++ rest →
      (s.Jobs.map (fun j => j.id)).Nodup →
      ∃ l1 l2, rest = l1 ++ l2 ∧
        (CleanJobsLoop now (rest.map (fun j => j.id)) s).Jobs =
          done ++ l1.filter (fun j => !isTerminal j) ++ l2 := by
  intro rest
  induction rest with
  | nil =>
    intro s done hj _
    exact ⟨[], [], rfl, by simpa [CleanJobsLoop] using hj⟩
  | cons c rest ih =>
    intro s done hj hnd
    rw [List.map_cons, CleanJobsLoop]
    by_cases hcap : s.NumJobs ≥ s.MaxJobs
    · rw [if_pos hcap]
      have hpre : ∀ j ∈ done, j.id ≠ c.id := by
        intro j hjm e
        rw [hj, List.map_append, List.map_cons, List.nodup_append] at hnd
        exact hnd.2.2 (List.mem_map_of_mem _ hjm) (by rw [e]; exact List.mem_cons_self _ _)
      have hfind : FindJob s.Jobs c.id = some c := by
        rw [hj]
        exact FindJob_split c.id done rest c rfl hpre
      rw [hfind]
      by_cases hterm : isTerminal c = true
      · have hany : (some c).any isTerminal = true := hterm
        rw [if_pos hany]
        have hjobs : (CancelJob now s c.id true).Jobs = done ++ rest := by
          rw [CancelJob_purge_Jobs, hj, removeJob_split c.id done rest c rfl hpre]
        have hnd2 : ((CancelJob now s c.id true).Jobs.map (fun j => j.id)).Nodup := by
          rw [CancelJob_purge_Jobs]
          exact removeJob_nodup _ _ hnd
        obtain ⟨l1, l2, hsplit, hres⟩ := ih (CancelJob now s c.id true) done hjobs hnd2
        refine ⟨c :: l1, l2, by rw [hsplit]; rfl, ?_⟩
        rw [hres, List.filter_cons]
        simp [hterm]
      · have hany : ¬ (some c).any isTerminal = true := hterm
        rw [if_neg hany]
        obtain ⟨l1, l2, hsplit, hres⟩ := ih s (done ++ [c]) (by rw [hj]; simp) hnd
        refine ⟨c :: l1, l2, by rw [hsplit]; rfl, ?_⟩
        rw [hres, List.filter_cons]
        simp [hterm]
    · rw [if_neg hcap]
      exact ⟨[], c :: rest, rfl, by simpa using hj⟩

/-- C14 (counterexample): the store `cleanStore` holds two jobs and `MaxJobs`
is 2, so the number of jobs does not exceed the cap; `CleanJobs` removes
job 2, the first completed job, and leaves one job. -/
theorem CleanJobs_removes_at_cap :
    cleanStore.NumJobs ≤ cleanStore.MaxJobs ∧ 0 < cleanStore.MaxJobs ∧
      (CleanJobs 0 cleanStore).NumJobs = 1 ∧
      (CleanJobs 0 cleanStore).Jobs.map (fun j => j.id) = [1] := by
  decide

/-- C14 (amended): `CleanJobs` removes jobs only while the number of jobs has
reached the cap (`NumJobs >= MaxJobs`): for every store whose job count is
below `MaxJobs`, and for every store with `MaxJobs = 0`, `CleanJobs` changes
nothing. -/
theorem CleanJobs_below_cap (now : Int) (s : Sched)
    (h : s.MaxJobs = 0 ∨ s.NumJobs < s.MaxJobs) : CleanJobs now s = s := by
  unfold CleanJobs
  by_cases h0 : s.MaxJobs = 0
  · rw [if_pos h0]
  · rw [if_neg h0]
    have hlt : s.NumJobs < s.MaxJobs := h.resolve_left h0
    cases hl : s.Jobs.map (fun j => j.id) with
    | nil => rfl
    | cons c rest => rw [CleanJobsLoop, if_neg (by omega)]

theorem CleanJobs_below_cap_witness :
    (({ cleanStore with MaxJobs := 3 } : Sched).MaxJobs = 0 ∨
        ({ cleanStore with MaxJobs := 3 } : Sched).NumJobs <
          ({ cleanStore with MaxJobs := 3 } : Sched).MaxJobs) ∧
      CleanJobs 0 { cleanStore with MaxJobs := 3 } = { cleanStore with MaxJobs := 3 } :=
  ⟨by decide, CleanJobs_below_cap 0 _ (by decide)⟩

/-- C15 (counterexample): in `cleanStore` the completed job 2 stands before
the completed job 1 (it has the higher priority); `CleanJobs` removes job 2,
and the terminal job 1, whose id is smaller, remains. -/
theorem CleanJobs_removes_newer_job :
    (FindJob cleanStore.Jobs 2).any isTerminal = true ∧
      FindJob (CleanJobs 0 cleanStore).Jobs 2 = none ∧
      (FindJob (CleanJobs 0 cleanStore).Jobs 1).any isTerminal = true := by
  decide

/-- C15 (amended): every job `CleanJobs` removes is terminal (state >=
cancelled), and the jobs removed are the first terminal jobs in store order:
for every store with distinct job ids the list of jobs splits into a front
part and a rest such that the store after `CleanJobs` is the front part with
exactly its terminal jobs taken out, followed by the rest unchanged. -/
theorem CleanJobs_store_order (now : Int) (s : Sched)
    (hnd : (s.Jobs.map (fun j => j.id)).Nodup) :
    ∃ l1 l2, s.Jobs = l1 ++ l2 ∧
      (CleanJobs now s).Jobs = l1.filter (fun j => !isTerminal j) ++ l2 := by
  unfold CleanJobs
  by_cases h0 : s.MaxJobs = 0
  · rw [if_pos h0]
    exact ⟨[], s.Jobs, rfl, rfl⟩
  · rw [if_neg h0]
    obtain ⟨l1, l2, hsplit, hres⟩ := CleanJobsLoop_split now s.Jobs s [] rfl hnd
    exact ⟨l1, l2, hsplit, by simpa using hres⟩

theorem CleanJobs_store_order_witness :
    (cleanStore.Jobs.map (fun j => j.id)).Nodup ∧
      ∃ l1 l2, cleanStore.Jobs = l1 ++ l2 ∧
        (CleanJobs 0 cleanStore).Jobs = l1.filter (fun j => !isTerminal j) ++ l2 :=
  ⟨by decide, CleanJobs_store_order 0 cleanStore (by decide)⟩

/-! ### `SetJobHoldUntil` -/

theorem SetJobHoldUntil_holdOf (clock : Clock) (s : Sched) (id : Int) (when : String)
    (j : job_t) (t : Int) (hfind : FindJob s.Jobs id = some j)
    (hh : holdUntil clock when = some t) :
    holdOf (SetJobHoldUntil clock s id when) id = some t := by
  unfold SetJobHoldUntil holdOf
  simp only [hfind, hh, modJob_Jobs]
  rw [FindJob_updateJob_same _ _ _ (by intro _; rfl), hfind]
  rfl

theorem holdUntil_day_time (clock : Clock) :
    holdUntil clock "day-time" =
      if (clock.localtime clock.time).tm_hour < 18 then some clock.time
      else some (clock.time + secondsUntil 29 59 60 (clock.localtime clock.time)) := by
  unfold holdUntil
  rw [if_neg (by decide), if_pos rfl]

theorem holdUntil_evening (clock : Clock) (when : String)
    (hw : when = "evening" ∨ when = "night") :
    holdUntil clock when =
      if (clock.localtime clock.time).tm_hour < 6 ∨ (clock.localtime clock.time).tm_hour ≥ 18
      then some clock.time
      else some (clock.time + secondsUntil 17 59 60 (clock.localtime clock.time)) := by
  unfold holdUntil
  rcases hw with rfl | rfl
  · rw [if_neg (by decide), if_neg (by decide), if_pos (by decide)]
  · rw [if_neg (by decide), if_neg (by decide), if_pos (by decide)]

theorem holdUntil_second_shift (clock : Clock) :
    holdUntil clock "second-shift" =
      if (clock.localtime clock.time).tm_hour ≥ 16 then some clock.time
      else some (clock.time + secondsUntil 15 59 60 (clock.localtime clock.time)) := by
  unfold holdUntil
  rw [if_neg (by decide), if_neg (by decide), if_neg (by decide), if_pos rfl]

theorem holdUntil_third_shift (clock : Clock) :
    holdUntil clock "third-shift" =
      if (clock.localtime clock.time).tm_hour < 8 then some clock.time
      else some (clock.time + secondsUntil 23 59 60 (clock.localtime clock.time)) := by
  unfold holdUntil
  rw [if_neg (by decide), if_neg (by decide), if_neg (by decide), if_neg (by decide), if_pos rfl]

theorem holdUntil_weekend (clock : Clock) :
    holdUntil clock "weekend" =
      if (clock.localtime clock.time).tm_wday = 0 ∨ (clock.localtime clock.time).tm_wday = 6
      then some clock.time
      else some (clock.time +
        ((((5 - (clock.localtime clock.time).tm_wday) * 24 +
          (17 - (clock.localtime clock.time).tm_hour)) * 60 + 59 -
            (clock.localtime clock.time).tm_min) * 60 + 60 -
              (clock.localtime clock.time).tm_sec)) := by
  unfold holdUntil
  rw [if_neg (by decide), if_neg (by decide), if_neg (by decide), if_neg (by decide),
    if_neg (by decide), if_pos rfl]

theorem secondsUntil_eq (hh mm ss : Int) (d : tm) :
    secondsUntil hh mm ss d = 3600 * hh + 60 * mm + ss - secondsOfDay d := by
  unfold secondsUntil secondsOfDay
  ring

/-- C16 (counterexample): at local time 20:00:00 (hour >= 18)
`SetJobHoldUntil(7, "day-time")` does not store the current time 72000 but
108000, the next local 06:00; at local time 10:00:00 (hour < 18) it stores the
current time 36000, not a later 06:00. -/
theorem SetJobHoldUntil_day_time_at_20_and_10 :
    (gmtimePosix 72000).tm_hour = 20 ∧
      holdOf (SetJobHoldUntil (utcClock 72000) purgeStore 7 "day-time") 7 = some 108000 ∧
      (gmtimePosix 36000).tm_hour = 10 ∧
      holdOf (SetJobHoldUntil (utcClock 36000) purgeStore 7 "day-time") 7 = some 36000 := by
  decide

/-- C16 (amended): for every current local time and every job in the store,
`SetJobHoldUntil(id, "day-time")` sets `hold_until` to the current time when
the local hour is < 18, and otherwise to the local 06:00 of the following
morning: the current time plus the seconds left until local midnight plus six
hours. -/
theorem SetJobHoldUntil_day_time (clock : Clock) (s : Sched) (id : Int) (j : job_t)
    (hfind : FindJob s.Jobs id = some j) :
    ((clock.localtime clock.time).tm_hour < 18 →
        holdOf (SetJobHoldUntil clock s id "day-time") id = some clock.time) ∧
      (18 ≤ (clock.localtime clock.time).tm_hour →
        holdOf (SetJobHoldUntil clock s id "day-time") id =
          some (clock.time + (86400 - secondsOfDay (clock.localtime clock.time)) + 6 * 3600)) := by
  constructor
  · intro h
    exact SetJobHoldUntil_holdOf clock s id _ j _ hfind (by rw [holdUntil_day_time, if_pos h])
  · intro h
    refine SetJobHoldUntil_holdOf clock s id _ j _ hfind ?_
    rw [holdUntil_day_time, if_neg (by omega), secondsUntil_eq]
    congr 1
    ring

theorem SetJobHoldUntil_day_time_witness :
    18 ≤ ((utcClock 84600).localtime (utcClock 84600).time).tm_hour ∧
      holdOf (SetJobHoldUntil (utcClock 84600) purgeStore 7 "day-time") 7 = some 108000 :=
  ⟨by decide,
    ((SetJobHoldUntil_day_time (utcClock 84600) purgeStore 7
      { id := 7, priority := 50, dest := "lp", state := some IPP_JOB_PENDING,
        num_files := 3, filetypes := [textPlain, textPlain, textPlain] }
      (by decide)).2 (by decide)).trans (by decide)⟩

/-- C17: for every job in the store, `SetJobHoldUntil(id, "day-time")` called
at local time 20:00:00 sets `hold_until` to now + 36000 (the next local
06:00), and called at local hour 10 sets `hold_until` to now; in general it
gives now for local hour < 18 and now + (30*3600 - seconds elapsed since local
midnight) for local hour >= 18. -/
theorem SetJobHoldUntil_day_time_values (clock : Clock) (s : Sched) (id : Int) (j : job_t)
    (hfind : FindJob s.Jobs id = some j) :
    ((clock.localtime clock.time).tm_hour = 20 ∧ (clock.localtime clock.time).tm_min = 0 ∧
        (clock.localtime clock.time).tm_sec = 0 →
        holdOf (SetJobHoldUntil clock s id "day-time") id = some (clock.time + 36000)) ∧
      ((clock.localtime clock.time).tm_hour = 10 →
        holdOf (SetJobHoldUntil clock s id "day-time") id = some clock.time) ∧
      ((clock.localtime clock.time).tm_hour < 18 →
        holdOf (SetJobHoldUntil clock s id "day-time") id = some clock.time) ∧
      ((clock.localtime clock.time).tm_hour ≥ 18 →
        holdOf (SetJobHoldUntil clock s id "day-time") id =
          some (clock.time + (30 * 3600 - secondsOfDay (clock.localtime clock.time)))) := by
  have hlt : (clock.localtime clock.time).tm_hour < 18 →
      holdOf (SetJobHoldUntil clock s id "day-time") id = some clock.time := fun h =>
    SetJobHoldUntil_holdOf clock s id _ j _ hfind (by rw [holdUntil_day_time, if_pos h])
  have hge : (clock.localtime clock.time).tm_hour ≥ 18 →
      holdOf (SetJobHoldUntil clock s id "day-time") id =
        some (clock.time + (30 * 3600 - secondsOfDay (clock.localtime clock.time))) := by
    intro h
    refine SetJobHoldUntil_holdOf clock s id _ j _ hfind ?_
    rw [holdUntil_day_time, if_neg (by omega), secondsUntil_eq]
    congr 1
  refine ⟨?_, fun h => hlt (by omega), hlt, hge⟩
  rintro ⟨hh, hm, hs⟩
  rw [hge (by omega)]
  unfold secondsOfDay
  rw [hh, hm, hs]
  rfl

theorem SetJobHoldUntil_day_time_values_witness :
    ((utcClock 72000).localtime (utcClock 72000).time).tm_hour = 20 ∧
      ((utcClock 72000).localtime (utcClock 72000).time).tm_min = 0 ∧
      ((utcClock 72000).localtime (utcClock 72000).time).tm_sec = 0 ∧
      holdOf (SetJobHoldUntil (utcClock 72000) purgeStore 7 "day-time") 7 =
        some ((utcClock 72000).time + 36000) ∧
      ((utcClock 36000).localtime (utcClock 36000).time).tm_hour = 10 ∧
      holdOf (SetJobHoldUntil (utcClock 36000) purgeStore 7 "day-time") 7 =
        some (utcClock 36000).time :=
  ⟨by decide, by decide, by decide,
    (SetJobHoldUntil_day_time_values (utcClock 72000) purgeStore 7
      { id := 7, priority := 50, dest := "lp", state := some IPP_JOB_PENDING,
        num_files := 3, filetypes := [textPlain, textPlain, textPlain] }
      (by decide)).1 ⟨by decide, by decide, by decide⟩,
    by decide,
    (SetJobHoldUntil_day_time_values (utcClock 36000) purgeStore 7
      { id := 7, priority := 50, dest := "lp", state := some IPP_JOB_PENDING,
        num_files := 3, filetypes := [textPlain, textPlain, textPlain] }
      (by decide)).2.1 (by decide)⟩

/-- C18: for every job in the store and every current local time with hour
h, minute m and second s in the ranges of `struct tm` (t = 3600h + 60m + s):
`SetJobHoldUntil` with "evening" or "night" gives `hold_until` = now if h < 6
or h >= 18, else now + (18*3600 - t); with "second-shift" it gives now if
h >= 16, else now + (16*3600 - t); with "third-shift" it gives now if h < 8,
else now + (24*3600 - t); and in each of the four cases `hold_until` is not
earlier than now. -/
theorem SetJobHoldUntil_shifts (clock : Clock) (s : Sched) (id : Int) (j : job_t)
    (hfind : FindJob s.Jobs id = some j) (hrange : tmInRange (clock.localtime clock.time)) :
    (∀ when, when = "evening" ∨ when = "night" →
        holdOf (SetJobHoldUntil clock s id when) id =
          some (if (clock.localtime clock.time).tm_hour < 6 ∨
                  (clock.localtime clock.time).tm_hour ≥ 18 then clock.time
                else clock.time + (18 * 3600 - secondsOfDay (clock.localtime clock.time)))) ∧
      holdOf (SetJobHoldUntil clock s id "second-shift") id =
        some (if (clock.localtime clock.time).tm_hour ≥ 16 then clock.time
              else clock.time + (16 * 3600 - secondsOfDay (clock.localtime clock.time))) ∧
      holdOf (SetJobHoldUntil clock s id "third-shift") id =
        some (if (clock.localtime clock.time).tm_hour < 8 then clock.time
              else clock.time + (24 * 3600 - secondsOfDay (clock.localtime clock.time))) ∧
      (∀ when, when = "evening" ∨ when = "night" ∨ when = "second-shift" ∨
          when = "third-shift" →
        ∃ hold, holdOf (SetJobHoldUntil clock s id when) id = some hold ∧ clock.time ≤ hold) := by
  have hev : ∀ when, when = "evening" ∨ when = "night" →
      holdOf (SetJobHoldUntil clock s id when) id =
        some (if (clock.localtime clock.time).tm_hour < 6 ∨
                (clock.localtime clock.time).tm_hour ≥ 18 then clock.time
              else clock.time + (18 * 3600 - secondsOfDay (clock.localtime clock.time))) := by
    intro when hw
    refine SetJobHoldUntil_holdOf clock s id _ j _ hfind ?_
    rw [holdUntil_evening clock when hw, secondsUntil_eq]
    split_ifs <;> rfl
  have h2 : holdOf (SetJobHoldUntil clock s id "second-shift") id =
      some (if (clock.localtime clock.time).tm_hour ≥ 16 then clock.time
            else clock.time + (16 * 3600 - secondsOfDay (clock.localtime clock.time))) := by
    refine SetJobHoldUntil_holdOf clock s id _ j _ hfind ?_
    rw [holdUntil_second_shift, secondsUntil_eq]
    split_ifs <;> rfl
  have h3 : holdOf (SetJobHoldUntil clock s id "third-shift") id =
      some (if (clock.localtime clock.time).tm_hour < 8 then clock.time
            else clock.time + (24 * 3600 - secondsOfDay (clock.localtime clock.time))) := by
    refine SetJobHoldUntil_holdOf clock s id _ j _ hfind ?_
    rw [holdUntil_third_shift, secondsUntil_eq]
    split_ifs <;> rfl
  refine ⟨hev, h2, h3, ?_⟩
  obtain ⟨hs0, hs1, hm0, hm1, hh0, hh1, _, _⟩ := hrange
  intro when hw
  rcases hw with hw | hw | hw | hw
  · refine ⟨_, hev when (Or.inl hw), ?_⟩
    unfold secondsOfDay
    split_ifs <;> omega
  · refine ⟨_, hev when (Or.inr hw), ?_⟩
    unfold secondsOfDay
    split_ifs <;> omega
  · subst hw
    refine ⟨_, h2, ?_⟩
    unfold secondsOfDay
    split_ifs <;> omega
  · subst hw
    refine ⟨_, h3, ?_⟩
    unfold secondsOfDay
    split_ifs <;> omega

theorem SetJobHoldUntil_shifts_witness :
    tmInRange ((utcClock 36000).localtime (utcClock 36000).time) ∧
      holdOf (SetJobHoldUntil (utcClock 36000) purgeStore 7 "evening") 7 = some 64800 ∧
      holdOf (SetJobHoldUntil (utcClock 36000) purgeStore 7 "second-shift") 7 = some 57600 ∧
      holdOf (SetJobHoldUntil (utcClock 36000) purgeStore 7 "third-shift") 7 = some 86400 :=
  ⟨by decide,
    ((SetJobHoldUntil_shifts (utcClock 36000) purgeStore 7
      { id := 7, priority := 50, dest := "lp", state := some IPP_JOB_PENDING,
        num_files := 3, filetypes := [textPlain, textPlain, textPlain] }
      (by decide) (by decide)).1 "evening" (Or.inl rfl)).trans (by decide),
    (SetJobHoldUntil_shifts (utcClock 36000) purgeStore 7
      { id := 7, priority := 50, dest := "lp", state := some IPP_JOB_PENDING,
        num_files := 3, filetypes := [textPlain, textPlain, textPlain] }
      (by decide) (by decide)).2.1.trans (by decide),
    (SetJobHoldUntil_shifts (utcClock 36000) purgeStore 7
      { id := 7, priority := 50, dest := "lp", state := some IPP_JOB_PENDING,
        num_files := 3, filetypes := [textPlain, textPlain, textPlain] }
      (by decide) (by decide)).2.2.1.trans (by decide)⟩

/-- C19 (counterexample): on Monday 1970-01-05 at 00:00:00 local time
(`tm_wday = 1`, now = 345600) `SetJobHoldUntil(7, "weekend")` stores 756000,
which is Friday 18:00:00, and not now + ((6 - 1)*86400 - 0) = 777600, the
coming Saturday 00:00:00. -/
theorem SetJobHoldUntil_weekend_on_monday :
    gmtimePosix 345600 = { tm_sec := 0, tm_min := 0, tm_hour := 0, tm_wday := 1 } ∧
      holdOf (SetJobHoldUntil (utcClock 345600) purgeStore 7 "weekend") 7 = some 756000 ∧
      gmtimePosix 756000 = { tm_sec := 0, tm_min := 0, tm_hour := 18, tm_wday := 5 } ∧
      holdOf (SetJobHoldUntil (utcClock 345600) purgeStore 7 "weekend") 7 ≠
        some (345600 + ((6 - (gmtimePosix 345600).tm_wday) * 86400 -
          secondsOfDay (gmtimePosix 345600))) := by
  decide

/-- C19 (amended): for every job in the store, `SetJobHoldUntil(id,
"weekend")` sets `hold_until` = now when the local weekday is Saturday or
Sunday (`tm_wday` 6 or 0), and otherwise to 18:00:00 local time of the coming
Friday, i.e. now + ((5 - weekday)*86400 + 18*3600 - seconds elapsed since
local midnight) with weekday Monday=1 .. Friday=5. -/
theorem SetJobHoldUntil_weekend (clock : Clock) (s : Sched) (id : Int) (j : job_t)
    (hfind : FindJob s.Jobs id = some j) :
    ((clock.localtime clock.time).tm_wday = 0 ∨ (clock.localtime clock.time).tm_wday = 6 →
        holdOf (SetJobHoldUntil clock s id "weekend") id = some clock.time) ∧
      (¬ ((clock.localtime clock.time).tm_wday = 0 ∨ (clock.localtime clock.time).tm_wday = 6) →
        holdOf (SetJobHoldUntil clock s id "weekend") id =
          some (clock.time + ((5 - (clock.localtime clock.time).tm_wday) * 86400 + 18 * 3600 -
            secondsOfDay (clock.localtime clock.time)))) := by
  constructor
  · intro h
    exact SetJobHoldUntil_holdOf clock s id _ j _ hfind (by rw [holdUntil_weekend, if_pos h])
  · intro h
    refine SetJobHoldUntil_holdOf clock s id _ j _ hfind ?_
    rw [holdUntil_weekend, if_neg h]
    unfold secondsOfDay
    congr 2
    ring

theorem SetJobHoldUntil_weekend_witness :
    (gmtimePosix 527400).tm_wday = 3 ∧
      holdOf (SetJobHoldUntil (utcClock 527400) purgeStore 7 "weekend") 7 = some 756000 ∧
      (gmtimePosix 864000).tm_wday = 0 ∧
      holdOf (SetJobHoldUntil (utcClock 864000) purgeStore 7 "weekend") 7 = some 864000 :=
  ⟨by decide,
    ((SetJobHoldUntil_weekend (utcClock 527400) purgeStore 7
      { id := 7, priority := 50, dest := "lp", state := some IPP_JOB_PENDING,
        num_files := 3, filetypes := [textPlain, textPlain, textPlain] }
      (by decide)).2 (by decide)).trans (by decide),
    by decide,
    (SetJobHoldUntil_weekend (utcClock 864000) purgeStore 7
      { id := 7, priority := 50, dest := "lp", state := some IPP_JOB_PENDING,
        num_files := 3, filetypes := [textPlain, textPlain, textPlain] }
      (by decide)).1 (by decide)⟩

/-- C20 (failing input): at 12:00:00 UTC (now = 43200) the time of day 06:00
has passed; `SetJobHoldUntil(7, "06:00")` stores 5205600 = now + 5162400,
sixty days after 06:00 of the current day, where 06:00 of the next day is
108000; the stored value is later than now + 86400. -/
theorem SetJobHoldUntil_time_sixty_days :
    scanHMS "06:00" = [6, 0] ∧
      gmtimePosix 43200 = { tm_sec := 0, tm_min := 0, tm_hour := 12, tm_wday := 4 } ∧
      holdOf (SetJobHoldUntil (utcClock 43200) purgeStore 7 "06:00") 7 = some 5205600 ∧
      (5205600 : Int) = 21600 + 60 * 86400 ∧ (43200 : Int) + 86400 < 5205600 := by
  decide

/-! ### `SetJobHoldUntil`: values that are not parsed -/

theorem holdUntil_unparsed (clock : Clock) (when : String)
    (hkey : when ∉ ["indefinite", "day-time", "evening", "night", "second-shift",
      "third-shift", "weekend"])
    (hscan : (clock.sscanf when).length < 2) : holdUntil clock when = none := by
  simp only [List.mem_cons, List.mem_singleton, List.not_mem_nil, or_false, not_or] at hkey
  obtain ⟨h1, h2, h3, h4, h5, h6, h7⟩ := hkey
  unfold holdUntil
  simp only []
  rw [if_neg h1, if_neg h2, if_neg (by simp [h3, h4]), if_neg h5, if_neg h6, if_neg h7]
  match hs : clock.sscanf when with
  | [] => rfl
  | [_] => rfl
  | _ :: _ :: _ =>
    rw [hs] at hscan
    simp only [List.length_cons] at hscan
    omega

/-- C21 (counterexample): job 6 has `hold_until` = 500; `SetJobHoldUntil(6,
"tomorrow")`, a value that is no keyword and that `sscanf` cannot convert,
leaves `hold_until` = 500, whereas "indefinite" stores 0. -/
theorem SetJobHoldUntil_unparsed_keeps_time :
    scanHMS "tomorrow" = [] ∧
      holdOf heldStore 6 = some 500 ∧
      holdOf (SetJobHoldUntil (utcClock 1000) heldStore 6 "tomorrow") 6 = some 500 ∧
      holdOf (SetJobHoldUntil (utcClock 1000) heldStore 6 "indefinite") 6 = some 0 := by
  decide

/-- C21 (amended): a job-hold-until value that is neither one of the
recognised keywords nor converted by `sscanf` to at least an hour and a minute
is ignored: `SetJobHoldUntil` with such a value changes nothing, so every job
keeps its previous `hold_until` (0, that is indefinite, for a job whose hold
time was never set). -/
theorem SetJobHoldUntil_unparsed (clock : Clock) (s : Sched) (id : Int) (when : String)
    (hkey : when ∉ ["indefinite", "day-time", "evening", "night", "second-shift",
      "third-shift", "weekend"])
    (hscan : (clock.sscanf when).length < 2) :
    SetJobHoldUntil clock s id when = s ∧
      holdOf (SetJobHoldUntil clock s id when) id = holdOf s id := by
  have h : SetJobHoldUntil clock s id when = s := by
    unfold SetJobHoldUntil
    rw [holdUntil_unparsed clock when hkey hscan]
    split <;> rfl
  exact ⟨h, by rw [h]⟩

theorem SetJobHoldUntil_unparsed_witness :
    SetJobHoldUntil (utcClock 1000) heldStore 4 "tomorrow" = heldStore ∧
      holdOf (SetJobHoldUntil (utcClock 1000) heldStore 4 "tomorrow") 4 = some 0 :=
  ⟨(SetJobHoldUntil_unparsed (utcClock 1000) heldStore 4 "tomorrow" (by decide) (by decide)).1,
    (SetJobHoldUntil_unparsed (utcClock 1000) heldStore 4 "tomorrow" (by decide)
      (by decide)).2.trans (by decide)⟩

/-! ### `StopJob` -/

theorem StopJob_idle (s : Sched) (id : Int) (force : Bool)
    (h : ∀ j, FindJob s.Jobs id = some j → j.state ≠ some IPP_JOB_PROCESSING) :
    StopJob s id force = s := by
  unfold StopJob
  split
  · rfl
  · next current hcur => rw [if_neg (h current hcur)]

theorem StopJob_Printers (s : Sched) (id : Int) (force : Bool) (j : job_t) (p : Nat)
    (r : printer_t) (hfind : FindJob s.Jobs id = some j)
    (hstate : j.state = some IPP_JOB_PROCESSING) (hprinter : j.printer = some p)
    (hp : s.Printers.get? p = some r) :
    (StopJob s id force).Printers.get? p =
      some { r with
        state := if j.status < 0 ∨ r.state = IPP_PRINTER_STOPPED then IPP_PRINTER_STOPPED
                 else IPP_PRINTER_IDLE
        job := none } := by
  unfold StopJob
  simp only [hfind, hstate, if_true, hprinter, closePipe_Printers, emit_Printers, modJob_Printers]
  simp only [Sched.modPrinter]
  rw [get?_updatePrinter_same]
  by_cases hneg : j.status < 0
  · rw [if_pos hneg]
    simp only [Sched.SetPrinterState, Sched.modPrinter, Sched.addLevel]
    rw [get?_updatePrinter_same, hp]
    simp [hneg]
  · rw [if_neg hneg]
    by_cases hst : r.state = IPP_PRINTER_STOPPED
    · have hps : (s.addLevel (-j.cost)).printerState p = some IPP_PRINTER_STOPPED := by
        show (s.Printers.get? p).map (fun r => r.state) = _
        rw [hp, Option.map_some', hst]
      rw [if_neg (by rw [hps]; simp)]
      simp only [Sched.addLevel]
      rw [hp]
      simp only [Option.map_some', hst, or_true, if_true]
    · have hps : (s.addLevel (-j.cost)).printerState p ≠ some IPP_PRINTER_STOPPED := by
        show (s.Printers.get? p).map (fun r => r.state) ≠ _
        rw [hp, Option.map_some']
        simpa using hst
      rw [if_pos hps]
      simp only [Sched.SetPrinterState, Sched.modPrinter, Sched.addLevel]
      rw [get?_updatePrinter_same, hp]
      simp [hneg, hst]

/-- C24: `StopJob(id, force)` on a processing job (assigned to the printer
with index `p`) subtracts `job.cost` from `FilterLevel`, sets the state of the
job to stopped, clears `job.printer` and `printer.job`, decrements
`current_file` by exactly 1 and leaves the job with `pipe = 0` and no status
buffer; the other fields of the record are kept but for the process array.  On
a job in any other state, and on an id that is not in the store, `StopJob`
changes nothing. -/
theorem StopJob_processing (s : Sched) (id : Int) (force : Bool) (j : job_t) (p : Nat)
    (r : printer_t) (hfind : FindJob s.Jobs id = some j)
    (hstate : j.state = some IPP_JOB_PROCESSING) (hprinter : j.printer = some p)
    (hp : s.Printers.get? p = some r) :
    (StopJob s id force).FilterLevel = s.FilterLevel - j.cost ∧
      FindJob (StopJob s id force).Jobs id =
        some { j with state := some IPP_JOB_STOPPED, printer := none,
                      current_file := j.current_file - 1, procs := killProcs j.procs,
                      pipe := 0, buffer := none,
                      bufused := if j.buffer.isSome then 0 else j.bufused } ∧
      ((StopJob s id force).Printers.get? p).map (fun q => q.job) = some none ∧
      ∀ (s2 : Sched) (id2 : Int) (force2 : Bool),
        (∀ j2, FindJob s2.Jobs id2 = some j2 → j2.state ≠ some IPP_JOB_PROCESSING) →
        StopJob s2 id2 force2 = s2 := by
  refine ⟨?_, ?_, ?_, fun s2 id2 force2 h => StopJob_idle s2 id2 force2 h⟩
  · rw [StopJob_FilterLevel, hfind]
    simp [budgetShare, hstate]
  · rw [StopJob_find, hfind]
    simp [hstate, stopFields]
  · rw [StopJob_Printers s id force j p r hfind hstate hprinter hp]
    rfl

theorem StopJob_processing_witness :
    (StopJob scenario4 1 false).FilterLevel = 0 ∧
      FindJob (StopJob scenario4 1 false).Jobs 1 =
        some { id := 1, priority := 50, dest := "lp2", state := some IPP_JOB_STOPPED,
               num_files := 1, current_file := 0, filetypes := [textPlain], cost := 150,
               printer := none, pipe := 0, buffer := none, procs := [0, 0] } ∧
      ((StopJob scenario4 1 false).Printers.get? 1).map (fun q => q.job) = some none :=
  ⟨(StopJob_processing scenario4 1 false
      { id := 1, priority := 50, dest := "lp2", state := some IPP_JOB_PROCESSING,
        num_files := 1, current_file := 1, filetypes := [textPlain], cost := 150,
        printer := some 1, pipe := 5, buffer := some [], procs := [90, 91] }
      1 { name := "lp2", type := 0, state := IPP_PRINTER_PROCESSING, job := some 1,
          filetype := postscript }
      (by decide) (by decide) (by decide) (by decide)).1.trans (by decide),
    (StopJob_processing scenario4 1 false
      { id := 1, priority := 50, dest := "lp2", state := some IPP_JOB_PROCESSING,
        num_files := 1, current_file := 1, filetypes := [textPlain], cost := 150,
        printer := some 1, pipe := 5, buffer := some [], procs := [90, 91] }
      1 { name := "lp2", type := 0, state := IPP_PRINTER_PROCESSING, job := some 1,
          filetype := postscript }
      (by decide) (by decide) (by decide) (by decide)).2.1.trans (by decide),
    (StopJob_processing scenario4 1 false
      { id := 1, priority := 50, dest := "lp2", state := some IPP_JOB_PROCESSING,
        num_files := 1, current_file := 1, filetypes := [textPlain], cost := 150,
        printer := some 1, pipe := 5, buffer := some [], procs := [90, 91] }
      1 { name := "lp2", type := 0, state := IPP_PRINTER_PROCESSING, job := some 1,
          filetype := postscript }
      (by decide) (by decide) (by decide) (by decide)).2.2.1⟩

/-- C25 (counterexample): job 1 is processing with status 0 on the printer
`lp2`, which was stopped while the job was printing; after `StopJob(1, 0)` the
printer is still stopped, not idle. -/
theorem StopJob_keeps_printer_stopped :
    (FindJob (scenario4.SetPrinterState 1 IPP_PRINTER_STOPPED).Jobs 1).map
        (fun j => (j.state, j.status, j.printer)) =
        some (some IPP_JOB_PROCESSING, 0, some 1) ∧
      (StopJob (scenario4.SetPrinterState 1 IPP_PRINTER_STOPPED) 1 false).printerState 1 =
        some IPP_PRINTER_STOPPED := by
  decide

/-- C25 (amended): for every processing job, after `StopJob` the printer it
was assigned to is in state stopped if the accumulated status of the job was
negative or the printer was already stopped before the call, and in state idle
otherwise. -/
theorem StopJob_printer_state (s : Sched) (id : Int) (force : Bool) (j : job_t) (p : Nat)
    (r : printer_t) (hfind : FindJob s.Jobs id = some j)
    (hstate : j.state = some IPP_JOB_PROCESSING) (hprinter : j.printer = some p)
    (hp : s.Printers.get? p = some r) :
    (StopJob s id force).printerState p =
      some (if j.status < 0 ∨ r.state = IPP_PRINTER_STOPPED then IPP_PRINTER_STOPPED
            else IPP_PRINTER_IDLE) := by
  unfold Sched.printerState
  rw [StopJob_Printers s id force j p r hfind hstate hprinter hp]
  rfl

theorem StopJob_printer_state_witness :
    (StopJob scenario4 1 false).printerState 1 = some IPP_PRINTER_IDLE ∧
      (StopJob (scenario4.modJob 1 (fun j => { j with status := -1 })) 1 false).printerState 1 =
        some IPP_PRINTER_STOPPED :=
  ⟨(StopJob_printer_state scenario4 1 false
      { id := 1, priority := 50, dest := "lp2", state := some IPP_JOB_PROCESSING,
        num_files := 1, current_file := 1, filetypes := [textPlain], cost := 150,
        printer := some 1, pipe := 5, buffer := some [], procs := [90, 91] }
      1 { name := "lp2", type := 0, state := IPP_PRINTER_PROCESSING, job := some 1,
          filetype := postscript }
      (by decide) (by decide) (by decide) (by decide)).trans (by decide),
    (StopJob_printer_state (scenario4.modJob 1 (fun j => { j with status := -1 })) 1 false
      { id := 1, priority := 50, dest := "lp2", state := some IPP_JOB_PROCESSING,
        num_files := 1, current_file := 1, filetypes := [textPlain], cost := 150,
        printer := some 1, pipe := 5, buffer := some [], procs := [90, 91], status := -1 }
      1 { name := "lp2", type := 0, state := IPP_PRINTER_PROCESSING, job := some 1,
          filetype := postscript }
      (by decide) (by decide) (by decide) (by decide)).trans (by decide)⟩

/-! ### `CheckJobs`: held jobs and vanished destinations -/

theorem OnlyJob_refl (id : Int) (s : Sched) : OnlyJob id s s :=
  ⟨fun _ _ => rfl, List.Sublist.refl _⟩

theorem OnlyJob_trans {id : Int} {s t u : Sched} (h1 : OnlyJob id s t) (h2 : OnlyJob id t u) :
    OnlyJob id s u :=
  ⟨fun k hk => (h2.1 k hk).trans (h1.1 k hk), h2.2.trans h1.2⟩

theorem OnlyJob_of_eq (id : Int) {s t : Sched} (hJ : t.Jobs = s.Jobs) : OnlyJob id s t :=
  ⟨fun _ _ => by rw [hJ], by rw [hJ]⟩

theorem OnlyJob_modJob (id : Int) (s : Sched) (f : job_t → job_t)
    (hf : ∀ j, (f j).id = j.id) : OnlyJob id s (s.modJob id f) :=
  ⟨fun _ hk => FindJob_updateJob_ne _ _ _ _ hf hk, by
    rw [modJob_Jobs, map_id_updateJob id f s.Jobs hf]⟩

theorem OnlyJob_dropJob (id : Int) (s : Sched) : OnlyJob id s (s.dropJob id) :=
  ⟨fun _ hk => FindJob_removeJob_ne _ _ _ hk, (removeJob_sublist id s.Jobs).map _⟩

theorem OnlyJob_ite (id : Int) (s : Sched) {c : Prop} [Decidable c] {t e : Sched}
    (ht : OnlyJob id s t) (he : OnlyJob id s e) : OnlyJob id s (if c then t else e) := by
  split
  · exact ht
  · exact he

theorem OnlyJob_SaveJob (id : Int) (s : Sched) (id2 : Int) : OnlyJob id s (SaveJob s id2) :=
  OnlyJob_of_eq id (SaveJob_Jobs s id2)

theorem OnlyJob_StopJob (id : Int) (s : Sched) (force : Bool) :
    OnlyJob id s (StopJob s id force) := by
  have h : (StopJob s id force).Jobs = s.Jobs ∨
      (StopJob s id force).Jobs = (s.modJob id stopFields).Jobs := by
    rw [StopJob_Jobs]
    split
    · exact Or.inr rfl
    · exact Or.inl rfl
  rcases h with h | h
  · exact OnlyJob_of_eq id h
  · exact OnlyJob_trans (OnlyJob_modJob id s stopFields stopFields_id) (OnlyJob_of_eq id h)

theorem OnlyJob_CancelJob (now : Int) (id : Int) (s : Sched) (purge : Bool) :
    OnlyJob id s (CancelJob now s id purge) := by
  unfold CancelJob
  split
  · exact OnlyJob_refl _ _
  · next found hfound =>
    have h1 : OnlyJob id s
        (if found.state = some IPP_JOB_PROCESSING then StopJob s id false else s) :=
      OnlyJob_ite id s (OnlyJob_StopJob id s false) (OnlyJob_refl _ _)
    have h2 := OnlyJob_trans h1 (OnlyJob_modJob id _ (cancelFields now) (cancelFields_id now))
    simp only []
    split
    · split
      · exact OnlyJob_trans (OnlyJob_trans h2 (OnlyJob_of_eq id (emit_Jobs _ _)))
          (OnlyJob_SaveJob _ _ _)
      · exact OnlyJob_trans h2 (OnlyJob_SaveJob _ _ _)
    · split
      · exact OnlyJob_trans (OnlyJob_trans (OnlyJob_trans h2 (OnlyJob_of_eq id (emit_Jobs _ _)))
          (OnlyJob_of_eq id (emit_Jobs _ _))) (OnlyJob_dropJob _ _)
      · exact OnlyJob_trans (OnlyJob_trans h2 (OnlyJob_of_eq id (emit_Jobs _ _)))
          (OnlyJob_dropJob _ _)

theorem OnlyJob_startProcesses (env : Env) (id : Int) (printer : Nat) (s : Sched)
    (nfilters : Nat) : OnlyJob id s (startProcesses env s id printer nfilters) := by
  have h1 : OnlyJob id s (s.modJob id (fun j => { j with current_file := j.current_file + 1 })) :=
    OnlyJob_modJob id s _ (by intro _; rfl)
  unfold startProcesses
  simp only []
  split
  · exact h1
  · next current hcur =>
    split
    · exact OnlyJob_trans h1 (OnlyJob_CancelJob _ _ _ _)
    · have h2 : OnlyJob id s
          (if current.buffer = none then
            (s.modJob id (fun j => { j with current_file := j.current_file + 1 })).modJob id
              (fun j => { j with buffer := some [], bufused := 0 })
           else s.modJob id (fun j => { j with current_file := j.current_file + 1 })) :=
        OnlyJob_ite id s (OnlyJob_trans h1 (OnlyJob_modJob id _ _ (by intro _; rfl))) h1
      split
      · exact OnlyJob_trans h2 (OnlyJob_of_eq id (modPrinter_Jobs _ _ _))
      · apply OnlyJob_ite
        · exact OnlyJob_trans (OnlyJob_trans h2 (OnlyJob_modJob id _ _ (by intro _; rfl)))
            (OnlyJob_of_eq id (modPrinter_Jobs _ _ _))
        · exact OnlyJob_trans (OnlyJob_trans h2 (OnlyJob_modJob id _ _ (by intro _; rfl)))
            (OnlyJob_of_eq id (fdSet_Jobs _ _))

theorem OnlyJob_StartJob (env : Env) (id : Int) (printer : Nat) (s : Sched) :
    OnlyJob id s (StartJob env s id printer) := by
  unfold StartJob
  split
  · exact OnlyJob_refl _ _
  · next current hcur =>
    split
    · exact OnlyJob_CancelJob _ _ _ _
    · split
      · exact OnlyJob_refl _ _
      · next p hp =>
        split
        · have h1 : OnlyJob id s
              (s.modJob id (fun j => { j with cost := 0, current_file := j.current_file + 1 })) :=
            OnlyJob_modJob id s _ (by intro _; rfl)
          simp only []
          split
          · exact OnlyJob_trans h1 (OnlyJob_CancelJob _ _ _ _)
          · exact h1
        · simp only []
          generalize (if p.type &&& CUPS_PRINTER_REMOTE = 0 then
              removeNullFilters (env.mimeFilter (currentFiletype current) p.filetype)
            else []) = filters
          split
          · exact OnlyJob_modJob id s _ (by intro _; rfl)
          · have h1 : OnlyJob id s
                ((((s.addLevel (addCosts 0 filters)).modJob id
                  (admitFields env.time (addCosts 0 filters) printer)).modPrinter printer
                  (fun r => { r with job := some id })).SetPrinterState printer
                  IPP_PRINTER_PROCESSING) :=
              OnlyJob_trans (OnlyJob_trans (OnlyJob_trans (OnlyJob_of_eq id (addLevel_Jobs _ _))
                (OnlyJob_modJob id _ _ (admitFields_id _ _ _)))
                (OnlyJob_of_eq id (modPrinter_Jobs _ _ _)))
                (OnlyJob_of_eq id (SetPrinterState_Jobs _ _ _))
            exact OnlyJob_trans h1 (OnlyJob_startProcesses env id _ _ _)

theorem OnlyJob_dispatch (env : Env) (id : Int) (s : Sched) (dest : String) :
    OnlyJob id s (dispatch env s id dest) := by
  unfold dispatch
  split
  · exact OnlyJob_CancelJob _ _ _ _
  · exact OnlyJob_refl _ _
  · split
    · exact OnlyJob_refl _ _
    · split
      · exact OnlyJob_StartJob env id _ s
      · exact OnlyJob_refl _ _

theorem OnlyJob_CheckJob (env : Env) (id : Int) (s : Sched) :
    OnlyJob id s (CheckJob env s id) := by
  unfold CheckJob
  split
  · exact OnlyJob_refl _ _
  · split
    · exact OnlyJob_trans (OnlyJob_modJob id s _ (by intro _; rfl)) (OnlyJob_dispatch env id _ _)
    · split
      · exact OnlyJob_dispatch env id s _
      · exact OnlyJob_refl _ _

theorem foldl_CheckJob_other (env : Env) (x : Int) :
    ∀ (ids : List Int) (s : Sched), x ∉ ids →
      FindJob (ids.foldl (CheckJob env) s).Jobs x = FindJob s.Jobs x := by
  intro ids
  induction ids with
  | nil => intro s _; rfl
  | cons i rest ih =>
    intro s hx
    rw [List.foldl_cons, ih _ (fun h => hx (List.mem_cons_of_mem _ h))]
    exact (OnlyJob_CheckJob env i s).1 x (fun e => hx (by rw [e]; exact List.mem_cons_self _ _))

theorem foldl_CheckJob_ids (env : Env) :
    ∀ (ids : List Int) (s : Sched),
      ((ids.foldl (CheckJob env) s).Jobs.map (fun j => j.id)).Sublist
        (s.Jobs.map (fun j => j.id)) := by
  intro ids
  induction ids with
  | nil => intro s; exact List.Sublist.refl _
  | cons i rest ih =>
    intro s
    rw [List.foldl_cons]
    exact (ih _).trans (OnlyJob_CheckJob env i s).2

theorem CheckJobs_nodup (env : Env) (s : Sched) (hnd : (s.Jobs.map (fun j => j.id)).Nodup) :
    ((CheckJobs env s).Jobs.map (fun j => j.id)).Nodup :=
  hnd.sublist (foldl_CheckJob_ids env _ s)

/-- The rounds of `CheckJobs` seen from one job of a store with distinct ids:
the rounds before its own leave its record alone, and what its own round
leaves of it is what `CheckJobs` leaves of it. -/
theorem CheckJobs_round (env : Env) (s : Sched) (x : Int) (j : job_t)
    (hnd : (s.Jobs.map (fun j => j.id)).Nodup) (hfind : FindJob s.Jobs x = some j) :
    ∃ s1, FindJob s1.Jobs x = some j ∧ (s1.Jobs.map (fun j => j.id)).Nodup ∧
      FindJob (CheckJobs env s).Jobs x = FindJob (CheckJob env s1 x).Jobs x := by
  have hmem : x ∈ s.Jobs.map (fun j => j.id) :=
    List.mem_map.2 ⟨j, FindJob_mem hfind, FindJob_id hfind⟩
  obtain ⟨pre, post, hsplit⟩ := List.append_of_mem hmem
  have hnd2 := hnd
  rw [hsplit, List.nodup_append] at hnd2
  have hpre : x ∉ pre := fun h => hnd2.2.2 h (List.mem_cons_self _ _)
  have hpost : x ∉ post := (List.nodup_cons.1 hnd2.2.1).1
  refine ⟨pre.foldl (CheckJob env) s, ?_, hnd.sublist (foldl_CheckJob_ids env _ s), ?_⟩
  · rw [foldl_CheckJob_other env x pre s hpre, hfind]
  · unfold CheckJobs
    rw [hsplit, List.foldl_append, List.foldl_cons, foldl_CheckJob_other env x post _ hpost]

theorem notHeld_of_eq (x : Int) {s t : Sched} (hJ : t.Jobs = s.Jobs) (h : notHeld x s) :
    notHeld x t := by
  unfold notHeld at *
  rw [hJ]
  exact h

theorem notHeld_modJob (x : Int) (s : Sched) (f : job_t → job_t)
    (hf : ∀ j, j.state ≠ some IPP_JOB_HELD → (f j).state ≠ some IPP_JOB_HELD)
    (h : notHeld x s) : notHeld x (s.modJob x f) := by
  intro j hj hx
  rcases mem_updateJob hj with hm | ⟨j0, hj0, rfl⟩
  · exact h j hm hx
  · exact hf j0 (h j0 (FindJob_mem hj0) (FindJob_id hj0))

theorem notHeld_set (x : Int) (s : Sched) (f : job_t → job_t)
    (hid : ∀ j, (f j).id = j.id) (hf : ∀ j, (f j).state ≠ some IPP_JOB_HELD)
    (hnd : (s.Jobs.map (fun j => j.id)).Nodup) : notHeld x (s.modJob x f) := by
  intro j hj hx
  have hnd2 : ((s.modJob x f).Jobs.map (fun j => j.id)).Nodup := by
    rw [modJob_Jobs, map_id_updateJob x f s.Jobs hid]
    exact hnd
  have h1 := FindJob_of_mem_nodup hnd2 hj
  rw [hx, modJob_Jobs, FindJob_updateJob_same _ _ _ hid] at h1
  cases hfind : FindJob s.Jobs x with
  | none => rw [hfind] at h1; cases h1
  | some j0 =>
    rw [hfind] at h1
    simp only [Option.map_some', Option.some.injEq] at h1
    rw [← h1]
    exact hf j0

theorem notHeld_dropJob (x : Int) (s : Sched) (h : notHeld x s) : notHeld x (s.dropJob x) :=
  fun j hj hx => h j ((removeJob_sublist x s.Jobs).subset hj) hx

theorem notHeld_ite (x : Int) {c : Prop} [Decidable c] {t e : Sched}
    (ht : notHeld x t) (he : notHeld x e) : notHeld x (if c then t else e) := by
  split
  · exact ht
  · exact he

theorem notHeld_SaveJob (x : Int) (s : Sched) (id2 : Int) (h : notHeld x s) :
    notHeld x (SaveJob s id2) :=
  notHeld_of_eq x (SaveJob_Jobs s id2) h

theorem notHeld_StopJob (x : Int) (s : Sched) (force : Bool) (h : notHeld x s) :
    notHeld x (StopJob s x force) := by
  have hj : (StopJob s x force).Jobs = s.Jobs ∨
      (StopJob s x force).Jobs = (s.modJob x stopFields).Jobs := by
    rw [StopJob_Jobs]
    split
    · exact Or.inr rfl
    · exact Or.inl rfl
  rcases hj with hj | hj
  · exact notHeld_of_eq x hj h
  · exact notHeld_of_eq x hj
      (notHeld_modJob x s stopFields (by intro _ _; simp [stopFields, IPP_JOB_STOPPED, IPP_JOB_HELD]) h)

theorem notHeld_CancelJob (now : Int) (x : Int) (s : Sched) (purge : Bool) (h : notHeld x s) :
    notHeld x (CancelJob now s x purge) := by
  unfold CancelJob
  split
  · exact h
  · next found hfound =>
    have h1 : notHeld x
        (if found.state = some IPP_JOB_PROCESSING then StopJob s x false else s) :=
      notHeld_ite x (notHeld_StopJob x s false h) h
    have h2 := notHeld_modJob x _ (cancelFields now)
      (by intro j _; rw [cancelFields_state]; simp [IPP_JOB_CANCELLED, IPP_JOB_HELD]) h1
    simp only []
    split
    · split
      · exact notHeld_SaveJob x _ _ (notHeld_of_eq x (emit_Jobs _ _) h2)
      · exact notHeld_SaveJob x _ _ h2
    · split
      · exact notHeld_dropJob x _ (notHeld_of_eq x (emit_Jobs _ _)
          (notHeld_of_eq x (emit_Jobs _ _) h2))
      · exact notHeld_dropJob x _ (notHeld_of_eq x (emit_Jobs _ _) h2)

theorem notHeld_startProcesses (env : Env) (x : Int) (printer : Nat) (s : Sched)
    (nfilters : Nat) (h : notHeld x s) :
    notHeld x (startProcesses env s x printer nfilters) := by
  have h1 : notHeld x (s.modJob x (fun j => { j with current_file := j.current_file + 1 })) :=
    notHeld_modJob x s _ (by intro _ hj; exact hj) h
  unfold startProcesses
  simp only []
  split
  · exact h1
  · next current hcur =>
    split
    · exact notHeld_CancelJob _ _ _ _ h1
    · have h2 : notHeld x
          (if current.buffer = none then
            (s.modJob x (fun j => { j with current_file := j.current_file + 1 })).modJob x
              (fun j => { j with buffer := some [], bufused := 0 })
           else s.modJob x (fun j => { j with current_file := j.current_file + 1 })) :=
        notHeld_ite x (notHeld_modJob x _ _ (by intro _ hj; exact hj) h1) h1
      split
      · exact notHeld_of_eq x (modPrinter_Jobs _ _ _) h2
      · apply notHeld_ite
        · exact notHeld_of_eq x (modPrinter_Jobs _ _ _)
            (notHeld_modJob x _ _ (by intro _ hj; exact hj) h2)
        · exact notHeld_of_eq x (fdSet_Jobs _ _)
            (notHeld_modJob x _ _ (by intro _ hj; exact hj) h2)

theorem notHeld_StartJob (env : Env) (x : Int) (printer : Nat) (s : Sched) (h : notHeld x s) :
    notHeld x (StartJob env s x printer) := by
  unfold StartJob
  split
  · exact h
  · next current hcur =>
    split
    · exact notHeld_CancelJob _ _ _ _ h
    · split
      · exact h
      · next p hp =>
        split
        · have h1 : notHeld x
              (s.modJob x (fun j => { j with cost := 0, current_file := j.current_file + 1 })) :=
            notHeld_modJob x s _ (by intro _ hj; exact hj) h
          simp only []
          split
          · exact notHeld_CancelJob _ _ _ _ h1
          · exact h1
        · simp only []
          generalize (if p.type &&& CUPS_PRINTER_REMOTE = 0 then
              removeNullFilters (env.mimeFilter (currentFiletype current) p.filetype)
            else []) = filters
          split
          · exact notHeld_modJob x s _ (by intro _ hj; exact hj) h
          · have h1 : notHeld x
                ((((s.addLevel (addCosts 0 filters)).modJob x
                  (admitFields env.time (addCosts 0 filters) printer)).modPrinter printer
                  (fun r => { r with job := some x })).SetPrinterState printer
                  IPP_PRINTER_PROCESSING) :=
              notHeld_of_eq x (SetPrinterState_Jobs _ _ _) (notHeld_of_eq x (modPrinter_Jobs _ _ _)
                (notHeld_modJob x _ _
                  (by intro j _; rw [admitFields_state]; simp [IPP_JOB_PROCESSING, IPP_JOB_HELD])
                  (notHeld_of_eq x (addLevel_Jobs _ _) h)))
            exact notHeld_startProcesses env x _ _ _ h1

theorem notHeld_dispatch (env : Env) (x : Int) (s : Sched) (dest : String) (h : notHeld x s) :
    notHeld x (dispatch env s x dest) := by
  unfold dispatch
  split
  · exact notHeld_CancelJob _ _ _ _ h
  · exact h
  · split
    · exact h
    · split
      · exact notHeld_StartJob env x _ s h
      · exact h

theorem CheckJob_idle (env : Env) (s : Sched) (x : Int) (j : job_t)
    (hfind : FindJob s.Jobs x = some j) (hpend : j.state ≠ some IPP_JOB_PENDING)
    (hexp : ¬ holdExpired env.time j) : CheckJob env s x = s := by
  unfold holdExpired at hexp
  unfold CheckJob
  simp only [hfind]
  rw [if_neg hexp, if_neg hpend]

theorem CheckJobs_unchanged (env : Env) (s : Sched) (x : Int) (j : job_t)
    (hnd : (s.Jobs.map (fun j => j.id)).Nodup) (hfind : FindJob s.Jobs x = some j)
    (hpend : j.state ≠ some IPP_JOB_PENDING) (hexp : ¬ holdExpired env.time j) :
    FindJob (CheckJobs env s).Jobs x = some j := by
  obtain ⟨s1, h1, _, hres⟩ := CheckJobs_round env s x j hnd hfind
  rw [hres, CheckJob_idle env s1 x j h1 hpend hexp, h1]

theorem CheckJobs_released (env : Env) (s : Sched) (x : Int) (j : job_t)
    (hnd : (s.Jobs.map (fun j => j.id)).Nodup) (hfind : FindJob s.Jobs x = some j)
    (hexp : holdExpired env.time j) :
    ∀ j2, FindJob (CheckJobs env s).Jobs x = some j2 → j2.state ≠ some IPP_JOB_HELD := by
  obtain ⟨s1, h1, hnd1, hres⟩ := CheckJobs_round env s x j hnd hfind
  intro j2 hj2
  rw [hres] at hj2
  have hstep : CheckJob env s1 x =
      dispatch env (s1.modJob x (fun j => { j with state := some IPP_JOB_PENDING })) x j.dest := by
    unfold holdExpired at hexp
    unfold CheckJob
    simp only [h1]
    rw [if_pos hexp]
  rw [hstep] at hj2
  exact notHeld_dispatch env x _ j.dest
    (notHeld_set x s1 _ (by intro _; rfl) (by intro _; simp [IPP_JOB_PENDING, IPP_JOB_HELD]) hnd1)
    j2 (FindJob_mem hj2) (FindJob_id hj2)

theorem checkRounds_nodup (envs : List Env) :
    ∀ s : Sched, (s.Jobs.map (fun j => j.id)).Nodup →
      ((checkRounds s envs).Jobs.map (fun j => j.id)).Nodup := by
  induction envs with
  | nil => intro s h; exact h
  | cons env rest ih => intro s h; exact ih _ (CheckJobs_nodup env s h)

theorem checkRounds_indefinite (x : Int) (j : job_t) (hzero : j.hold_until = 0) :
    ∀ (envs : List Env) (s : Sched), (s.Jobs.map (fun j => j.id)).Nodup →
      FindJob s.Jobs x = some j → j.state = some IPP_JOB_HELD →
      FindJob (checkRounds s envs).Jobs x = some j := by
  intro envs
  induction envs with
  | nil => intro s _ hfind _; exact hfind
  | cons env rest ih =>
    intro s hnd hfind hheld
    exact ih _ (CheckJobs_nodup env s hnd)
      (CheckJobs_unchanged env s x j hnd hfind (by rw [hheld]; decide)
        (fun h => h.2.1 hzero)) hheld

/-- C22: in a store with distinct job ids, `CheckJobs` takes a held job out
of the held state if and only if its `hold_until` is non-zero and earlier than
the current time: when it is, the job is no longer held after `CheckJobs` (it
is pending, processing or cancelled, or gone from the store), and when it is
not, the record of the job is unchanged.  A held job with `hold_until = 0` is
never released: its record is unchanged, still held, after any number of
`CheckJobs` calls, whatever the collaborators and times of the calls. -/
theorem CheckJobs_hold_release (env : Env) (s : Sched) (x : Int) (j : job_t)
    (hnd : (s.Jobs.map (fun j => j.id)).Nodup) (hfind : FindJob s.Jobs x = some j)
    (hheld : j.state = some IPP_JOB_HELD) :
    (j.hold_until ≠ 0 ∧ j.hold_until < env.time →
        ∀ j2, FindJob (CheckJobs env s).Jobs x = some j2 → j2.state ≠ some IPP_JOB_HELD) ∧
      (¬ (j.hold_until ≠ 0 ∧ j.hold_until < env.time) →
        FindJob (CheckJobs env s).Jobs x = some j) ∧
      (j.hold_until = 0 →
        ∀ envs : List Env, FindJob (checkRounds s envs).Jobs x = some j) := by
  refine ⟨fun h => CheckJobs_released env s x j hnd hfind ⟨hheld, h⟩, fun h => ?_, fun h envs => ?_⟩
  · exact CheckJobs_unchanged env s x j hnd hfind (by rw [hheld]; decide) (fun he => h he.2)
  · exact checkRounds_indefinite x j h envs s hnd hfind hheld

theorem CheckJobs_hold_release_witness :
    (∀ j2, FindJob (CheckJobs scenarioEnv heldStore).Jobs 6 = some j2 →
        j2.state ≠ some IPP_JOB_HELD) ∧
      (FindJob (checkRounds heldStore [scenarioEnv, scenarioEnv]).Jobs 4).map
        (fun j => (j.state, j.hold_until)) = some (some IPP_JOB_HELD, 0) :=
  ⟨(CheckJobs_hold_release scenarioEnv heldStore 6
      { id := 6, priority := 50, dest := "lp", state := some IPP_JOB_HELD,
        hold_until := 500, num_files := 1, filetypes := [textPlain] }
      (by decide) (by decide) rfl).1 (by decide),
    by
      rw [(CheckJobs_hold_release scenarioEnv heldStore 4
        { id := 4, priority := 50, dest := "lp", state := some IPP_JOB_HELD,
          num_files := 1, filetypes := [textPlain] }
        (by decide) (by decide) rfl).2.2 rfl [scenarioEnv, scenarioEnv]]
      rfl⟩

/-- C23: in a store with distinct job ids, a pending job whose destination
name resolves to neither a class nor a printer is cancelled with purge by
`CheckJobs`: afterwards no record with its id is in the store, whatever the
history policy.  A job that is neither pending nor held with a hold time that
has passed is left unchanged by `CheckJobs`. -/
theorem CheckJobs_destination_gone (env : Env) (s : Sched) (x : Int) (j : job_t)
    (hnd : (s.Jobs.map (fun j => j.id)).Nodup) (hfind : FindJob s.Jobs x = some j) :
    (j.state = some IPP_JOB_PENDING → env.FindClass j.dest = none →
        env.FindPrinter j.dest = none →
        FindJob (CheckJobs env s).Jobs x = none ∧ ∀ k ∈ (CheckJobs env s).Jobs, k.id ≠ x) ∧
      (j.state ≠ some IPP_JOB_PENDING → ¬ holdExpired env.time j →
        FindJob (CheckJobs env s).Jobs x = some j) := by
  refine ⟨fun hpend hclass hprinter => ?_, fun hpend hexp =>
    CheckJobs_unchanged env s x j hnd hfind hpend hexp⟩
  obtain ⟨s1, h1, hnd1, hres⟩ := CheckJobs_round env s x j hnd hfind
  have hstep : CheckJob env s1 x = CancelJob env.time s1 x true := by
    unfold CheckJob
    simp only [h1]
    rw [if_neg (by rw [hpend]; simp [IPP_JOB_PENDING, IPP_JOB_HELD]), if_pos hpend]
    unfold dispatch resolveDest
    simp only [hclass, hprinter]
    rfl
  have hnone : FindJob (CheckJobs env s).Jobs x = none := by
    rw [hres, hstep, CancelJob_purge_Jobs]
    exact FindJob_removeJob_same hnd1
  refine ⟨hnone, fun k hk hx => ?_⟩
  have := List.find?_eq_none.1 hnone k hk
  simp [hx] at this

theorem CheckJobs_destination_gone_witness :
    (FindJob (CheckJobs scenarioEnv heldStore).Jobs 8 = none ∧
        ∀ k ∈ (CheckJobs scenarioEnv heldStore).Jobs, k.id ≠ 8) ∧
      FindJob (CheckJobs scenarioEnv heldStore).Jobs 9 =
        some { id := 9, priority := 50, dest := "lp", state := some IPP_JOB_STOPPED,
               num_files := 1, filetypes := [textPlain] } :=
  ⟨(CheckJobs_destination_gone scenarioEnv heldStore 8
      { id := 8, priority := 50, dest := "gone", state := some IPP_JOB_PENDING,
        num_files := 1, filetypes := [textPlain] }
      (by decide) (by decide)).1 rfl rfl rfl,
    (CheckJobs_destination_gone scenarioEnv heldStore 9
      { id := 9, priority := 50, dest := "lp", state := some IPP_JOB_STOPPED,
        num_files := 1, filetypes := [textPlain] }
      (by decide) (by decide)).2 (by decide) (by decide)⟩

/-! ### `UpdateJob` at end of file -/

theorem SaveJob_Printers (s : Sched) (id : Int) : (SaveJob s id).Printers = s.Printers := by
  unfold SaveJob; split <;> rfl

theorem SaveJob_log (s : Sched) (id : Int) (j : job_t) (h : FindJob s.Jobs id = some j) :
    (SaveJob s id).log = s.log ++ [Event.save (controlFile s.RequestRoot id)] := by
  unfold SaveJob
  rw [h]
  rfl

theorem UpdateJobEnd_negative (env : Env) (s : Sched) (id : Int) (j : job_t)
    (hfind : FindJob s.Jobs id = some j) (hneg : j.status < 0) :
    UpdateJobEnd env s id =
      some (SaveJob ((StopJob ((s.modJob id (fun j => { j with pipe := 0 })).closePipe j.pipe)
        id false).modJob id (fun j => { j with state := some IPP_JOB_PENDING })) id) := by
  unfold UpdateJobEnd
  simp only [hfind]
  rw [if_pos hneg]

theorem closedPipe_find (s : Sched) (id : Int) (j : job_t) (hfind : FindJob s.Jobs id = some j) :
    FindJob ((s.modJob id (fun j => { j with pipe := 0 })).closePipe j.pipe).Jobs id =
      some { j with pipe := 0 } := by
  rw [closePipe_Jobs, modJob_Jobs, FindJob_updateJob_same _ _ _ (by intro _; rfl), hfind]
  rfl

/-- C26: when `UpdateJob` processes end-of-file on the status pipe of a
processing job (assigned to the printer with index `p`) whose accumulated
status is negative, then afterwards the printer is stopped, the job is pending
with no assigned printer, `FilterLevel` has dropped by the cost of the job,
`current_file` is one less, so that it is again the index of the file that was
being printed, and the last file operation is the rewrite of the control
file. -/
theorem UpdateJobEnd_backend_fault (env : Env) (s : Sched) (id : Int) (j : job_t) (p : Nat)
    (r : printer_t) (hfind : FindJob s.Jobs id = some j)
    (hstate : j.state = some IPP_JOB_PROCESSING) (hprinter : j.printer = some p)
    (hp : s.Printers.get? p = some r) (hneg : j.status < 0) :
    ∃ t, UpdateJobEnd env s id = some t ∧
      t.printerState p = some IPP_PRINTER_STOPPED ∧
      (∃ j2, FindJob t.Jobs id = some j2 ∧
        j2.state = some IPP_JOB_PENDING ∧ j2.printer = none ∧
        j2.current_file = j.current_file - 1) ∧
      t.FilterLevel = s.FilterLevel - j.cost ∧
      t.log.getLast? = some (Event.save (controlFile s.RequestRoot id)) := by
  have h1 := closedPipe_find s id j hfind
  have hP : ((s.modJob id (fun j => { j with pipe := 0 })).closePipe j.pipe).Printers.get? p =
      some r := by
    rw [closePipe_Printers, modJob_Printers, hp]
  have hfound : FindJob ((StopJob ((s.modJob id (fun j => { j with pipe := 0 })).closePipe j.pipe)
      id false).modJob id (fun j => { j with state := some IPP_JOB_PENDING })).Jobs id =
      some { stopFields { j with pipe := 0 } with state := some IPP_JOB_PENDING } := by
    rw [modJob_Jobs, FindJob_updateJob_same _ _ _ (by intro _; rfl), StopJob_find, h1]
    simp [hstate]
  refine ⟨_, UpdateJobEnd_negative env s id j hfind hneg, ?_,
    ⟨_, by rw [SaveJob_Jobs]; exact hfound, rfl, rfl, rfl⟩, ?_, ?_⟩
  · unfold Sched.printerState
    rw [SaveJob_Printers, modJob_Printers,
      StopJob_Printers _ id false { j with pipe := 0 } p r h1 hstate hprinter hP]
    simp [hneg]
  · rw [SaveJob_FilterLevel, modJob_FilterLevel, StopJob_FilterLevel, h1]
    simp [budgetShare, hstate]
  · rw [SaveJob_log _ id _ hfound, modJob_RequestRoot, StopJob_RequestRoot, closePipe_RequestRoot,
      modJob_RequestRoot]
    simp

theorem UpdateJobEnd_backend_fault_witness :
    ∃ t, UpdateJobEnd scenarioEnv (scenario4.modJob 1 (fun j => { j with status := -1 })) 1 =
        some t ∧
      t.printerState 1 = some IPP_PRINTER_STOPPED ∧
      (∃ j2, FindJob t.Jobs 1 = some j2 ∧
        j2.state = some IPP_JOB_PENDING ∧ j2.printer = none ∧ j2.current_file = 0) ∧
      t.FilterLevel = 0 ∧
      t.log.getLast? = some (Event.save "/c00001") :=
  UpdateJobEnd_backend_fault scenarioEnv (scenario4.modJob 1 (fun j => { j with status := -1 })) 1
    { id := 1, priority := 50, dest := "lp2", state := some IPP_JOB_PROCESSING,
      num_files := 1, current_file := 1, filetypes := [textPlain], cost := 150,
      printer := some 1, pipe := 5, buffer := some [], procs := [90, 91], status := -1 }
    1 { name := "lp2", type := 0, state := IPP_PRINTER_PROCESSING, job := some 1,
        filetype := postscript }
    (by decide) (by decide) (by decide) (by decide) (by decide)

theorem CancelJob_keep_find (now : Int) (s : Sched) (id : Int) (purge : Bool) (j : job_t)
    (hfind : FindJob s.Jobs id = some j)
    (hkeep : s.JobHistory = true ∧ purge = false ∧ j.dtype &&& CUPS_PRINTER_REMOTE = 0) :
    FindJob (CancelJob now s id purge).Jobs id =
      some (cancelFields now (if j.state = some IPP_JOB_PROCESSING then stopFields j else j)) := by
  have hc : (s.JobHistory && !purge && !decide (j.dtype &&& CUPS_PRINTER_REMOTE ≠ 0)) = true := by
    simp [hkeep.1, hkeep.2.1, hkeep.2.2]
  have h1 : FindJob (if j.state = some IPP_JOB_PROCESSING then StopJob s id false else s).Jobs id =
      some (if j.state = some IPP_JOB_PROCESSING then stopFields j else j) := by
    split
    · next hp =>
      rw [StopJob_find, hfind]
      simp [hp]
    · exact hfind
  unfold CancelJob
  simp only [hfind]
  rw [if_pos hc, SaveJob_Jobs]
  split
  · rw [emit_Jobs, modJob_Jobs, FindJob_updateJob_same _ _ _ (cancelFields_id now), h1]
    rfl
  · rw [modJob_Jobs, FindJob_updateJob_same _ _ _ (cancelFields_id now), h1]
    rfl

theorem CancelJob_remote_freed (now : Int) (s : Sched) (id : Int) (j : job_t)
    (hnd : (s.Jobs.map (fun j => j.id)).Nodup) (hfind : FindJob s.Jobs id = some j)
    (hremote : j.dtype &&& CUPS_PRINTER_REMOTE ≠ 0) :
    FindJob (CancelJob now s id false).Jobs id = none := by
  rw [(CancelJob_drop_Jobs now s id false j hfind (fun h => hremote h.2.2)).1,
    FindJob_removeJob_same hnd]

theorem finishJob_find (env : Env) (s : Sched) (id : Int) (final : Int) (j : job_t)
    (hnd : (s.Jobs.map (fun j => j.id)).Nodup) (hfind : FindJob s.Jobs id = some j)
    (hstate : j.state = some IPP_JOB_PROCESSING) (hhist : s.JobHistory = true)
    (hlocal : j.dtype &&& CUPS_PRINTER_REMOTE = 0)
    (hfinal : final ≠ IPP_JOB_PENDING ∧ final ≠ IPP_JOB_HELD) :
    ∃ t j2, finishJob env s id final = some t ∧ FindJob t.Jobs id = some j2 ∧
      j2.state = some final ∧ j2.printer = none := by
  have hc := CancelJob_keep_find env.time s id false j hfind ⟨hhist, rfl, hlocal⟩
  rw [if_pos hstate] at hc
  unfold finishJob
  simp only []
  rw [if_pos hhist, hc]
  simp only []
  have hnd2 : ((SaveJob ((CancelJob env.time s id false).modJob id
      (fun j => { j with state := some final })) id).Jobs.map (fun j => j.id)).Nodup := by
    rw [SaveJob_Jobs, modJob_Jobs, map_id_updateJob id _ _ (by intro _; rfl)]
    exact hnd.sublist (OnlyJob_CancelJob env.time id s false).2
  have hf2 : FindJob (SaveJob ((CancelJob env.time s id false).modJob id
      (fun j => { j with state := some final })) id).Jobs id =
      some { cancelFields env.time (stopFields j) with state := some final } := by
    rw [SaveJob_Jobs, modJob_Jobs, FindJob_updateJob_same _ _ _ (by intro _; rfl), hc]
    rfl
  refine ⟨_, _, rfl, CheckJobs_unchanged env _ id _ hnd2 hf2 ?_ ?_, rfl, rfl⟩
  · intro h
    exact hfinal.1 (Option.some.inj h)
  · intro h
    exact hfinal.2 (Option.some.inj h.1)

theorem finishJob_remote (env : Env) (s : Sched) (id : Int) (final : Int) (j : job_t)
    (hnd : (s.Jobs.map (fun j => j.id)).Nodup) (hfind : FindJob s.Jobs id = some j)
    (hhist : s.JobHistory = true) (hremote : j.dtype &&& CUPS_PRINTER_REMOTE ≠ 0) :
    finishJob env s id final = none := by
  unfold finishJob
  simp only []
  rw [if_pos hhist, CancelJob_remote_freed env.time s id j hnd hfind hremote]

theorem UpdateJobEnd_last_file_finish (env : Env) (s : Sched) (id : Int) (j : job_t)
    (hfind : FindJob s.Jobs id = some j)
    (hlast : ¬ j.current_file < j.num_files) (hstatus : 0 ≤ j.status) :
    UpdateJobEnd env s id =
      finishJob env ((s.modJob id (fun j => { j with pipe := 0 })).closePipe j.pipe) id
        (if j.status = 0 then IPP_JOB_COMPLETED else IPP_JOB_ABORTED) := by
  unfold UpdateJobEnd
  simp only [hfind]
  rw [if_neg (by omega)]
  by_cases hpos : j.status > 0
  · rw [if_pos hpos, if_neg hlast, if_neg (by omega)]
  · rw [if_neg hpos, if_neg hlast, if_pos (by omega)]

/-- C27 (the code departs from the claim): job history is retained and
`UpdateJob` processes end-of-file on the last file of a processing job whose
accumulated status is not negative (in a store with distinct job ids).  When
the destination of the job is local, the job is afterwards still in the
store, with state completed if the status is zero and aborted if it is
strictly positive, and without a printer.  When the destination is remote,
`CancelJob` unlinks and frees the record, and the stamp of the final state
and `SaveJob` that the code goes on to make under `JobHistory` go through the
freed pointer: the record is not in the store and the call has no defined
result. -/
theorem UpdateJobEnd_last_file (env : Env) (s : Sched) (id : Int) (j : job_t)
    (hnd : (s.Jobs.map (fun j => j.id)).Nodup) (hfind : FindJob s.Jobs id = some j)
    (hstate : j.state = some IPP_JOB_PROCESSING) (hhist : s.JobHistory = true)
    (hlast : ¬ j.current_file < j.num_files) (hstatus : 0 ≤ j.status) :
    (j.dtype &&& CUPS_PRINTER_REMOTE = 0 →
      ∃ t j2, UpdateJobEnd env s id = some t ∧ FindJob t.Jobs id = some j2 ∧
        j2.state = some (if j.status = 0 then IPP_JOB_COMPLETED else IPP_JOB_ABORTED) ∧
        j2.printer = none) ∧
    (j.dtype &&& CUPS_PRINTER_REMOTE ≠ 0 →
      FindJob (CancelJob env.time
        ((s.modJob id (fun j => { j with pipe := 0 })).closePipe j.pipe) id false).Jobs id =
        none ∧
      UpdateJobEnd env s id = none) := by
  have h1 := closedPipe_find s id j hfind
  have hnd1 : (((s.modJob id (fun j => { j with pipe := 0 })).closePipe j.pipe).Jobs.map
      (fun j => j.id)).Nodup := by
    rw [closePipe_Jobs, modJob_Jobs, map_id_updateJob id _ _ (by intro _; rfl)]
    exact hnd
  have hh1 : ((s.modJob id (fun j => { j with pipe := 0 })).closePipe j.pipe).JobHistory = true := by
    rw [closePipe_JobHistory, modJob_JobHistory, hhist]
  rw [UpdateJobEnd_last_file_finish env s id j hfind hlast hstatus]
  constructor
  · intro hlocal
    refine finishJob_find env _ id _ _ hnd1 h1 hstate hh1 hlocal ?_
    split <;> decide
  · intro hremote
    exact ⟨CancelJob_remote_freed env.time _ id _ hnd1 h1 hremote,
      finishJob_remote env _ id _ _ hnd1 h1 hh1 hremote⟩

/-- C27 at scenario 4 of the spec, job 1 (processing on its only file, status
0, job history retained): with its local destination the job stays in the
store, completed and without a printer; with a remote destination the record
is freed by `CancelJob` and the call has no defined result. -/
theorem UpdateJobEnd_last_file_witness :
    (∃ t j2, UpdateJobEnd scenarioEnv scenario4 1 = some t ∧ FindJob t.Jobs 1 = some j2 ∧
      j2.state = some IPP_JOB_COMPLETED ∧ j2.printer = none) ∧
    UpdateJobEnd scenarioEnv
      (scenario4.modJob 1 (fun j => { j with dtype := CUPS_PRINTER_REMOTE })) 1 = none :=
  ⟨(UpdateJobEnd_last_file scenarioEnv scenario4 1
      { id := 1, priority := 50, dest := "lp2", state := some IPP_JOB_PROCESSING,
        num_files := 1, current_file := 1, filetypes := [textPlain], cost := 150,
        printer := some 1, pipe := 5, buffer := some [], procs := [90, 91] }
      (by decide) (by decide) (by decide) (by decide) (by decide) (by decide)).1 (by decide),
    ((UpdateJobEnd_last_file scenarioEnv
      (scenario4.modJob 1 (fun j => { j with dtype := CUPS_PRINTER_REMOTE })) 1
      { id := 1, priority := 50, dest := "lp2", state := some IPP_JOB_PROCESSING,
        num_files := 1, current_file := 1, filetypes := [textPlain], cost := 150,
        printer := some 1, pipe := 5, buffer := some [], procs := [90, 91],
        dtype := CUPS_PRINTER_REMOTE }
      (by decide) (by decide) (by decide) (by decide) (by decide) (by decide)).2 (by decide)).2⟩

/-! ### `UpdateJob`: status lines -/

/-- C28 (failing input): for the status line `NOTICE: Printer ready` the
message `UpdateJob` takes is `: Printer ready`, with the colon, where the
sibling line `INFO: Printer ready` gives `Printer ready`; and the line
`NOTICES due`, which does not begin with a `LEVEL:` token, is classified
NOTICE with message `S due` instead of DEBUG with the whole line. -/
theorem UpdateJob_notice_keeps_colon :
    classifyLine (ascii "NOTICE: Printer ready") =
        (loglevel.L_NOTICE, ascii ": Printer ready") ∧
      classifyLine (ascii "INFO: Printer ready") = (loglevel.L_INFO, ascii "Printer ready") ∧
      classifyLine (ascii "NOTICES due") = (loglevel.L_NOTICE, ascii "S due") := by
  decide

theorem strncmpEq_false (line : List Nat) (lit tok : String) (n : Nat)
    (htok : (ascii lit).take n = ascii tok) (h : ¬ ascii tok <+: line) :
    strncmpEq line lit n = false := by
  unfold strncmpEq
  rw [htok]
  simp only [decide_eq_false_iff_not]
  intro e
  apply h
  rw [← e]
  exact List.take_prefix n line

/-- A line that begins with none of the nine tokens `LEVEL:` other than
`NOTICE:` and not with `NOTICE` is classified DEBUG, and the message is the
whole line without its leading white space. -/
theorem classifyLine_default (line : List Nat)
    (h : ∀ tok ∈ ["EMERG:", "ALERT:", "CRIT:", "ERROR:", "WARNING:", "NOTICE", "INFO:",
      "DEBUG:", "DEBUG2:", "PAGE:"], ¬ ascii tok <+: line) :
    classifyLine line = (loglevel.L_DEBUG, line.dropWhile isspace) := by
  unfold classifyLine
  rw [strncmpEq_false line "EMERG:" "EMERG:" 6 (by decide) (h _ (by simp)),
    strncmpEq_false line "ALERT:" "ALERT:" 6 (by decide) (h _ (by simp)),
    strncmpEq_false line "CRIT:" "CRIT:" 5 (by decide) (h _ (by simp)),
    strncmpEq_false line "ERROR:" "ERROR:" 6 (by decide) (h _ (by simp)),
    strncmpEq_false line "WARNING:" "WARNING:" 8 (by decide) (h _ (by simp)),
    strncmpEq_false line "NOTICE:" "NOTICE" 6 (by decide) (h _ (by simp)),
    strncmpEq_false line "INFO:" "INFO:" 5 (by decide) (h _ (by simp)),
    strncmpEq_false line "DEBUG:" "DEBUG:" 6 (by decide) (h _ (by simp)),
    strncmpEq_false line "DEBUG2:" "DEBUG2:" 7 (by decide) (h _ (by simp)),
    strncmpEq_false line "PAGE:" "PAGE:" 5 (by decide) (h _ (by simp))]
  rfl

/-- The nine levels other than NOTICE: a line `LEVEL:` followed by any text
is classified with that level, and the message is the text after the colon
without its leading white space. -/
theorem classifyLine_level (text : List Nat) :
    classifyLine (ascii "EMERG:" ++ text) = (loglevel.L_EMERG, text.dropWhile isspace) ∧
      classifyLine (ascii "ALERT:" ++ text) = (loglevel.L_ALERT, text.dropWhile isspace) ∧
      classifyLine (ascii "CRIT:" ++ text) = (loglevel.L_CRIT, text.dropWhile isspace) ∧
      classifyLine (ascii "ERROR:" ++ text) = (loglevel.L_ERROR, text.dropWhile isspace) ∧
      classifyLine (ascii "WARNING:" ++ text) = (loglevel.L_WARN, text.dropWhile isspace) ∧
      classifyLine (ascii "INFO:" ++ text) = (loglevel.L_INFO, text.dropWhile isspace) ∧
      classifyLine (ascii "DEBUG:" ++ text) = (loglevel.L_DEBUG, text.dropWhile isspace) ∧
      classifyLine (ascii "DEBUG2:" ++ text) = (loglevel.L_DEBUG2, text.dropWhile isspace) ∧
      classifyLine (ascii "PAGE:" ++ text) = (loglevel.L_PAGE, text.dropWhile isspace) := by
  refine ⟨?_, ?_, ?_, ?_, ?_, ?_, ?_, ?_, ?_⟩ <;> rfl

/-- The line `NOTICE:` followed by any text is classified NOTICE, and the
message starts at the colon. -/
theorem classifyLine_notice (text : List Nat) :
    classifyLine (ascii "NOTICE:" ++ text) = (loglevel.L_NOTICE, 58 :: text) := by
  rfl

/-! ### The child reaper -/

theorem procAt_cons_succ (p : Int) (ps : List Int) (n : Nat) :
    procAt (p :: ps) (n + 1) = procAt ps n := rfl

theorem findProc_not_mem (pid : Int) : ∀ procs : List Int, pid ∉ procs →
    procAt procs (findProc pid procs) = 0
  | [], _ => rfl
  | p :: ps, h => by
    unfold findProc
    by_cases h0 : p = 0
    · rw [if_pos h0, h0]
      rfl
    · rw [if_neg h0, if_neg (fun e => h (by rw [e]; exact List.mem_cons_self _ _)),
        procAt_cons_succ]
      exact findProc_not_mem pid ps (fun hm => h (List.mem_cons_of_mem _ hm))

theorem findProc_eq (pid : Int) (hpid : pid ≠ 0) : ∀ (procs : List Int) (i : Nat),
    procs.get? i = some pid → (∀ k < i, procAt procs k ≠ 0 ∧ procAt procs k ≠ pid) →
    findProc pid procs = i
  | [], _, h, _ => by cases h
  | p :: ps, 0, h, _ => by
    have hp : p = pid := by simpa using h
    unfold findProc
    rw [if_neg (by rw [hp]; exact hpid), if_pos hp]
  | p :: ps, i + 1, h, hk => by
    have h0 : p ≠ 0 ∧ p ≠ pid := hk 0 (Nat.succ_pos i)
    unfold findProc
    rw [if_neg h0.1, if_neg h0.2,
      findProc_eq pid hpid ps i (by simpa using h) (fun k hlt => hk (k + 1) (by omega))]

theorem reapInJobs_skip (pid status : Int) (rest : List job_t) : ∀ pre : List job_t,
    (∀ k ∈ pre, k.state = some IPP_JOB_PROCESSING → pid ∉ k.procs) →
    reapInJobs pid status (pre ++ rest) = pre ++ reapInJobs pid status rest
  | [], _ => rfl
  | c :: pre, h => by
    rw [List.cons_append, reapInJobs, if_neg, reapInJobs_skip pid status rest pre
      (fun k hk => h k (List.mem_cons_of_mem _ hk)), List.cons_append]
    rintro ⟨hproc, hfound⟩
    exact hfound (findProc_not_mem pid c.procs (h c (List.mem_cons_self _ _) hproc))

/-- C29: when the child reaper observes pid `p` (not 0) with wait status
`status`, and `p` is recorded at index `i` of the process table of a
processing job (the entries before `i` are neither 0 nor `p`, and no
processing job before it in the list has `p` in its table), then `procs[i]`
becomes `-p`; the accumulated status of the job becomes `-status` when
`status` is neither 0 nor SIGTERM, the accumulated status is >= 0 and `p` is
the last process of the chain (`procs[i+1] = 0`), it becomes `status` under
the same conditions when `p` is not the last process, and it is unchanged when
`status` is 0 or SIGTERM or the accumulated status is already negative.  No
other job and nothing else in the scheduler state is modified. -/
theorem sigchld_handler_reap (s : Sched) (pid status : Int) (pre post : List job_t)
    (j : job_t) (i : Nat) (hjobs : s.Jobs = pre ++ j :: post)
    (hstate : j.state = some IPP_JOB_PROCESSING) (hpid : pid ≠ 0)
    (hrec : j.procs.get? i = some pid)
    (hfirst : ∀ k < i, procAt j.procs k ≠ 0 ∧ procAt j.procs k ≠ pid)
    (hpre : ∀ k ∈ pre, k.state = some IPP_JOB_PROCESSING → pid ∉ k.procs) :
    sigchld_handler s pid status =
      { s with Jobs := pre ++
          { j with
            procs := j.procs.set i (-pid)
            status :=
              if status ≠ 0 ∧ status ≠ SIGTERM ∧ j.status ≥ 0 then
                if procAt j.procs (i + 1) = 0 then -status else status
              else j.status } :: post } := by
  have hi := findProc_eq pid hpid j.procs i hrec hfirst
  have hat : procAt j.procs i ≠ 0 := by
    unfold procAt
    rw [List.getD_eq_getElem?_getD, ← List.get?_eq_getElem?, hrec]
    exact hpid
  unfold sigchld_handler
  rw [hjobs, reapInJobs_skip pid _ _ pre hpre, reapInJobs, hi, if_pos ⟨hstate, hat⟩]
  simp only []
  by_cases hterm : status = SIGTERM
  · simp [hterm]
  · by_cases hs : status = 0 <;> by_cases hj : j.status ≥ 0 <;>
      by_cases hl : procAt j.procs (i + 1) = 0 <;> simp [hterm, hs, hj, hl]

theorem sigchld_handler_reap_witness :
    sigchld_handler scenario4 91 256 =
        scenario4.modJob 1 (fun j => { j with procs := [90, -91], status := -256 }) ∧
      sigchld_handler scenario4 90 256 =
        scenario4.modJob 1 (fun j => { j with procs := [-90, 91], status := 256 }) ∧
      sigchld_handler scenario4 91 15 =
        scenario4.modJob 1 (fun j => { j with procs := [90, -91] }) :=
  ⟨(sigchld_handler_reap scenario4 91 256 []
      [{ id := 2, priority := 50, dest := "lp", state := some IPP_JOB_PENDING,
         num_files := 1, filetypes := [textPlain] }]
      { id := 1, priority := 50, dest := "lp2", state := some IPP_JOB_PROCESSING,
        num_files := 1, current_file := 1, filetypes := [textPlain], cost := 150,
        printer := some 1, pipe := 5, buffer := some [], procs := [90, 91] }
      1 rfl rfl (by decide) rfl (by decide) (by decide)).trans (by decide),
    (sigchld_handler_reap scenario4 90 256 []
      [{ id := 2, priority := 50, dest := "lp", state := some IPP_JOB_PENDING,
         num_files := 1, filetypes := [textPlain] }]
      { id := 1, priority := 50, dest := "lp2", state := some IPP_JOB_PROCESSING,
        num_files := 1, current_file := 1, filetypes := [textPlain], cost := 150,
        printer := some 1, pipe := 5, buffer := some [], procs := [90, 91] }
      0 rfl rfl (by decide) rfl (by decide) (by decide)).trans (by decide),
    (sigchld_handler_reap scenario4 91 15 []
      [{ id := 2, priority := 50, dest := "lp", state := some IPP_JOB_PENDING,
         num_files := 1, filetypes := [textPlain] }]
      { id := 1, priority := 50, dest := "lp2", state := some IPP_JOB_PROCESSING,
        num_files := 1, current_file := 1, filetypes := [textPlain], cost := 150,
        printer := some 1, pipe := 5, buffer := some [], procs := [90, 91] }
      1 rfl rfl (by decide) rfl (by decide) (by decide)).trans (by decide)⟩

/-! ### `LoadAllJobs`: states of the loaded jobs -/

theorem readControl_some (lenv : LoadEnv) (printers : List printer_t) (id : Int) (attrs : ipp_t)
    (job : job_t) (ps : List printer_t)
    (h : readControl lenv printers id attrs = some (some (job, ps))) :
    job.id = id ∧ job.attrs = attrs ∧ job.state = savedState attrs ∧ job.hold_until = 0 := by
  unfold readControl at h
  split at h
  · cases h
  · split at h
    · cases h
    · simp only [] at h
      split at h
      · cases h
      · split at h
        · simp only [Option.some.injEq, Prod.mk.injEq] at h
          obtain ⟨rfl, _⟩ := h
          exact ⟨rfl, rfl, rfl, rfl⟩
        · cases h

theorem mem_loadInsert (job : job_t) : ∀ (l : List job_t) (k : job_t),
    k ∈ loadInsert job l ↔ k = job ∨ k ∈ l
  | [], k => by simp [loadInsert]
  | c :: rest, k => by
    unfold loadInsert
    split
    · simp
    · split
      · simp
      · rw [List.mem_cons, mem_loadInsert job rest k, List.mem_cons]
        tauto

theorem loadInsert_perm (job : job_t) : ∀ l : List job_t, (loadInsert job l).Perm (job :: l)
  | [] => List.Perm.refl _
  | c :: rest => by
    unfold loadInsert
    split
    · exact List.Perm.refl _
    · split
      · exact List.Perm.refl _
      · exact ((loadInsert_perm job rest).cons c).trans (List.Perm.swap job c rest)

theorem loadInsert_sublist (job : job_t) : ∀ l : List job_t, l.Sublist (loadInsert job l)
  | [] => List.nil_sublist _
  | c :: rest => by
    unfold loadInsert
    split
    · exact List.sublist_cons_self _ _
    · split
      · exact List.sublist_cons_self _ _
      · exact (loadInsert_sublist job rest).cons₂ c

theorem SetJobHoldUntil_Jobs (clock : Clock) (s : Sched) (id : Int) (when : String) :
    (SetJobHoldUntil clock s id when).Jobs = s.Jobs ∨
      ∃ t, (SetJobHoldUntil clock s id when).Jobs =
        updateJob id (fun j => { j with hold_until := t }) s.Jobs := by
  unfold SetJobHoldUntil
  split
  · exact Or.inl rfl
  · split
    · next t _ => exact Or.inr ⟨t, rfl⟩
    · exact Or.inl rfl

theorem SetJobHoldUntil_ids (clock : Clock) (s : Sched) (id : Int) (when : String) :
    (SetJobHoldUntil clock s id when).Jobs.map (fun j => j.id) = s.Jobs.map (fun j => j.id) := by
  rcases SetJobHoldUntil_Jobs clock s id when with h | ⟨t, h⟩
  · rw [h]
  · rw [h, map_id_updateJob id _ _ (by intro _; rfl)]

/-- The jobs after `linkJob`: the jobs before and one new record, which has
the id and the catalog of `job`. -/
theorem linkJob_ids (clock : Clock) (s t : Sched) (job : job_t)
    (h : linkJob clock s job = some t) :
    (t.Jobs.map (fun j => j.id)).Perm (job.id :: s.Jobs.map (fun j => j.id)) ∧
      (s.Jobs.map (fun j => j.id)).Sublist (t.Jobs.map (fun j => j.id)) := by
  have hp : ∀ j2 : job_t, j2.id = job.id →
      ((loadInsert j2 s.Jobs).map (fun j => j.id)).Perm (job.id :: s.Jobs.map (fun j => j.id)) ∧
      (s.Jobs.map (fun j => j.id)).Sublist ((loadInsert j2 s.Jobs).map (fun j => j.id)) := by
    intro j2 hid
    refine ⟨?_, (loadInsert_sublist j2 s.Jobs).map _⟩
    have := (loadInsert_perm j2 s.Jobs).map (fun j => j.id)
    rw [List.map_cons, hid] at this
    exact this
  unfold linkJob at h
  split at h
  · cases h
  · split at h
    · split at h
      · cases h
        exact hp _ rfl
      · split at h
        · cases h
        · cases h
          rw [SetJobHoldUntil_ids]
          exact hp _ rfl
    · split at h
      · cases h
        exact hp _ rfl
      · cases h
        exact hp _ rfl

theorem mem_updateJob_nodup (id : Int) (f : job_t → job_t) : ∀ (l : List job_t) (k : job_t),
    (l.map (fun j => j.id)).Nodup → k ∈ updateJob id f l →
    (∃ j0, FindJob l id = some j0 ∧ k = f j0) ∨ (k ∈ l ∧ k.id ≠ id)
  | [], k, _, h => by cases h
  | c :: rest, k, hnd, h => by
    rw [List.map_cons, List.nodup_cons] at hnd
    by_cases hc : c.id = id
    · rw [updateJob, if_pos hc, List.mem_cons] at h
      rcases h with h | h
      · exact Or.inl ⟨c, by rw [FindJob_cons, if_pos hc], h⟩
      · refine Or.inr ⟨List.mem_cons_of_mem _ h, fun e => hnd.1 ?_⟩
        rw [hc, ← e]
        exact List.mem_map_of_mem _ h
    · rw [updateJob, if_neg hc, List.mem_cons] at h
      rcases h with h | h
      · exact Or.inr ⟨by rw [h]; exact List.mem_cons_self _ _, by rw [h]; exact hc⟩
      · rcases mem_updateJob_nodup id f rest k hnd.2 h with ⟨j0, hj0, hk⟩ | ⟨hm, hne⟩
        · exact Or.inl ⟨j0, by rw [FindJob_cons, if_neg hc]; exact hj0, hk⟩
        · exact Or.inr ⟨List.mem_cons_of_mem _ hm, hne⟩

theorem LoadedAsSaved_hold (j : job_t) (t : Int) (h : LoadedAsSaved j) :
    LoadedAsSaved { j with hold_until := t } := h

theorem linkJob_states (clock : Clock) (s t : Sched) (job : job_t)
    (h : linkJob clock s job = some t) (hjob : job.state = savedState job.attrs)
    (hs : ∀ j ∈ s.Jobs, LoadedAsSaved j) : ∀ j ∈ t.Jobs, LoadedAsSaved j := by
  have hins : ∀ j2 : job_t, LoadedAsSaved j2 → ∀ k ∈ loadInsert j2 s.Jobs, LoadedAsSaved k := by
    intro j2 h2 k hk
    rcases (mem_loadInsert j2 s.Jobs k).1 hk with rfl | hm
    · exact h2
    · exact hs k hm
  unfold linkJob at h
  split at h
  · cases h
  · next st hst =>
    have hsaved : savedState job.attrs = some st := by rw [← hjob, hst]
    split at h
    · next hheld =>
      split at h
      · next hnone =>
        cases h
        refine hins _ ⟨st, hsaved, ?_⟩
        simp [hheld, hnone, IPP_JOB_HELD, IPP_JOB_PROCESSING]
      · next attr hattr =>
        split at h
        · cases h
        · cases h
          have hjobok : LoadedAsSaved job := by
            refine ⟨st, hsaved, ?_⟩
            rw [hst, hheld]
            simp [hattr, IPP_JOB_HELD, IPP_JOB_PROCESSING]
          intro k hk
          rcases SetJobHoldUntil_Jobs clock
            { s with Jobs := loadInsert job s.Jobs, NumJobs := s.NumJobs + 1 } job.id
            (textOf _) with he | ⟨tm, he⟩
          · rw [he] at hk
            exact hins job hjobok k hk
          · rw [he] at hk
            rcases mem_updateJob hk with hm | ⟨j0, hj0, rfl⟩
            · exact hins job hjobok k hm
            · exact LoadedAsSaved_hold j0 tm (hins job hjobok j0 (FindJob_mem hj0))
    · next hheld =>
      split at h
      · next hproc =>
        cases h
        refine hins _ ⟨st, hsaved, ?_⟩
        simp [hproc]
      · next hproc =>
        cases h
        refine hins _ ⟨st, hsaved, ?_⟩
        rw [hst]
        simp [hproc, hheld]

theorem linkJob_hold (clock : Clock) (s t : Sched) (job : job_t)
    (h : linkJob clock s job = some t) (hjob : job.state = savedState job.attrs)
    (hzero : job.hold_until = 0) (hnd : (t.Jobs.map (fun j => j.id)).Nodup)
    (hs : ∀ j ∈ s.Jobs, HoldAsSaved clock j) : ∀ j ∈ t.Jobs, HoldAsSaved clock j := by
  have hins : ∀ j2 : job_t, HoldAsSaved clock j2 →
      ∀ k ∈ loadInsert j2 s.Jobs, HoldAsSaved clock k := by
    intro j2 h2 k hk
    rcases (mem_loadInsert j2 s.Jobs k).1 hk with rfl | hm
    · exact h2
    · exact hs k hm
  unfold linkJob at h
  split at h
  · cases h
  · next st hst =>
    have hsaved : savedState job.attrs = some st := by rw [← hjob, hst]
    split at h
    · next hheld =>
      split at h
      · next hnone =>
        cases h
        refine hins _ ?_
        intro attr text _ hattr _
        rw [show holdAttr job.attrs = none from hnone] at hattr
        cases hattr
      · next attr hattr =>
        split at h
        · cases h
        · next text htext =>
          cases h
          have hnd2 : ((loadInsert job s.Jobs).map (fun j => j.id)).Nodup := by
            rw [SetJobHoldUntil_ids] at hnd
            exact hnd
          have hfind : FindJob (loadInsert job s.Jobs) job.id = some job :=
            FindJob_of_mem_nodup hnd2 ((mem_loadInsert job s.Jobs job).2 (Or.inl rfl))
          intro k hk
          unfold SetJobHoldUntil at hk
          simp only [hfind] at hk
          cases hh : holdUntil clock (textOf text) with
          | none =>
            rw [hh] at hk
            refine hins job ?_ k hk
            intro attr2 text2 _ hattr2 htext2
            rw [hattr] at hattr2
            cases hattr2
            rw [htext] at htext2
            cases htext2
            rw [hh, hzero]
            rfl
          | some tm =>
            rw [hh] at hk
            rcases mem_updateJob_nodup job.id _ _ k hnd2 hk with ⟨j0, hj0, rfl⟩ | ⟨hm, hne⟩
            · rw [hfind] at hj0
              cases hj0
              intro attr2 text2 _ hattr2 htext2
              rw [show holdAttr job.attrs = some attr from hattr] at hattr2
              cases hattr2
              rw [htext] at htext2
              cases htext2
              rw [hh]
              rfl
            · rcases (mem_loadInsert job s.Jobs k).1 hm with rfl | hm2
              · exact absurd rfl hne
              · exact hs k hm2
    · next hheld =>
      have hvac : ∀ j2 : job_t, j2.attrs = job.attrs → HoldAsSaved clock j2 := by
        intro j2 hattrs attr text hsv _ _
        rw [hattrs, hsaved] at hsv
        exact absurd (Option.some.inj hsv) hheld
      split at h
      · cases h
        exact hins _ (hvac _ rfl)
      · cases h
        exact hins _ (hvac _ rfl)

theorem loadControlFile_cases (lenv : LoadEnv) (clock : Clock) (s t : Sched) (d_name : String)
    (contents : Option (List Nat)) (h : loadControlFile lenv clock s d_name contents = some t) :
    t.Jobs = s.Jobs ∨
      ∃ s1 job, s1.Jobs = s.Jobs ∧ job.state = savedState job.attrs ∧ job.hold_until = 0 ∧
        linkJob clock s1 job = some t := by
  have hs1 : (if atoi (d_name.data.drop 1) ≥ s.NextJobId then
      { s with NextJobId := atoi (d_name.data.drop 1) + 1 } else s).Jobs = s.Jobs := by
    split <;> rfl
  unfold loadControlFile at h
  simp only [] at h
  split at h
  · cases h
    exact Or.inl hs1
  · split at h
    · cases h
    · split at h
      · cases h
        exact Or.inl hs1
      · split at h
        · cases h
        · cases h
          exact Or.inl hs1
        · next job printers hread =>
          obtain ⟨_, hattrs, hst, hz⟩ := readControl_some _ _ _ _ _ _ hread
          refine Or.inr ⟨_, job, ?_, ?_, hz, h⟩
          · exact hs1
          · rw [hst, hattrs]

theorem loadControlFile_sublist (lenv : LoadEnv) (clock : Clock) (s t : Sched)
    (d_name : String) (contents : Option (List Nat))
    (h : loadControlFile lenv clock s d_name contents = some t) :
    (s.Jobs.map (fun j => j.id)).Sublist (t.Jobs.map (fun j => j.id)) := by
  rcases loadControlFile_cases lenv clock s t d_name contents h with he | ⟨s1, job, hs1, _, _, hl⟩
  · rw [he]
  · rw [← hs1]
    exact (linkJob_ids clock s1 t job hl).2

theorem loadControlFiles_sublist (lenv : LoadEnv) (clock : Clock) :
    ∀ (files : List (String × Option (List Nat))) (s t : Sched),
      loadControlFiles lenv clock files s = some t →
      (s.Jobs.map (fun j => j.id)).Sublist (t.Jobs.map (fun j => j.id)) := by
  intro files
  induction files with
  | nil =>
    intro s t h
    cases h
    exact List.Sublist.refl _
  | cons f rest ih =>
    intro s t h
    obtain ⟨d_name, contents⟩ := f
    unfold loadControlFiles at h
    split at h
    · split at h
      · cases h
      · next u hu =>
        exact (loadControlFile_sublist lenv clock s u d_name contents hu).trans (ih u t h)
    · exact ih s t h

theorem loadControlFiles_states (lenv : LoadEnv) (clock : Clock) :
    ∀ (files : List (String × Option (List Nat))) (s t : Sched),
      loadControlFiles lenv clock files s = some t →
      (∀ j ∈ s.Jobs, LoadedAsSaved j) → ∀ j ∈ t.Jobs, LoadedAsSaved j := by
  intro files
  induction files with
  | nil =>
    intro s t h hs
    cases h
    exact hs
  | cons f rest ih =>
    intro s t h hs
    obtain ⟨d_name, contents⟩ := f
    unfold loadControlFiles at h
    split at h
    · split at h
      · cases h
      · next u hu =>
        refine ih u t h ?_
        rcases loadControlFile_cases lenv clock s u d_name contents hu with
          he | ⟨s1, job, hs1, hjob, _, hl⟩
        · rw [he]
          exact hs
        · exact linkJob_states clock s1 u job hl hjob (by rw [hs1]; exact hs)
    · exact ih s t h hs

theorem loadControlFiles_hold (lenv : LoadEnv) (clock : Clock) :
    ∀ (files : List (String × Option (List Nat))) (s t : Sched),
      loadControlFiles lenv clock files s = some t → (t.Jobs.map (fun j => j.id)).Nodup →
      (∀ j ∈ s.Jobs, HoldAsSaved clock j) → ∀ j ∈ t.Jobs, HoldAsSaved clock j := by
  intro files
  induction files with
  | nil =>
    intro s t h _ hs
    cases h
    exact hs
  | cons f rest ih =>
    intro s t h hnd hs
    obtain ⟨d_name, contents⟩ := f
    unfold loadControlFiles at h
    split at h
    · split at h
      · cases h
      · next u hu =>
        refine ih u t h hnd ?_
        rcases loadControlFile_cases lenv clock s u d_name contents hu with
          he | ⟨s1, job, hs1, hjob, hz, hl⟩
        · rw [he]
          exact hs
        · exact linkJob_hold clock s1 u job hl hjob hz
            (hnd.sublist (loadControlFiles_sublist lenv clock rest u t h)) (by rw [hs1]; exact hs)
    · exact ih s t h hnd hs

theorem LoadedAsSaved_not_processing (j : job_t) (h : LoadedAsSaved j) :
    j.state ≠ some IPP_JOB_PROCESSING := by
  obtain ⟨saved, _, hst⟩ := h
  rw [hst]
  intro e
  have e2 := Option.some.inj e
  split at e2
  · exact absurd e2 (by decide)
  · split at e2
    · exact absurd e2 (by decide)
    · contradiction

/-- C30: after the first loop of `LoadAllJobs` has loaded the control files
into a store without jobs, no job in the store is in state processing; every
job has, in terms of the job-state saved in its catalog, the state the spec
gives (`LoadedAsSaved`: pending for a saved processing, pending for a saved
held without a job-hold-until attribute, the saved state otherwise, so held
for a saved held with job-hold-until); and, the ids loaded being distinct,
every job saved as held with a job-hold-until attribute has the `hold_until`
that `SetJobHoldUntil` computes from the value of the attribute. -/
theorem LoadAllJobs_states (lenv : LoadEnv) (clock : Clock)
    (files : List (String × Option (List Nat))) (s t : Sched) (hempty : s.Jobs = [])
    (hload : loadControlFiles lenv clock files s = some t) :
    (∀ j ∈ t.Jobs, j.state ≠ some IPP_JOB_PROCESSING) ∧
      (∀ j ∈ t.Jobs, LoadedAsSaved j) ∧
      ((t.Jobs.map (fun j => j.id)).Nodup → ∀ j ∈ t.Jobs, HoldAsSaved clock j) := by
  have hs : ∀ j ∈ s.Jobs, LoadedAsSaved j := by
    rw [hempty]
    intro j hj
    cases hj
  have hall := loadControlFiles_states lenv clock files s t hload hs
  refine ⟨fun j hj => LoadedAsSaved_not_processing j (hall j hj), hall, fun hnd => ?_⟩
  refine loadControlFiles_hold lenv clock files s t hload hnd ?_
  rw [hempty]
  intro j hj
  cases hj

set_option maxRecDepth 100000 in
theorem LoadAllJobs_states_witness :
    loadControlFiles loadEnv (utcClock 72000) spoolFiles lpStore = some loadedStore ∧
      loadedStore.Jobs.map (fun j => (j.id, savedState j.attrs, j.state, j.hold_until)) =
        [(1, some IPP_JOB_PROCESSING, some IPP_JOB_PENDING, 0),
         (2, some IPP_JOB_HELD, some IPP_JOB_HELD, 108000),
         (3, some IPP_JOB_HELD, some IPP_JOB_PENDING, 0),
         (4, some IPP_JOB_COMPLETED, some IPP_JOB_COMPLETED, 0)] ∧
      (∀ j ∈ loadedStore.Jobs, j.state ≠ some IPP_JOB_PROCESSING) :=
  ⟨by decide, by decide,
    (LoadAllJobs_states loadEnv (utcClock 72000) spoolFiles lpStore loadedStore rfl
      (by decide)).1⟩

/-! ### `StartJob`: failures of the pipe and of `fork`, and the pruned filter chain -/

/-- C34 (failing input): job 1 is pending for the idle printer `lp` and is
admitted by `StartJob` at cost 99.  When `pipe(statusfds)` fails, and when the
second `start_process` call fails, `StartJob` returns with the job in state
processing, assigned to the printer, the printer processing with that job and
`FilterLevel` = 99, and the status pipe is not in `InputSet`; when `malloc` of
the status buffer fails the job is cancelled, the printer is idle without a
job and `FilterLevel` is 0. -/
theorem StartJob_pipe_failure_keeps_processing :
    ((FindJob (StartJob pipeFailEnv scenarioIdle 1 0).Jobs 1).map
        (fun j => (j.state, j.printer, j.pipe)) = some (some IPP_JOB_PROCESSING, some 0, 0) ∧
      ((StartJob pipeFailEnv scenarioIdle 1 0).Printers.get? 0).map
        (fun r => (r.state, r.job)) = some (IPP_PRINTER_PROCESSING, some 1) ∧
      (StartJob pipeFailEnv scenarioIdle 1 0).FilterLevel = 99 ∧
      (StartJob pipeFailEnv scenarioIdle 1 0).InputSet = []) ∧
    ((FindJob (StartJob forkFailEnv scenarioIdle 1 0).Jobs 1).map
        (fun j => (j.state, j.printer, j.procs)) =
        some (some IPP_JOB_PROCESSING, some 0, [101]) ∧
      ((StartJob forkFailEnv scenarioIdle 1 0).Printers.get? 0).map
        (fun r => (r.state, r.job)) = some (IPP_PRINTER_PROCESSING, some 1) ∧
      (StartJob forkFailEnv scenarioIdle 1 0).FilterLevel = 99 ∧
      (StartJob forkFailEnv scenarioIdle 1 0).InputSet = []) ∧
    ((FindJob (StartJob mallocFailEnv scenarioIdle 1 0).Jobs 1).map
        (fun j => (j.state, j.printer)) = some (some IPP_JOB_CANCELLED, none) ∧
      ((StartJob mallocFailEnv scenarioIdle 1 0).Printers.get? 0).map
        (fun r => (r.state, r.job)) = some (IPP_PRINTER_IDLE, none) ∧
      (StartJob mallocFailEnv scenarioIdle 1 0).FilterLevel = 0) := by
  decide

theorem splitJob_none : ∀ (l : List job_t) (id : Int), FindJob l id = none → splitJob id l = none
  | [], _, _ => rfl
  | j :: js, id, h => by
    unfold FindJob at h
    by_cases hid : j.id = id
    · simp [List.find?, hid] at h
    · simp only [List.find?, hid, decide_False] at h
      simp only [splitJob, hid, if_false, splitJob_none js id h, Option.map_none']

theorem splitJob_some : ∀ (l : List job_t) (id : Int) (job : job_t), FindJob l id = some job →
    ∃ before after, splitJob id l = some (before, job, after) ∧ l = before ++ job :: after ∧
      removeJob id l = before ++ after ∧ job.id = id
  | [], _, _, h => by cases h
  | j :: js, id, job, h => by
    unfold FindJob at h
    by_cases hid : j.id = id
    · simp only [List.find?, hid, decide_True, Option.some.injEq] at h
      subst h
      exact ⟨[], js, by simp [splitJob, hid], rfl, by simp [removeJob, hid], hid⟩
    · simp only [List.find?, hid, decide_False] at h
      obtain ⟨before, after, h1, h2, h3, h4⟩ := splitJob_some js id job h
      refine ⟨j :: before, after, ?_, ?_, ?_, h4⟩
      · simp [splitJob, hid, h1]
      · simp [h2]
      · simp [removeJob, hid, h3]

theorem setPriorityAttr_find (p : Int) (attrs : ipp_t) :
    (ippFindAttribute { attrs with attrs := setPriorityAttr (ascii "job-priority") p attrs.attrs }
      "job-priority" IPP_TAG_INTEGER).bind valueInteger = some p := by
  unfold ippFindAttribute setPriorityAttr
  simp only []
  have hz : IPP_TAG_INTEGER ≠ IPP_TAG_ZERO := by decide
  generalize ascii "job-priority" = name
  induction attrs.attrs with
  | nil => simp [valueInteger]
  | cons a rest ih =>
    by_cases ha : a.name = some name ∧ a.value_tag = IPP_TAG_INTEGER
    · simp [List.span, List.span.loop, ha, hz, valueInteger, List.find?]
    · by_cases hany : rest.any (fun a => a.name = some name ∧ a.value_tag = IPP_TAG_INTEGER)
      · simp only [hany, if_true] at ih
        have : (a :: rest).any (fun a => a.name = some name ∧ a.value_tag = IPP_TAG_INTEGER) := by
          simp only [List.any_cons, hany, Bool.or_true]
        simp only [this, if_true]
        have hspan : List.span (fun a => !decide (a.name = some name ∧ a.value_tag = IPP_TAG_INTEGER))
            (a :: rest) = (a :: (List.span (fun a =>
              !decide (a.name = some name ∧ a.value_tag = IPP_TAG_INTEGER)) rest).1,
              (List.span (fun a =>
              !decide (a.name = some name ∧ a.value_tag = IPP_TAG_INTEGER)) rest).2) := by
          rw [List.span_eq_take_drop, List.span_eq_take_drop]
          simp [List.takeWhile, List.dropWhile, ha]
        rw [hspan]
        simp only [List.cons_append, List.find?]
        have hna : decide (a.name = some name ∧ (a.value_tag = IPP_TAG_INTEGER ∨
            IPP_TAG_INTEGER = IPP_TAG_ZERO)) = false := by
          simp only [hz, or_false]
          exact decide_eq_false ha
        rw [hna]
        exact ih
      · simp only [hany] at ih
        have : ¬ (a :: rest).any (fun a => a.name = some name ∧ a.value_tag = IPP_TAG_INTEGER) := by
          simp only [List.any_cons, Bool.or_eq_true, not_or]
          exact ⟨by simpa using ha, hany⟩
        simp only [this]
        simp only [Bool.false_eq_true, if_false, List.cons_append, List.find?] at ih ⊢
        have hna : decide (a.name = some name ∧ (a.value_tag = IPP_TAG_INTEGER ∨
            IPP_TAG_INTEGER = IPP_TAG_ZERO)) = false := by
          simp only [hz, or_false]
          exact decide_eq_false ha
        rw [hna]
        exact ih

theorem pairwise_insertJob (job : job_t) (l : List job_t)
    (hl : List.Pairwise (fun a b : job_t => a.priority ≥ b.priority) l) :
    List.Pairwise (fun a b : job_t => a.priority ≥ b.priority) (insertJob job l) := by
  induction l with
  | nil => simp [insertJob]
  | cons c rest ih =>
    by_cases h : job.priority > c.priority
    · simp only [insertJob, h, if_true]
      refine List.Pairwise.cons ?_ hl
      intro b hb
      rcases List.mem_cons.1 hb with rfl | hb
      · omega
      · have := List.rel_of_pairwise_cons hl hb
        omega
    · simp only [insertJob, h, if_false]
      refine List.Pairwise.cons ?_ (ih (List.Pairwise.of_cons hl))
      intro b hb
      rcases (mem_insertJob _ _ _).1 hb with rfl | hb
      · omega
      · exact List.rel_of_pairwise_cons hl hb

theorem getLast_le_of_pairwise : ∀ (l : List job_t) (last : job_t),
    List.Pairwise (fun a b : job_t => a.priority ≥ b.priority) l → l.getLast? = some last →
    ∀ j ∈ l, j.priority ≥ last.priority
  | [], _, _, h => by cases h
  | [a], last, _, h => by
    intro j hj
    simp only [List.getLast?_singleton, Option.some.injEq] at h
    simp only [List.mem_singleton] at hj
    subst h; subst hj
    exact le_refl _
  | a :: b :: rest, last, hl, h => by
    intro j hj
    rw [List.getLast?_cons_cons] at h
    have ih := getLast_le_of_pairwise (b :: rest) last (List.Pairwise.of_cons hl) h
    rcases List.mem_cons.1 hj with rfl | hj
    · have hmem : last ∈ b :: rest := List.mem_of_getLast?_eq_some h
      exact List.rel_of_pairwise_cons hl hmem
    · exact ih j hj

/-- C38: in a store whose priorities do not increase from head to tail,
`SetJobPriority(id, p)` for an id that is not in the store returns the store
as it was; for the id of a job in the store, the resulting list is the other
jobs, unchanged and in their order, with the target record linked in between
them, the target record differs from the old one in its priority `p` and its
attribute list, in which `job-priority` is found with value `p`, the ids of
the list are a permutation of the old ids, `NumJobs` is unchanged, and the
priorities again do not increase from head to tail. -/
theorem SetJobPriority_store (s : Sched) (id p : Int)
    (hord : List.Pairwise (fun a b : job_t => a.priority ≥ b.priority) s.Jobs) :
    (FindJob s.Jobs id = none → SetJobPriority s id p = s) ∧
    ∀ job, FindJob s.Jobs id = some job →
      (∃ l1 l2 : List job_t,
        (SetJobPriority s id p).Jobs =
          l1 ++ { job with
            priority := p,
            attrs := { job.attrs with
              attrs := setPriorityAttr (ascii "job-priority") p job.attrs.attrs } } :: l2 ∧
        l1 ++ l2 = removeJob id s.Jobs) ∧
      (ippFindAttribute { job.attrs with
          attrs := setPriorityAttr (ascii "job-priority") p job.attrs.attrs }
        "job-priority" IPP_TAG_INTEGER).bind valueInteger = some p ∧
      ((SetJobPriority s id p).Jobs.map (fun j => j.id)).Perm (s.Jobs.map (fun j => j.id)) ∧
      (SetJobPriority s id p).NumJobs = s.NumJobs ∧
      List.Pairwise (fun a b : job_t => a.priority ≥ b.priority) (SetJobPriority s id p).Jobs := by
  constructor
  · intro h
    unfold SetJobPriority
    rw [splitJob_none _ _ h]
  · intro job hjob
    obtain ⟨before, after, hsplit, hjobs, hrem, hid⟩ := splitJob_some _ _ _ hjob
    have hperm : ∀ l1 l2 (j2 : job_t), j2.id = job.id → l1 ++ l2 = before ++ after →
        ((l1 ++ j2 :: l2).map (fun j => j.id)).Perm (s.Jobs.map (fun j => j.id)) := by
      intro l1 l2 j2 h2 h12
      rw [hjobs]
      have e1 : (l1 ++ j2 :: l2).Perm (j2 :: (l1 ++ l2)) := List.perm_middle
      have e2 : (before ++ job :: after).Perm (job :: (before ++ after)) := List.perm_middle
      refine (e1.map _).trans (List.Perm.trans ?_ (e2.map _).symm)
      simp only [List.map_cons, h2, h12]
      exact List.Perm.refl _
    have hparts := List.pairwise_append.1 (hjobs ▸ hord)
    have hb := hparts.1
    have ha := List.Pairwise.of_cons hparts.2.1
    have hba : ∀ a ∈ before, ∀ b ∈ after, a.priority ≥ b.priority :=
      fun a ha1 b hb1 => hparts.2.2 a ha1 b (List.mem_cons_of_mem _ hb1)
    have hrest : List.Pairwise (fun a b : job_t => a.priority ≥ b.priority) (before ++ after) :=
      List.pairwise_append.2 ⟨hb, ha, hba⟩
    refine ⟨?_, setPriorityAttr_find p job.attrs, ?_, ?_, ?_⟩
    · unfold SetJobPriority
      simp only [hsplit]
      split
      · exact ⟨before, after, by rw [SaveJob_Jobs]; rfl, hrem.symm⟩
      · refine ⟨_, _, insertJob_split _ _, ?_⟩
        rw [List.takeWhile_append_dropWhile, hrem]
    · unfold SetJobPriority
      simp only [hsplit]
      split
      · rw [SaveJob_Jobs]
        exact hperm before after _ rfl rfl
      · show ((insertJob _ (before ++ after)).map (fun j => j.id)).Perm _
        rw [insertJob_split]
        exact hperm _ _ _ rfl (List.takeWhile_append_dropWhile _ _)
    · unfold SetJobPriority
      simp only [hsplit]
      split
      · unfold SaveJob
        split <;> rfl
      · unfold SaveJob
        split <;> rfl
    · unfold SetJobPriority
      simp only [hsplit]
      split
      · next hcond =>
        rw [SaveJob_Jobs]
        simp only [Bool.and_eq_true] at hcond
        obtain ⟨hprev, hnext⟩ := hcond
        show List.Pairwise _ (before ++ _ :: after)
        refine List.pairwise_append.2 ⟨hb, List.Pairwise.cons ?_ ha, ?_⟩
        · intro b hbm
          show p ≥ b.priority
          cases after with
          | nil => cases hbm
          | cons n rest =>
            simp only [List.head?_cons, Option.all_some, decide_eq_true_eq] at hnext
            rcases List.mem_cons.1 hbm with rfl | hbm
            · exact le_of_lt hnext
            · have := List.rel_of_pairwise_cons ha hbm
              have h3 : n.priority < p := hnext
              omega
        · intro a ham b hbm
          rcases List.mem_cons.1 hbm with rfl | hbm
          · show a.priority ≥ p
            cases hlast : before.getLast? with
            | none =>
              rw [List.getLast?_eq_none_iff] at hlast
              subst hlast
              cases ham
            | some last =>
              rw [hlast] at hprev
              simp only [Option.all_some, decide_eq_true_eq] at hprev
              have := getLast_le_of_pairwise before last hb hlast a ham
              have h3 : p < last.priority := hprev
              omega
          · exact hba a ham b hbm
      · show List.Pairwise _ (insertJob _ (before ++ after))
        exact pairwise_insertJob _ _ hrest

theorem SetJobPriority_store_witness :
    (SetJobPriority (addJobs emptyStore [(60, "lp"), (50, "lp"), (40, "lp")]) 3 70).Jobs.map
        (fun j => (j.id, j.priority)) = [(3, 70), (1, 60), (2, 50)] ∧
      List.Pairwise (fun a b : job_t => a.priority ≥ b.priority)
        (SetJobPriority (addJobs emptyStore [(60, "lp"), (50, "lp"), (40, "lp")]) 3 70).Jobs :=
  ⟨by decide,
    ((SetJobPriority_store (addJobs emptyStore [(60, "lp"), (50, "lp"), (40, "lp")]) 3 70
      (by decide)).2 { id := 3, priority := 40, dest := "lp" } (by decide)).2.2.2.2⟩

/-! ### `LoadAllJobs`: control files for an unknown destination -/

theorem updateJob_keeps (id : Int) (f : job_t → job_t) (hid : ∀ j, (f j).id = j.id)
    (hdest : ∀ j, (f j).dest = j.dest) : ∀ (l : List job_t) (j : job_t), j ∈ l →
    ∃ k ∈ updateJob id f l, k.id = j.id ∧ k.dest = j.dest
  | [], _, h => by cases h
  | c :: rest, j, h => by
    by_cases hc : c.id = id
    · rw [updateJob, if_pos hc]
      rcases List.mem_cons.1 h with rfl | h
      · exact ⟨f j, List.mem_cons_self _ _, hid j, hdest j⟩
      · exact ⟨j, List.mem_cons_of_mem _ h, rfl, rfl⟩
    · rw [updateJob, if_neg hc]
      rcases List.mem_cons.1 h with rfl | h
      · exact ⟨j, List.mem_cons_self _ _, rfl, rfl⟩
      · obtain ⟨k, hk, h1, h2⟩ := updateJob_keeps id f hid hdest rest j h
        exact ⟨k, List.mem_cons_of_mem _ hk, h1, h2⟩

theorem SetJobHoldUntil_keeps (clock : Clock) (s : Sched) (id : Int) (when : String) :
    (SetJobHoldUntil clock s id when).Printers = s.Printers ∧
    (SetJobHoldUntil clock s id when).log = s.log ∧
    ∀ j ∈ s.Jobs, ∃ k ∈ (SetJobHoldUntil clock s id when).Jobs, k.id = j.id ∧ k.dest = j.dest := by
  unfold SetJobHoldUntil
  split
  · exact ⟨rfl, rfl, fun j hj => ⟨j, hj, rfl, rfl⟩⟩
  · split
    · refine ⟨rfl, rfl, fun j hj => ?_⟩
      exact updateJob_keeps id _ (by intro _; rfl) (by intro _; rfl) _ j hj
    · exact ⟨rfl, rfl, fun j hj => ⟨j, hj, rfl, rfl⟩⟩

theorem placeholderPrinter_remote (name : String) (isClass : Bool) :
    (placeholderPrinter name isClass).type &&& CUPS_PRINTER_REMOTE = CUPS_PRINTER_REMOTE := by
  have h : ∀ b : Bool, ((if b then CUPS_PRINTER_CLASS else 0) ||| CUPS_PRINTER_REMOTE) &&&
      CUPS_PRINTER_REMOTE = CUPS_PRINTER_REMOTE := by decide
  exact h isClass

/-- What `linkJob` gives for a record with a state whose job-hold-until
attribute, if any, has a text value: a store with the printers and the log as
before and a job of the id and destination of the record. -/
theorem linkJob_links (clock : Clock) (s : Sched) (job : job_t) (st : Int)
    (hst : job.state = some st)
    (hhold : ∀ attr, holdAttr job.attrs = some attr → valueText attr ≠ none) :
    ∃ t, linkJob clock s job = some t ∧ t.Printers = s.Printers ∧ t.log = s.log ∧
      ∃ k ∈ t.Jobs, k.id = job.id ∧ k.dest = job.dest := by
  unfold linkJob
  rw [hst]
  simp only []
  split
  · cases hattr : holdAttr job.attrs with
    | none =>
      exact ⟨_, rfl, rfl, rfl, _, (mem_loadInsert _ _ _).2 (Or.inl rfl), rfl, rfl⟩
    | some attr =>
      simp only []
      cases htext : valueText attr with
      | none => exact absurd htext (hhold attr hattr)
      | some text =>
        simp only []
        obtain ⟨h1, h2, h3⟩ := SetJobHoldUntil_keeps clock
          { s with Jobs := loadInsert job s.Jobs, NumJobs := s.NumJobs + 1 } job.id (textOf text)
        refine ⟨_, rfl, h1, h2, ?_⟩
        exact h3 job ((mem_loadInsert _ _ _).2 (Or.inl rfl))
  · split
    · exact ⟨_, rfl, rfl, rfl, _, (mem_loadInsert _ _ _).2 (Or.inl rfl), rfl, rfl⟩
    · exact ⟨_, rfl, rfl, rfl, _, (mem_loadInsert _ _ _).2 (Or.inl rfl), rfl, rfl⟩

set_option maxRecDepth 100000 in
/-- C31 (counterexample): the control file of job 1 names the destination
`lp`, which is not known, and its job-state is stopped; the round of
`LoadAllJobs` registers no placeholder, links no job and deletes the control
file.  With job-state pending the placeholder `lp` is registered, the job is
linked in and nothing is deleted. -/
theorem LoadAllJobs_stopped_unknown_skipped :
    (loadControlFiles unknownEnv (utcClock 72000)
        [("c00001", some (controlBytes (controlCatalog IPP_JOB_STOPPED none)))]
        { lpStore with Printers := [] }).map
      (fun t => (t.Jobs.map (fun j => j.id), t.Printers.map (fun p => p.name), t.log)) =
      some ([], [], [Event.unlink "/c00001"]) ∧
    (loadControlFiles unknownEnv (utcClock 72000)
        [("c00001", some (controlBytes (controlCatalog IPP_JOB_PENDING none)))]
        { lpStore with Printers := [] }).map
      (fun t => (t.Jobs.map (fun j => j.id), t.Printers.map (fun p => p.name), t.log)) =
      some ([1], ["lp"], []) := by
  decide

/-- C31 (amended): one round of the first loop of `LoadAllJobs` for a control
file that is read completely, whose job-printer-uri names a destination that
`ValidateDest` does not know, and whose catalog has the attributes the round
reads.  If the saved job-state is at most processing (pending, held or
processing), the round ends with a placeholder printer or class appended to
the printers (state stopped, remote bit set, named by the resource after
`/classes/` or after the first ten characters), a job of the id of the file
and that destination in the store, and no file deleted.  If the saved
job-state is above processing (stopped or terminal), no printer is registered,
the store keeps its jobs and the control file is deleted. -/
theorem LoadAllJobs_unknown_destination (lenv : LoadEnv) (clock : Clock) (s : Sched)
    (d_name : String) (file : List Nat) (attrs : ipp_t) (uriAttr : ipp_attribute_t)
    (uri title username : List Nat) (st priority : Int)
    (hread : ipp_read_file file ippNew = some (ipp_state_t.IPP_DATA, attrs))
    (huri : ippFindAttribute attrs "job-printer-uri" IPP_TAG_URI = some uriAttr)
    (htext : valueText uriAttr = some uri)
    (hunknown : lenv.ValidateDest s.Printers (lenv.httpSeparate uri).1
      (lenv.httpSeparate uri).2 = none)
    (hstate : savedState attrs = some st)
    (hprio : (ippFindAttribute attrs "job-priority" IPP_TAG_INTEGER).bind valueInteger =
      some priority)
    (htitle : (ippFindAttribute attrs "job-name" IPP_TAG_NAME).bind valueText = some title)
    (huser : (ippFindAttribute attrs "job-originating-user-name" IPP_TAG_NAME).bind valueText =
      some username)
    (hhold : ∀ attr, holdAttr attrs = some attr → valueText attr ≠ none) :
    ∃ t, loadControlFile lenv clock s d_name (some file) = some t ∧
      (st ≤ IPP_JOB_PROCESSING →
        ∃ p, t.Printers = s.Printers ++ [p] ∧
          p = (if (lenv.httpSeparate uri).2.data.take 9 = "/classes/".data then
                placeholderPrinter (String.mk ((lenv.httpSeparate uri).2.data.drop 9)) true
              else placeholderPrinter (String.mk ((lenv.httpSeparate uri).2.data.drop 10)) false) ∧
          p.state = IPP_PRINTER_STOPPED ∧ p.type &&& CUPS_PRINTER_REMOTE = CUPS_PRINTER_REMOTE ∧
          (∃ j ∈ t.Jobs, j.id = atoi (d_name.data.drop 1) ∧
            j.dest = strlcpy p.name IPP_MAX_NAME) ∧
          t.log = s.log) ∧
      (IPP_JOB_PROCESSING < st →
        t.Jobs = s.Jobs ∧ t.Printers = s.Printers ∧
          t.log = s.log ++ [Event.unlink (s.RequestRoot ++ "/" ++ d_name)]) := by
  have hs1P : (if atoi (d_name.data.drop 1) ≥ s.NextJobId then
      { s with NextJobId := atoi (d_name.data.drop 1) + 1 } else s).Printers = s.Printers := by
    split <;> rfl
  have hs1J : (if atoi (d_name.data.drop 1) ≥ s.NextJobId then
      { s with NextJobId := atoi (d_name.data.drop 1) + 1 } else s).Jobs = s.Jobs := by
    split <;> rfl
  have hs1L : (if atoi (d_name.data.drop 1) ≥ s.NextJobId then
      { s with NextJobId := atoi (d_name.data.drop 1) + 1 } else s).log = s.log := by
    split <;> rfl
  by_cases hle : st ≤ IPP_JOB_PROCESSING
  · have hany : (savedState attrs).any (fun st => decide (st ≤ IPP_JOB_PROCESSING)) = true := by
      rw [hstate]
      simpa using hle
    have hrc : readControl lenv s.Printers (atoi (d_name.data.drop 1)) attrs =
        some (some
          ({ id := atoi (d_name.data.drop 1), priority := priority,
             dest := strlcpy (if (lenv.httpSeparate uri).2.data.take 9 = "/classes/".data then
                placeholderPrinter (String.mk ((lenv.httpSeparate uri).2.data.drop 9)) true
              else placeholderPrinter (String.mk
                ((lenv.httpSeparate uri).2.data.drop 10)) false).name IPP_MAX_NAME,
             state := savedState attrs,
             sheets := (ippFindAttribute attrs "job-media-sheets-completed"
               IPP_TAG_INTEGER).bind valueInteger,
             username := strlcpy (textOf username) IPP_MAX_NAME,
             title := strlcpy (textOf title) IPP_MAX_NAME, dtype := 0, attrs := attrs },
           s.Printers ++ [if (lenv.httpSeparate uri).2.data.take 9 = "/classes/".data then
                placeholderPrinter (String.mk ((lenv.httpSeparate uri).2.data.drop 9)) true
              else placeholderPrinter (String.mk
                ((lenv.httpSeparate uri).2.data.drop 10)) false])) := by
      unfold readControl
      simp only [huri, htext, hunknown, hany, if_true, hprio, htitle, huser]
    obtain ⟨t, hl, hP, hL, k, hk, hkid, hkdest⟩ := linkJob_links clock
      { (if atoi (d_name.data.drop 1) ≥ s.NextJobId then
          { s with NextJobId := atoi (d_name.data.drop 1) + 1 } else s) with
        Printers := s.Printers ++ [if (lenv.httpSeparate uri).2.data.take 9 = "/classes/".data then
                placeholderPrinter (String.mk ((lenv.httpSeparate uri).2.data.drop 9)) true
              else placeholderPrinter (String.mk
                ((lenv.httpSeparate uri).2.data.drop 10)) false] }
      { id := atoi (d_name.data.drop 1), priority := priority,
             dest := strlcpy (if (lenv.httpSeparate uri).2.data.take 9 = "/classes/".data then
                placeholderPrinter (String.mk ((lenv.httpSeparate uri).2.data.drop 9)) true
              else placeholderPrinter (String.mk
                ((lenv.httpSeparate uri).2.data.drop 10)) false).name IPP_MAX_NAME,
             state := savedState attrs,
             sheets := (ippFindAttribute attrs "job-media-sheets-completed"
               IPP_TAG_INTEGER).bind valueInteger,
             username := strlcpy (textOf username) IPP_MAX_NAME,
             title := strlcpy (textOf title) IPP_MAX_NAME, dtype := 0, attrs := attrs }
      st hstate hhold
    refine ⟨t, ?_, fun _ => ⟨_, hP, rfl, ?_, ?_, ⟨k, hk, hkid, hkdest⟩, ?_⟩,
      fun hlt => absurd hle (not_le.2 hlt)⟩
    · unfold loadControlFile
      simp only [hread, ne_eq, not_true_eq_false, if_false, hs1P, hrc]
      exact hl
    · split <;> rfl
    · split <;> exact placeholderPrinter_remote _ _
    · rw [hL]
      exact hs1L
  · have hany : (savedState attrs).any (fun st => decide (st ≤ IPP_JOB_PROCESSING)) = false := by
      rw [hstate]
      simpa using hle
    have hrc : readControl lenv s.Printers (atoi (d_name.data.drop 1)) attrs = some none := by
      unfold readControl
      simp only [huri, htext, hunknown, hany, Bool.false_eq_true, if_false]
    refine ⟨(if atoi (d_name.data.drop 1) ≥ s.NextJobId then
      { s with NextJobId := atoi (d_name.data.drop 1) + 1 } else s).emit
        [Event.unlink (s.RequestRoot ++ "/" ++ d_name)], ?_, fun h => absurd h hle,
      fun _ => ⟨?_, ?_, ?_⟩⟩
    · unfold loadControlFile
      simp only [hread, ne_eq, not_true_eq_false, if_false, hs1P, hrc]
    · rw [emit_Jobs]
      exact hs1J
    · rw [emit_Printers]
      exact hs1P
    · rw [emit_log, hs1L]

set_option maxRecDepth 100000 in
theorem LoadAllJobs_unknown_destination_witness :
    ∃ t, loadControlFile unknownEnv (utcClock 72000) { lpStore with Printers := [] } "c00001"
        (some (controlBytes (controlCatalog IPP_JOB_HELD (some "day-time")))) = some t ∧
      (∃ p, t.Printers = [p] ∧ p.name = "lp" ∧ p.state = IPP_PRINTER_STOPPED ∧
        (∃ j ∈ t.Jobs, j.id = 1 ∧ j.dest = "lp") ∧ t.log = []) := by
  obtain ⟨t, ht, hle, _⟩ := LoadAllJobs_unknown_destination unknownEnv (utcClock 72000)
    { lpStore with Printers := [] } "c00001"
    (controlBytes (controlCatalog IPP_JOB_HELD (some "day-time")))
    (controlCatalog IPP_JOB_HELD (some "day-time"))
    { group_tag := IPP_TAG_JOB, value_tag := IPP_TAG_URI, name := some (ascii "job-printer-uri"),
      values := [ipp_value_t.string none (ascii "ipp://localhost/printers/lp")] }
    (ascii "ipp://localhost/printers/lp") (ascii "memo") (ascii "ann") IPP_JOB_HELD 50
    (by decide) (by decide) (by decide) (by decide) (by decide) (by decide) (by decide)
    (by decide)
    (fun attr h => by
      have e : holdAttr (controlCatalog IPP_JOB_HELD (some "day-time")) =
          some { group_tag := IPP_TAG_JOB, value_tag := IPP_TAG_KEYWORD,
                 name := some (ascii "job-hold-until"),
                 values := [ipp_value_t.string none (ascii "day-time")] } := by decide
      rw [e] at h
      cases h
      decide)
  obtain ⟨p, hP, hp, hst, _, ⟨j, hj, hid, hdest⟩, hlog⟩ := hle (by decide)
  have hname : p.name = "lp" := by
    rw [hp]
    decide
  refine ⟨t, ht, p, hP, hname, hst, ⟨j, hj, hid.trans (by decide), ?_⟩, hlog⟩
  rw [hdest, hname]
  decide

/-! ### `ipp_read_file`: the catalog after a failed read -/

theorem readOneValue_attrs (tag : Nat) (file : List Nat) (st : RState) (attr : ipp_attribute_t) :
    (∀ r, readOneValue tag file st attr = some (Sum.inl r) → r.2.attrs = st.attrs) ∧
    (∀ rest st2, readOneValue tag file st attr = some (Sum.inr (rest, st2)) →
      st2.attrs = st.attrs) := by
  unfold readOneValue
  constructor
  · intro r h
    split at h
    · split at h
      · cases h
      · cases h; rfl
      · cases h
    · cases h; rfl
  · intro rest st2 h
    split at h
    · split at h
      · cases h; rfl
      · cases h
      · cases h
    · cases h

theorem readAttribute_attrs (tag : Nat) (file : List Nat) (st : RState) :
    (∀ r, readAttribute tag file st = some (Sum.inl r) → st.attrs <+: r.2.attrs) ∧
    (∀ rest st2, readAttribute tag file st = some (Sum.inr (rest, st2)) →
      st.attrs <+: st2.attrs) := by
  have hcat : st.attrs <+: st.catalog := List.prefix_append _ _
  unfold readAttribute
  constructor
  · intro r h
    split at h
    · simp only [] at h
      split at h
      · cases h; exact List.prefix_refl _
      · split at h
        · split at h
          · cases h; exact List.prefix_refl _
          · rw [(readOneValue_attrs _ _ _ _).1 r h]
        · split at h
          · cases h; exact List.prefix_refl _
          · rw [(readOneValue_attrs _ _ _ _).1 r h]
            exact hcat
    · cases h; exact List.prefix_refl _
  · intro rest st2 h
    split at h
    · simp only [] at h
      split at h
      · cases h
      · split at h
        · split at h
          · cases h
          · rw [(readOneValue_attrs _ _ _ _).2 rest st2 h]
        · split at h
          · cases h
          · rw [(readOneValue_attrs _ _ _ _).2 rest st2 h]
            exact hcat
    · cases h

theorem readAttributes_attrs : ∀ (fuel : Nat) (file : List Nat) (st : RState)
    (r : ipp_state_t × RState), readAttributes fuel file st = some r → st.attrs <+: r.2.attrs
  | 0, _, _, _, h => by cases h
  | _ + 1, [], st, r, h => by
    simp only [readAttributes, Option.some.injEq] at h
    subst h
    exact List.prefix_refl _
  | fuel + 1, tag :: file, st, r, h => by
    rw [readAttributes] at h
    split at h
    · cases h; exact List.prefix_refl _
    · split at h
      · have ih := readAttributes_attrs fuel file _ r h
        refine List.IsPrefix.trans ?_ ih
        show st.attrs <+: (if st.curtag = tag then st.catalog ++ [separator] else st.catalog)
        split
        · exact (List.prefix_append _ _).trans (List.prefix_append _ _)
        · exact List.prefix_append _ _
      · split at h
        · cases h
        · next result hres =>
          cases h
          exact (readAttribute_attrs tag file st).1 _ hres
        · next rest st2 hres =>
          exact ((readAttribute_attrs tag file st).2 _ _ hres).trans
            (readAttributes_attrs fuel rest st2 r h)

/-- C33 (counterexample): a header of version 1.1 with request id 1, the
operation group tag and the integer attribute `a` = 5, after which the file
ends.  `ipp_read_file` into an empty catalog returns `IPP_ATTRIBUTE`, not
`IPP_DATA`, and leaves the header and the attribute in the catalog; with two
more bytes of a second attribute the result is `IPP_ERROR` and the catalog is
changed in the same way. -/
theorem ipp_read_file_failure_changes_catalog :
    ipp_read_file [1, 1, 0, 2, 0, 0, 0, 1, 1, 0x21, 0, 1, 97, 0, 4, 0, 0, 0, 5] ippNew =
      some (ipp_state_t.IPP_ATTRIBUTE,
        { version0 := 1, version1 := 1, op_status := 2, request_id := 1,
          attrs := [{ group_tag := IPP_TAG_OPERATION, value_tag := IPP_TAG_INTEGER,
                      name := some [97], values := [ipp_value_t.integer 5] }] }) ∧
    ipp_read_file [1, 1, 0, 2, 0, 0, 0, 1, 1, 0x21, 0, 1, 97, 0, 4, 0, 0, 0, 5, 0x21, 0] ippNew =
      some (ipp_state_t.IPP_ERROR,
        { version0 := 1, version1 := 1, op_status := 2, request_id := 1,
          attrs := [{ group_tag := IPP_TAG_OPERATION, value_tag := IPP_TAG_INTEGER,
                      name := some [97], values := [ipp_value_t.integer 5] }] }) ∧
    ippNew ≠ { version0 := 1, version1 := 1, op_status := 2, request_id := 1,
               attrs := [{ group_tag := IPP_TAG_OPERATION, value_tag := IPP_TAG_INTEGER,
                           name := some [97], values := [ipp_value_t.integer 5] }] } := by
  decide

/-- C33 (amended): when `ipp_read_file` fails on the header (fewer than eight
bytes, or a first byte other than 1) it returns a state other than `IPP_DATA`
and the catalog as it was passed.  In every other case in which the call
returns, whatever the state returned, the header fields of the catalog are those of the file and the
attributes the catalog had before the call are the first attributes of the
list afterwards: the attributes decoded before the failure stay appended. -/
theorem ipp_read_file_failure_catalog (file : List Nat) (ipp : ipp_t) :
    ((file.length < 8 ∨ file.head? ≠ some 1) →
      ∃ state, ipp_read_file file ipp = some (state, ipp) ∧ state ≠ ipp_state_t.IPP_DATA) ∧
    ∀ state ipp2, ipp_read_file file ipp = some (state, ipp2) →
      ipp.attrs <+: ipp2.attrs ∧
      ∀ b1 b2 b3 b4 b5 b6 b7 rest, file = 1 :: b1 :: b2 :: b3 :: b4 :: b5 :: b6 :: b7 :: rest →
        ipp2.version0 = 1 ∧ ipp2.version1 = b1 ∧ ipp2.op_status = (be16 b2 b3 : Nat) ∧
          ipp2.request_id = be32 b4 b5 b6 b7 := by
  constructor
  · intro h
    rcases file with _ | ⟨b0, _ | ⟨b1, _ | ⟨b2, _ | ⟨b3, _ | ⟨b4, _ | ⟨b5, _ | ⟨b6, _ | ⟨b7, rest⟩⟩⟩⟩⟩⟩⟩⟩
    · exact ⟨_, rfl, by decide⟩
    · exact ⟨_, rfl, by decide⟩
    · exact ⟨_, rfl, by decide⟩
    · exact ⟨_, rfl, by decide⟩
    · exact ⟨_, rfl, by decide⟩
    · exact ⟨_, rfl, by decide⟩
    · exact ⟨_, rfl, by decide⟩
    · exact ⟨_, rfl, by decide⟩
    · rcases h with h | h
      · simp only [List.length_cons] at h
        omega
      · have hb : b0 ≠ 1 := by
          intro e
          exact h (by rw [e]; rfl)
        refine ⟨ipp_state_t.IPP_ERROR, ?_, by decide⟩
        simp only [ipp_read_file, hb, ne_eq, not_false_eq_true, if_true]
  · intro state ipp2 h
    rcases file with _ | ⟨b0, _ | ⟨b1, _ | ⟨b2, _ | ⟨b3, _ | ⟨b4, _ | ⟨b5, _ | ⟨b6, _ | ⟨b7, rest⟩⟩⟩⟩⟩⟩⟩⟩
    · cases h; exact ⟨List.prefix_refl _, fun _ _ _ _ _ _ _ _ e => by simp at e⟩
    · cases h; exact ⟨List.prefix_refl _, fun _ _ _ _ _ _ _ _ e => by simp at e⟩
    · cases h; exact ⟨List.prefix_refl _, fun _ _ _ _ _ _ _ _ e => by simp at e⟩
    · cases h; exact ⟨List.prefix_refl _, fun _ _ _ _ _ _ _ _ e => by simp at e⟩
    · cases h; exact ⟨List.prefix_refl _, fun _ _ _ _ _ _ _ _ e => by simp at e⟩
    · cases h; exact ⟨List.prefix_refl _, fun _ _ _ _ _ _ _ _ e => by simp at e⟩
    · cases h; exact ⟨List.prefix_refl _, fun _ _ _ _ _ _ _ _ e => by simp at e⟩
    · cases h; exact ⟨List.prefix_refl _, fun _ _ _ _ _ _ _ _ e => by simp at e⟩
    · by_cases hb : b0 = 1
      · subst hb
        simp only [ipp_read_file, ne_eq, not_true_eq_false, if_false] at h
        split at h
        · cases h
        · next st2 r hres =>
          cases h
          refine ⟨(readAttributes_attrs _ _ _ _ hres).trans (List.prefix_append _ _), ?_⟩
          intro c1 c2 c3 c4 c5 c6 c7 rest2 e
          simp only [List.cons.injEq, true_and] at e
          obtain ⟨rfl, rfl, rfl, rfl, rfl, rfl, rfl, _⟩ := e
          exact ⟨rfl, rfl, rfl, rfl⟩
      · simp only [ipp_read_file, hb, ne_eq, not_false_eq_true, if_true, Option.some.injEq,
          Prod.mk.injEq] at h
        obtain ⟨_, rfl⟩ := h
        refine ⟨List.prefix_refl _, ?_⟩
        intro c1 c2 c3 c4 c5 c6 c7 rest2 e
        simp only [List.cons.injEq] at e
        exact absurd e.1 hb

theorem ipp_read_file_failure_catalog_witness :
    (∃ state, ipp_read_file [1, 1, 0] ippNew = some (state, ippNew) ∧
      state ≠ ipp_state_t.IPP_DATA) ∧
    (ippNew.attrs <+:
      ({ version0 := 1, version1 := 1, op_status := 2, request_id := 1,
         attrs := [{ group_tag := IPP_TAG_OPERATION, value_tag := IPP_TAG_INTEGER,
                     name := some [97], values := [ipp_value_t.integer 5] }] } : ipp_t).attrs) :=
  ⟨(ipp_read_file_failure_catalog [1, 1, 0] ippNew).1 (Or.inl (by decide)),
    ((ipp_read_file_failure_catalog
      [1, 1, 0, 2, 0, 0, 0, 1, 1, 0x21, 0, 1, 97, 0, 4, 0, 0, 0, 5, 0x21, 0] ippNew).2
      ipp_state_t.IPP_ERROR _ (by decide)).1⟩

/-! ### `ipp_read_file`: the inputs that fail -/

theorem readString_consumed (n : Nat) (file : List Nat) (v : ipp_value_t) (rest : List Nat)
    (h : readString n file = RVal.ok v rest) :
    ∃ c, file = c ++ rest ∧ (∀ ext, readString n (c ++ ext) = RVal.ok v ext) ∧
      ∀ q : List Nat, q.length < c.length → readString n q = RVal.error := by
  unfold readString at h
  split at h
  · cases h
  · split at h
    · cases h
    · split at h
      · cases h
      · next h1 h2 h3 =>
        simp only [RVal.ok.injEq] at h
        obtain ⟨rfl, rfl⟩ := h
        have hn : n ≤ file.length := by omega
        have hB : n < BUFFER_SIZE := by omega
        have hlen : (file.take n).length = n := by rw [List.length_take]; omega
        refine ⟨file.take n, (List.take_append_drop n file).symm, ?_, ?_⟩
        · intro ext
          unfold readString
          have hl : (file.take n ++ ext).length = n + ext.length := by
            rw [List.length_append, hlen]
          have e1 : ¬ min n (file.take n ++ ext).length > BUFFER_SIZE := by
            rw [hl]; omega
          have e2 : ¬ (file.take n ++ ext).length < n := by rw [hl]; omega
          rw [if_neg e1, if_neg e2, if_neg h3]
          have e3 : (file.take n ++ ext).take n = file.take n := by
            rw [List.take_append_of_le_length (by omega), List.take_take, min_self]
          have e4 : (file.take n ++ ext).drop n = ext := by
            rw [List.drop_append_of_le_length (by omega)]
            have : (file.take n).drop n = [] := by
              apply List.drop_eq_nil_of_le
              omega
            rw [this, List.nil_append]
          rw [e3, e4]
        · intro q hq
          rw [hlen] at hq
          unfold readString
          have e1 : ¬ min n q.length > BUFFER_SIZE := by omega
          rw [if_neg e1, if_pos hq]

theorem readLang_consumed (n : Nat) (file : List Nat) (v : ipp_value_t) (rest : List Nat)
    (h : readLang n file = RVal.ok v rest) :
    ∃ c, file = c ++ rest ∧ (∀ ext, readLang n (c ++ ext) = RVal.ok v ext) ∧
      ∀ q : List Nat, q.length < c.length → readLang n q = RVal.error := by
  unfold readLang at h
  split at h
  · cases h
  · split at h
    · cases h
    · next h1 h2 =>
      have hn : n ≤ file.length := by omega
      have hlen : (file.take n).length = n := by rw [List.length_take]; omega
      have e3 : ∀ ext, (file.take n ++ ext).take n = file.take n := by
        intro ext
        rw [List.take_append_of_le_length (by omega), List.take_take, min_self]
      have e4 : ∀ ext, (file.take n ++ ext).drop n = ext := by
        intro ext
        rw [List.drop_append_of_le_length (by omega)]
        have : (file.take n).drop n = [] := by
          apply List.drop_eq_nil_of_le
          omega
        rw [this, List.nil_append]
      rcases hm : file.take n with _ | ⟨c0, _ | ⟨c1, more⟩⟩
      · rw [hm] at h; cases h
      · rw [hm] at h; cases h
      · rw [hm] at h
        simp only [] at h
        rcases hd : more.drop (be16 c0 c1) with _ | ⟨t0, _ | ⟨t1, text⟩⟩
        · rw [hd] at h; cases h
        · rw [hd] at h; cases h
        · rw [hd] at h
          simp only [] at h
          split at h
          · next hfit =>
            simp only [RVal.ok.injEq] at h
            obtain ⟨rfl, rfl⟩ := h
            refine ⟨file.take n, (List.take_append_drop n file).symm, ?_, ?_⟩
            · intro ext
              have hl : (file.take n ++ ext).length = n + ext.length := by
                rw [List.length_append, hlen]
              have e2 : ¬ (file.take n ++ ext).length < n := by rw [hl]; omega
              unfold readLang
              rw [if_neg h1, if_neg e2, e3 ext, e4 ext, hm]
              simp only [hd]
              rw [if_pos hfit]
            · intro q hq
              rw [hlen] at hq
              unfold readLang
              rw [if_neg h1, if_pos hq]
          · cases h

theorem readValue_boolean (n : Nat) (file : List Nat) :
    readValue IPP_TAG_BOOLEAN n file =
      (match file with
       | b0 :: rest => RVal.ok (ipp_value_t.boolean b0) rest
       | _ => RVal.error) := rfl

theorem readValue_date (n : Nat) (file : List Nat) :
    readValue IPP_TAG_DATE n file =
      (if file.length < 11 then RVal.error
       else RVal.ok (ipp_value_t.date (file.take 11)) (file.drop 11)) := rfl

theorem readValue_resolution (n : Nat) (file : List Nat) :
    readValue IPP_TAG_RESOLUTION n file =
      (match file with
       | b0 :: b1 :: b2 :: b3 :: b4 :: b5 :: b6 :: b7 :: b8 :: rest =>
         RVal.ok (ipp_value_t.resolution (be32 b0 b1 b2 b3) (be32 b4 b5 b6 b7) (b8 : Nat)) rest
       | _ => RVal.error) := rfl

theorem readValue_range (n : Nat) (file : List Nat) :
    readValue IPP_TAG_RANGE n file =
      (match file with
       | b0 :: b1 :: b2 :: b3 :: b4 :: b5 :: b6 :: b7 :: rest =>
         RVal.ok (ipp_value_t.range (be32 b0 b1 b2 b3) (be32 b4 b5 b6 b7)) rest
       | _ => RVal.error) := rfl

theorem readValue_consumed (tag n : Nat) (file : List Nat) (v : ipp_value_t) (rest : List Nat)
    (h : readValue tag n file = RVal.ok v rest) :
    ∃ c, file = c ++ rest ∧ (∀ ext, readValue tag n (c ++ ext) = RVal.ok v ext) ∧
      ∀ q : List Nat, q.length < c.length → readValue tag n q = RVal.error := by
  by_cases h1 : tag = IPP_TAG_INTEGER ∨ tag = IPP_TAG_ENUM
  · simp only [readValue, h1, if_true] at h ⊢
    rcases file with _ | ⟨b0, _ | ⟨b1, _ | ⟨b2, _ | ⟨b3, rest2⟩⟩⟩⟩ <;>
      simp only [RVal.ok.injEq, reduceCtorEq] at h
    obtain ⟨rfl, rfl⟩ := h
    refine ⟨[b0, b1, b2, b3], rfl, fun ext => rfl, ?_⟩
    intro q hq
    rcases q with _ | ⟨c0, _ | ⟨c1, _ | ⟨c2, _ | ⟨c3, q2⟩⟩⟩⟩ <;> first | rfl | skip
    simp only [List.length_cons, List.length_nil] at hq
    omega
  by_cases h2 : tag = IPP_TAG_BOOLEAN
  · subst h2
    simp only [readValue_boolean] at h ⊢
    rcases file with _ | ⟨b0, rest2⟩ <;> simp only [RVal.ok.injEq, reduceCtorEq] at h
    obtain ⟨rfl, rfl⟩ := h
    refine ⟨[b0], rfl, fun ext => rfl, ?_⟩
    intro q hq
    rcases q with _ | ⟨c0, q2⟩ <;> first | rfl | skip
    simp only [List.length_cons, List.length_nil] at hq
    omega
  by_cases h3 : tag = IPP_TAG_TEXT ∨ tag = IPP_TAG_NAME ∨ tag = IPP_TAG_KEYWORD ∨
      tag = IPP_TAG_STRING ∨ tag = IPP_TAG_URI ∨ tag = IPP_TAG_URISCHEME ∨
      tag = IPP_TAG_CHARSET ∨ tag = IPP_TAG_LANGUAGE ∨ tag = IPP_TAG_MIMETYPE
  · simp only [readValue, h1, h2, h3, if_true, if_false] at h ⊢
    exact readString_consumed n file v rest h
  by_cases h4 : tag = IPP_TAG_DATE
  · subst h4
    simp only [readValue_date] at h ⊢
    split at h
    · cases h
    · next hlen =>
      simp only [RVal.ok.injEq] at h
      obtain ⟨rfl, rfl⟩ := h
      have hl : (file.take 11).length = 11 := by rw [List.length_take]; omega
      refine ⟨file.take 11, (List.take_append_drop 11 file).symm, ?_, ?_⟩
      · intro ext
        have e2 : ¬ (file.take 11 ++ ext).length < 11 := by
          rw [List.length_append, hl]; omega
        rw [if_neg e2, List.take_append_of_le_length (by omega), List.take_take, min_self,
          List.drop_append_of_le_length (by omega)]
        have : (file.take 11).drop 11 = [] := by
          apply List.drop_eq_nil_of_le
          omega
        rw [this, List.nil_append]
      · intro q hq
        rw [hl] at hq
        rw [if_pos hq]
  by_cases h5 : tag = IPP_TAG_RESOLUTION
  · subst h5
    simp only [readValue_resolution] at h ⊢
    rcases file with _ | ⟨b0, _ | ⟨b1, _ | ⟨b2, _ | ⟨b3, _ | ⟨b4, _ | ⟨b5, _ | ⟨b6, _ | ⟨b7,
      _ | ⟨b8, rest2⟩⟩⟩⟩⟩⟩⟩⟩⟩ <;> simp only [RVal.ok.injEq, reduceCtorEq] at h
    obtain ⟨rfl, rfl⟩ := h
    refine ⟨[b0, b1, b2, b3, b4, b5, b6, b7, b8], rfl, fun ext => rfl, ?_⟩
    intro q hq
    rcases q with _ | ⟨c0, _ | ⟨c1, _ | ⟨c2, _ | ⟨c3, _ | ⟨c4, _ | ⟨c5, _ | ⟨c6, _ | ⟨c7,
      _ | ⟨c8, q2⟩⟩⟩⟩⟩⟩⟩⟩⟩ <;> first | rfl | skip
    simp only [List.length_cons, List.length_nil] at hq
    omega
  by_cases h6 : tag = IPP_TAG_RANGE
  · subst h6
    simp only [readValue_range] at h ⊢
    rcases file with _ | ⟨b0, _ | ⟨b1, _ | ⟨b2, _ | ⟨b3, _ | ⟨b4, _ | ⟨b5, _ | ⟨b6, _ | ⟨b7,
      rest2⟩⟩⟩⟩⟩⟩⟩⟩ <;> simp only [RVal.ok.injEq, reduceCtorEq] at h
    obtain ⟨rfl, rfl⟩ := h
    refine ⟨[b0, b1, b2, b3, b4, b5, b6, b7], rfl, fun ext => rfl, ?_⟩
    intro q hq
    rcases q with _ | ⟨c0, _ | ⟨c1, _ | ⟨c2, _ | ⟨c3, _ | ⟨c4, _ | ⟨c5, _ | ⟨c6, _ | ⟨c7,
      q2⟩⟩⟩⟩⟩⟩⟩⟩ <;> first | rfl | skip
    simp only [List.length_cons, List.length_nil] at hq
    omega
  by_cases h7 : tag = IPP_TAG_TEXTLANG ∨ tag = IPP_TAG_NAMELANG
  · simp only [readValue, h1, h2, h3, h4, h5, h6, h7, if_true, if_false] at h ⊢
    exact readLang_consumed n file v rest h
  simp only [readValue, h1, h2, h3, h4, h5, h6, h7, if_false] at h ⊢
  split at h
  · next hpos =>
    split at h
    · cases h
    · next hlen =>
      simp only [RVal.ok.injEq] at h
      obtain ⟨rfl, rfl⟩ := h
      have hl : (file.take n).length = n := by rw [List.length_take]; omega
      refine ⟨file.take n, (List.take_append_drop n file).symm, ?_, ?_⟩
      · intro ext
        have e2 : ¬ (file.take n ++ ext).length < n := by
          rw [List.length_append, hl]; omega
        rw [if_pos hpos, if_neg e2, List.take_append_of_le_length (by omega), List.take_take,
          min_self, List.drop_append_of_le_length (by omega)]
        have : (file.take n).drop n = [] := by
          apply List.drop_eq_nil_of_le
          omega
        rw [this, List.nil_append]
      · intro q hq
        rw [hl] at hq
        rw [if_pos hpos, if_pos hq]
  · next hzero =>
    simp only [RVal.ok.injEq] at h
    obtain ⟨rfl, rfl⟩ := h
    refine ⟨[], rfl, ?_, ?_⟩
    · intro ext
      rw [if_neg hzero]
      rfl
    · intro q hq
      simp at hq

theorem readOneValue_error (tag : Nat) (file : List Nat) (st : RState) (attr : ipp_attribute_t)
    (r : ipp_state_t × RState) (h : readOneValue tag file st attr = some (Sum.inl r)) :
    r.1 = ipp_state_t.IPP_ERROR := by
  unfold readOneValue at h
  split at h
  · split at h
    · cases h
    · cases h; rfl
    · cases h
  · cases h; rfl

theorem readAttribute_error (tag : Nat) (file : List Nat) (st : RState)
    (r : ipp_state_t × RState) (h : readAttribute tag file st = some (Sum.inl r)) :
    r.1 = ipp_state_t.IPP_ERROR := by
  unfold readAttribute at h
  split at h
  · simp only [] at h
    split at h
    · cases h; rfl
    · split at h
      · split at h
        · cases h; rfl
        · exact readOneValue_error _ _ _ _ _ h
      · split at h
        · cases h; rfl
        · exact readOneValue_error _ _ _ _ _ h
  · cases h; rfl

theorem readOneValue_consumed (tag : Nat) (file : List Nat) (st : RState)
    (attr : ipp_attribute_t) (rest : List Nat) (st2 : RState)
    (h : readOneValue tag file st attr = some (Sum.inr (rest, st2))) :
    ∃ c, file = c ++ rest ∧
      (∀ ext, readOneValue tag (c ++ ext) st attr = some (Sum.inr (ext, st2))) ∧
      ∀ q : List Nat, q <+: c → q.length < c.length →
        ∃ r, readOneValue tag q st attr = some (Sum.inl r) := by
  rcases file with _ | ⟨l0, _ | ⟨l1, body⟩⟩
  · cases h
  · cases h
  · simp only [readOneValue] at h
    cases hv : readValue tag (be16 l0 l1) body with
    | ok v rest2 =>
      rw [hv] at h
      simp only [Option.some.injEq, Sum.inr.injEq, Prod.mk.injEq] at h
      obtain ⟨rfl, rfl⟩ := h
      obtain ⟨c, hc, hext, hq⟩ := readValue_consumed _ _ _ _ _ hv
      refine ⟨l0 :: l1 :: c, by rw [hc]; rfl, ?_, ?_⟩
      · intro ext
        simp only [List.cons_append, readOneValue, hext ext]
      · intro q hpre hlen
        rcases q with _ | ⟨k0, _ | ⟨k1, q2⟩⟩
        · exact ⟨_, rfl⟩
        · exact ⟨_, rfl⟩
        · obtain ⟨t, ht⟩ := hpre
          simp only [List.cons_append, List.cons.injEq] at ht
          obtain ⟨rfl, rfl, _⟩ := ht
          simp only [List.length_cons] at hlen
          simp only [readOneValue, hq q2 (by omega)]
          exact ⟨_, rfl⟩
    | error => rw [hv] at h; cases h
    | undefined => rw [hv] at h; cases h

theorem readAttribute_consumed (tag : Nat) (file : List Nat) (st : RState)
    (rest : List Nat) (st2 : RState)
    (h : readAttribute tag file st = some (Sum.inr (rest, st2))) :
    ∃ c, file = c ++ rest ∧ c ≠ [] ∧
      (∀ ext, readAttribute tag (c ++ ext) st = some (Sum.inr (ext, st2))) ∧
      ∀ q : List Nat, q <+: c → q.length < c.length →
        ∃ r, readAttribute tag q st = some (Sum.inl r) := by
  rcases file with _ | ⟨n0, _ | ⟨n1, body⟩⟩
  · cases h
  · cases h
  · simp only [readAttribute] at h
    split at h
    · cases h
    · next hbig =>
      split at h
      · next hzero =>
        cases hcur : st.current with
        | none => rw [hcur] at h; cases h
        | some attr =>
          rw [hcur] at h
          simp only [] at h
          obtain ⟨c, hc, hext, hq⟩ := readOneValue_consumed _ _ _ _ _ _ h
          refine ⟨n0 :: n1 :: c, by rw [hc]; rfl, by simp, ?_, ?_⟩
          · intro ext
            simp only [List.cons_append, readAttribute, if_neg hbig, if_pos hzero, hcur, hext ext]
          · intro q hpre hlen
            rcases q with _ | ⟨k0, _ | ⟨k1, q2⟩⟩
            · exact ⟨_, rfl⟩
            · exact ⟨_, rfl⟩
            · obtain ⟨t, ht⟩ := hpre
              simp only [List.cons_append, List.cons.injEq] at ht
              obtain ⟨rfl, rfl, ht⟩ := ht
              simp only [List.length_cons] at hlen
              simp only [readAttribute, if_neg hbig, if_pos hzero, hcur]
              exact hq q2 ⟨t, ht⟩ (by omega)
      · next hzero =>
        split at h
        · cases h
        · next hname =>
          obtain ⟨c, hc, hext, hq⟩ := readOneValue_consumed _ _ _ _ _ _ h
          have hn : be16 n0 n1 ≤ body.length := by omega
          have hlen : (body.take (be16 n0 n1)).length = be16 n0 n1 := by
            rw [List.length_take]; omega
          have hdrop : ∀ l : List Nat,
              (body.take (be16 n0 n1) ++ l).drop (be16 n0 n1) = l := by
            intro l
            rw [List.drop_append_of_le_length (by omega)]
            have : (body.take (be16 n0 n1)).drop (be16 n0 n1) = [] := by
              apply List.drop_eq_nil_of_le
              omega
            rw [this, List.nil_append]
          have htake : ∀ l : List Nat,
              (body.take (be16 n0 n1) ++ l).take (be16 n0 n1) = body.take (be16 n0 n1) := by
            intro l
            rw [List.take_append_of_le_length (by omega), List.take_take, min_self]
          refine ⟨n0 :: n1 :: (body.take (be16 n0 n1) ++ c), ?_, by simp, ?_, ?_⟩
          · rw [List.cons_append, List.cons_append, List.append_assoc, ← hc,
              List.take_append_drop]
          · intro ext
            have hl : ¬ (body.take (be16 n0 n1) ++ (c ++ ext)).length < be16 n0 n1 := by
              rw [List.length_append, hlen]; omega
            simp only [List.cons_append, List.append_assoc, readAttribute, if_neg hbig,
              if_neg hzero, if_neg hl, hdrop, htake]
            exact hext ext
          · intro q hpre hlt
            rcases q with _ | ⟨k0, _ | ⟨k1, q2⟩⟩
            · exact ⟨_, rfl⟩
            · exact ⟨_, rfl⟩
            · obtain ⟨t, ht⟩ := hpre
              simp only [List.cons_append, List.cons.injEq] at ht
              obtain ⟨rfl, rfl, ht⟩ := ht
              simp only [List.length_cons, List.length_append] at hlt
              simp only [readAttribute, if_neg hbig, if_neg hzero]
              by_cases hshort : q2.length < be16 k0 k1
              · rw [if_pos hshort]
                exact ⟨_, rfl⟩
              · rw [if_neg hshort]
                have hpre2 : body.take (be16 k0 k1) <+: q2 := by
                  have h1 : q2 <+: body.take (be16 k0 k1) ++ c := ⟨t, ht⟩
                  have h2 : body.take (be16 k0 k1) <+: body.take (be16 k0 k1) ++ c :=
                    List.prefix_append _ _
                  rcases List.prefix_or_prefix_of_prefix h1 h2 with h3 | h3
                  · have := h3.length_le
                    have e : q2 = body.take (be16 k0 k1) :=
                      h3.eq_of_length (by omega)
                    rw [e]
                  · exact h3
                obtain ⟨q3, hq3⟩ := hpre2
                rw [← hq3, hdrop, htake]
                refine hq q3 ?_ ?_
                · rw [← hq3, List.append_assoc] at ht
                  exact ⟨t, List.append_cancel_left ht⟩
                · have : q2.length = be16 k0 k1 + q3.length := by
                    rw [← hq3, List.length_append, hlen]
                  omega

theorem getLast_cons_some (a : Nat) (l : List Nat) (x : Nat) (h : l.getLast? = some x) :
    (a :: l).getLast? = some x := by
  cases l with
  | nil => cases h
  | cons b l2 => rw [List.getLast?_cons_cons]; exact h

theorem getLast_append_some : ∀ (l1 l2 : List Nat) (x : Nat), l2.getLast? = some x →
    (l1 ++ l2).getLast? = some x
  | [], _, _, h => h
  | a :: l1, l2, x, h => getLast_cons_some a _ x (getLast_append_some l1 l2 x h)

theorem readAttributes_data : ∀ (fuel : Nat) (file : List Nat) (st st2 : RState),
    readAttributes fuel file st = some (ipp_state_t.IPP_DATA, st2) →
    ∃ c rest, file = c ++ rest ∧ c.getLast? = some IPP_TAG_END ∧
      (∀ ext fuel2, c.length ≤ fuel2 →
        readAttributes fuel2 (c ++ ext) st = some (ipp_state_t.IPP_DATA, st2)) ∧
      ∀ q : List Nat, q <+: c → q.length < c.length → ∀ fuel2, q.length < fuel2 →
        ∃ r, readAttributes fuel2 q st = some r ∧ r.1 ≠ ipp_state_t.IPP_DATA
  | 0, _, _, _, h => by cases h
  | _ + 1, [], _, _, h => by
    simp only [readAttributes, Option.some.injEq, Prod.mk.injEq, reduceCtorEq, false_and] at h
  | fuel + 1, tag :: file, st, st2, h => by
    have hnil : ∀ (s : RState) (fuel2 : Nat), ([] : List Nat).length < fuel2 →
        ∃ r, readAttributes fuel2 [] s = some r ∧ r.1 ≠ ipp_state_t.IPP_DATA := by
      intro s fuel2 hf
      cases fuel2 with
      | zero => simp at hf
      | succ k =>
        refine ⟨_, rfl, ?_⟩
        show ipp_state_t.IPP_ATTRIBUTE ≠ ipp_state_t.IPP_DATA
        decide
    rw [readAttributes] at h
    split at h
    · next hend =>
      simp only [Option.some.injEq, Prod.mk.injEq, true_and] at h
      subst h
      refine ⟨[tag], file, rfl, by rw [hend]; rfl, ?_, ?_⟩
      · intro ext fuel2 hf
        cases fuel2 with
        | zero => simp at hf
        | succ k =>
          simp only [List.cons_append, List.nil_append]
          rw [readAttributes, if_pos hend]
      · intro q _ hlen fuel2 hf
        rcases q with _ | ⟨k0, q2⟩
        · exact hnil st fuel2 hf
        · simp at hlen
    · next hend =>
      split at h
      · next hgroup =>
        obtain ⟨c, rest, hc, hlast, hext, hq⟩ := readAttributes_data fuel file _ st2 h
        have hcne : c ≠ [] := by
          intro e
          rw [e] at hlast
          cases hlast
        refine ⟨tag :: c, rest, by rw [hc]; rfl, ?_, ?_, ?_⟩
        · exact getLast_cons_some tag c _ hlast
        · intro ext fuel2 hf
          cases fuel2 with
          | zero => simp at hf
          | succ k =>
            simp only [List.cons_append]
            rw [readAttributes, if_neg hend, if_pos hgroup]
            exact hext ext k (by simpa using hf)
        · intro q hpre hlen fuel2 hf
          rcases q with _ | ⟨k0, q2⟩
          · exact hnil st fuel2 hf
          · obtain ⟨t, ht⟩ := hpre
            simp only [List.cons_append, List.cons.injEq] at ht
            obtain ⟨rfl, ht⟩ := ht
            cases fuel2 with
            | zero => simp at hf
            | succ k =>
              rw [readAttributes, if_neg hend, if_pos hgroup]
              simp only [List.length_cons] at hlen hf
              exact hq q2 ⟨t, ht⟩ (by omega) k (by omega)
      · next hgroup =>
        split at h
        · cases h
        · next result hres =>
          have := readAttribute_error _ _ _ _ hres
          simp only [Option.some.injEq] at h
          rw [h] at this
          cases this
        · next rest1 st1 hres =>
          obtain ⟨c1, hc1, hne1, hext1, hq1⟩ := readAttribute_consumed _ _ _ _ _ hres
          obtain ⟨c2, rest, hc2, hlast, hext2, hq2⟩ := readAttributes_data fuel rest1 st1 st2 h
          have hcne : c2 ≠ [] := by
            intro e
            rw [e] at hlast
            cases hlast
          refine ⟨tag :: (c1 ++ c2), rest, ?_, ?_, ?_, ?_⟩
          · rw [hc1, hc2]
            simp only [List.cons_append, List.append_assoc]
          · exact getLast_cons_some tag _ _ (getLast_append_some c1 c2 _ hlast)
          · intro ext fuel2 hf
            cases fuel2 with
            | zero => simp at hf
            | succ k =>
              simp only [List.cons_append, List.append_assoc]
              rw [readAttributes, if_neg hend, if_neg hgroup, hext1 (c2 ++ ext)]
              simp only []
              refine hext2 ext k ?_
              simp only [List.length_cons, List.length_append] at hf
              omega
          · intro q hpre hlen fuel2 hf
            rcases q with _ | ⟨k0, q2⟩
            · exact hnil st fuel2 hf
            · obtain ⟨t, ht⟩ := hpre
              simp only [List.cons_append, List.cons.injEq] at ht
              obtain ⟨rfl, ht⟩ := ht
              cases fuel2 with
              | zero => simp at hf
              | succ k =>
                rw [readAttributes, if_neg hend, if_neg hgroup]
                simp only [List.length_cons, List.length_append] at hlen hf
                have h1 : q2 <+: c1 ++ c2 := ⟨t, ht⟩
                have h2 : c1 <+: c1 ++ c2 := List.prefix_append _ _
                by_cases hshort : q2.length < c1.length
                · have h3 : q2 <+: c1 := by
                    rcases List.prefix_or_prefix_of_prefix h1 h2 with h3 | h3
                    · exact h3
                    · have := h3.length_le
                      omega
                  obtain ⟨r, hr⟩ := hq1 q2 h3 hshort
                  rw [hr]
                  refine ⟨r, rfl, ?_⟩
                  rw [readAttribute_error _ _ _ _ hr]
                  decide
                · have h3 : c1 <+: q2 := by
                    rcases List.prefix_or_prefix_of_prefix h1 h2 with h3 | h3
                    · have e : q2 = c1 := h3.eq_of_length_le (by omega)
                      rw [e]
                    · exact h3
                  obtain ⟨q3, hq3⟩ := h3
                  rw [← hq3, hext1 q3]
                  simp only []
                  have hl : q2.length = c1.length + q3.length := by
                    rw [← hq3, List.length_append]
                  refine hq2 q3 ?_ (by omega) k (by omega)
                  rw [← hq3, List.append_assoc] at ht
                  exact ⟨t, List.append_cancel_left ht⟩

theorem ipp_read_file_header (b1 b2 b3 b4 b5 b6 b7 : Nat) (rest : List Nat) (ipp : ipp_t) :
    ipp_read_file (1 :: b1 :: b2 :: b3 :: b4 :: b5 :: b6 :: b7 :: rest) ipp =
      (readAttributes (rest.length + 1) rest
        { attrs := ipp.attrs, current := none, curtag := IPP_TAG_ZERO }).map
        (fun r => (r.1, { ipp with version0 := 1, version1 := b1,
                                   op_status := (be16 b2 b3 : Nat),
                                   request_id := be32 b4 b5 b6 b7, attrs := r.2.catalog })) := by
  simp only [ipp_read_file, ne_eq, not_true_eq_false, if_false]
  cases readAttributes (rest.length + 1) rest
      { attrs := ipp.attrs, current := none, curtag := IPP_TAG_ZERO } with
  | none => rfl
  | some r => rfl

theorem fst_ne_data (s : ipp_state_t) (x : ipp_t) (h : s ≠ ipp_state_t.IPP_DATA) :
    (s, x).1 ≠ ipp_state_t.IPP_DATA := h

theorem ipp_read_file_short (file : List Nat) (ipp : ipp_t)
    (h : file.length < 8 ∨ file.head? ≠ some 1) :
    ∃ r, ipp_read_file file ipp = some r ∧ r.1 ≠ ipp_state_t.IPP_DATA := by
  rcases file with _ | ⟨b0, _ | ⟨b1, _ | ⟨b2, _ | ⟨b3, _ | ⟨b4, _ | ⟨b5, _ | ⟨b6, _ | ⟨b7, rest⟩⟩⟩⟩⟩⟩⟩⟩
  · exact ⟨_, rfl, fst_ne_data _ _ (by decide)⟩
  · exact ⟨_, rfl, fst_ne_data _ _ (by decide)⟩
  · exact ⟨_, rfl, fst_ne_data _ _ (by decide)⟩
  · exact ⟨_, rfl, fst_ne_data _ _ (by decide)⟩
  · exact ⟨_, rfl, fst_ne_data _ _ (by decide)⟩
  · exact ⟨_, rfl, fst_ne_data _ _ (by decide)⟩
  · exact ⟨_, rfl, fst_ne_data _ _ (by decide)⟩
  · exact ⟨_, rfl, fst_ne_data _ _ (by decide)⟩
  · rcases h with h | h
    · simp only [List.length_cons] at h
      omega
    · have hb : b0 ≠ 1 := by
        intro e
        exact h (by rw [e]; rfl)
      refine ⟨(ipp_state_t.IPP_ERROR, ipp), ?_, fst_ne_data _ _ (by decide)⟩
      simp only [ipp_read_file, hb, ne_eq, not_false_eq_true, if_true]

/-- The rounds of the attribute loop for a run of group tags: the loop goes on
behind them from a cursor without a current attribute. -/
theorem readAttributes_groups : ∀ (groups : List Nat) (st : RState),
    (∀ g ∈ groups, g ≠ IPP_TAG_END ∧ g < IPP_TAG_UNSUPPORTED_VALUE) → st.current = none →
    ∃ st2 : RState, st2.current = none ∧ ∀ (more : List Nat) (fuel : Nat),
      readAttributes (fuel + groups.length) (groups ++ more) st = readAttributes fuel more st2
  | [], st, _, hcur => ⟨st, hcur, fun _ _ => rfl⟩
  | g :: groups, st, hg, _ => by
    obtain ⟨st2, hcur2, h2⟩ := readAttributes_groups groups
      { attrs := if st.curtag = g then st.catalog ++ [separator] else st.catalog,
        current := none, curtag := g }
      (fun x hx => hg x (List.mem_cons_of_mem _ hx)) rfl
    refine ⟨st2, hcur2, fun more fuel => ?_⟩
    have h1 := hg g (List.mem_cons_self _ _)
    rw [List.length_cons, ← Nat.add_assoc, List.cons_append, readAttributes, if_neg h1.1,
      if_pos h1.2]
    exact h2 more fuel

/-- A name length above 8191 behind a value tag that follows the header and
group tags: `ipp_read_file` returns `IPP_ERROR`, whatever follows. -/
theorem ipp_read_file_long_name (b1 b2 b3 b4 b5 b6 b7 : Nat) (groups : List Nat)
    (tag n0 n1 : Nat) (rest : List Nat) (ipp : ipp_t)
    (hgroups : ∀ g ∈ groups, g ≠ IPP_TAG_END ∧ g < IPP_TAG_UNSUPPORTED_VALUE)
    (htag : IPP_TAG_UNSUPPORTED_VALUE ≤ tag) (hbig : BUFFER_SIZE - 1 < be16 n0 n1) :
    ∃ ipp2, ipp_read_file
        (1 :: b1 :: b2 :: b3 :: b4 :: b5 :: b6 :: b7 :: (groups ++ tag :: n0 :: n1 :: rest)) ipp =
      some (ipp_state_t.IPP_ERROR, ipp2) := by
  have e1 : IPP_TAG_END = 3 := rfl
  have e2 : IPP_TAG_UNSUPPORTED_VALUE = 16 := rfl
  have hv1 : ¬ tag = IPP_TAG_END := by omega
  have hv2 : ¬ tag < IPP_TAG_UNSUPPORTED_VALUE := by omega
  obtain ⟨st2, hcur, hrun⟩ := readAttributes_groups groups
    { attrs := ipp.attrs, current := none, curtag := IPP_TAG_ZERO } hgroups rfl
  have hfuel : (groups ++ tag :: n0 :: n1 :: rest).length + 1 =
      (rest.length + 4) + groups.length := by
    simp only [List.length_append, List.length_cons]
    omega
  rw [ipp_read_file_header, hfuel, hrun]
  have hrd : readAttributes (rest.length + 4) (tag :: n0 :: n1 :: rest) st2 =
      some (ipp_state_t.IPP_ERROR, st2) := by
    rw [readAttributes, if_neg hv1, if_neg hv2]
    have : readAttribute tag (n0 :: n1 :: rest) st2 =
        some (Sum.inl (ipp_state_t.IPP_ERROR, st2)) := by
      simp only [readAttribute, gt_iff_lt, hbig, if_true]
    rw [this]
  rw [hrd]
  exact ⟨_, rfl⟩

/-- C32 (counterexample): a header of version 1.1, the operation group tag, a
text attribute whose name of 8192 bytes and whose value `x` are completely
present, and the end tag.  `ipp_read_file` returns `IPP_ERROR` for it. -/
theorem ipp_read_file_long_name_fails :
    ∃ ipp2, ipp_read_file (1 :: 1 :: 0 :: 2 :: 0 :: 0 :: 0 :: 1 ::
        ([1] ++ 0x41 :: 0x20 :: 0x00 :: (List.replicate 8192 97 ++ [0, 1, 120, 3]))) ippNew =
      some (ipp_state_t.IPP_ERROR, ipp2) :=
  ipp_read_file_long_name 1 0 2 0 0 0 1 [1] 0x41 0x20 0x00
    (List.replicate 8192 97 ++ [0, 1, 120, 3]) ippNew (by decide) (by decide) (by decide)

/-- C32 (amended): the inputs for which `ipp_read_file` does not return
`IPP_DATA`.  (1) Fewer than eight bytes, or a first byte other than 1.
(2) Every input cut off before its end tag: when a file is read to `IPP_DATA`,
the bytes read are at least nine, begin with 1 and end with the end tag, give
the same result whatever follows them, and every shorter beginning of them
gives a result other than `IPP_DATA`.  (3) A zero name length behind a value
tag at the start of the attributes or directly behind group tags, where no
attribute is current: `IPP_ERROR`.  (4) A name length above 8191 behind a
value tag, whatever follows and whether or not the name is present:
`IPP_ERROR`, shown here behind group tags and, for the loop, from every
cursor. -/
theorem ipp_read_file_failures (file : List Nat) (ipp : ipp_t) :
    ((file.length < 8 ∨ file.head? ≠ some 1) →
      ∃ r, ipp_read_file file ipp = some r ∧ r.1 ≠ ipp_state_t.IPP_DATA) ∧
    (∀ ipp2, ipp_read_file file ipp = some (ipp_state_t.IPP_DATA, ipp2) →
      ∃ c rest, file = c ++ rest ∧ 8 < c.length ∧ c.head? = some 1 ∧
        c.getLast? = some IPP_TAG_END ∧
        (∀ ext, ipp_read_file (c ++ ext) ipp = some (ipp_state_t.IPP_DATA, ipp2)) ∧
        ∀ q : List Nat, q <+: c → q.length < c.length →
          ∃ r, ipp_read_file q ipp = some r ∧ r.1 ≠ ipp_state_t.IPP_DATA) ∧
    (∀ (b1 b2 b3 b4 b5 b6 b7 : Nat) (groups : List Nat) (tag : Nat) (rest : List Nat),
      file = 1 :: b1 :: b2 :: b3 :: b4 :: b5 :: b6 :: b7 :: (groups ++ tag :: 0 :: 0 :: rest) →
      (∀ g ∈ groups, g ≠ IPP_TAG_END ∧ g < IPP_TAG_UNSUPPORTED_VALUE) →
      IPP_TAG_UNSUPPORTED_VALUE ≤ tag →
      ∃ ipp2, ipp_read_file file ipp = some (ipp_state_t.IPP_ERROR, ipp2)) ∧
    (∀ (b1 b2 b3 b4 b5 b6 b7 : Nat) (groups : List Nat) (tag n0 n1 : Nat) (rest : List Nat),
      file = 1 :: b1 :: b2 :: b3 :: b4 :: b5 :: b6 :: b7 :: (groups ++ tag :: n0 :: n1 :: rest) →
      (∀ g ∈ groups, g ≠ IPP_TAG_END ∧ g < IPP_TAG_UNSUPPORTED_VALUE) →
      IPP_TAG_UNSUPPORTED_VALUE ≤ tag → BUFFER_SIZE - 1 < be16 n0 n1 →
      ∃ ipp2, ipp_read_file file ipp = some (ipp_state_t.IPP_ERROR, ipp2)) ∧
    (∀ (fuel tag n0 n1 : Nat) (rest : List Nat) (st : RState),
      IPP_TAG_UNSUPPORTED_VALUE ≤ tag → BUFFER_SIZE - 1 < be16 n0 n1 →
      readAttributes (fuel + 1) (tag :: n0 :: n1 :: rest) st =
        some (ipp_state_t.IPP_ERROR, st)) := by
  have hvalue : ∀ tag, IPP_TAG_UNSUPPORTED_VALUE ≤ tag →
      ¬ tag = IPP_TAG_END ∧ ¬ tag < IPP_TAG_UNSUPPORTED_VALUE := by
    intro tag h
    have e1 : IPP_TAG_END = 3 := rfl
    have e2 : IPP_TAG_UNSUPPORTED_VALUE = 16 := rfl
    constructor <;> omega
  refine ⟨ipp_read_file_short file ipp, ?_, ?_, ?_, ?_⟩
  · intro ipp2 h
    rcases file with _ | ⟨b0, _ | ⟨b1, _ | ⟨b2, _ | ⟨b3, _ | ⟨b4, _ | ⟨b5, _ | ⟨b6, _ | ⟨b7, rest0⟩⟩⟩⟩⟩⟩⟩⟩
    · cases h
    · cases h
    · cases h
    · cases h
    · cases h
    · cases h
    · cases h
    · cases h
    · by_cases hb : b0 = 1
      · subst hb
        rw [ipp_read_file_header] at h
        cases hres : readAttributes (rest0.length + 1) rest0
            { attrs := ipp.attrs, current := none, curtag := IPP_TAG_ZERO } with
        | none => rw [hres] at h; cases h
        | some r =>
          obtain ⟨state, st2⟩ := r
          rw [hres] at h
          simp only [Option.map_some', Option.some.injEq, Prod.mk.injEq] at h
          obtain ⟨rfl, rfl⟩ := h
          obtain ⟨c, rest, hc, hlast, hext, hq⟩ := readAttributes_data _ _ _ _ hres
          refine ⟨1 :: b1 :: b2 :: b3 :: b4 :: b5 :: b6 :: b7 :: c, rest, by rw [hc]; rfl, ?_,
            rfl, ?_, ?_, ?_⟩
          · cases c with
            | nil => cases hlast
            | cons x c2 => simp only [List.length_cons]; omega
          · exact getLast_cons_some _ _ _ (getLast_cons_some _ _ _ (getLast_cons_some _ _ _
              (getLast_cons_some _ _ _ (getLast_cons_some _ _ _ (getLast_cons_some _ _ _
              (getLast_cons_some _ _ _ (getLast_cons_some _ _ _ hlast)))))))
          · intro ext
            simp only [List.cons_append]
            rw [ipp_read_file_header, hext ext _ (by rw [List.length_append]; omega)]
            rfl
          · intro q hpre hlen
            by_cases hshort : q.length < 8
            · exact ipp_read_file_short q ipp (Or.inl hshort)
            · obtain ⟨t, ht⟩ := hpre
              rcases q with _ | ⟨k0, _ | ⟨k1, _ | ⟨k2, _ | ⟨k3, _ | ⟨k4, _ | ⟨k5, _ | ⟨k6,
                _ | ⟨k7, q2⟩⟩⟩⟩⟩⟩⟩⟩ <;>
                first | (exfalso; apply hshort; simp; done) | skip
              simp only [List.cons_append, List.cons.injEq] at ht
              obtain ⟨rfl, rfl, rfl, rfl, rfl, rfl, rfl, rfl, ht⟩ := ht
              simp only [List.length_cons] at hlen
              obtain ⟨r, hr, hne⟩ := hq q2 ⟨t, ht⟩ (by omega) (q2.length + 1) (by omega)
              rw [ipp_read_file_header, hr]
              exact ⟨_, rfl, hne⟩
      · simp only [ipp_read_file, hb, ne_eq, not_false_eq_true, if_true, Option.some.injEq,
          Prod.mk.injEq, reduceCtorEq, false_and] at h
  · intro b1 b2 b3 b4 b5 b6 b7 groups tag rest hfile hgroups htag
    obtain ⟨st2, hcur, hrun⟩ := readAttributes_groups groups
      { attrs := ipp.attrs, current := none, curtag := IPP_TAG_ZERO } hgroups rfl
    have hfuel : (groups ++ tag :: 0 :: 0 :: rest).length + 1 =
        (rest.length + 4) + groups.length := by
      simp only [List.length_append, List.length_cons]
      omega
    rw [hfile, ipp_read_file_header, hfuel, hrun]
    have hrd : readAttributes (rest.length + 4) (tag :: 0 :: 0 :: rest) st2 =
        some (ipp_state_t.IPP_ERROR, st2) := by
      rw [readAttributes, if_neg (hvalue tag htag).1, if_neg (hvalue tag htag).2]
      have : readAttribute tag (0 :: 0 :: rest) st2 =
          some (Sum.inl (ipp_state_t.IPP_ERROR, st2)) := by
        simp only [readAttribute, hcur]
        rfl
      rw [this]
    rw [hrd]
    exact ⟨_, rfl⟩
  · intro b1 b2 b3 b4 b5 b6 b7 groups tag n0 n1 rest hfile hgroups htag hbig
    rw [hfile]
    exact ipp_read_file_long_name b1 b2 b3 b4 b5 b6 b7 groups tag n0 n1 rest ipp hgroups htag hbig
  · intro fuel tag n0 n1 rest st htag hbig
    rw [readAttributes, if_neg (hvalue tag htag).1, if_neg (hvalue tag htag).2]
    have : readAttribute tag (n0 :: n1 :: rest) st =
        some (Sum.inl (ipp_state_t.IPP_ERROR, st)) := by
      simp only [readAttribute, gt_iff_lt, hbig, if_true]
    rw [this]

theorem ipp_read_file_failures_witness :
    (∃ r, ipp_read_file [1, 1, 0] ippNew = some r ∧ r.1 ≠ ipp_state_t.IPP_DATA) ∧
    (∃ c rest, [1, 1, 0, 2, 0, 0, 0, 1, 1, 0x21, 0, 1, 97, 0, 4, 0, 0, 0, 5, 3, 7] = c ++ rest ∧
      8 < c.length ∧ c.head? = some 1 ∧ c.getLast? = some IPP_TAG_END ∧
      (∀ ext, ipp_read_file (c ++ ext) ippNew =
        some (ipp_state_t.IPP_DATA,
          { version0 := 1, version1 := 1, op_status := 2, request_id := 1,
            attrs := [{ group_tag := IPP_TAG_OPERATION, value_tag := IPP_TAG_INTEGER,
                        name := some [97], values := [ipp_value_t.integer 5] }] })) ∧
      ∀ q : List Nat, q <+: c → q.length < c.length →
        ∃ r, ipp_read_file q ippNew = some r ∧ r.1 ≠ ipp_state_t.IPP_DATA) ∧
    (∃ ipp2, ipp_read_file [1, 1, 0, 2, 0, 0, 0, 1, 1, 0x21, 0, 0, 0, 4, 0, 0, 0, 5, 3] ippNew =
      some (ipp_state_t.IPP_ERROR, ipp2)) :=
  ⟨(ipp_read_file_failures [1, 1, 0] ippNew).1 (Or.inl (by decide)),
    (ipp_read_file_failures [1, 1, 0, 2, 0, 0, 0, 1, 1, 0x21, 0, 1, 97, 0, 4, 0, 0, 0, 5, 3, 7]
      ippNew).2.1 _ (by decide),
    (ipp_read_file_failures [1, 1, 0, 2, 0, 0, 0, 1, 1, 0x21, 0, 0, 0, 4, 0, 0, 0, 5, 3]
      ippNew).2.2.1 1 0 2 0 0 0 1 [1] 0x21 [0, 4, 0, 0, 0, 5, 3] rfl (by decide) (by decide)⟩

/-! ### `StartJob`: the attributes in the options string -/

theorem optionAttrs_spec (remote banner_page : Bool) : ∀ (attrs : List ipp_attribute_t),
    (∀ a ∈ attrs, a.name ≠ none) →
    ∃ added, optionAttrs remote banner_page attrs = some added ∧
      added = attrs.filter (fun a => optionAdded remote banner_page a = some true)
  | [], _ => ⟨[], rfl, rfl⟩
  | a :: rest, h => by
    obtain ⟨added, h1, h2⟩ := optionAttrs_spec remote banner_page rest
      (fun x hx => h x (List.mem_cons_of_mem _ hx))
    have hname := h a (List.mem_cons_self _ _)
    cases ha : optionAdded remote banner_page a with
    | none =>
      unfold optionAdded at ha
      cases hn : a.name with
      | none => exact absurd hn hname
      | some name =>
        rw [hn] at ha
        simp only [] at ha
        repeat' split at ha
        all_goals cases ha
    | some b =>
      cases b with
      | true =>
        refine ⟨a :: added, ?_, ?_⟩
        · simp only [optionAttrs, ha, h1]
        · simp only [List.filter, ha, decide_True, h2]
      | false =>
        refine ⟨added, ?_, ?_⟩
        · simp only [optionAttrs, ha, h1]
        · have : decide (optionAdded remote banner_page a = some true) = false := by
            rw [ha]; decide
          simp only [List.filter, this, h2]

/-- C35 (counterexample): for a job whose job group holds job-priority,
job-sheets, job-billing, job-hold-until, job-originating-user-name, media,
time-at-creation and job-printer-uri, the options loop on a local printer adds
media only: job-billing, job-sheets, job-hold-until and job-priority are
omitted.  On a remote printer it adds these four and media. -/
theorem StartJob_options_local_omits_job_attributes :
    (optionAttrs false false optionCatalog).map (fun l => l.map (fun a => a.name)) =
      some [some (ascii "media")] ∧
    (optionAttrs true false optionCatalog).map (fun l => l.map (fun a => a.name)) =
      some [some (ascii "job-priority"), some (ascii "job-sheets"), some (ascii "job-billing"),
        some (ascii "job-hold-until"), some (ascii "media")] := by
  decide

/-- C35 (amended): when the options loop of `StartJob` runs over attributes
that all have names, it ends and adds exactly the attributes that pass its
tests, in their order, and for every printer and every attribute `a` with
name `name`: (1) on a local printer `a` is omitted when `name` begins with
`job-`, the names job-billing, job-sheets, job-hold-until and job-priority
included; (2) on a remote printer `a` is omitted when `name` begins with
`job-` and is none of these four, and is added when it is one of the four, in
the job group, with a value tag that is not omitted; (3) `a` is omitted when
its value tag is mimetype, URI, URI scheme, text-with-language or
name-with-language, when `name` begins with `time-`, and when it is not in the
job group. -/
theorem StartJob_options (remote banner_page : Bool) (attrs : List ipp_attribute_t)
    (hnames : ∀ a ∈ attrs, a.name ≠ none) :
    (∃ added, optionAttrs remote banner_page attrs = some added ∧
      added = attrs.filter (fun a => optionAdded remote banner_page a = some true)) ∧
    ∀ (a : ipp_attribute_t) (name : List Nat), a.name = some name →
      (strncmpEq name "job-" 4 = true → optionAdded false banner_page a = some false) ∧
      (strncmpEq name "job-" 4 = true → name ≠ ascii "job-billing" →
        name ≠ ascii "job-sheets" → name ≠ ascii "job-hold-until" →
        name ≠ ascii "job-priority" → optionAdded true banner_page a = some false) ∧
      ((name = ascii "job-billing" ∨ name = ascii "job-sheets" ∨
          name = ascii "job-hold-until" ∨ name = ascii "job-priority") →
        a.group_tag = IPP_TAG_JOB →
        ¬ (a.value_tag = IPP_TAG_MIMETYPE ∨ a.value_tag = IPP_TAG_NAMELANG ∨
          a.value_tag = IPP_TAG_TEXTLANG ∨ a.value_tag = IPP_TAG_URI ∨
          a.value_tag = IPP_TAG_URISCHEME) →
        optionAdded true banner_page a = some true) ∧
      ((a.value_tag = IPP_TAG_MIMETYPE ∨ a.value_tag = IPP_TAG_NAMELANG ∨
          a.value_tag = IPP_TAG_TEXTLANG ∨ a.value_tag = IPP_TAG_URI ∨
          a.value_tag = IPP_TAG_URISCHEME) → optionAdded remote banner_page a = some false) ∧
      (strncmpEq name "time-" 5 = true → optionAdded remote banner_page a = some false) ∧
      (a.group_tag ≠ IPP_TAG_JOB → optionAdded remote banner_page a = some false) := by
  refine ⟨optionAttrs_spec remote banner_page attrs hnames, ?_⟩
  intro a name hname
  refine ⟨?_, ?_, ?_, ?_, ?_, ?_⟩
  · intro hjob
    unfold optionAdded
    rw [hname]
    simp only [hjob, true_and]
    repeat' split
    all_goals first | rfl | simp_all
  · intro hjob h1 h2 h3 h4
    unfold optionAdded
    rw [hname]
    simp only [hjob, true_and, h1, h2, h3, h4, ne_eq, not_false_eq_true, and_self]
    repeat' split
    all_goals first | rfl | simp_all
  · intro hfour hgroup htag
    have hjob : strncmpEq name "job-" 4 = true := by
      rcases hfour with h | h | h | h <;> (rw [h]; decide)
    have hcopies : name ≠ ascii "copies" := by
      rcases hfour with h | h | h | h <;> (rw [h]; decide)
    have hjn : name ≠ ascii "job-name" := by
      rcases hfour with h | h | h | h <;> (rw [h]; decide)
    have htime : strncmpEq name "time-" 5 = false := by
      rcases hfour with h | h | h | h <;> (rw [h]; decide)
    have hpl : name ≠ ascii "page-label" := by
      rcases hfour with h | h | h | h <;> (rw [h]; decide)
    have hnot : ¬ (name ≠ ascii "job-billing" ∧ name ≠ ascii "job-sheets" ∧
        name ≠ ascii "job-hold-until" ∧ name ≠ ascii "job-priority") := by
      rintro ⟨h1, h2, h3, h4⟩
      rcases hfour with h | h | h | h
      · exact h1 h
      · exact h2 h
      · exact h3 h
      · exact h4 h
    unfold optionAdded
    rw [hname]
    simp only [hcopies, hjn, false_and, if_false, hgroup, if_true, htag, htime,
      Bool.false_eq_true, hjob, true_and, hnot, hpl]
    rfl
  · intro htag
    unfold optionAdded
    rw [hname]
    simp only [htag, if_true]
    repeat' split
    all_goals rfl
  · intro htime
    unfold optionAdded
    rw [hname]
    simp only [htime, if_true]
    repeat' split
    all_goals rfl
  · intro hgroup
    unfold optionAdded
    rw [hname]
    simp only [hgroup, if_false]
    repeat' split
    all_goals rfl

theorem StartJob_options_witness :
    (∃ added, optionAttrs false false optionCatalog = some added ∧
      added = optionCatalog.filter (fun a => optionAdded false false a = some true)) ∧
    optionAdded false false
      { group_tag := IPP_TAG_JOB, value_tag := IPP_TAG_INTEGER,
        name := some (ascii "job-priority"), values := [ipp_value_t.integer 50] } = some false :=
  ⟨(StartJob_options false false optionCatalog (by decide)).1,
    ((StartJob_options false false optionCatalog (by decide)).2
      { group_tag := IPP_TAG_JOB, value_tag := IPP_TAG_INTEGER,
        name := some (ascii "job-priority"), values := [ipp_value_t.integer 50] }
      (ascii "job-priority") rfl).1 (by decide)⟩

/-! ### `ippSetCGIVars`: the loop that rewrites the resource -/

theorem rewriteResource_stuck (size : Nat) : ∀ (fuel : Nat) (raw res : List Nat),
    (∃ c ∈ raw, needsEscape c = true) → rewriteResource size fuel raw res = none
  | 0, _, _, _ => rfl
  | _ + 1, [], _, h => by
    obtain ⟨c, hc, _⟩ := h
    cases hc
  | fuel + 1, c :: raw, res, h => by
    rw [rewriteResource]
    by_cases hesc : needsEscape c = true
    · rw [if_pos hesc]
      split
      · exact rewriteResource_stuck size fuel _ _ ⟨c, List.mem_cons_self _ _, hesc⟩
      · exact rewriteResource_stuck size fuel _ _ ⟨c, List.mem_cons_self _ _, hesc⟩
    · rw [if_neg hesc]
      split
      · refine rewriteResource_stuck size fuel _ _ ?_
        obtain ⟨d, hd, hdesc⟩ := h
        rcases List.mem_cons.1 hd with rfl | hd
        · exact absurd hdesc hesc
        · exact ⟨d, hd, hdesc⟩
      · exact rewriteResource_stuck size fuel _ _ h

theorem rewriteResource_copies (size : Nat) : ∀ (fuel : Nat) (raw res : List Nat),
    (∀ c ∈ raw, needsEscape c = false) → res.length + raw.length < size → raw.length < fuel →
    rewriteResource size fuel raw res = some (res ++ raw)
  | 0, _, _, _, _, hf => by simp at hf
  | _ + 1, [], res, _, _, _ => by rw [rewriteResource, List.append_nil]
  | fuel + 1, c :: raw, res, h, hfit, hf => by
    have hc : ¬ needsEscape c = true := by
      rw [h c (List.mem_cons_self _ _)]
      decide
    simp only [List.length_cons] at hfit hf
    rw [rewriteResource, if_neg hc, if_pos (by omega)]
    rw [rewriteResource_copies size fuel raw (res ++ [c])
      (fun d hd => h d (List.mem_cons_of_mem _ hd))
      (by rw [List.length_append, List.length_singleton]; omega) (by omega)]
    rw [List.append_assoc, List.singleton_append]

/-- C40 (the code departs from the claim): the resource loop of
`ippSetCGIVars` does not end for a resource that holds a byte with the high
bit set, a `%` or a space: whatever the size of `resource` and whatever is
stored in it so far, no number of rounds ends the loop, because the branch
that stores the escape does not advance `rawptr`.  A resource without such a
byte that fits `resource` is copied unchanged, in at most one round for each
byte and one for the last test. -/
theorem ippSetCGIVars_resource_loop (size : Nat) (raw res : List Nat) :
    ((∃ c ∈ raw, needsEscape c = true) → ∀ fuel, rewriteResource size fuel raw res = none) ∧
    ((∀ c ∈ raw, needsEscape c = false) → res.length + raw.length < size →
      ∀ fuel, raw.length < fuel → rewriteResource size fuel raw res = some (res ++ raw)) :=
  ⟨fun hraw fuel => rewriteResource_stuck size fuel raw res hraw,
    fun hraw hfit fuel hfuel => rewriteResource_copies size fuel raw res hraw hfit hfuel⟩

theorem ippSetCGIVars_resource_loop_witness :
    (∀ fuel, rewriteResource 1024 fuel (ascii "/printers/my printer") [] = none) ∧
      rewriteResource 1024 13 (ascii "/printers/lp") [] = some (ascii "/printers/lp") :=
  ⟨(ippSetCGIVars_resource_loop 1024 (ascii "/printers/my printer") []).1
      ⟨32, by decide, by decide⟩,
    (ippSetCGIVars_resource_loop 1024 (ascii "/printers/lp") []).2 (by decide) (by decide) 13
      (by decide)⟩

/-! ### `ippGetAttributes`: the names taken from a template -/

theorem grabName_name : ∀ (name acc rest : List Nat),
    (∀ b ∈ name, endsName b = false) → (acc ≠ [] → ∀ b ∈ name, b ≠ 63) →
    (∀ b ∈ name.tail, b ≠ 63) → acc.length + name.length ≤ 254 →
    grabName (name ++ 125 :: rest) acc =
      (acc ++ name.map (fun ch => if ch = 95 then 45 else ch), rest)
  | [], acc, rest, _, _, _, _ => by
    have h : endsName 125 = true := by decide
    simp only [List.nil_append, grabName, h, if_true, List.map_nil, List.append_nil]
  | b :: name, acc, rest, hends, hq, htail, hlen => by
    have h1 : endsName b = false := hends b (List.mem_cons_self _ _)
    have h2 : ¬ (acc ≠ [] ∧ b = 63) := by
      rintro ⟨ha, hb⟩
      exact hq ha b (List.mem_cons_self _ _) hb
    simp only [List.length_cons] at hlen
    have h3 : acc.length < 254 := by omega
    rw [List.cons_append, grabName, if_neg (by rw [h1]; decide), if_neg h2, if_pos h3]
    rw [grabName_name name (acc ++ [if b = 95 then 45 else b]) rest
      (fun x hx => hends x (List.mem_cons_of_mem _ hx))
      (fun _ x hx => htail x hx)
      (fun x hx => htail x (List.mem_of_mem_tail hx))
      (by rw [List.length_append, List.length_singleton]; omega)]
    simp only [List.map_cons, List.append_assoc, List.singleton_append]

theorem scanTemplate_text : ∀ (bytes rest : List Nat) (attrs : List (List Nat)) (fuel : Nat),
    (∀ b ∈ bytes, b ≠ 123 ∧ b ≠ 92) →
    scanTemplate (fuel + bytes.length) (bytes ++ rest) attrs = scanTemplate fuel rest attrs
  | [], _, _, _, _ => rfl
  | b :: bytes, rest, attrs, fuel, h => by
    have hb := h b (List.mem_cons_self _ _)
    rw [List.length_cons, ← Nat.add_assoc, List.cons_append, scanTemplate, if_neg hb.2,
      if_neg (fun hc => hb.1 hc.1)]
    exact scanTemplate_text bytes rest attrs fuel (fun x hx => h x (List.mem_cons_of_mem _ hx))

/-- The names stored after the parts of a template are scanned, in the words
of the spec: each placeholder name is added unless it is stored already or
1000 names are stored. -/
theorem scanTemplate_parts : ∀ (parts : List TemplatePart) (attrs : List (List Nat))
    (fuel : Nat), (∀ p ∈ parts, p.wellFormed) → (templateBytes parts).length < fuel →
    scanTemplate fuel (templateBytes parts) attrs =
      some ((placeholderNames parts).foldl
        (fun seen name =>
          if seen.length < 1000 then (if name ∈ seen then seen else seen ++ [name]) else seen)
        attrs)
  | [], attrs, fuel, _, hf => by
    cases fuel with
    | zero => simp [templateBytes] at hf
    | succ k => rfl
  | TemplatePart.text bytes :: parts, attrs, fuel, hwf, hf => by
    have hb : ∀ b ∈ bytes, b ≠ 123 ∧ b ≠ 92 := hwf _ (List.mem_cons_self _ _)
    simp only [templateBytes, TemplatePart.bytes, List.length_append] at hf ⊢
    obtain ⟨k, rfl⟩ : ∃ k, fuel = k + bytes.length := ⟨fuel - bytes.length, by omega⟩
    rw [scanTemplate_text bytes _ attrs k hb]
    exact scanTemplate_parts parts attrs k (fun p hp => hwf p (List.mem_cons_of_mem _ hp))
      (by omega)
  | TemplatePart.escape byte :: parts, attrs, fuel, hwf, hf => by
    simp only [templateBytes, TemplatePart.bytes, List.length_append, List.length_cons,
      List.length_nil] at hf ⊢
    obtain ⟨k, rfl⟩ : ∃ k, fuel = k + 1 := ⟨fuel - 1, by omega⟩
    simp only [List.cons_append, List.nil_append, scanTemplate, if_true, List.drop_succ_cons,
      List.drop_zero]
    exact scanTemplate_parts parts attrs k (fun p hp => hwf p (List.mem_cons_of_mem _ hp))
      (by omega)
  | TemplatePart.placeholder name :: parts, attrs, fuel, hwf, hf => by
    obtain ⟨hlen, hname, htail⟩ : name.length ≤ 254 ∧
        (∀ b ∈ name, b ≠ 123 ∧ b ≠ 92 ∧ endsName b = false) ∧ ∀ b ∈ name.tail, b ≠ 63 :=
      hwf _ (List.mem_cons_self _ _)
    have hrest : ∀ p ∈ parts, p.wellFormed := fun p hp => hwf p (List.mem_cons_of_mem _ hp)
    simp only [templateBytes, TemplatePart.bytes, List.length_append, List.length_cons,
      List.length_nil] at hf
    have hbytes : templateBytes (TemplatePart.placeholder name :: parts) =
        123 :: (name ++ 125 :: templateBytes parts) := by
      simp [templateBytes, TemplatePart.bytes]
    rw [hbytes]
    by_cases hcap : attrs.length < 1000
    · obtain ⟨k, rfl⟩ : ∃ k, fuel = k + 1 := ⟨fuel - 1, by omega⟩
      have hgrab := grabName_name name [] (templateBytes parts)
        (fun b hb => (hname b hb).2.2) (fun h => absurd rfl h) htail (by simpa using hlen)
      rw [scanTemplate, if_neg (by decide), if_pos ⟨rfl, hcap⟩, hgrab]
      simp only [List.nil_append, placeholderNames, List.foldl_cons, hcap, if_true]
      exact scanTemplate_parts parts _ k hrest (by omega)
    · obtain ⟨k, rfl⟩ : ∃ k, fuel = (k + 1) + name.length + 1 :=
        ⟨fuel - name.length - 2, by omega⟩
      rw [scanTemplate, if_neg (by decide), if_neg (fun hc => hcap hc.2),
        scanTemplate_text name _ attrs (k + 1) (fun b hb => ⟨(hname b hb).1, (hname b hb).2.1⟩),
        scanTemplate, if_neg (by decide), if_neg (fun hc => absurd hc.1 (by decide))]
      simp only [placeholderNames, List.foldl_cons, hcap, if_false]
      exact scanTemplate_parts parts _ k hrest (by omega)

theorem distinctNames_extends : ∀ (names seen : List (List Nat)),
    seen <+: distinctNames seen names
  | [], seen => List.prefix_refl _
  | name :: rest, seen => by
    rw [distinctNames]
    refine List.IsPrefix.trans ?_ (distinctNames_extends rest _)
    split
    · exact List.prefix_refl _
    · exact List.prefix_append _ _

theorem distinctNames_nodup : ∀ (names seen : List (List Nat)), seen.Nodup →
    (distinctNames seen names).Nodup
  | [], _, h => h
  | name :: rest, seen, h => by
    rw [distinctNames]
    apply distinctNames_nodup rest
    split
    · exact h
    · next hmem =>
      rw [List.nodup_append]
      refine ⟨h, List.nodup_singleton _, ?_⟩
      intro a ha hb
      rw [List.mem_singleton] at hb
      rw [hb] at ha
      exact hmem ha

theorem mem_distinctNames : ∀ (names seen : List (List Nat)) (n : List Nat),
    n ∈ distinctNames seen names ↔ n ∈ seen ∨ n ∈ names
  | [], seen, n => by simp [distinctNames]
  | name :: rest, seen, n => by
    rw [distinctNames, mem_distinctNames rest]
    by_cases hmem : name ∈ seen
    · rw [if_pos hmem, List.mem_cons]
      constructor
      · rintro (h | h)
        · exact Or.inl h
        · exact Or.inr (Or.inr h)
      · rintro (h | h | h)
        · exact Or.inl h
        · exact Or.inl (h ▸ hmem)
        · exact Or.inr h
    · rw [if_neg hmem, List.mem_append, List.mem_singleton, List.mem_cons]
      tauto

theorem foldl_capped_full : ∀ (names seen : List (List Nat)), ¬ seen.length < 1000 →
    names.foldl (fun seen name =>
      if seen.length < 1000 then (if name ∈ seen then seen else seen ++ [name]) else seen)
      seen = seen
  | [], _, _ => rfl
  | name :: rest, seen, h => by
    rw [List.foldl_cons, if_neg h]
    exact foldl_capped_full rest seen h

theorem foldl_capped_eq : ∀ (names seen : List (List Nat)), seen.length ≤ 1000 →
    names.foldl (fun seen name =>
      if seen.length < 1000 then (if name ∈ seen then seen else seen ++ [name]) else seen)
      seen = (distinctNames seen names).take 1000
  | [], seen, h => by
    rw [List.foldl_nil, distinctNames, List.take_of_length_le h]
  | name :: rest, seen, h => by
    rw [List.foldl_cons, distinctNames]
    by_cases hcap : seen.length < 1000
    · rw [if_pos hcap]
      apply foldl_capped_eq rest
      split
      · exact h
      · rw [List.length_append, List.length_singleton]
        omega
    · rw [if_neg hcap, foldl_capped_full rest seen hcap]
      have hlen : seen.length = 1000 := by omega
      have hpre : seen <+: distinctNames (if name ∈ seen then seen else seen ++ [name]) rest := by
        refine List.IsPrefix.trans ?_ (distinctNames_extends rest _)
        split
        · exact List.prefix_refl _
        · exact List.prefix_append _ _
      obtain ⟨extra, hextra⟩ := hpre
      rw [← hextra, ← hlen, List.take_left]

/-- C37 (counterexample): the template `{c`, which has no placeholder of the
form `{name}`, makes `ippGetAttributes` add requested-attributes with the
name `c`; for the template `{a=b}` the name added is `a`, and for
`{job_id?yes:no}` it is `job-id`. -/
theorem ippGetAttributes_name_without_closing_brace :
    ippGetAttributes ippNew (some (ascii "\x7bc")) =
      some (ippAddStrings ippNew IPP_TAG_OPERATION IPP_TAG_KEYWORD "requested-attributes"
        [ascii "c"]) ∧
    ippGetAttributes ippNew (some (ascii "\x7ba=b\x7d")) =
      some (ippAddStrings ippNew IPP_TAG_OPERATION IPP_TAG_KEYWORD "requested-attributes"
        [ascii "a"]) ∧
    ippGetAttributes ippNew (some (ascii "\x7bjob_id?yes:no\x7d")) =
      some (ippAddStrings ippNew IPP_TAG_OPERATION IPP_TAG_KEYWORD "requested-attributes"
        [ascii "job-id"]) := by
  decide

/-- C37 (amended): for a template made of text without opening braces and
backslashes, of backslashes each with the character it escapes, and of
placeholders whose names between the braces have at most 254 bytes, none of
them an opening brace, a backslash or a character that ends a name
(`endsName`), and no question mark behind the first byte, `ippGetAttributes`
returns; it leaves the request as it is when the template has no placeholder,
and otherwise appends one requested-attributes keyword attribute whose values
are the first 1000 of the distinct placeholder names in the order of their
first occurrence, each with every underscore replaced by a hyphen.  The list
of distinct names has no name twice and holds exactly the placeholder names. -/
theorem ippGetAttributes_placeholders (request : ipp_t) (parts : List TemplatePart)
    (hwf : ∀ p ∈ parts, p.wellFormed) :
    ippGetAttributes request (some (templateBytes parts)) =
      some (if placeholderNames parts = [] then request
            else ippAddStrings request IPP_TAG_OPERATION IPP_TAG_KEYWORD "requested-attributes"
              ((distinctNames [] (placeholderNames parts)).take 1000)) ∧
    (distinctNames [] (placeholderNames parts)).Nodup ∧
    ∀ n, n ∈ distinctNames [] (placeholderNames parts) ↔ n ∈ placeholderNames parts := by
  refine ⟨?_, distinctNames_nodup _ _ List.nodup_nil, fun n => ?_⟩
  · unfold ippGetAttributes
    simp only []
    rw [scanTemplate_parts parts [] _ hwf (Nat.lt_succ_self _),
      foldl_capped_eq _ [] (by simp)]
    simp only []
    cases hnames : placeholderNames parts with
    | nil => simp [distinctNames]
    | cons name rest =>
      have hpre : [name] <+: distinctNames [] (name :: rest) := by
        rw [distinctNames]
        exact distinctNames_extends rest _
      obtain ⟨extra, hextra⟩ := hpre
      have hpos : ((distinctNames [] (name :: rest)).take 1000).length > 0 := by
        rw [← hextra]
        simp
      rw [if_pos hpos, if_neg (by simp)]
  · rw [mem_distinctNames]
    simp

theorem ippGetAttributes_placeholders_witness :
    ippGetAttributes ippNew
        (some (ascii "Job \x7bjob_id\x7d on \x7bprinter_name\x7d: \\\x7b \x7bjob_id\x7d")) =
      some (ippAddStrings ippNew IPP_TAG_OPERATION IPP_TAG_KEYWORD "requested-attributes"
        [ascii "job-id", ascii "printer-name"]) :=
  (ippGetAttributes_placeholders ippNew
    [TemplatePart.text (ascii "Job "), TemplatePart.placeholder (ascii "job_id"),
     TemplatePart.text (ascii " on "), TemplatePart.placeholder (ascii "printer_name"),
     TemplatePart.text (ascii ": "), TemplatePart.escape 123, TemplatePart.text (ascii " "),
     TemplatePart.placeholder (ascii "job_id")]
    (by
      intro p hp
      simp only [List.mem_cons, List.mem_singleton, List.not_mem_nil, or_false] at hp
      rcases hp with rfl | rfl | rfl | rfl | rfl | rfl | rfl | rfl <;>
        simp only [TemplatePart.wellFormed] <;> decide)).1.trans (by decide)

/-! ### `UpdateJob`: the lines of a status stream -/

end Cups
